import Mathlib

/-!
Tokebakes stock sheet: the ledger engine of `src/app.js`.

A shallow embedding of the derivation-and-validation engine of `src/app.js`
(`recalcActiveSheet`, `runSystemCheck`), of the mutation handlers that feed it
(`onAddProduct`, `onInventoryChange`, `onInventoryActionClick`, `onAddSale`,
`onSalesActionClick`) and of the normalizer of loaded rows, followed by theorems about
them.

Modelling conventions.

* Numbers come in two layers, which share the strings, the maps and the host services.
  In the first layer a JavaScript number is an exact rational (`ℚ`).  It carries the
  properties that do not depend on rounding or overflow: which messages the validator
  pushes and in which order, the guards of the handlers, renaming and deleting a
  product, the truncation of counts, the report of the checker.
* In the second layer, the namespace `Binary64`, a number is an IEEE 754 binary64 value
  (`JsNumber`: a finite double given by its exact value, `NaN` or an infinity).  The sum,
  difference, product and quotient by 100 of two doubles are the exact result rounded
  to the nearest double, ties to even, with gradual underflow and with overflow to an
  infinity (`toDouble`); `Math.round` and `Math.trunc` are exact.  This layer carries the
  properties of sums, of rounding to cents, of the stock counts and of validity after a
  write; they hold within ranges that the theorems state.  The sign of zero is not
  represented: no operation of the engine tells the two zeros apart.
* A JavaScript string is a Lean `String`.  `String.prototype.trim` is modelled exactly on
  the ECMAScript white-space set; `String.prototype.toLowerCase`, the conversion of a
  string to a number, the `Date` parser and the clock are services of the host and are
  passed in as a `Runtime`.
* `Map` objects are finite maps represented by their lookup function.
* In-place mutation of the active sheet is explicit state passing: a handler returns the
  sheet it leaves behind together with what it reported through `showStatus`.
* The handlers and the engine act on the products and sales of the active sheet; the
  application state `bakeryApp` (sheets with identifier, display name and timestamps)
  appears where `getActiveSheet` is concerned.  The update of `updatedAtISO` by
  `touchSheet`, the DOM and `localStorage` are outside the model.
* Values of unknown shape handed to the normalizer are `JsValue`s.  In the first layer
  `Number(value)` of an array or an object is a service of the host; in `Binary64` it
  follows the conversion of ECMAScript and returns `Except`: the conversion of an object
  whose own `toString` is not callable throws a `TypeError`.
-/

namespace Tokebakes

/-! ## JavaScript values -/

/-- A JavaScript number: a finite one (exact), `NaN` or an infinity. -/
inductive JsNumber where
  | finite (q : ℚ)
  | nan
  | posInfinity
  | negInfinity

/-- Source: `Number.isFinite(number)` on any number. -/
def JsNumber.isFinite : JsNumber → Bool
  | .finite _ => true
  | _ => false

/-- A JavaScript value as `JSON.parse` or a caller can supply it; an object is given by
its own properties. -/
inductive JsValue where
  | undefined
  | null
  | bool (b : Bool)
  | number (n : JsNumber)
  | string (s : String)
  | array (items : List JsValue)
  | object (fields : List (String × JsValue))

/-- Source: the truthiness of a value, as tested by `!value`. -/
def JsValue.isTruthy : JsValue → Bool
  | .undefined => false
  | .null => false
  | .bool b => b
  | .number (.finite q) => decide (q ≠ 0)
  | .number .nan => false
  | .number _ => true
  | .string s => decide (s ≠ "")
  | .array _ => true
  | .object _ => true

/-- Source: `typeof value`. -/
def JsValue.typeOf : JsValue → String
  | .undefined => "undefined"
  | .null => "object"
  | .bool _ => "boolean"
  | .number _ => "number"
  | .string _ => "string"
  | .array _ => "object"
  | .object _ => "object"

/-- Source: the property read `value.key` for the record keys the normalizer reads (none
of them is a property of arrays); a missing property reads `undefined`. -/
def JsValue.get (value : JsValue) (key : String) : JsValue :=
  match value with
  | .object fields => (fields.lookup key).getD .undefined
  | _ => .undefined

/-! ## Host services -/

/-- Services of the JavaScript host used by the engine. -/
structure Runtime where
  /-- Host method `String.prototype.toLowerCase`. -/
  toLowerCase : String → String
  /-- Whether `new Date(value + "T00:00:00").getTime()` is a number (not `NaN`). -/
  dateParses : String → Bool
  /-- Result of `todayISODate()` at the time of the call. -/
  today : String
  /-- Host conversion of a number to a string, as in a template literal. -/
  numberToString : ℚ → String
  /-- Host conversion `Number(value)` of a string. -/
  stringToNumber : String → JsNumber
  /-- Host conversion `Number(value)` of an array or an object. -/
  objectToNumber : JsValue → JsNumber
  /-- Result of `new Date().toISOString()` at the time of the call. -/
  nowISO : String

/-- Lower-casing never turns a string into the empty string or out of it, as is the case
for `String.prototype.toLowerCase` (every code point maps to at least one code point). -/
def Runtime.LowerKeepsEmptiness (rt : Runtime) : Prop :=
  ∀ s : String, rt.toLowerCase s = "" ↔ s = ""

/-! ## Strings -/

/-- Code points removed by `String.prototype.trim`: ECMAScript `WhiteSpace` and
`LineTerminator`. -/
def isJsWhiteSpace (c : Char) : Bool :=
  let n := c.toNat
  n = 0x09 || n = 0x0A || n = 0x0B || n = 0x0C || n = 0x0D || n = 0x20 || n = 0xA0 ||
  n = 0x1680 || (0x2000 ≤ n && n ≤ 0x200A) || n = 0x2028 || n = 0x2029 || n = 0x202F ||
  n = 0x205F || n = 0x3000 || n = 0xFEFF

/-- Strip white space from the end of a list of characters. -/
def trimEndChars (l : List Char) : List Char :=
  (l.reverse.dropWhile isJsWhiteSpace).reverse

/-- Strip white space from both ends of a list of characters. -/
def trimChars (l : List Char) : List Char :=
  trimEndChars (l.dropWhile isJsWhiteSpace)

/-- Source: `value.trim()`. -/
def jsTrim (s : String) : String := ⟨trimChars s.data⟩

/-- Source: `normalizeName(name)`, `String(name || "").trim().toLowerCase()`, on a
string argument. -/
def normalizeName (rt : Runtime) (name : String) : String :=
  rt.toLowerCase (jsTrim name)

/-- The character is an ASCII digit (`\d`). -/
def isDigitChar (c : Char) : Bool := 48 ≤ c.toNat && c.toNat ≤ 57

/-- The regular expression `/^\d{4}-\d{2}-\d{2}$/`. -/
def matchesDatePattern : List Char → Bool
  | [y1, y2, y3, y4, d1, m1, m2, d2, e1, e2] =>
    isDigitChar y1 && isDigitChar y2 && isDigitChar y3 && isDigitChar y4 && d1 = '-' &&
    isDigitChar m1 && isDigitChar m2 && d2 = '-' && isDigitChar e1 && isDigitChar e2
  | _ => false

/-- Source: `isISODate(value)` on a string argument. -/
def isISODate (rt : Runtime) (value : String) : Bool :=
  if !matchesDatePattern value.data then false else rt.dateParses value

/-! ## Numbers -/

/-- Source: `Number.EPSILON`, 2⁻⁵². -/
def EPSILON : ℚ := 1 / 2 ^ 52

/-- Source: `Number.isFinite(value)`; every rational is finite. -/
def numberIsFinite (_ : ℚ) : Bool := true

/-- Source: `Number.isInteger(value)`. -/
def numberIsInteger (x : ℚ) : Bool := x.den = 1

/-- Source: `Math.round(x)`, the integer nearest to `x`, a tie going to the larger one. -/
def mathRound (x : ℚ) : ℚ := ((⌊x + 1 / 2⌋ : ℤ) : ℚ)

/-- Source: `Math.trunc(x)`, the integer part of `x`. -/
def mathTrunc (x : ℚ) : ℚ := if 0 ≤ x then ((⌊x⌋ : ℤ) : ℚ) else ((⌈x⌉ : ℤ) : ℚ)

/-- Source: `toNumberOrZero(value)` on a number. -/
def toNumberOrZero (value : ℚ) : ℚ :=
  if numberIsFinite value then value else 0

/-- Source: `toIntegerOrZero(value)` on a number. -/
def toIntegerOrZero (value : ℚ) : ℚ :=
  if !numberIsFinite value then 0 else mathTrunc value

/-- Source: `roundCurrency(value)`. -/
def roundCurrency (value : ℚ) : ℚ :=
  mathRound ((value + EPSILON) * 100) / 100


/-! ## Data model -/

/-- A stored product record of a sheet. -/
structure Product where
  name : String
  unitCost : ℚ
  unitPrice : ℚ
  openingStock : ℚ
  stockOut : ℚ
  deriving DecidableEq

/-- A stored sale record of a sheet. -/
structure Sale where
  id : String
  dateISO : String
  itemName : String
  qtySold : ℚ
  revenue : ℚ
  productionCost : ℚ
  grossProfit : ℚ
  deriving DecidableEq

/-- The active sheet: its ordered products and sales. -/
structure Sheet where
  products : List Product
  sales : List Sale
  deriving DecidableEq

/-- A product row derived by `recalcActiveSheet`. -/
structure DerivedProduct where
  name : String
  unitCost : ℚ
  unitPrice : ℚ
  openingStock : ℚ
  stockOut : ℚ
  stockAvailable : ℚ
  stockValueCost : ℚ
  deriving DecidableEq

/-- A sale row derived by `recalcActiveSheet`. -/
structure DerivedSale where
  id : String
  dateISO : String
  itemName : String
  qtySold : ℚ
  revenue : ℚ
  productionCost : ℚ
  grossProfit : ℚ
  deriving DecidableEq

/-- The six totals, in the key order of `emptyTotals`. -/
structure Totals where
  totalItemsAvailable : ℚ
  totalItemsSold : ℚ
  totalRevenue : ℚ
  totalProductionCost : ℚ
  grossProfitTotal : ℚ
  totalStockValueCost : ℚ
  deriving DecidableEq

/-- Source: `emptyTotals`. -/
def emptyTotals : Totals := ⟨0, 0, 0, 0, 0, 0⟩

/-- The `validation` object returned by `recalcActiveSheet`. -/
structure Validation where
  isValid : Bool
  errors : List String
  deriving DecidableEq

/-- The object returned by `recalcActiveSheet`. -/
structure Computed where
  sheet : Option Sheet
  products : List DerivedProduct
  sales : List DerivedSale
  totals : Totals
  validation : Validation
  deriving DecidableEq

/-! ## Maps -/

/-- A JavaScript `Map` keyed by strings, given by its lookup. -/
abbrev JsMap (β : Type) := String → Option β

/-- Source: `new Map()`. -/
def JsMap.empty {β : Type} : JsMap β := fun _ => none

/-- Source: `map.set(key, value)`. -/
def JsMap.set {β : Type} (m : JsMap β) (key : String) (value : β) : JsMap β :=
  fun k => if k = key then some value else m k

/-- Source: `map.has(key)`. -/
def JsMap.has {β : Type} (m : JsMap β) (key : String) : Bool := (m key).isSome

/-- Source: `map.get(key) || 0` on a map of numbers. -/
def JsMap.getOrZero (m : JsMap ℚ) (key : String) : ℚ :=
  match m key with
  | some v => if v = 0 then 0 else v
  | none => 0

/-- Source: `array.forEach((item, index) => ...)` threading the variables the callback
updates, starting at index `i`. -/
def forEachIdx {σ α : Type} (f : σ → Nat → α → σ) : Nat → σ → List α → σ
  | _, st, [] => st
  | i, st, x :: xs => forEachIdx f (i + 1) (f st i x) xs

/-! ## The aggregator and validator: `recalcActiveSheet` -/

/-- The local variables of `recalcActiveSheet` that its loops update. -/
structure Calc where
  errors : List String
  products : List DerivedProduct
  sales : List DerivedSale
  totals : Totals
  nameIndex : JsMap Nat
  soldQtyByName : JsMap ℚ

/-- Source: the initial values of `errors`, `products`, `sales`, `totals`, `nameIndex`
and `soldQtyByName`. -/
def Calc.init : Calc := ⟨[], [], [], emptyTotals, JsMap.empty, JsMap.empty⟩

/-- Source: the label `Sale #${saleIndex + 1}`. -/
def saleLabel (saleIndex : Nat) : String := "Sale #" ++ toString (saleIndex + 1)

/-- Source: the message pushed when a sale has an empty item name. -/
def saleNameRequiredMsg (saleIndex : Nat) : String :=
  saleLabel saleIndex ++ ": item name is required."

/-- Source: the message pushed when a sale's quantity is not an integer >= 1. -/
def saleQtyMsg (saleIndex : Nat) : String :=
  saleLabel saleIndex ++ ": qty sold must be an integer >= 1."

/-- Source: the message pushed when a sale's monetary values are invalid. -/
def saleMoneyMsg (saleIndex : Nat) : String :=
  saleLabel saleIndex ++ ": monetary values must be valid non-negative numbers."

/-- Source: the messages the first `sheet.sales.forEach` callback pushes for one sale,
in order, from the coerced fields. -/
def saleFieldErrors (saleIndex : Nat) (itemName : String)
    (qtySold revenue productionCost grossProfit : ℚ) : List String :=
  (if itemName = "" then [saleNameRequiredMsg saleIndex] else []) ++
  (if !numberIsInteger qtySold || decide (qtySold < 1) then [saleQtyMsg saleIndex]
   else []) ++
  (if !numberIsFinite revenue || !numberIsFinite productionCost ||
      !numberIsFinite grossProfit || decide (revenue < 0) || decide (productionCost < 0)
   then [saleMoneyMsg saleIndex] else [])

/-- Source: the row pushed onto `sales` for one stored sale. -/
def deriveSale (rt : Runtime) (sale : Sale) : DerivedSale :=
  { id := sale.id
    dateISO := if isISODate rt sale.dateISO then sale.dateISO else rt.today
    itemName := jsTrim sale.itemName
    qtySold := toIntegerOrZero sale.qtySold
    revenue := toNumberOrZero sale.revenue
    productionCost := toNumberOrZero sale.productionCost
    grossProfit := toNumberOrZero sale.grossProfit }

/-- Source: the body of the first loop, `sheet.sales.forEach((sale, saleIndex) => ...)`. -/
def saleStep (rt : Runtime) (st : Calc) (saleIndex : Nat) (sale : Sale) : Calc :=
  let row := deriveSale rt sale
  let normalizedName := normalizeName rt row.itemName
  { st with
    errors := st.errors ++ saleFieldErrors saleIndex row.itemName row.qtySold row.revenue
      row.productionCost row.grossProfit
    soldQtyByName :=
      if normalizedName ≠ "" then
        st.soldQtyByName.set normalizedName
          (st.soldQtyByName.getOrZero normalizedName + row.qtySold)
      else st.soldQtyByName
    totals :=
      { st.totals with
        totalItemsSold := st.totals.totalItemsSold + row.qtySold
        totalRevenue := st.totals.totalRevenue + row.revenue
        totalProductionCost := st.totals.totalProductionCost + row.productionCost
        grossProfitTotal := st.totals.grossProfitTotal + row.grossProfit }
    sales := st.sales ++ [row] }

/-- Source: the label `name || "#" + (productIndex + 1)` used inside `Product "..."`. -/
def productLabel (name : String) (productIndex : Nat) : String :=
  if name = "" then "#" ++ toString (productIndex + 1) else name

/-- Source: the message pushed when a product has no name. -/
def productNameRequiredMsg (productIndex : Nat) : String :=
  "Product #" ++ toString (productIndex + 1) ++ ": name is required."

/-- Source: the message pushed when a product's name was already indexed. -/
def duplicateNameMsg (name : String) : String :=
  "Duplicate product name found: \"" ++ name ++ "\"."

/-- Source: the common shape `Product "<label>": <what>` of the other product
messages. -/
def productMsg (name : String) (productIndex : Nat) (what : String) : String :=
  "Product \"" ++ productLabel name productIndex ++ "\": " ++ what

/-- Source: text of the unit cost message. -/
def unitCostText : String := "unit cost must be >= 0."

/-- Source: text of the unit price message. -/
def unitPriceText : String := "unit price must be >= 0."

/-- Source: text of the opening stock message. -/
def openingStockText : String := "opening stock must be an integer >= 0."

/-- Source: text of the stock out message. -/
def stockOutText : String := "stock out must be an integer >= 0."

/-- Source: text of the negative stock message. -/
def negativeStockText : String := "stock available cannot be negative."

/-- Source: text of the referential-integrity message. -/
def lowerThanSalesText : String := "stock out is lower than logged sales."

/-- Source: the row pushed onto `products` for one stored product. -/
def deriveProduct (product : Product) : DerivedProduct :=
  let unitCost := toNumberOrZero product.unitCost
  let openingStock := toIntegerOrZero product.openingStock
  let stockOut := toIntegerOrZero product.stockOut
  let stockAvailable := openingStock - stockOut
  { name := jsTrim product.name
    unitCost := unitCost
    unitPrice := toNumberOrZero product.unitPrice
    openingStock := openingStock
    stockOut := stockOut
    stockAvailable := stockAvailable
    stockValueCost := stockAvailable * unitCost }

/-- Source: the messages pushed by the `if / else if / else` on the product's
normalized name. -/
def productNameErrors (rt : Runtime) (nameIndex : JsMap Nat) (productIndex : Nat)
    (name : String) : List String :=
  if normalizeName rt name = "" then [productNameRequiredMsg productIndex]
  else if nameIndex.has (normalizeName rt name) then [duplicateNameMsg name]
  else []

/-- Source: the update of `nameIndex` by the same `if / else if / else`: only a
non-empty normalized name that is not indexed yet is recorded. -/
def indexName (rt : Runtime) (nameIndex : JsMap Nat) (productIndex : Nat)
    (name : String) : JsMap Nat :=
  if normalizeName rt name = "" then nameIndex
  else if nameIndex.has (normalizeName rt name) then nameIndex
  else nameIndex.set (normalizeName rt name) productIndex

/-- Source: the messages pushed by the checks on the product's numeric fields and on
its sold quantity, in order. -/
def productFieldErrors (productIndex : Nat) (row : DerivedProduct)
    (totalSoldForProduct : ℚ) : List String :=
  (if !numberIsFinite row.unitCost || decide (row.unitCost < 0)
   then [productMsg row.name productIndex unitCostText] else []) ++
  (if !numberIsFinite row.unitPrice || decide (row.unitPrice < 0)
   then [productMsg row.name productIndex unitPriceText] else []) ++
  (if !numberIsInteger row.openingStock || decide (row.openingStock < 0)
   then [productMsg row.name productIndex openingStockText] else []) ++
  (if !numberIsInteger row.stockOut || decide (row.stockOut < 0)
   then [productMsg row.name productIndex stockOutText] else []) ++
  (if row.stockAvailable < 0
   then [productMsg row.name productIndex negativeStockText] else []) ++
  (if row.stockOut < totalSoldForProduct
   then [productMsg row.name productIndex lowerThanSalesText] else [])

/-- Source: the body of the second loop,
`sheet.products.forEach((product, productIndex) => ...)`. -/
def productStep (rt : Runtime) (st : Calc) (productIndex : Nat) (product : Product) :
    Calc :=
  let row := deriveProduct product
  let normalizedName := normalizeName rt row.name
  let totalSoldForProduct := st.soldQtyByName.getOrZero normalizedName
  { st with
    errors := st.errors ++ productNameErrors rt st.nameIndex productIndex row.name ++
      productFieldErrors productIndex row totalSoldForProduct
    nameIndex := indexName rt st.nameIndex productIndex row.name
    totals :=
      { st.totals with
        totalItemsAvailable := st.totals.totalItemsAvailable + row.stockAvailable
        totalStockValueCost := st.totals.totalStockValueCost + row.stockValueCost }
    products := st.products ++ [row] }

/-- Source: the message pushed for a derived sale whose name is not in `nameIndex`. -/
def orphanMsg (saleIndex : Nat) (itemName : String) : String :=
  saleLabel saleIndex ++ ": \"" ++ itemName ++ "\" does not match any product."

/-- Source: the body of the third loop, `sales.forEach((sale, saleIndex) => ...)`, which
only pushes onto `errors`. -/
def orphanStep (rt : Runtime) (nameIndex : JsMap Nat) (errors : List String)
    (saleIndex : Nat) (sale : DerivedSale) : List String :=
  if !nameIndex.has (normalizeName rt sale.itemName)
  then errors ++ [orphanMsg saleIndex sale.itemName] else errors

/-- Source: the six assignments that round the totals. -/
def roundTotals (t : Totals) : Totals :=
  { totalRevenue := roundCurrency t.totalRevenue
    totalProductionCost := roundCurrency t.totalProductionCost
    grossProfitTotal := roundCurrency t.grossProfitTotal
    totalStockValueCost := roundCurrency t.totalStockValueCost
    totalItemsSold := mathRound t.totalItemsSold
    totalItemsAvailable := mathRound t.totalItemsAvailable }

/-- Source: `Object.keys(totals)` paired with `totals[key]`, in insertion order. -/
def totalsEntries (t : Totals) : List (String × ℚ) :=
  [("totalItemsAvailable", t.totalItemsAvailable), ("totalItemsSold", t.totalItemsSold),
   ("totalRevenue", t.totalRevenue), ("totalProductionCost", t.totalProductionCost),
   ("grossProfitTotal", t.grossProfitTotal), ("totalStockValueCost", t.totalStockValueCost)]

/-- Source: the message pushed for a total that is not finite. -/
def invalidTotalMsg (key : String) : String :=
  "Total \"" ++ key ++ "\" is invalid (NaN or infinite)."

/-- Source: the messages pushed by `Object.keys(totals).forEach(...)`. -/
def totalsErrors (t : Totals) : List String :=
  ((totalsEntries t).filter (fun e => !numberIsFinite e.2)).map
    (fun e => invalidTotalMsg e.1)

/-- Source: the state after the first loop. -/
def afterSales (rt : Runtime) (sheet : Sheet) : Calc :=
  forEachIdx (saleStep rt) 0 Calc.init sheet.sales

/-- Source: the state after the second loop. -/
def afterProducts (rt : Runtime) (sheet : Sheet) : Calc :=
  forEachIdx (productStep rt) 0 (afterSales rt sheet) sheet.products

/-- Source: `recalcActiveSheet()` when `getActiveSheet()` returned `sheet`. -/
def recalcSheet (rt : Runtime) (sheet : Sheet) : Computed :=
  let st := afterProducts rt sheet
  let errors := forEachIdx (orphanStep rt st.nameIndex) 0 st.errors st.sales
  let totals := roundTotals st.totals
  let errors := errors ++ totalsErrors totals
  { sheet := some sheet
    products := st.products
    sales := st.sales
    totals := totals
    validation := { isValid := errors.length = 0, errors := errors } }

/-- Source: `recalcActiveSheet()`; the argument is the result of `getActiveSheet()`. -/
def recalcActiveSheet (rt : Runtime) (active : Option Sheet) : Computed :=
  match active with
  | none =>
    { sheet := none, products := [], sales := [], totals := emptyTotals
      validation := { isValid := false, errors := ["No active stock sheet."] } }
  | some sheet => recalcSheet rt sheet

/-! ## The reconciliation checker: `runSystemCheck` -/

/-- Source: `sumBy(items, key)`; `key` reads the field. -/
def sumBy {α : Type} (items : List α) (key : α → ℚ) : ℚ :=
  items.foldl (fun sum item => if !numberIsFinite (key item) then sum else sum + key item) 0

/-- Source: `CURRENCY_KEYS`. -/
def CURRENCY_KEYS : List String :=
  ["totalRevenue", "totalProductionCost", "grossProfitTotal", "totalStockValueCost"]

/-- Source: `tolerance` in `runSystemCheck`. -/
def tolerance : ℚ := 1 / 100

/-- Source: the keys of `rowTotals`, in insertion order, each with `rowTotals[key]` and
`computed.totals[key]`. -/
def rowTotalsEntries (computed : Computed) : List (String × ℚ × ℚ) :=
  [("totalRevenue", roundCurrency (sumBy computed.sales (fun r => r.revenue)),
      computed.totals.totalRevenue),
   ("totalProductionCost", roundCurrency (sumBy computed.sales (fun r => r.productionCost)),
      computed.totals.totalProductionCost),
   ("grossProfitTotal", roundCurrency (sumBy computed.sales (fun r => r.grossProfit)),
      computed.totals.grossProfitTotal),
   ("totalItemsSold", mathRound (sumBy computed.sales (fun r => r.qtySold)),
      computed.totals.totalItemsSold),
   ("totalItemsAvailable", mathRound (sumBy computed.products (fun r => r.stockAvailable)),
      computed.totals.totalItemsAvailable),
   ("totalStockValueCost",
      roundCurrency (sumBy computed.products (fun r => r.stockValueCost)),
      computed.totals.totalStockValueCost)]

/-- Source: the `mismatch` test of `runSystemCheck`. -/
def isMismatch (key : String) (expected actual : ℚ) : Bool :=
  if CURRENCY_KEYS.contains key then decide (|expected - actual| > tolerance)
  else decide (expected ≠ actual)

/-- Source: the mismatch message of `runSystemCheck`. -/
def mismatchMsg (rt : Runtime) (key : String) (expected actual : ℚ) : String :=
  "- " ++ key ++ " mismatch. Expected " ++ rt.numberToString expected ++ ", got " ++
    rt.numberToString actual ++ "."

/-- Source: the sentinel message of `runSystemCheck`. -/
def allClearMsg : String := "- All totals and invariants are valid."

/-- The object returned by `runSystemCheck`. -/
structure CheckResult where
  passed : Bool
  messages : List String
  deriving DecidableEq

/-- Source: the messages `runSystemCheck` collects before it adds the sentinel. -/
def checkMessages (rt : Runtime) (computed : Computed) : List String :=
  (((rowTotalsEntries computed).filter (fun e => isMismatch e.1 e.2.1 e.2.2)).map
      (fun e => mismatchMsg rt e.1 e.2.1 e.2.2)) ++
  (if computed.products.any (fun product => decide (product.stockAvailable < 0))
   then ["- Negative stock available detected."] else []) ++
  (if !computed.validation.isValid
   then computed.validation.errors.map (fun error => "- " ++ error) else [])

/-- Source: `runSystemCheck()`; the argument is the result of `getActiveSheet()`. -/
def runSystemCheck (rt : Runtime) (active : Option Sheet) : CheckResult :=
  let computed := recalcActiveSheet rt active
  let messages := checkMessages rt computed
  let messages := if messages.length = 0 then messages ++ [allClearMsg] else messages
  { passed := messages.length = 1 && messages.head? = some allClearMsg
    messages := messages }

/-! ## Mutation handlers -/

/-- What a handler leaves behind: the active sheet, whether it reached
`saveBakeryApp()`, and the message and type it passed to `showStatus`, if any. -/
structure Outcome where
  sheet : Sheet
  saved : Bool
  status : Option (String × String)
  deriving DecidableEq

/-- A handler path that shows an error and returns before any write. -/
def rejected (sheet : Sheet) (message : String) : Outcome :=
  ⟨sheet, false, some (message, "error")⟩

/-- A handler path that returns before any write without a message. -/
def ignored (sheet : Sheet) : Outcome := ⟨sheet, false, none⟩

/-- Source: `array.some((item, i) => ...)`, starting at index `i`. -/
def someIdx {α : Type} (f : α → Nat → Bool) : Nat → List α → Bool
  | _, [] => false
  | i, x :: xs => f x i || someIdx f (i + 1) xs

/-- Source: `array.findIndex(p)`; `none` stands for `-1`. -/
def findIndex {α : Type} (p : α → Bool) : List α → Option Nat
  | [] => none
  | x :: xs => if p x then some 0 else (findIndex p xs).map (· + 1)

/-- Source: an assignment through the reference returned by `array.find(p)`: the first
element satisfying `p` is replaced by its image under `f`. -/
def updateFound {α : Type} (p : α → Bool) (f : α → α) : List α → List α
  | [] => []
  | x :: xs => if p x then f x :: xs else x :: updateFound p f xs


/-- Source: the `field === "name"` branch of `onInventoryChange`. -/
def renameProduct (rt : Runtime) (sheet : Sheet) (index : Nat) (product : Product)
    (value : String) : Outcome :=
  let oldName := product.name
  let nextName := jsTrim value
  if nextName = "" then rejected sheet "Product name cannot be empty."
  else if someIdx
      (fun item i => decide (i ≠ index) &&
        decide (normalizeName rt item.name = normalizeName rt nextName))
      0 sheet.products then
    rejected sheet "Duplicate product name is not allowed."
  else
    { sheet :=
        { products := sheet.products.set index { product with name := nextName }
          sales :=
            if normalizeName rt oldName ≠ normalizeName rt nextName then
              sheet.sales.map (fun sale =>
                if normalizeName rt sale.itemName = normalizeName rt oldName
                then { sale with itemName := nextName } else sale)
            else sheet.sales }
      saved := true
      status := some ("Renamed \"" ++ oldName ++ "\" to \"" ++ nextName ++ "\".", "success") }

/-- Source: `onInventoryChange(event)`; the arguments are the active sheet, the row
index and field of the edited input, its value and `Number(value)` (`none` for `NaN` and
the infinities). -/
def onInventoryChange (rt : Runtime) (sheet : Sheet) (index : Nat) (field : String)
    (value : String) (numericResult : Option ℚ) : Outcome :=
  if field = "" then ignored sheet
  else
    match sheet.products.get? index with
    | none => ignored sheet
    | some product =>
      if field = "name" then renameProduct rt sheet index product value
      else
        match numericResult with
        | none => rejected sheet "Values must be valid numbers and cannot be negative."
        | some numericValue =>
          if !numberIsFinite numericValue || decide (numericValue < 0) then
            rejected sheet "Values must be valid numbers and cannot be negative."
          else if field = "openingStock" then
            if !numberIsInteger numericValue then
              rejected sheet "Opening stock must be an integer value."
            else if numericValue < product.stockOut then
              rejected sheet "Opening stock cannot be lower than stock out."
            else
              { sheet :=
                  { sheet with
                    products :=
                      sheet.products.set index { product with openingStock := numericValue } }
                saved := true
                status := none }
          else if field = "unitCost" then
            { sheet :=
                { sheet with
                  products := sheet.products.set index
                    { product with unitCost := roundCurrency numericValue } }
              saved := true
              status := none }
          else if field = "unitPrice" then
            { sheet :=
                { sheet with
                  products := sheet.products.set index
                    { product with unitPrice := roundCurrency numericValue } }
              saved := true
              status := none }
          else ignored sheet

/-- Source: `onInventoryActionClick(event)` on a delete button; the arguments are the
active sheet and the row index of the button. -/
def onInventoryActionClick (rt : Runtime) (sheet : Sheet) (index : Nat) : Outcome :=
  match sheet.products.get? index with
  | none => ignored sheet
  | some product =>
    if sheet.sales.any
        (fun sale => normalizeName rt sale.itemName = normalizeName rt product.name) then
      rejected sheet "Delete related sales first before deleting this product."
    else
      { sheet := { sheet with products := sheet.products.eraseIdx index }
        saved := true
        status := some ("Product \"" ++ product.name ++ "\" deleted.", "success") }

/-- Source: `onAddSale(event)`; the arguments are the active sheet, the identifier
`createId()` returns, the values of the date and item inputs and `Number(...)` of the
quantity input (`none` for `NaN` and the infinities). -/
def onAddSale (rt : Runtime) (sheet : Sheet) (newId dateValue itemValue : String)
    (qtyValue : Option ℚ) : Outcome :=
  let dateISO := if dateValue = "" then rt.today else dateValue
  let itemName := jsTrim itemValue
  if !isISODate rt dateISO then rejected sheet "Please choose a valid sale date."
  else if itemName = "" then rejected sheet "Please select an item."
  else
    match qtyValue with
    | none => rejected sheet "Quantity sold must be an integer >= 1."
    | some qtySold =>
      if !numberIsInteger qtySold || decide (qtySold < 1) then
        rejected sheet "Quantity sold must be an integer >= 1."
      else
        let computed := recalcActiveSheet rt (some sheet)
        match computed.products.find?
            (fun product => normalizeName rt product.name = normalizeName rt itemName) with
        | none => rejected sheet "Selected product no longer exists."
        | some computedProduct =>
          if qtySold > computedProduct.stockAvailable then
            rejected sheet
              ("Cannot add sale. " ++ computedProduct.name ++ " has only " ++
                rt.numberToString computedProduct.stockAvailable ++ " in stock.")
          else
            match sheet.products.find?
                (fun p => normalizeName rt p.name = normalizeName rt itemName) with
            | none => rejected sheet "Product lookup failed while adding sale."
            | some product =>
              let revenue := roundCurrency (qtySold * product.unitPrice)
              let productionCost := roundCurrency (qtySold * product.unitCost)
              let grossProfit := roundCurrency (revenue - productionCost)
              { sheet :=
                  { products :=
                      updateFound
                        (fun p => normalizeName rt p.name = normalizeName rt itemName)
                        (fun p => { p with stockOut := p.stockOut + qtySold })
                        sheet.products
                    sales := sheet.sales ++
                      [{ id := newId
                         dateISO := dateISO
                         itemName := product.name
                         qtySold := qtySold
                         revenue := revenue
                         productionCost := productionCost
                         grossProfit := grossProfit }] }
                saved := true
                status := some
                  ("Sale logged for " ++ rt.numberToString qtySold ++ " x " ++
                    product.name ++ ".", "success") }


/-! ## The normalizer -/

/-- Source: `Number(value)`. -/
def jsNumber (rt : Runtime) (value : JsValue) : JsNumber :=
  match value with
  | .undefined => .nan
  | .null => .finite 0
  | .bool b => .finite (if b then 1 else 0)
  | .number n => n
  | .string s => rt.stringToNumber s
  | .array items => rt.objectToNumber (.array items)
  | .object fields => rt.objectToNumber (.object fields)


/-- Source: `toIntegerOrZero(value)` on any value. -/
def toIntegerOrZeroValue (rt : Runtime) (value : JsValue) : ℚ :=
  match jsNumber rt value with
  | .finite number => toIntegerOrZero number
  | _ => 0

/-- Source: `typeof value === "string" ? value.trim() : ""`. -/
def trimmedStringOrEmpty (value : JsValue) : String :=
  match value with
  | .string s => jsTrim s
  | _ => ""


/-! ## The application state -/

/-- A sheet as the application holds it. -/
structure StoredSheet where
  id : String
  name : String
  createdAtISO : String
  updatedAtISO : String
  products : List Product
  sales : List Sale

/-- The part of a stored sheet the engine reads. -/
def StoredSheet.toSheet (stored : StoredSheet) : Sheet :=
  { products := stored.products, sales := stored.sales }

/-- Source: the variable `bakeryApp`. -/
structure AppState where
  activeSheetId : String
  sheets : List StoredSheet

/-- Source: `createSheet(name)` for a non-empty `name`; `newId` is what `createId()`
returns. -/
def createSheet (rt : Runtime) (newId : String) (name : String) : StoredSheet :=
  { id := newId, name := name, createdAtISO := rt.nowISO, updatedAtISO := rt.nowISO
    products := [], sales := [] }

/-- Source: `ensureActiveSheet()`, as a function of the application state (`sheets` is a
list, so the `Array.isArray` branch is not taken). -/
def ensureActiveSheet (rt : Runtime) (newId : String) (app : AppState) : AppState :=
  if app.sheets.length = 0 then
    let replacement := createSheet rt newId "Main Stock Sheet"
    { activeSheetId := replacement.id, sheets := app.sheets ++ [replacement] }
  else if !app.sheets.any (fun sheet => decide (sheet.id = app.activeSheetId)) then
    match app.sheets.head? with
    | some first => { app with activeSheetId := first.id }
    | none => app
  else app

/-- Source: `getActiveSheet()`: the application state it leaves and the sheet it
returns. -/
def getActiveSheet (rt : Runtime) (newId : String) (app : AppState) :
    AppState × Option StoredSheet :=
  let ensured := ensureActiveSheet rt newId app
  (ensured, ensured.sheets.find? (fun sheet => decide (sheet.id = ensured.activeSheetId)))

/-- Source: `recalcActiveSheet()` as a function of the application state: the state it
leaves and the object it returns. -/
def recalcActiveSheetIn (rt : Runtime) (newId : String) (app : AppState) :
    AppState × Computed :=
  let found := getActiveSheet rt newId app
  (found.1, recalcActiveSheet rt (found.2.map StoredSheet.toSheet))

/-! ## Notions used to state the properties -/

/-- The messages the first loop pushes for the sales `l`, the first one at index `i`. -/
def saleErrorsFrom (rt : Runtime) : Nat → List Sale → List String
  | _, [] => []
  | i, sale :: rest =>
    saleFieldErrors i (deriveSale rt sale).itemName (deriveSale rt sale).qtySold
      (deriveSale rt sale).revenue (deriveSale rt sale).productionCost
      (deriveSale rt sale).grossProfit ++ saleErrorsFrom rt (i + 1) rest

/-- The messages the second loop pushes for one product at index `i`, given the two
maps at that moment. -/
def productErrorsAt (rt : Runtime) (sold : JsMap ℚ) (nameIndex : JsMap Nat) (i : Nat)
    (p : Product) : List String :=
  productNameErrors rt nameIndex i (deriveProduct p).name ++
  productFieldErrors i (deriveProduct p)
    (sold.getOrZero (normalizeName rt (deriveProduct p).name))

/-- The name index after the second loop has gone through the products `l`, the first
one at index `i`, from the index `m`. -/
def nameIndexFrom (rt : Runtime) : JsMap Nat → Nat → List Product → JsMap Nat
  | m, _, [] => m
  | m, i, p :: rest => nameIndexFrom rt (indexName rt m i (deriveProduct p).name) (i + 1) rest

/-- The messages the second loop pushes for the products `l`, the first one at index
`i`, from the name index `m`. -/
def productErrorsFrom (rt : Runtime) (sold : JsMap ℚ) :
    JsMap Nat → Nat → List Product → List String
  | _, _, [] => []
  | m, i, p :: rest =>
    productErrorsAt rt sold m i p ++
      productErrorsFrom rt sold (indexName rt m i (deriveProduct p).name) (i + 1) rest

/-- The messages the third loop pushes for the derived sales `l`, the first one at index
`i`. -/
def orphanErrorsFrom (rt : Runtime) (nameIndex : JsMap Nat) :
    Nat → List DerivedSale → List String
  | _, [] => []
  | i, row :: rest =>
    (if !nameIndex.has (normalizeName rt row.itemName) then [orphanMsg i row.itemName]
     else []) ++ orphanErrorsFrom rt nameIndex (i + 1) rest

/-- The state of `recalcActiveSheet` when the second loop reaches index `j`. -/
def stateBeforeProduct (rt : Runtime) (sheet : Sheet) (j : Nat) : Calc :=
  forEachIdx (productStep rt) 0 (afterSales rt sheet) (sheet.products.take j)

/-- The messages the second loop pushes during its iteration on the product at index
`j`: what `errors` gains in that iteration. -/
def pushedForProduct (rt : Runtime) (sheet : Sheet) (j : Nat) : List String :=
  match sheet.products.get? j with
  | none => []
  | some p =>
    ((productStep rt (stateBeforeProduct rt sheet j) j p).errors).drop
      (stateBeforeProduct rt sheet j).errors.length

/-- The cumulative quantity sold under a normalized name: the sum of the derived
`qtySold` over the sales whose trimmed, lower-cased item name is `key`. -/
def soldFor (rt : Runtime) (sales : List Sale) (key : String) : ℚ :=
  ((sales.filter (fun sale => normalizeName rt sale.itemName = key)).map
    (fun sale => toIntegerOrZero sale.qtySold)).sum

/-- The sale passes the field checks of the first loop. -/
def SaleOk (sale : Sale) : Prop :=
  jsTrim sale.itemName ≠ "" ∧ 1 ≤ toIntegerOrZero sale.qtySold ∧ 0 ≤ sale.revenue ∧
    0 ≤ sale.productionCost

/-- The product passes the checks of the second loop other than the duplicate check:
a name, fields in range, stock available >= 0 and stock out >= the quantity sold under
its name. -/
def ProductOk (rt : Runtime) (sales : List Sale) (p : Product) : Prop :=
  normalizeName rt p.name ≠ "" ∧ 0 ≤ p.unitCost ∧ 0 ≤ p.unitPrice ∧
    0 ≤ toIntegerOrZero p.openingStock ∧ 0 ≤ toIntegerOrZero p.stockOut ∧
    toIntegerOrZero p.stockOut ≤ toIntegerOrZero p.openingStock ∧
    soldFor rt sales (normalizeName rt p.name) ≤ toIntegerOrZero p.stockOut

/-- The normalized names of the products, in order. -/
def productKeys (rt : Runtime) (products : List Product) : List String :=
  products.map (fun p => normalizeName rt p.name)

/-- The conditions under which `recalcActiveSheet` pushes no message. -/
structure ValidSheet (rt : Runtime) (sheet : Sheet) : Prop where
  sales_ok : ∀ sale ∈ sheet.sales, SaleOk sale
  products_ok : ∀ p ∈ sheet.products, ProductOk rt sheet.sales p
  keys_nodup : (productKeys rt sheet.products).Nodup
  matched : ∀ sale ∈ sheet.sales,
    normalizeName rt sale.itemName ∈ productKeys rt sheet.products


/-- Spec: rounding to 2 decimal places, a tie going away from zero ("round half away
from zero"). -/
def roundHalfAwayFromZero (y : ℚ) : ℚ :=
  if 0 ≤ y then ((⌊y * 100 + 1 / 2⌋ : ℤ) : ℚ) / 100
  else -(((⌊-y * 100 + 1 / 2⌋ : ℤ) : ℚ) / 100)


/-- Whether the second loop pushes the duplicate message during its iteration on the
product at index `j`. -/
def duplicateFlagged (rt : Runtime) (sheet : Sheet) (j : Nat) : Bool :=
  match sheet.products.get? j with
  | none => false
  | some p => decide (duplicateNameMsg (jsTrim p.name) ∈ pushedForProduct rt sheet j)

/-- The number of iterations of the second loop that push the duplicate message. -/
def duplicateCount (rt : Runtime) (sheet : Sheet) : Nat :=
  ((List.range sheet.products.length).filter (duplicateFlagged rt sheet)).length

/-- A sheet with an unnamed product and an unnamed sale of 5. -/
def unnamedSheet : Sheet :=
  { products := [⟨"", 0, 0, 0, 0⟩]
    sales := [⟨"sale-1", "2024-05-01", "", 5, 0, 0, 0⟩] }

/-- A sheet where 5 Bread are logged as sold while the product's stock out is 0. -/
def oversoldSheet : Sheet :=
  { products := [⟨"Bread", 100, 150, 20, 0⟩]
    sales := [⟨"sale-1", "2024-05-01", "bread ", 5, 750, 500, 250⟩] }

/-- A sheet with three products whose names differ only in case and white space, and
one unnamed product. -/
def duplicatesSheet : Sheet :=
  { products := [⟨" bread", 1, 2, 3, 0⟩, ⟨"", 1, 2, 3, 0⟩, ⟨"Bread ", 1, 2, 3, 0⟩,
      ⟨"BREAD", 1, 2, 3, 0⟩]
    sales := [] }

/-- Whether the key at index `j` of a list of keys is non-empty and already occurs at an
earlier index. -/
def repeatedAt (keys : List String) (j : Nat) : Bool :=
  match keys.get? j with
  | none => false
  | some k => decide (k ≠ "") && decide (k ∈ keys.take j)

/-- The state of `recalcActiveSheet` when the first loop reaches index `i`. -/
def stateBeforeSale (rt : Runtime) (sheet : Sheet) (i : Nat) : Calc :=
  forEachIdx (saleStep rt) 0 Calc.init (sheet.sales.take i)

/-- The messages the first loop pushes during its iteration on the sale at index `i`:
what `errors` gains in that iteration. -/
def pushedForSale (rt : Runtime) (sheet : Sheet) (i : Nat) : List String :=
  match sheet.sales.get? i with
  | none => []
  | some sale =>
    ((saleStep rt (stateBeforeSale rt sheet i) i sale).errors).drop
      (stateBeforeSale rt sheet i).errors.length

/-- The value of `errors` when the third loop reaches index `i`. -/
def errorsBeforeOrphan (rt : Runtime) (sheet : Sheet) (i : Nat) : List String :=
  forEachIdx (orphanStep rt (afterProducts rt sheet).nameIndex) 0
    (afterProducts rt sheet).errors ((afterProducts rt sheet).sales.take i)

/-- The messages the third loop pushes during its iteration on the derived sale at index
`i`: what `errors` gains in that iteration. -/
def pushedForOrphan (rt : Runtime) (sheet : Sheet) (i : Nat) : List String :=
  match (afterProducts rt sheet).sales.get? i with
  | none => []
  | some row =>
    (orphanStep rt (afterProducts rt sheet).nameIndex (errorsBeforeOrphan rt sheet i) i
      row).drop (errorsBeforeOrphan rt sheet i).length

/-- A sheet with one sale whose stored quantity is 3/2. -/
def fractionalSaleSheet : Sheet :=
  { products := [⟨"Bread", 100, 150, 20, 5⟩]
    sales := [⟨"sale-1", "2024-05-01", "Bread", 3 / 2, 225, 150, 75⟩] }

/-- A sheet with one sale whose stored quantity is 0. -/
def zeroSaleSheet : Sheet :=
  { products := [⟨"Bread", 100, 150, 20, 5⟩]
    sales := [⟨"sale-1", "2024-05-01", "Bread", 0, 0, 0, 0⟩] }

/-- The value is an array or an object (other than `null`). -/
def JsValue.isObject : JsValue → Bool
  | .array _ => true
  | .object _ => true
  | _ => false

/-- An application state whose active sheet is the Bread sheet with one sale. -/
def breadApp : AppState :=
  { activeSheetId := "sheet-2"
    sheets :=
      [⟨"sheet-1", "Old", "2024-01-01T00:00:00.000Z", "2024-01-01T00:00:00.000Z", [], []⟩,
       ⟨"sheet-2", "Main", "2024-01-01T00:00:00.000Z", "2024-01-02T00:00:00.000Z",
         [⟨"Bread", 100, 150, 20, 5⟩],
         [⟨"sale-1", "2024-05-01", "Bread", 5, 750, 500, 250⟩]⟩] }


deriving instance DecidableEq for JsNumber

/-! ## Binary64 arithmetic -/

/-- The power `2 ^ e` as a rational, for an integer exponent. -/
def pow2 (e : ℤ) : ℚ :=
  if 0 ≤ e then ((2 ^ e.toNat : ℕ) : ℚ) else 1 / ((2 ^ (-e).toNat : ℕ) : ℚ)

/-- The binary logarithm of `n` rounded down (`0` at `0`), found by halving at most
`fuel` times. -/
def log2Floor : Nat → Nat → Nat
  | 0, _ => 0
  | fuel + 1, n => if 2 ≤ n then log2Floor fuel (n / 2) + 1 else 0

/-- The binary exponent of a positive rational `a`: the `k` with `2 ^ k ≤ a < 2 ^ (k + 1)`. -/
def binade (a : ℚ) : ℤ :=
  let k : ℤ := (log2Floor a.num.natAbs a.num.natAbs : ℤ) - (log2Floor a.den a.den : ℤ)
  if a < pow2 k then k - 1 else k

/-- The integer nearest to `y`, a tie going to the even one. -/
def roundHalfEven (y : ℚ) : ℤ :=
  if y - (⌊y⌋ : ℤ) < 1 / 2 then ⌊y⌋
  else if 1 / 2 < y - (⌊y⌋ : ℤ) then ⌊y⌋ + 1
  else if ⌊y⌋ % 2 = 0 then ⌊y⌋ else ⌊y⌋ + 1

/-- The exponent of the last place of the double nearest to the positive rational `a`:
53 significant bits, and no place below `2 ^ (-1074)`. -/
def lastPlace (a : ℚ) : ℤ := max (binade a - 52) (-1074)

/-- The positive rational `a` rounded to a multiple of its last place, ties to even. -/
def roundMagnitude (a : ℚ) : ℚ :=
  (roundHalfEven (a / pow2 (lastPlace a)) : ℚ) * pow2 (lastPlace a)

/-- The double nearest to a rational (IEEE 754 binary64, round to nearest, ties to even);
a magnitude that rounds to `2 ^ 1024` overflows to an infinity. -/
def toDouble (q : ℚ) : JsNumber :=
  if q = 0 then .finite 0
  else if 0 < q then
    if roundMagnitude q < pow2 1024 then .finite (roundMagnitude q) else .posInfinity
  else
    if roundMagnitude (-q) < pow2 1024 then .finite (-roundMagnitude (-q))
    else .negInfinity

/-- Source: unary `-x`. -/
def JsNumber.neg : JsNumber → JsNumber
  | .finite a => .finite (-a)
  | .nan => .nan
  | .posInfinity => .negInfinity
  | .negInfinity => .posInfinity

/-- Source: `x + y` on numbers. -/
def JsNumber.add : JsNumber → JsNumber → JsNumber
  | .finite a, .finite b => toDouble (a + b)
  | .finite _, .nan => .nan
  | .finite _, .posInfinity => .posInfinity
  | .finite _, .negInfinity => .negInfinity
  | .nan, _ => .nan
  | .posInfinity, .finite _ => .posInfinity
  | .posInfinity, .nan => .nan
  | .posInfinity, .posInfinity => .posInfinity
  | .posInfinity, .negInfinity => .nan
  | .negInfinity, .finite _ => .negInfinity
  | .negInfinity, .nan => .nan
  | .negInfinity, .posInfinity => .nan
  | .negInfinity, .negInfinity => .negInfinity

/-- Source: `x - y` on numbers. -/
def JsNumber.sub (x y : JsNumber) : JsNumber := x.add y.neg

/-- The product of an infinity of the given sign with a finite factor. -/
def infinityTimes (positive : Bool) (b : ℚ) : JsNumber :=
  if b = 0 then .nan
  else if (0 < b) = positive then .posInfinity else .negInfinity

/-- Source: `x * y` on numbers. -/
def JsNumber.mul : JsNumber → JsNumber → JsNumber
  | .finite a, .finite b => toDouble (a * b)
  | .finite a, .posInfinity => infinityTimes true a
  | .finite a, .negInfinity => infinityTimes false a
  | .finite _, .nan => .nan
  | .nan, _ => .nan
  | .posInfinity, .finite b => infinityTimes true b
  | .posInfinity, .nan => .nan
  | .posInfinity, .posInfinity => .posInfinity
  | .posInfinity, .negInfinity => .negInfinity
  | .negInfinity, .finite b => infinityTimes false b
  | .negInfinity, .nan => .nan
  | .negInfinity, .posInfinity => .negInfinity
  | .negInfinity, .negInfinity => .posInfinity

/-- Source: `x / 100` on a number. -/
def JsNumber.div100 : JsNumber → JsNumber
  | .finite a => toDouble (a / 100)
  | x => x

/-- Source: `x < y` on numbers; false when either is `NaN`. -/
def JsNumber.lt : JsNumber → JsNumber → Bool
  | .finite a, .finite b => decide (a < b)
  | .finite _, .posInfinity => true
  | .negInfinity, .finite _ => true
  | .negInfinity, .posInfinity => true
  | _, _ => false

/-- Source: `x > y` on numbers; false when either is `NaN`. -/
def JsNumber.gt (x y : JsNumber) : Bool := y.lt x

/-- Source: `x >= y` on numbers; false when either is `NaN`. -/
def JsNumber.ge : JsNumber → JsNumber → Bool
  | .finite a, .finite b => decide (b ≤ a)
  | .finite _, .negInfinity => true
  | .posInfinity, .finite _ => true
  | .posInfinity, .posInfinity => true
  | .posInfinity, .negInfinity => true
  | .negInfinity, .negInfinity => true
  | _, _ => false

/-- Source: `x !== y` on numbers; `NaN` differs from itself. -/
def JsNumber.strictNe : JsNumber → JsNumber → Bool
  | .finite a, .finite b => decide (a ≠ b)
  | .posInfinity, .posInfinity => false
  | .negInfinity, .negInfinity => false
  | _, _ => true

/-- Source: `Math.abs(x)`. -/
def JsNumber.abs : JsNumber → JsNumber
  | .finite a => .finite |a|
  | .nan => .nan
  | _ => .posInfinity

/-- Source: `Number.isInteger(x)`. -/
def JsNumber.isInteger : JsNumber → Bool
  | .finite a => numberIsInteger a
  | _ => false

/-- Source: `Math.round(x)`: the nearest integer, a tie going to the larger one; an
integer of that size is a double when `x` is one. -/
def JsNumber.round : JsNumber → JsNumber
  | .finite a => .finite (mathRound a)
  | x => x

/-- Source: `Math.trunc(x)`. -/
def JsNumber.trunc : JsNumber → JsNumber
  | .finite a => .finite (mathTrunc a)
  | x => x

/-- Source: `x || 0` on a number: `0` and `NaN` are falsy. -/
def JsNumber.orZero : JsNumber → JsNumber
  | .finite a => .finite a
  | .nan => .finite 0
  | x => x

/-- The rational a finite number stands for, and `0` otherwise. -/
def JsNumber.value : JsNumber → ℚ
  | .finite a => a
  | _ => 0

/-- Host conversion of a number to a string, as in a template literal. -/
def numberText (rt : Runtime) : JsNumber → String
  | .finite a => rt.numberToString a
  | .nan => "NaN"
  | .posInfinity => "Infinity"
  | .negInfinity => "-Infinity"

/-- The left-to-right sum `((0 + x₁) + x₂) + ...` of doubles from a starting value. -/
def sumFrom (start : JsNumber) (l : List JsNumber) : JsNumber := l.foldl JsNumber.add start

/-! ## The engine and the handlers over binary64 numbers

The same functions of `src/app.js` with every number a double: sums, differences and
products are rounded to the nearest double and overflow to an infinity. -/

namespace Binary64

/-- Source: `Number.EPSILON`, 2⁻⁵². -/
def EPSILON : JsNumber := .finite (1 / 4503599627370496)

/-- Source: `toNumberOrZero(value)` on a number. -/
def toNumberOrZero (value : JsNumber) : JsNumber :=
  if value.isFinite then value else .finite 0

/-- Source: `toIntegerOrZero(value)` on a number. -/
def toIntegerOrZero (value : JsNumber) : JsNumber :=
  if !value.isFinite then .finite 0 else value.trunc

/-- Source: `roundCurrency(value)`. -/
def roundCurrency (value : JsNumber) : JsNumber :=
  (((value.add EPSILON).mul (.finite 100)).round).div100

/-- Source: `isNonNegativeNumber(value)`. -/
def isNonNegativeNumber (value : JsNumber) : Bool :=
  value.isFinite && value.ge (.finite 0)

/-- A stored product record of a sheet. -/
structure Product where
  name : String
  unitCost : JsNumber
  unitPrice : JsNumber
  openingStock : JsNumber
  stockOut : JsNumber
  deriving DecidableEq

/-- A stored sale record of a sheet. -/
structure Sale where
  id : String
  dateISO : String
  itemName : String
  qtySold : JsNumber
  revenue : JsNumber
  productionCost : JsNumber
  grossProfit : JsNumber
  deriving DecidableEq

/-- The active sheet: its ordered products and sales. -/
structure Sheet where
  products : List Product
  sales : List Sale
  deriving DecidableEq

/-- A product row derived by `recalcActiveSheet`. -/
structure DerivedProduct where
  name : String
  unitCost : JsNumber
  unitPrice : JsNumber
  openingStock : JsNumber
  stockOut : JsNumber
  stockAvailable : JsNumber
  stockValueCost : JsNumber
  deriving DecidableEq

/-- A sale row derived by `recalcActiveSheet`. -/
structure DerivedSale where
  id : String
  dateISO : String
  itemName : String
  qtySold : JsNumber
  revenue : JsNumber
  productionCost : JsNumber
  grossProfit : JsNumber
  deriving DecidableEq

/-- The six totals, in the key order of `emptyTotals`. -/
structure Totals where
  totalItemsAvailable : JsNumber
  totalItemsSold : JsNumber
  totalRevenue : JsNumber
  totalProductionCost : JsNumber
  grossProfitTotal : JsNumber
  totalStockValueCost : JsNumber
  deriving DecidableEq

/-- Source: `emptyTotals`. -/
def emptyTotals : Totals :=
  ⟨.finite 0, .finite 0, .finite 0, .finite 0, .finite 0, .finite 0⟩

/-- The object returned by `recalcActiveSheet`. -/
structure Computed where
  sheet : Option Sheet
  products : List DerivedProduct
  sales : List DerivedSale
  totals : Totals
  validation : Validation
  deriving DecidableEq

/-- Source: `map.get(key) || 0` on a map of numbers. -/
def getOrZero (m : JsMap JsNumber) (key : String) : JsNumber :=
  match m key with
  | some v => v.orZero
  | none => .finite 0

/-- The local variables of `recalcActiveSheet` that its loops update. -/
structure Calc where
  errors : List String
  products : List DerivedProduct
  sales : List DerivedSale
  totals : Totals
  nameIndex : JsMap Nat
  soldQtyByName : JsMap JsNumber

/-- Source: the initial values of `errors`, `products`, `sales`, `totals`, `nameIndex`
and `soldQtyByName`. -/
def Calc.init : Calc := ⟨[], [], [], emptyTotals, JsMap.empty, JsMap.empty⟩

/-- Source: the messages the first `sheet.sales.forEach` callback pushes for one sale,
in order, from the coerced fields. -/
def saleFieldErrors (saleIndex : Nat) (itemName : String)
    (qtySold revenue productionCost grossProfit : JsNumber) : List String :=
  (if itemName = "" then [saleNameRequiredMsg saleIndex] else []) ++
  (if !qtySold.isInteger || qtySold.lt (.finite 1) then [saleQtyMsg saleIndex] else []) ++
  (if !revenue.isFinite || !productionCost.isFinite || !grossProfit.isFinite ||
      revenue.lt (.finite 0) || productionCost.lt (.finite 0)
   then [saleMoneyMsg saleIndex] else [])

/-- Source: the row pushed onto `sales` for one stored sale. -/
def deriveSale (rt : Runtime) (sale : Sale) : DerivedSale :=
  { id := sale.id
    dateISO := if isISODate rt sale.dateISO then sale.dateISO else rt.today
    itemName := jsTrim sale.itemName
    qtySold := toIntegerOrZero sale.qtySold
    revenue := toNumberOrZero sale.revenue
    productionCost := toNumberOrZero sale.productionCost
    grossProfit := toNumberOrZero sale.grossProfit }

/-- Source: the body of the first loop, `sheet.sales.forEach((sale, saleIndex) => ...)`. -/
def saleStep (rt : Runtime) (st : Calc) (saleIndex : Nat) (sale : Sale) : Calc :=
  let row := deriveSale rt sale
  let normalizedName := normalizeName rt row.itemName
  { st with
    errors := st.errors ++ saleFieldErrors saleIndex row.itemName row.qtySold row.revenue
      row.productionCost row.grossProfit
    soldQtyByName :=
      if normalizedName ≠ "" then
        st.soldQtyByName.set normalizedName
          ((getOrZero st.soldQtyByName normalizedName).add row.qtySold)
      else st.soldQtyByName
    totals :=
      { st.totals with
        totalItemsSold := st.totals.totalItemsSold.add row.qtySold
        totalRevenue := st.totals.totalRevenue.add row.revenue
        totalProductionCost := st.totals.totalProductionCost.add row.productionCost
        grossProfitTotal := st.totals.grossProfitTotal.add row.grossProfit }
    sales := st.sales ++ [row] }

/-- Source: the row pushed onto `products` for one stored product. -/
def deriveProduct (product : Product) : DerivedProduct :=
  let unitCost := toNumberOrZero product.unitCost
  let openingStock := toIntegerOrZero product.openingStock
  let stockOut := toIntegerOrZero product.stockOut
  let stockAvailable := openingStock.sub stockOut
  { name := jsTrim product.name
    unitCost := unitCost
    unitPrice := toNumberOrZero product.unitPrice
    openingStock := openingStock
    stockOut := stockOut
    stockAvailable := stockAvailable
    stockValueCost := stockAvailable.mul unitCost }

/-- Source: the messages pushed by the checks on the product's numeric fields and on
its sold quantity, in order. -/
def productFieldErrors (productIndex : Nat) (row : DerivedProduct)
    (totalSoldForProduct : JsNumber) : List String :=
  (if !row.unitCost.isFinite || row.unitCost.lt (.finite 0)
   then [productMsg row.name productIndex unitCostText] else []) ++
  (if !row.unitPrice.isFinite || row.unitPrice.lt (.finite 0)
   then [productMsg row.name productIndex unitPriceText] else []) ++
  (if !row.openingStock.isInteger || row.openingStock.lt (.finite 0)
   then [productMsg row.name productIndex openingStockText] else []) ++
  (if !row.stockOut.isInteger || row.stockOut.lt (.finite 0)
   then [productMsg row.name productIndex stockOutText] else []) ++
  (if row.stockAvailable.lt (.finite 0)
   then [productMsg row.name productIndex negativeStockText] else []) ++
  (if row.stockOut.lt totalSoldForProduct
   then [productMsg row.name productIndex lowerThanSalesText] else [])

/-- Source: the body of the second loop,
`sheet.products.forEach((product, productIndex) => ...)`. -/
def productStep (rt : Runtime) (st : Calc) (productIndex : Nat) (product : Product) :
    Calc :=
  let row := deriveProduct product
  let normalizedName := normalizeName rt row.name
  let totalSoldForProduct := getOrZero st.soldQtyByName normalizedName
  { st with
    errors := st.errors ++ productNameErrors rt st.nameIndex productIndex row.name ++
      productFieldErrors productIndex row totalSoldForProduct
    nameIndex := indexName rt st.nameIndex productIndex row.name
    totals :=
      { st.totals with
        totalItemsAvailable := st.totals.totalItemsAvailable.add row.stockAvailable
        totalStockValueCost := st.totals.totalStockValueCost.add row.stockValueCost }
    products := st.products ++ [row] }

/-- Source: the body of the third loop, `sales.forEach((sale, saleIndex) => ...)`, which
only pushes onto `errors`. -/
def orphanStep (rt : Runtime) (nameIndex : JsMap Nat) (errors : List String)
    (saleIndex : Nat) (sale : DerivedSale) : List String :=
  if !nameIndex.has (normalizeName rt sale.itemName)
  then errors ++ [orphanMsg saleIndex sale.itemName] else errors

/-- Source: the six assignments that round the totals. -/
def roundTotals (t : Totals) : Totals :=
  { totalRevenue := roundCurrency t.totalRevenue
    totalProductionCost := roundCurrency t.totalProductionCost
    grossProfitTotal := roundCurrency t.grossProfitTotal
    totalStockValueCost := roundCurrency t.totalStockValueCost
    totalItemsSold := t.totalItemsSold.round
    totalItemsAvailable := t.totalItemsAvailable.round }

/-- Source: `Object.keys(totals)` paired with `totals[key]`, in insertion order. -/
def totalsEntries (t : Totals) : List (String × JsNumber) :=
  [("totalItemsAvailable", t.totalItemsAvailable), ("totalItemsSold", t.totalItemsSold),
   ("totalRevenue", t.totalRevenue), ("totalProductionCost", t.totalProductionCost),
   ("grossProfitTotal", t.grossProfitTotal), ("totalStockValueCost", t.totalStockValueCost)]

/-- Source: the messages pushed by `Object.keys(totals).forEach(...)`. -/
def totalsErrors (t : Totals) : List String :=
  ((totalsEntries t).filter (fun e => !e.2.isFinite)).map (fun e => invalidTotalMsg e.1)

/-- Source: the state after the first loop. -/
def afterSales (rt : Runtime) (sheet : Sheet) : Calc :=
  forEachIdx (saleStep rt) 0 Calc.init sheet.sales

/-- Source: the state after the second loop. -/
def afterProducts (rt : Runtime) (sheet : Sheet) : Calc :=
  forEachIdx (productStep rt) 0 (afterSales rt sheet) sheet.products

/-- Source: `recalcActiveSheet()` when `getActiveSheet()` returned `sheet`. -/
def recalcSheet (rt : Runtime) (sheet : Sheet) : Computed :=
  let st := afterProducts rt sheet
  let errors := forEachIdx (orphanStep rt st.nameIndex) 0 st.errors st.sales
  let totals := roundTotals st.totals
  let errors := errors ++ totalsErrors totals
  { sheet := some sheet
    products := st.products
    sales := st.sales
    totals := totals
    validation := { isValid := errors.length = 0, errors := errors } }

/-- Source: `recalcActiveSheet()`; the argument is the result of `getActiveSheet()`. -/
def recalcActiveSheet (rt : Runtime) (active : Option Sheet) : Computed :=
  match active with
  | none =>
    { sheet := none, products := [], sales := [], totals := emptyTotals
      validation := { isValid := false, errors := ["No active stock sheet."] } }
  | some sheet => recalcSheet rt sheet

/-- Source: `sumBy(items, key)`; `key` reads the field. -/
def sumBy {α : Type} (items : List α) (key : α → JsNumber) : JsNumber :=
  items.foldl (fun sum item => if !(key item).isFinite then sum else sum.add (key item))
    (.finite 0)

/-- Source: `tolerance` in `runSystemCheck`, the double nearest to 0.01. -/
def tolerance : JsNumber := toDouble (1 / 100)

/-- Source: the keys of `rowTotals`, in insertion order, each with `rowTotals[key]` and
`computed.totals[key]`. -/
def rowTotalsEntries (computed : Computed) : List (String × JsNumber × JsNumber) :=
  [("totalRevenue", roundCurrency (sumBy computed.sales (fun r => r.revenue)),
      computed.totals.totalRevenue),
   ("totalProductionCost", roundCurrency (sumBy computed.sales (fun r => r.productionCost)),
      computed.totals.totalProductionCost),
   ("grossProfitTotal", roundCurrency (sumBy computed.sales (fun r => r.grossProfit)),
      computed.totals.grossProfitTotal),
   ("totalItemsSold", (sumBy computed.sales (fun r => r.qtySold)).round,
      computed.totals.totalItemsSold),
   ("totalItemsAvailable", (sumBy computed.products (fun r => r.stockAvailable)).round,
      computed.totals.totalItemsAvailable),
   ("totalStockValueCost",
      roundCurrency (sumBy computed.products (fun r => r.stockValueCost)),
      computed.totals.totalStockValueCost)]

/-- Source: the `mismatch` test of `runSystemCheck`. -/
def isMismatch (key : String) (expected actual : JsNumber) : Bool :=
  if CURRENCY_KEYS.contains key then ((expected.sub actual).abs).gt tolerance
  else expected.strictNe actual

/-- Source: the mismatch message of `runSystemCheck`. -/
def mismatchMsg (rt : Runtime) (key : String) (expected actual : JsNumber) : String :=
  "- " ++ key ++ " mismatch. Expected " ++ numberText rt expected ++ ", got " ++
    numberText rt actual ++ "."

/-- Source: the messages `runSystemCheck` collects before it adds the sentinel. -/
def checkMessages (rt : Runtime) (computed : Computed) : List String :=
  (((rowTotalsEntries computed).filter (fun e => isMismatch e.1 e.2.1 e.2.2)).map
      (fun e => mismatchMsg rt e.1 e.2.1 e.2.2)) ++
  (if computed.products.any (fun product => product.stockAvailable.lt (.finite 0))
   then ["- Negative stock available detected."] else []) ++
  (if !computed.validation.isValid
   then computed.validation.errors.map (fun error => "- " ++ error) else [])

/-- Source: `runSystemCheck()`; the argument is the result of `getActiveSheet()`. -/
def runSystemCheck (rt : Runtime) (active : Option Sheet) : CheckResult :=
  let computed := recalcActiveSheet rt active
  let messages := checkMessages rt computed
  let messages := if messages.length = 0 then messages ++ [allClearMsg] else messages
  { passed := messages.length = 1 && messages.head? = some allClearMsg
    messages := messages }

end Binary64

namespace Binary64

/-- What a handler leaves behind: the active sheet, whether it reached
`saveBakeryApp()`, and the message and type it passed to `showStatus`, if any. -/
structure Outcome where
  sheet : Sheet
  saved : Bool
  status : Option (String × String)
  deriving DecidableEq

/-- A handler path that shows an error and returns before any write. -/
def rejected (sheet : Sheet) (message : String) : Outcome :=
  ⟨sheet, false, some (message, "error")⟩

/-- A handler path that returns before any write without a message. -/
def ignored (sheet : Sheet) : Outcome := ⟨sheet, false, none⟩

/-- Source: `onAddProduct(event)`; the arguments are the active sheet, the value of the
name input and `Number(...)` of the three numeric inputs. -/
def onAddProduct (rt : Runtime) (sheet : Sheet) (nameValue : String)
    (unitCost unitPrice openingStock : JsNumber) : Outcome :=
  let name := jsTrim nameValue
  if name = "" then rejected sheet "Product name is required."
  else if sheet.products.any
      (fun product => normalizeName rt product.name = normalizeName rt name) then
    rejected sheet "Product names must be unique within a sheet."
  else if !isNonNegativeNumber unitCost || !isNonNegativeNumber unitPrice then
    rejected sheet "Unit cost and unit price must be numbers >= 0."
  else if !openingStock.isInteger || openingStock.lt (.finite 0) then
    rejected sheet "Opening stock must be an integer >= 0."
  else
    { sheet :=
        { sheet with
          products := sheet.products ++
            [{ name := name
               unitCost := roundCurrency unitCost
               unitPrice := roundCurrency unitPrice
               openingStock := openingStock
               stockOut := .finite 0 }] }
      saved := true
      status := some ("Product \"" ++ name ++ "\" added.", "success") }

/-- Source: the `field === "name"` branch of `onInventoryChange`. -/
def renameProduct (rt : Runtime) (sheet : Sheet) (index : Nat) (product : Product)
    (value : String) : Outcome :=
  let oldName := product.name
  let nextName := jsTrim value
  if nextName = "" then rejected sheet "Product name cannot be empty."
  else if someIdx
      (fun (item : Product) i => decide (i ≠ index) &&
        decide (normalizeName rt item.name = normalizeName rt nextName))
      0 sheet.products then
    rejected sheet "Duplicate product name is not allowed."
  else
    { sheet :=
        { products := sheet.products.set index { product with name := nextName }
          sales :=
            if normalizeName rt oldName ≠ normalizeName rt nextName then
              sheet.sales.map (fun sale =>
                if normalizeName rt sale.itemName = normalizeName rt oldName
                then { sale with itemName := nextName } else sale)
            else sheet.sales }
      saved := true
      status := some ("Renamed \"" ++ oldName ++ "\" to \"" ++ nextName ++ "\".", "success") }

/-- Source: `onInventoryChange(event)`; the arguments are the active sheet, the row
index and field of the edited input, its value and `Number(value)`. -/
def onInventoryChange (rt : Runtime) (sheet : Sheet) (index : Nat) (field : String)
    (value : String) (numericValue : JsNumber) : Outcome :=
  if field = "" then ignored sheet
  else
    match sheet.products.get? index with
    | none => ignored sheet
    | some product =>
      if field = "name" then renameProduct rt sheet index product value
      else if !numericValue.isFinite || numericValue.lt (.finite 0) then
        rejected sheet "Values must be valid numbers and cannot be negative."
      else if field = "openingStock" then
        if !numericValue.isInteger then
          rejected sheet "Opening stock must be an integer value."
        else if numericValue.lt product.stockOut then
          rejected sheet "Opening stock cannot be lower than stock out."
        else
          { sheet :=
              { sheet with
                products :=
                  sheet.products.set index { product with openingStock := numericValue } }
            saved := true
            status := none }
      else if field = "unitCost" then
        { sheet :=
            { sheet with
              products := sheet.products.set index
                { product with unitCost := roundCurrency numericValue } }
          saved := true
          status := none }
      else if field = "unitPrice" then
        { sheet :=
            { sheet with
              products := sheet.products.set index
                { product with unitPrice := roundCurrency numericValue } }
          saved := true
          status := none }
      else ignored sheet

/-- Source: `onInventoryActionClick(event)` on a delete button; the arguments are the
active sheet and the row index of the button. -/
def onInventoryActionClick (rt : Runtime) (sheet : Sheet) (index : Nat) : Outcome :=
  match sheet.products.get? index with
  | none => ignored sheet
  | some product =>
    if sheet.sales.any
        (fun sale => normalizeName rt sale.itemName = normalizeName rt product.name) then
      rejected sheet "Delete related sales first before deleting this product."
    else
      { sheet := { sheet with products := sheet.products.eraseIdx index }
        saved := true
        status := some ("Product \"" ++ product.name ++ "\" deleted.", "success") }

/-- Source: `onAddSale(event)`; the arguments are the active sheet, the identifier
`createId()` returns, the values of the date and item inputs and `Number(...)` of the
quantity input. -/
def onAddSale (rt : Runtime) (sheet : Sheet) (newId dateValue itemValue : String)
    (qtySold : JsNumber) : Outcome :=
  let dateISO := if dateValue = "" then rt.today else dateValue
  let itemName := jsTrim itemValue
  if !isISODate rt dateISO then rejected sheet "Please choose a valid sale date."
  else if itemName = "" then rejected sheet "Please select an item."
  else if !qtySold.isInteger || qtySold.lt (.finite 1) then
    rejected sheet "Quantity sold must be an integer >= 1."
  else
    let computed := recalcActiveSheet rt (some sheet)
    match computed.products.find?
        (fun product => normalizeName rt product.name = normalizeName rt itemName) with
    | none => rejected sheet "Selected product no longer exists."
    | some computedProduct =>
      if qtySold.gt computedProduct.stockAvailable then
        rejected sheet
          ("Cannot add sale. " ++ computedProduct.name ++ " has only " ++
            numberText rt computedProduct.stockAvailable ++ " in stock.")
      else
        match sheet.products.find?
            (fun p => normalizeName rt p.name = normalizeName rt itemName) with
        | none => rejected sheet "Product lookup failed while adding sale."
        | some product =>
          let revenue := roundCurrency (qtySold.mul product.unitPrice)
          let productionCost := roundCurrency (qtySold.mul product.unitCost)
          let grossProfit := roundCurrency (revenue.sub productionCost)
          { sheet :=
              { products :=
                  updateFound
                    (fun p => normalizeName rt p.name = normalizeName rt itemName)
                    (fun p => { p with stockOut := p.stockOut.add qtySold })
                    sheet.products
                sales := sheet.sales ++
                  [{ id := newId
                     dateISO := dateISO
                     itemName := product.name
                     qtySold := qtySold
                     revenue := revenue
                     productionCost := productionCost
                     grossProfit := grossProfit }] }
            saved := true
            status := some
              ("Sale logged for " ++ numberText rt qtySold ++ " x " ++
                product.name ++ ".", "success") }

/-- Source: `onSalesActionClick(event)` on a delete button; the arguments are the active
sheet and the sale identifier carried by the button. -/
def onSalesActionClick (rt : Runtime) (sheet : Sheet) (saleId : String) : Outcome :=
  if saleId = "" then ignored sheet
  else
    match findIndex (fun sale : Sale => sale.id = saleId) sheet.sales with
    | none => ignored sheet
    | some saleIndex =>
      match sheet.sales.get? saleIndex with
      | none => ignored sheet
      | some sale =>
        match sheet.products.find?
            (fun item => normalizeName rt item.name = normalizeName rt sale.itemName) with
        | none =>
          rejected sheet "Sale cannot be deleted because the related product is missing."
        | some product =>
          if (product.stockOut.sub sale.qtySold).lt (.finite 0) then
            rejected sheet "Sale cannot be deleted due to invalid stock rollback."
          else
            { sheet :=
                { products :=
                    updateFound
                      (fun item => normalizeName rt item.name = normalizeName rt sale.itemName)
                      (fun item => { item with stockOut := item.stockOut.sub sale.qtySold })
                      sheet.products
                  sales := sheet.sales.eraseIdx saleIndex }
              saved := true
              status := some ("Sale deleted and stock rolled back.", "success") }

/-- Source: the `products: []` and `sales: []` of a sheet made by `createSheet`. -/
def emptySheet : Sheet := { products := [], sales := [] }

/-- One use of a mutation entry point, with the input it receives. -/
inductive Operation where
  | addProduct (nameValue : String) (unitCost unitPrice openingStock : JsNumber)
  | editProduct (index : Nat) (field value : String) (numericValue : JsNumber)
  | deleteProduct (index : Nat)
  | addSale (newId dateValue itemValue : String) (qtySold : JsNumber)
  | deleteSale (saleId : String)

/-- The sheet a mutation entry point leaves behind, accepted or not. -/
def applyOperation (rt : Runtime) (sheet : Sheet) : Operation → Sheet
  | .addProduct nameValue unitCost unitPrice openingStock =>
    (onAddProduct rt sheet nameValue unitCost unitPrice openingStock).sheet
  | .editProduct index field value numericValue =>
    (onInventoryChange rt sheet index field value numericValue).sheet
  | .deleteProduct index => (onInventoryActionClick rt sheet index).sheet
  | .addSale newId dateValue itemValue qtySold =>
    (onAddSale rt sheet newId dateValue itemValue qtySold).sheet
  | .deleteSale saleId => (onSalesActionClick rt sheet saleId).sheet

/-- The sheet reached from the empty sheet by a sequence of operations. -/
def runOperations (rt : Runtime) (operations : List Operation) : Sheet :=
  operations.foldl (applyOperation rt) emptySheet

end Binary64

/-- The operations of the overflow at 2^53: a product with opening stock 2^54, a sale of
2^53, a sale of 1 and the deletion of that second sale. -/
def beyondSafeInteger : List Binary64.Operation :=
  [.addProduct "Bread" (.finite 100) (.finite 150) (.finite 18014398509481984),
   .addSale "sale-1" "2024-05-01" "Bread" (.finite 9007199254740992),
   .addSale "sale-2" "2024-05-02" "Bread" (.finite 1),
   .deleteSale "sale-2"]

namespace Binary64

/-! ## Binary64: notions used to state the properties -/

/-- Source: `Number.MAX_SAFE_INTEGER + 1`, 2⁵³: up to it every integer is a double. -/
def safeIntegerBound : ℤ := 9007199254740992

/-- The normalized names of the products, in order. -/
def productKeys (rt : Runtime) (products : List Product) : List String :=
  products.map (fun p => normalizeName rt p.name)

/-- The exact sum of the stored quantities of the sales whose item name normalizes to
`key` (a quantity that is not finite counts as 0). -/
def soldFor (rt : Runtime) (sales : List Sale) (key : String) : ℚ :=
  ((sales.filter (fun sale => normalizeName rt sale.itemName = key)).map
    (fun sale => sale.qtySold.value)).sum

/-- The opening stock an operation enters, if it enters one, is at most 2⁵³. -/
def Operation.openingWithinSafe : Operation → Bool
  | .addProduct _ _ _ openingStock => decide (openingStock.value ≤ safeIntegerBound)
  | .editProduct _ field _ numericValue =>
    decide (field = "openingStock" → numericValue.value ≤ safeIntegerBound)
  | _ => true

/-- The bookkeeping the handlers maintain while no opening stock exceeds 2⁵³: products
whose trimmed name is not empty, with distinct normalized names, every sale under the
name of a product with an integer quantity of at least 1, integer stock with
`0 ≤ stockOut ≤ openingStock ≤ 2⁵³`, and each `stockOut` equal to the quantity sold under
the product's name. -/
structure Consistent (rt : Runtime) (sheet : Sheet) : Prop where
  names : ∀ p ∈ sheet.products, jsTrim p.name ≠ ""
  keys_nodup : (productKeys rt sheet.products).Nodup
  matched : ∀ sale ∈ sheet.sales,
    normalizeName rt sale.itemName ∈ productKeys rt sheet.products
  counts : ∀ sale ∈ sheet.sales, ∃ n : ℤ, sale.qtySold = .finite n ∧ 1 ≤ n
  stock : ∀ p ∈ sheet.products, ∃ s o : ℤ,
    p.stockOut = .finite s ∧ p.openingStock = .finite o ∧ 0 ≤ s ∧ s ≤ o ∧
      o ≤ safeIntegerBound
  balance : ∀ p ∈ sheet.products,
    p.stockOut.value = soldFor rt sheet.sales (normalizeName rt p.name)

/-- Every product's `stockOut` is the exact sum of the quantities of the sales under its
name. -/
def stockOutBalanced (rt : Runtime) (sheet : Sheet) : Bool :=
  sheet.products.all (fun p =>
    decide (p.stockOut = .finite (soldFor rt sheet.sales (normalizeName rt p.name))))

end Binary64

/-- The number is an integer or is not finite. -/
def JsNumber.IntegerOrNotFinite (x : JsNumber) : Prop :=
  ∀ q : ℚ, x = .finite q → ∃ z : ℤ, q = (z : ℚ)

/-- A valid sheet with one large sale: Gold sold once at 95706229311955.97 (the double
nearest to it). -/
def largeRevenueSheet : Binary64.Sheet :=
  { products := [{ name := "Gold", unitCost := .finite 0,
                   unitPrice := .finite (3062599337982591 / 32),
                   openingStock := .finite 1, stockOut := .finite 1 }]
    sales := [{ id := "sale-1", dateISO := "2024-05-01", itemName := "Gold",
                qtySold := .finite 1,
                revenue := .finite (3062599337982591 / 32),
                productionCost := .finite 0,
                grossProfit := .finite (3062599337982591 / 32) }] }

/-! ## The normalizer, with the conversions that can throw -/

deriving instance DecidableEq for Except

/-- The object has an own property with this name. -/
def hasOwnProperty (fields : List (String × JsValue)) (key : String) : Bool :=
  fields.any (fun field => field.1 = key)

mutual

/-- Source: `ToString(value)`, as `Array.prototype.join` applies it to an element.  An
object converts through `toString`, then `valueOf`: an own `toString` property of a value
made of data is not callable and the inherited `valueOf` returns the object itself, so the
conversion throws a `TypeError`; without an own `toString` the inherited one returns
`"[object Object]"`. -/
def textOf (rt : Runtime) : JsValue → Except String String
  | .undefined => .ok "undefined"
  | .null => .ok "null"
  | .bool b => .ok (if b then "true" else "false")
  | .number n => .ok (numberText rt n)
  | .string s => .ok s
  | .array items => joinText rt items
  | .object fields =>
    if hasOwnProperty fields "toString" then .error "TypeError" else .ok "[object Object]"

/-- Source: `Array.prototype.join` with the separator `","`, which is what
`Array.prototype.toString` calls: `undefined` and `null` elements give the empty string. -/
def joinText (rt : Runtime) : List JsValue → Except String String
  | [] => .ok ""
  | [.undefined] => .ok ""
  | [.null] => .ok ""
  | [x] => textOf rt x
  | .undefined :: rest => (joinText rt rest).map (fun tail => "," ++ tail)
  | .null :: rest => (joinText rt rest).map (fun tail => "," ++ tail)
  | x :: rest =>
    match textOf rt x with
    | .error e => .error e
    | .ok head => (joinText rt rest).map (fun tail => head ++ "," ++ tail)

end

/-- Source: `Number(value)`.  An array converts through `Array.prototype.toString`, that
is `join`, and the string is then converted; an object converts through `valueOf`, then
`toString`: with an own `toString` property (not callable) it throws a `TypeError`,
without one it is `Number("[object Object]")`, which is `NaN`. -/
def numberOf (rt : Runtime) : JsValue → Except String JsNumber
  | .undefined => .ok .nan
  | .null => .ok (.finite 0)
  | .bool b => .ok (.finite (if b then 1 else 0))
  | .number n => .ok n
  | .string s => .ok (rt.stringToNumber s)
  | .array items => (joinText rt items).map rt.stringToNumber
  | .object fields =>
    if hasOwnProperty fields "toString" then .error "TypeError" else .ok .nan

namespace Binary64

/-- Source: `toNumberOrZero(value)` on any value. -/
def toNumberOrZeroOf (rt : Runtime) (value : JsValue) : Except String JsNumber :=
  (numberOf rt value).map toNumberOrZero

/-- Source: `toIntegerOrZero(value)` on any value. -/
def toIntegerOrZeroOf (rt : Runtime) (value : JsValue) : Except String JsNumber :=
  (numberOf rt value).map toIntegerOrZero

/-- Source: `normalizeProduct(product)`; `none` stands for `null` and an error for a thrown
exception.  The properties are evaluated in the order of the object literal. -/
def normalizeProduct (rt : Runtime) (product : JsValue) : Except String (Option Product) :=
  if !product.isTruthy || product.typeOf ≠ "object" then .ok none
  else
    match toNumberOrZeroOf rt (product.get "unitCost") with
    | .error e => .error e
    | .ok unitCost =>
      match toNumberOrZeroOf rt (product.get "unitPrice") with
      | .error e => .error e
      | .ok unitPrice =>
        match toIntegerOrZeroOf rt (product.get "openingStock") with
        | .error e => .error e
        | .ok openingStock =>
          match toIntegerOrZeroOf rt (product.get "stockOut") with
          | .error e => .error e
          | .ok stockOut =>
            .ok (some
              { name := trimmedStringOrEmpty (product.get "name")
                unitCost := unitCost
                unitPrice := unitPrice
                openingStock := openingStock
                stockOut := stockOut })

/-- Source: `normalizeSale(sale)`; `none` stands for `null`, an error for a thrown
exception, and `newId` is what `createId()` returns. -/
def normalizeSale (rt : Runtime) (newId : String) (sale : JsValue) :
    Except String (Option Sale) :=
  if !sale.isTruthy || sale.typeOf ≠ "object" then .ok none
  else
    match toIntegerOrZeroOf rt (sale.get "qtySold") with
    | .error e => .error e
    | .ok qtySold =>
      match toNumberOrZeroOf rt (sale.get "revenue") with
      | .error e => .error e
      | .ok revenue =>
        match toNumberOrZeroOf rt (sale.get "productionCost") with
        | .error e => .error e
        | .ok productionCost =>
          match toNumberOrZeroOf rt (sale.get "grossProfit") with
          | .error e => .error e
          | .ok grossProfit =>
            .ok (some
              { id :=
                  match sale.get "id" with
                  | .string s => if jsTrim s ≠ "" then s else newId
                  | _ => newId
                dateISO :=
                  match sale.get "dateISO" with
                  | .string s => if isISODate rt s then s else rt.today
                  | _ => rt.today
                itemName := trimmedStringOrEmpty (sale.get "itemName")
                qtySold := qtySold
                revenue := revenue
                productionCost := productionCost
                grossProfit := grossProfit })

/-- The four numeric properties `normalizeProduct` converts, in order. -/
def productNumberKeys : List String := ["unitCost", "unitPrice", "openingStock", "stockOut"]

/-- The four numeric properties `normalizeSale` converts, in order. -/
def saleNumberKeys : List String := ["qtySold", "revenue", "productionCost", "grossProfit"]

/-- `Number(...)` throws on one of the listed properties of the value. -/
def conversionThrows (rt : Runtime) (value : JsValue) (keys : List String) : Bool :=
  keys.any (fun key => !(numberOf rt (value.get key)).isOk)

end Binary64

namespace Binary64

/-! ## Binary64: notions used to state validity -/

/-- The messages the first loop pushes for the sales `l`, the first one at index `i`. -/
def saleErrorsFrom (rt : Runtime) : Nat → List Sale → List String
  | _, [] => []
  | i, sale :: rest =>
    saleFieldErrors i (deriveSale rt sale).itemName (deriveSale rt sale).qtySold
      (deriveSale rt sale).revenue (deriveSale rt sale).productionCost
      (deriveSale rt sale).grossProfit ++ saleErrorsFrom rt (i + 1) rest

/-- The messages the second loop pushes for one product at index `i`, given the two
maps at that moment. -/
def productErrorsAt (rt : Runtime) (sold : JsMap JsNumber) (nameIndex : JsMap Nat) (i : Nat)
    (p : Product) : List String :=
  productNameErrors rt nameIndex i (deriveProduct p).name ++
  productFieldErrors i (deriveProduct p)
    (getOrZero sold (normalizeName rt (deriveProduct p).name))

/-- The name index after the second loop has gone through the products `l`, the first
one at index `i`, from the index `m`. -/
def nameIndexFrom (rt : Runtime) : JsMap Nat → Nat → List Product → JsMap Nat
  | m, _, [] => m
  | m, i, p :: rest => nameIndexFrom rt (indexName rt m i (deriveProduct p).name) (i + 1) rest

/-- The messages the second loop pushes for the products `l`, the first one at index
`i`, from the name index `m`. -/
def productErrorsFrom (rt : Runtime) (sold : JsMap JsNumber) :
    JsMap Nat → Nat → List Product → List String
  | _, _, [] => []
  | m, i, p :: rest =>
    productErrorsAt rt sold m i p ++
      productErrorsFrom rt sold (indexName rt m i (deriveProduct p).name) (i + 1) rest

/-- The messages the third loop pushes for the derived sales `l`, the first one at index
`i`. -/
def orphanErrorsFrom (rt : Runtime) (nameIndex : JsMap Nat) :
    Nat → List DerivedSale → List String
  | _, [] => []
  | i, row :: rest =>
    (if !nameIndex.has (normalizeName rt row.itemName) then [orphanMsg i row.itemName]
     else []) ++ orphanErrorsFrom rt nameIndex (i + 1) rest

/-- The running quantity the first loop keeps for a name, from `start`: at each sale with
that name, `(map.get(name) || 0) + qtySold`, in the order of the sales. -/
def soldFrom (rt : Runtime) (start : JsNumber) (sales : List Sale) (key : String) :
    JsNumber :=
  (sales.filter (fun sale => normalizeName rt sale.itemName = key)).foldl
    (fun acc sale => acc.orZero.add (toIntegerOrZero sale.qtySold)) start

/-- The quantity the second loop reads for a non-empty name: `map.get(name) || 0` after
the first loop. -/
def soldDouble (rt : Runtime) (sales : List Sale) (key : String) : JsNumber :=
  (soldFrom rt (.finite 0) sales key).orZero

/-- The sale passes the field checks of the first loop. -/
def SaleOk (sale : Sale) : Prop :=
  jsTrim sale.itemName ≠ "" ∧ (toIntegerOrZero sale.qtySold).lt (.finite 1) = false ∧
    (toNumberOrZero sale.revenue).lt (.finite 0) = false ∧
    (toNumberOrZero sale.productionCost).lt (.finite 0) = false

/-- The product passes the checks of the second loop other than the duplicate check. -/
def ProductOk (rt : Runtime) (sales : List Sale) (p : Product) : Prop :=
  normalizeName rt p.name ≠ "" ∧ (toNumberOrZero p.unitCost).lt (.finite 0) = false ∧
    (toNumberOrZero p.unitPrice).lt (.finite 0) = false ∧
    (toIntegerOrZero p.openingStock).lt (.finite 0) = false ∧
    (toIntegerOrZero p.stockOut).lt (.finite 0) = false ∧
    (deriveProduct p).stockAvailable.lt (.finite 0) = false ∧
    (toIntegerOrZero p.stockOut).lt (soldDouble rt sales (normalizeName rt p.name)) = false

/-- The conditions under which the three loops of `recalcActiveSheet` push no message. -/
structure ValidRows (rt : Runtime) (sheet : Sheet) : Prop where
  sales_ok : ∀ sale ∈ sheet.sales, SaleOk sale
  products_ok : ∀ p ∈ sheet.products, ProductOk rt sheet.sales p
  keys_nodup : (productKeys rt sheet.products).Nodup
  matched : ∀ sale ∈ sheet.sales,
    normalizeName rt sale.itemName ∈ productKeys rt sheet.products

/-- The stored counts are integers, as `normalizeProduct`, `normalizeSale` and the
handlers leave them, no opening stock exceeds 2^53 and the quantities sold under a
product's name add up to at most 2^53. -/
structure SafeCounts (rt : Runtime) (sheet : Sheet) : Prop where
  stockOut_int : ∀ p ∈ sheet.products, p.stockOut.isInteger = true
  opening_int : ∀ p ∈ sheet.products, p.openingStock.isInteger = true
  opening_safe : ∀ p ∈ sheet.products, p.openingStock.value ≤ safeIntegerBound
  qty_int : ∀ sale ∈ sheet.sales, sale.qtySold.isInteger = true
  sold_safe : ∀ p ∈ sheet.products,
    soldFor rt sheet.sales (normalizeName rt p.name) ≤ safeIntegerBound

end Binary64

/-- The number is not a negative finite number. -/
def JsNumber.NotNegative (x : JsNumber) : Prop := ∀ q : ℚ, x = .finite q → 0 ≤ q

namespace Binary64

/-- The rows are valid and the counts are exact integers within the safe range: every
sale has a name, an integer quantity of at least 1 and no negative money; every product
has a non-empty normalized name, no negative money, integer stock with
`0 ≤ stockOut ≤ openingStock ≤ 2^53` and at most `stockOut` sold under its name; names are
distinct and every sale is under the name of a product. -/
structure Sound (rt : Runtime) (sheet : Sheet) : Prop where
  keys_nodup : (productKeys rt sheet.products).Nodup
  matched : ∀ sale ∈ sheet.sales,
    normalizeName rt sale.itemName ∈ productKeys rt sheet.products
  sale_ok : ∀ sale ∈ sheet.sales,
    jsTrim sale.itemName ≠ "" ∧ (∃ z : ℤ, sale.qtySold = .finite z ∧ 1 ≤ z) ∧
      sale.revenue.NotNegative ∧ sale.productionCost.NotNegative
  product_ok : ∀ p ∈ sheet.products,
    normalizeName rt p.name ≠ "" ∧ p.unitCost.NotNegative ∧ p.unitPrice.NotNegative ∧
      ∃ s o : ℤ, p.stockOut = .finite s ∧ p.openingStock = .finite o ∧ 0 ≤ s ∧ s ≤ o ∧
        o ≤ safeIntegerBound ∧ soldFor rt sheet.sales (normalizeName rt p.name) ≤ s

end Binary64

/-- The operations that bring the revenue total to its limit: Gold at a unit price of
the double nearest to 1e306, and one sale of a single unit. -/
def goldOperations : List Binary64.Operation :=
  [.addProduct "Gold" (.finite 0) (toDouble (10 ^ 306)) (.finite 10),
   .addSale "sale-1" "2024-05-01" "Gold" (.finite 1)]

/-! ## Sample data -/


/-- A runtime whose lower-casing maps the ASCII letters only. -/
def asciiRuntime : Runtime :=
  { toLowerCase := fun s => ⟨s.data.map Char.toLower⟩
    dateParses := fun _ => true
    today := "2024-01-01"
    numberToString := fun q => toString q
    stringToNumber := fun s =>
      if (jsTrim s).data.all isDigitChar then
        .finite ((jsTrim s).data.foldl (fun n c => 10 * n + (c.toNat - 48)) 0 : Nat)
      else .nan
    objectToNumber := fun value =>
      match value with
      | .array [] => .finite 0
      | _ => .nan
    nowISO := "2024-01-01T00:00:00.000Z" }

/-- The sheet with the single product Bread (cost 100, price 150, opening stock 20) and
no sales. -/
def breadSheet : Sheet :=
  { products := [{ name := "Bread", unitCost := 100, unitPrice := 150, openingStock := 20,
                   stockOut := 0 }]
    sales := [] }

/-- A sequence of operations within the safe range: two products, sales, a rename,
deletions and rejected inputs. -/
def safeOperations : List Binary64.Operation :=
  [.addProduct " Bread " (.finite 100) (.finite 150) (.finite 20),
   .addProduct "Scone" (.finite 50) (.finite 80) (.finite 10),
   .addProduct "bread" (.finite 1) (.finite 2) (.finite 3),
   .addSale "sale-1" "2024-05-01" "BREAD" (.finite 5),
   .addSale "sale-2" "2024-05-02" "scone" (.finite 4),
   .addSale "sale-3" "2024-05-03" "Bread" (.finite 999),
   .editProduct 0 "name" "Loaf" .nan,
   .editProduct 0 "openingStock" "30" (.finite 30),
   .addSale "sale-4" "2024-05-04" "loaf" (.finite 2),
   .deleteSale "sale-2",
   .deleteProduct 0,
   .deleteProduct 1]

/-- The Bread sheet over doubles: one product, no sales. -/
def breadSheet64 : Binary64.Sheet :=
  { products := [{ name := "Bread", unitCost := .finite 100, unitPrice := .finite 150,
                   openingStock := .finite 20, stockOut := .finite 0 }]
    sales := [] }

/-- A sheet at the edge of the safe range: Bread with opening stock 2^54 and 2^53 sold in
one sale. -/
def saturatedSheet : Binary64.Sheet :=
  { products := [{ name := "Bread", unitCost := .finite 100, unitPrice := .finite 150,
                   openingStock := .finite 18014398509481984,
                   stockOut := .finite 9007199254740992 }]
    sales := [{ id := "sale-1", dateISO := "2024-05-01", itemName := "Bread",
                qtySold := .finite 9007199254740992,
                revenue := .finite 1351079888211148800,
                productionCost := .finite 900719925474099200,
                grossProfit := .finite 450359962737049600 }] }

/-! ## Numbers: basic facts -/

theorem numberIsInteger_intCast (n : ℤ) : numberIsInteger (n : ℚ) = true := by
  simp [numberIsInteger]

theorem numberIsInteger_iff (x : ℚ) : numberIsInteger x = true ↔ ∃ n : ℤ, x = n := by
  constructor
  · intro h
    refine ⟨x.num, ?_⟩
    have hd : x.den = 1 := by simpa [numberIsInteger] using h
    exact (Rat.den_eq_one_iff x).mp hd |>.symm
  · rintro ⟨n, rfl⟩
    exact numberIsInteger_intCast n

theorem mathRound_intCast (n : ℤ) : mathRound (n : ℚ) = n := by
  unfold mathRound
  have : ⌊(n : ℚ) + 1 / 2⌋ = n := by
    rw [Int.floor_eq_iff]
    constructor <;> norm_num
  rw [this]

/-- The integer `Math.trunc` returns. -/
theorem mathTrunc_eq_intCast (x : ℚ) : ∃ n : ℤ, mathTrunc x = n := by
  unfold mathTrunc
  split
  · exact ⟨_, rfl⟩
  · exact ⟨_, rfl⟩

theorem toIntegerOrZero_eq (x : ℚ) : toIntegerOrZero x = mathTrunc x := by
  simp [toIntegerOrZero, numberIsFinite]

theorem toNumberOrZero_eq (x : ℚ) : toNumberOrZero x = x := by
  simp [toNumberOrZero, numberIsFinite]


/-! ## The loops of `recalcActiveSheet`, field by field -/

theorem saleLoop_sales (rt : Runtime) (l : List Sale) : ∀ (i : Nat) (st : Calc),
    (forEachIdx (saleStep rt) i st l).sales = st.sales ++ l.map (deriveSale rt) := by
  induction l with
  | nil => intro i st; simp [forEachIdx]
  | cons x xs ih => intro i st; simp [forEachIdx, ih, saleStep]

theorem saleLoop_products (rt : Runtime) (l : List Sale) : ∀ (i : Nat) (st : Calc),
    (forEachIdx (saleStep rt) i st l).products = st.products := by
  induction l with
  | nil => intro i st; simp [forEachIdx]
  | cons x xs ih => intro i st; simp [forEachIdx, ih, saleStep]

theorem saleLoop_nameIndex (rt : Runtime) (l : List Sale) : ∀ (i : Nat) (st : Calc),
    (forEachIdx (saleStep rt) i st l).nameIndex = st.nameIndex := by
  induction l with
  | nil => intro i st; simp [forEachIdx]
  | cons x xs ih => intro i st; simp [forEachIdx, ih, saleStep]

theorem saleLoop_totals (rt : Runtime) (l : List Sale) : ∀ (i : Nat) (st : Calc),
    (forEachIdx (saleStep rt) i st l).totals =
      { totalItemsAvailable := st.totals.totalItemsAvailable
        totalItemsSold :=
          st.totals.totalItemsSold + ((l.map (deriveSale rt)).map (fun r => r.qtySold)).sum
        totalRevenue :=
          st.totals.totalRevenue + ((l.map (deriveSale rt)).map (fun r => r.revenue)).sum
        totalProductionCost := st.totals.totalProductionCost +
          ((l.map (deriveSale rt)).map (fun r => r.productionCost)).sum
        grossProfitTotal := st.totals.grossProfitTotal +
          ((l.map (deriveSale rt)).map (fun r => r.grossProfit)).sum
        totalStockValueCost := st.totals.totalStockValueCost } := by
  induction l with
  | nil => intro i st; simp [forEachIdx]
  | cons x xs ih =>
    intro i st
    simp only [forEachIdx, ih, saleStep, List.map_cons, List.sum_cons, add_assoc]

theorem productLoop_sales (rt : Runtime) (l : List Product) : ∀ (i : Nat) (st : Calc),
    (forEachIdx (productStep rt) i st l).sales = st.sales := by
  induction l with
  | nil => intro i st; simp [forEachIdx]
  | cons x xs ih => intro i st; simp [forEachIdx, ih, productStep]

theorem productLoop_soldQtyByName (rt : Runtime) (l : List Product) :
    ∀ (i : Nat) (st : Calc),
    (forEachIdx (productStep rt) i st l).soldQtyByName = st.soldQtyByName := by
  induction l with
  | nil => intro i st; simp [forEachIdx]
  | cons x xs ih => intro i st; simp [forEachIdx, ih, productStep]

theorem productLoop_products (rt : Runtime) (l : List Product) : ∀ (i : Nat) (st : Calc),
    (forEachIdx (productStep rt) i st l).products = st.products ++ l.map deriveProduct := by
  induction l with
  | nil => intro i st; simp [forEachIdx]
  | cons x xs ih => intro i st; simp [forEachIdx, ih, productStep]

theorem productLoop_totals (rt : Runtime) (l : List Product) : ∀ (i : Nat) (st : Calc),
    (forEachIdx (productStep rt) i st l).totals =
      { totalItemsAvailable := st.totals.totalItemsAvailable +
          ((l.map deriveProduct).map (fun r => r.stockAvailable)).sum
        totalItemsSold := st.totals.totalItemsSold
        totalRevenue := st.totals.totalRevenue
        totalProductionCost := st.totals.totalProductionCost
        grossProfitTotal := st.totals.grossProfitTotal
        totalStockValueCost := st.totals.totalStockValueCost +
          ((l.map deriveProduct).map (fun r => r.stockValueCost)).sum } := by
  induction l with
  | nil => intro i st; simp [forEachIdx]
  | cons x xs ih =>
    intro i st
    simp only [forEachIdx, ih, productStep, List.map_cons, List.sum_cons, add_assoc]

theorem recalcSheet_sales (rt : Runtime) (sheet : Sheet) :
    (recalcSheet rt sheet).sales = sheet.sales.map (deriveSale rt) := by
  simp [recalcSheet, afterProducts, afterSales, productLoop_sales, saleLoop_sales, Calc.init]

theorem recalcSheet_products (rt : Runtime) (sheet : Sheet) :
    (recalcSheet rt sheet).products = sheet.products.map deriveProduct := by
  simp [recalcSheet, afterProducts, afterSales, productLoop_products, saleLoop_products,
    Calc.init]

/-- The totals before rounding: the left-to-right sums of the derived rows. -/
theorem afterProducts_totals (rt : Runtime) (sheet : Sheet) :
    (afterProducts rt sheet).totals =
      { totalItemsAvailable :=
          ((sheet.products.map deriveProduct).map (fun r => r.stockAvailable)).sum
        totalItemsSold := ((sheet.sales.map (deriveSale rt)).map (fun r => r.qtySold)).sum
        totalRevenue := ((sheet.sales.map (deriveSale rt)).map (fun r => r.revenue)).sum
        totalProductionCost :=
          ((sheet.sales.map (deriveSale rt)).map (fun r => r.productionCost)).sum
        grossProfitTotal :=
          ((sheet.sales.map (deriveSale rt)).map (fun r => r.grossProfit)).sum
        totalStockValueCost :=
          ((sheet.products.map deriveProduct).map (fun r => r.stockValueCost)).sum } := by
  simp [afterProducts, afterSales, productLoop_totals, saleLoop_totals, Calc.init,
    emptyTotals]

theorem recalcSheet_totals (rt : Runtime) (sheet : Sheet) :
    (recalcSheet rt sheet).totals = roundTotals (afterProducts rt sheet).totals := by
  simp [recalcSheet]

theorem sum_qtySold_isInt (rt : Runtime) (l : List Sale) :
    ∃ n : ℤ, ((l.map (deriveSale rt)).map (fun r => r.qtySold)).sum = n := by
  induction l with
  | nil => exact ⟨0, by simp⟩
  | cons x xs ih =>
    obtain ⟨n, hn⟩ := ih
    obtain ⟨m, hm⟩ := mathTrunc_eq_intCast x.qtySold
    refine ⟨m + n, ?_⟩
    simp only [List.map_cons, List.sum_cons, hn, deriveSale, toIntegerOrZero_eq, hm]
    push_cast; ring


/-- C2: the derived product list has the length and order of the sheet's product list,
and the row at each index carries the coerced fields of the product at that index with
`stockAvailable = openingStock - stockOut` and `stockValueCost = stockAvailable *
unitCost` exactly. -/
theorem recalc_product_rows (rt : Runtime) (sheet : Sheet) :
    (recalcActiveSheet rt (some sheet)).products.length = sheet.products.length ∧
    ∀ i : Fin sheet.products.length,
      ∃ d : DerivedProduct,
        (recalcActiveSheet rt (some sheet)).products.get? i = some d ∧
        d.name = jsTrim (sheet.products.get i).name ∧
        d.unitCost = toNumberOrZero (sheet.products.get i).unitCost ∧
        d.unitPrice = toNumberOrZero (sheet.products.get i).unitPrice ∧
        d.openingStock = toIntegerOrZero (sheet.products.get i).openingStock ∧
        d.stockOut = toIntegerOrZero (sheet.products.get i).stockOut ∧
        d.stockAvailable = d.openingStock - d.stockOut ∧
        d.stockValueCost = d.stockAvailable * d.unitCost := by
  simp only [recalcActiveSheet, recalcSheet_products]
  refine ⟨by simp, ?_⟩
  intro i
  refine ⟨deriveProduct (sheet.products.get i), ?_, rfl, rfl, rfl, rfl, rfl, rfl, rfl⟩
  simp [List.getElem?_map]


/-! ## Strings: trimming -/

theorem dropWhile_left_of_append {α : Type} (p : α → Bool) (r t : List α)
    (h : (r ++ t).dropWhile p = r ++ t) : r.dropWhile p = r := by
  cases r with
  | nil => rfl
  | cons c r' =>
    by_cases hc : p c = true
    · exfalso
      have h1 : ((c :: r') ++ t).dropWhile p = (r' ++ t).dropWhile p := by
        simp [List.dropWhile_cons, hc]
      have h2 : ((r' ++ t).dropWhile p).length ≤ (r' ++ t).length :=
        (List.dropWhile_sublist p).length_le
      rw [← h1, h] at h2
      simp at h2
    · simp [List.dropWhile_cons, hc]

theorem trimChars_idem (l : List Char) : trimChars (trimChars l) = trimChars l := by
  have hr : ∀ a : List Char, trimEndChars a = a.rdropWhile isJsWhiteSpace := fun _ => rfl
  unfold trimChars
  rw [hr, hr]
  have hhead : ((l.dropWhile isJsWhiteSpace).rdropWhile isJsWhiteSpace).dropWhile
      isJsWhiteSpace = (l.dropWhile isJsWhiteSpace).rdropWhile isJsWhiteSpace := by
    obtain ⟨t, ht⟩ := List.rdropWhile_prefix isJsWhiteSpace (l.dropWhile isJsWhiteSpace)
    apply dropWhile_left_of_append isJsWhiteSpace _ t
    rw [ht, List.dropWhile_idempotent]
  rw [hhead, List.rdropWhile_idempotent]

theorem jsTrim_idem (s : String) : jsTrim (jsTrim s) = jsTrim s := by
  simp [jsTrim, trimChars_idem]

theorem normalizeName_jsTrim (rt : Runtime) (s : String) :
    normalizeName rt (jsTrim s) = normalizeName rt s := by
  simp [normalizeName, jsTrim_idem]

/-! ## Maps -/

theorem getOrZero_eq (m : JsMap ℚ) (k : String) : m.getOrZero k = (m k).getD 0 := by
  unfold JsMap.getOrZero
  cases h : m k with
  | none => simp
  | some v =>
    by_cases hv : v = 0
    · simp [hv]
    · simp [hv]

theorem getOrZero_empty (k : String) : (JsMap.empty : JsMap ℚ).getOrZero k = 0 := by
  simp [getOrZero_eq, JsMap.empty]

theorem getOrZero_set (m : JsMap ℚ) (key : String) (v : ℚ) (k : String) :
    (m.set key v).getOrZero k = if k = key then v else m.getOrZero k := by
  simp only [getOrZero_eq, JsMap.set]
  split <;> simp

theorem has_set {β : Type} (m : JsMap β) (key : String) (v : β) (k : String) :
    (m.set key v).has k = (decide (k = key) || m.has k) := by
  simp only [JsMap.has, JsMap.set]
  by_cases h : k = key <;> simp [h]

theorem has_empty {β : Type} (k : String) : (JsMap.empty : JsMap β).has k = false := by
  simp [JsMap.has, JsMap.empty]

/-! ## The loops of `recalcActiveSheet`: messages and maps -/

theorem saleLoop_errors (rt : Runtime) (l : List Sale) : ∀ (i : Nat) (st : Calc),
    (forEachIdx (saleStep rt) i st l).errors = st.errors ++ saleErrorsFrom rt i l := by
  induction l with
  | nil => intro i st; simp [forEachIdx, saleErrorsFrom]
  | cons x xs ih => intro i st; simp [forEachIdx, ih, saleStep, saleErrorsFrom]

theorem soldFor_nil (rt : Runtime) (k : String) : soldFor rt [] k = 0 := by
  simp [soldFor]

theorem soldFor_cons (rt : Runtime) (x : Sale) (xs : List Sale) (k : String) :
    soldFor rt (x :: xs) k =
      (if normalizeName rt x.itemName = k then toIntegerOrZero x.qtySold else 0) +
        soldFor rt xs k := by
  unfold soldFor
  by_cases h : normalizeName rt x.itemName = k <;> simp [List.filter_cons, h]

theorem soldFor_append (rt : Runtime) (xs ys : List Sale) (k : String) :
    soldFor rt (xs ++ ys) k = soldFor rt xs k + soldFor rt ys k := by
  simp [soldFor, List.filter_append]

theorem saleLoop_getOrZero (rt : Runtime) (l : List Sale) :
    ∀ (i : Nat) (st : Calc) (k : String), k ≠ "" →
    (forEachIdx (saleStep rt) i st l).soldQtyByName.getOrZero k =
      st.soldQtyByName.getOrZero k + soldFor rt l k := by
  induction l with
  | nil => intro i st k _; simp [forEachIdx, soldFor_nil]
  | cons x xs ih =>
    intro i st k hk
    rw [forEachIdx, ih _ _ k hk, soldFor_cons]
    simp only [saleStep, deriveSale, normalizeName_jsTrim]
    by_cases hx : normalizeName rt x.itemName = k
    · subst hx
      simp [hk, getOrZero_set, add_assoc]
    · have hx2 : ¬ k = normalizeName rt x.itemName := fun h => hx h.symm
      by_cases he : normalizeName rt x.itemName = ""
      · simp [he, hx]
        intro h
        exact absurd h.symm hk
      · simp [he, hx, hx2, getOrZero_set]

theorem saleLoop_getOrZero_empty (rt : Runtime) (l : List Sale) :
    ∀ (i : Nat) (st : Calc),
    (forEachIdx (saleStep rt) i st l).soldQtyByName.getOrZero "" =
      st.soldQtyByName.getOrZero "" := by
  induction l with
  | nil => intro i st; simp [forEachIdx]
  | cons x xs ih =>
    intro i st
    rw [forEachIdx, ih]
    simp only [saleStep]
    by_cases he : normalizeName rt (deriveSale rt x).itemName = ""
    · simp [he]
    · have he2 : ¬ "" = normalizeName rt (deriveSale rt x).itemName := fun h => he h.symm
      simp [he, he2, getOrZero_set]

/-- The sold quantity the second loop reads for a normalized name. -/
theorem afterSales_getOrZero (rt : Runtime) (sheet : Sheet) (k : String) :
    (afterSales rt sheet).soldQtyByName.getOrZero k =
      if k = "" then 0 else soldFor rt sheet.sales k := by
  unfold afterSales
  by_cases hk : k = ""
  · subst hk
    simp [saleLoop_getOrZero_empty, Calc.init, getOrZero_empty]
  · simp [saleLoop_getOrZero rt _ _ _ _ hk, Calc.init, getOrZero_empty, hk]

theorem productLoop_nameIndex (rt : Runtime) (l : List Product) : ∀ (i : Nat) (st : Calc),
    (forEachIdx (productStep rt) i st l).nameIndex = nameIndexFrom rt st.nameIndex i l := by
  induction l with
  | nil => intro i st; simp [forEachIdx, nameIndexFrom]
  | cons x xs ih => intro i st; simp [forEachIdx, ih, productStep, nameIndexFrom]

theorem productLoop_errors (rt : Runtime) (l : List Product) : ∀ (i : Nat) (st : Calc),
    (forEachIdx (productStep rt) i st l).errors =
      st.errors ++ productErrorsFrom rt st.soldQtyByName st.nameIndex i l := by
  induction l with
  | nil => intro i st; simp [forEachIdx, productErrorsFrom]
  | cons x xs ih =>
    intro i st
    simp [forEachIdx, ih, productStep, productErrorsFrom, productErrorsAt]

theorem orphanLoop_errors (rt : Runtime) (m : JsMap Nat) (l : List DerivedSale) :
    ∀ (i : Nat) (errors : List String),
    forEachIdx (orphanStep rt m) i errors l = errors ++ orphanErrorsFrom rt m i l := by
  induction l with
  | nil => intro i errors; simp [forEachIdx, orphanErrorsFrom]
  | cons x xs ih =>
    intro i errors
    rw [forEachIdx, ih]
    rw [orphanErrorsFrom]
    unfold orphanStep
    split <;> simp

theorem indexName_has (rt : Runtime) (m : JsMap Nat) (i : Nat) (name k : String) :
    (indexName rt m i name).has k =
      (m.has k || (decide (k ≠ "") && decide (normalizeName rt name = k))) := by
  unfold indexName
  by_cases he : normalizeName rt name = ""
  · simp only [he, if_true]
    by_cases hk : k = ""
    · simp [hk]
    · have : ¬ "" = k := fun h => hk h.symm
      simp [hk, this]
  · simp only [he, if_false]
    by_cases hh : m.has (normalizeName rt name) = true
    · simp only [hh, if_true]
      by_cases hk : normalizeName rt name = k
      · subst hk; simp [hh]
      · simp [hk]
    · simp only [hh]
      rw [if_neg (by simp), has_set]
      by_cases hk : normalizeName rt name = k
      · subst hk; simp [he]
      · have : ¬ k = normalizeName rt name := fun h => hk h.symm
        simp [hk, this]

theorem nameIndexFrom_has (rt : Runtime) (l : List Product) :
    ∀ (m : JsMap Nat) (i : Nat) (k : String),
    (nameIndexFrom rt m i l).has k =
      (m.has k || (decide (k ≠ "") &&
        l.any (fun p => decide (normalizeName rt p.name = k)))) := by
  induction l with
  | nil => intro m i k; simp [nameIndexFrom]
  | cons x xs ih =>
    intro m i k
    rw [nameIndexFrom, ih, indexName_has]
    simp only [deriveProduct, normalizeName_jsTrim, List.any_cons]
    cases m.has k <;> cases decide (k ≠ "") <;> simp

theorem errors_isValid (rt : Runtime) (sheet : Sheet) :
    (recalcSheet rt sheet).validation.isValid =
      decide ((recalcSheet rt sheet).validation.errors = []) := by
  simp [recalcSheet, List.length_eq_zero]

theorem totalsErrors_eq (t : Totals) : totalsErrors t = [] := by
  simp [totalsErrors, numberIsFinite]

/-- The violations of `recalcActiveSheet`, loop by loop. -/
theorem recalcSheet_errors (rt : Runtime) (sheet : Sheet) :
    (recalcSheet rt sheet).validation.errors =
      saleErrorsFrom rt 0 sheet.sales ++
      productErrorsFrom rt (afterSales rt sheet).soldQtyByName JsMap.empty 0 sheet.products ++
      orphanErrorsFrom rt (nameIndexFrom rt JsMap.empty 0 sheet.products) 0
        (sheet.sales.map (deriveSale rt)) := by
  have h1 : (afterSales rt sheet).errors = saleErrorsFrom rt 0 sheet.sales := by
    simp [afterSales, saleLoop_errors, Calc.init]
  have h2 : (afterSales rt sheet).nameIndex = JsMap.empty := by
    simp [afterSales, saleLoop_nameIndex, Calc.init]
  have h3 : (afterSales rt sheet).sales = sheet.sales.map (deriveSale rt) := by
    simp [afterSales, saleLoop_sales, Calc.init]
  simp only [recalcSheet, totalsErrors_eq, List.append_nil, orphanLoop_errors, afterProducts,
    productLoop_errors, productLoop_nameIndex, productLoop_sales, h1, h2, h3]


/-! ## When `recalcActiveSheet` reports a valid sheet -/

theorem numberIsInteger_mathTrunc (x : ℚ) : numberIsInteger (mathTrunc x) = true := by
  obtain ⟨n, hn⟩ := mathTrunc_eq_intCast x
  rw [hn]; exact numberIsInteger_intCast n

theorem numberIsInteger_toIntegerOrZero (x : ℚ) :
    numberIsInteger (toIntegerOrZero x) = true := by
  rw [toIntegerOrZero_eq]; exact numberIsInteger_mathTrunc x

theorem saleFieldErrors_eq_nil (rt : Runtime) (i : Nat) (sale : Sale) :
    saleFieldErrors i (deriveSale rt sale).itemName (deriveSale rt sale).qtySold
      (deriveSale rt sale).revenue (deriveSale rt sale).productionCost
      (deriveSale rt sale).grossProfit = [] ↔ SaleOk sale := by
  simp only [saleFieldErrors, deriveSale, SaleOk, numberIsInteger_toIntegerOrZero,
    numberIsFinite, toNumberOrZero_eq, List.append_eq_nil]
  simp
  tauto

theorem saleErrorsFrom_eq_nil (rt : Runtime) (l : List Sale) : ∀ i : Nat,
    saleErrorsFrom rt i l = [] ↔ ∀ sale ∈ l, SaleOk sale := by
  induction l with
  | nil => intro i; simp [saleErrorsFrom]
  | cons x xs ih =>
    intro i
    simp only [saleErrorsFrom, List.append_eq_nil, saleFieldErrors_eq_nil, ih,
      List.mem_cons, forall_eq_or_imp]

theorem productFieldErrors_eq_nil (i : Nat) (p : Product) (sold : ℚ) :
    productFieldErrors i (deriveProduct p) sold = [] ↔
      0 ≤ p.unitCost ∧ 0 ≤ p.unitPrice ∧ 0 ≤ toIntegerOrZero p.openingStock ∧
      0 ≤ toIntegerOrZero p.stockOut ∧
      toIntegerOrZero p.stockOut ≤ toIntegerOrZero p.openingStock ∧
      sold ≤ toIntegerOrZero p.stockOut := by
  simp only [productFieldErrors, deriveProduct, numberIsInteger_toIntegerOrZero,
    numberIsFinite, toNumberOrZero_eq, List.append_eq_nil]
  simp
  tauto

theorem productErrorsAt_eq_nil (rt : Runtime) (sold : JsMap ℚ) (m : JsMap Nat) (i : Nat)
    (p : Product) :
    productErrorsAt rt sold m i p = [] ↔
      normalizeName rt p.name ≠ "" ∧ m.has (normalizeName rt p.name) = false ∧
      0 ≤ p.unitCost ∧ 0 ≤ p.unitPrice ∧ 0 ≤ toIntegerOrZero p.openingStock ∧
      0 ≤ toIntegerOrZero p.stockOut ∧
      toIntegerOrZero p.stockOut ≤ toIntegerOrZero p.openingStock ∧
      sold.getOrZero (normalizeName rt p.name) ≤ toIntegerOrZero p.stockOut := by
  unfold productErrorsAt
  rw [List.append_eq_nil, productFieldErrors_eq_nil]
  have hn : normalizeName rt (deriveProduct p).name = normalizeName rt p.name := by
    simp [deriveProduct, normalizeName_jsTrim]
  unfold productNameErrors
  rw [hn]
  by_cases h1 : normalizeName rt p.name = ""
  · simp [h1]
  · by_cases h2 : m.has (normalizeName rt p.name) = true
    · simp [h1, h2]
    · simp [h1, h2]

theorem productErrorsFrom_eq_nil (rt : Runtime) (sold : JsMap ℚ) (l : List Product) :
    ∀ (m : JsMap Nat) (i : Nat),
    productErrorsFrom rt sold m i l = [] ↔
      (∀ p ∈ l, normalizeName rt p.name ≠ "" ∧ m.has (normalizeName rt p.name) = false ∧
        0 ≤ p.unitCost ∧ 0 ≤ p.unitPrice ∧ 0 ≤ toIntegerOrZero p.openingStock ∧
        0 ≤ toIntegerOrZero p.stockOut ∧
        toIntegerOrZero p.stockOut ≤ toIntegerOrZero p.openingStock ∧
        sold.getOrZero (normalizeName rt p.name) ≤ toIntegerOrZero p.stockOut) ∧
      (productKeys rt l).Nodup := by
  induction l with
  | nil => intro m i; simp [productErrorsFrom, productKeys]
  | cons x xs ih =>
    intro m i
    rw [productErrorsFrom, List.append_eq_nil, productErrorsAt_eq_nil, ih]
    have hn : normalizeName rt (deriveProduct x).name = normalizeName rt x.name := by
      simp [deriveProduct, normalizeName_jsTrim]
    simp only [hn, List.mem_cons, forall_eq_or_imp, productKeys, List.map_cons,
      List.nodup_cons, indexName_has, List.mem_map, not_exists, not_and]
    constructor
    · rintro ⟨⟨h1, h2, h3⟩, h4, h5⟩
      refine ⟨⟨⟨h1, h2, h3⟩, ?_⟩, ?_, h5⟩
      · intro p hp
        obtain ⟨a, b, c⟩ := h4 p hp
        refine ⟨a, ?_, c⟩
        simp only [Bool.or_eq_false_iff] at b
        exact b.1
      · intro p hp hpx
        obtain ⟨a, b, c⟩ := h4 p hp
        simp only [Bool.or_eq_false_iff, Bool.and_eq_false_imp, decide_eq_true_eq,
          decide_eq_false_iff_not] at b
        exact b.2 a hpx.symm
    · rintro ⟨⟨⟨h1, h2, h3⟩, h4⟩, h5, h6⟩
      refine ⟨⟨h1, h2, h3⟩, ?_, h6⟩
      intro p hp
      obtain ⟨a, b, c⟩ := h4 p hp
      refine ⟨a, ?_, c⟩
      simp only [Bool.or_eq_false_iff, Bool.and_eq_false_imp, decide_eq_true_eq,
        decide_eq_false_iff_not]
      exact ⟨b, fun _ hxp => h5 p hp hxp.symm⟩

theorem orphanErrorsFrom_eq_nil (rt : Runtime) (m : JsMap Nat) (l : List DerivedSale) :
    ∀ i : Nat, orphanErrorsFrom rt m i l = [] ↔
      ∀ row ∈ l, m.has (normalizeName rt row.itemName) = true := by
  induction l with
  | nil => intro i; simp [orphanErrorsFrom]
  | cons x xs ih =>
    intro i
    rw [orphanErrorsFrom, List.append_eq_nil, ih]
    simp

/-- `recalcActiveSheet` reports a valid sheet exactly when no check fails. -/
theorem isValid_iff (rt : Runtime) (sheet : Sheet) :
    (recalcActiveSheet rt (some sheet)).validation.isValid = true ↔ ValidSheet rt sheet := by
  simp only [recalcActiveSheet, errors_isValid, decide_eq_true_eq, recalcSheet_errors,
    List.append_eq_nil, saleErrorsFrom_eq_nil, productErrorsFrom_eq_nil,
    orphanErrorsFrom_eq_nil, nameIndexFrom_has, has_empty, Bool.false_or]
  constructor
  · rintro ⟨⟨hs, hp, hn⟩, ho⟩
    have hkey : ∀ p ∈ sheet.products, normalizeName rt p.name ≠ "" := fun p hp' => (hp p hp').1
    refine ⟨hs, ?_, hn, ?_⟩
    · intro p hp'
      obtain ⟨a, _, c, d, e, f, g, h⟩ := hp p hp'
      rw [afterSales_getOrZero, if_neg a] at h
      exact ⟨a, c, d, e, f, g, h⟩
    · intro sale hsale
      have := ho (deriveSale rt sale) (List.mem_map_of_mem _ hsale)
      simp only [deriveSale, normalizeName_jsTrim, Bool.and_eq_true, decide_eq_true_eq,
        List.any_eq_true] at this
      obtain ⟨_, p, hp', hpk⟩ := this
      exact List.mem_map.mpr ⟨p, hp', hpk⟩
  · rintro ⟨hs, hp, hn, hm⟩
    refine ⟨⟨hs, ?_, hn⟩, ?_⟩
    · intro p hp'
      obtain ⟨a, c, d, e, f, g, h⟩ := hp p hp'
      refine ⟨a, trivial, c, d, e, f, g, ?_⟩
      rw [afterSales_getOrZero, if_neg a]
      exact h
    · intro row hrow
      obtain ⟨sale, hsale, rfl⟩ := List.mem_map.mp hrow
      obtain ⟨p, hp', hpk⟩ := List.mem_map.mp (hm sale hsale)
      simp only [deriveSale, normalizeName_jsTrim, Bool.and_eq_true, decide_eq_true_eq,
        List.any_eq_true]
      refine ⟨?_, p, hp', hpk⟩
      rw [← hpk]
      exact (hp p hp').1


/-! ## Sums of rows -/

theorem foldl_add_eq_sum {α : Type} (field : α → ℚ) (rows : List α) : ∀ a : ℚ,
    rows.foldl (fun total row => total + field row) a = a + (rows.map field).sum := by
  induction rows with
  | nil => intro a; simp
  | cons x xs ih => intro a; simp [ih, add_assoc]


theorem sumBy_eq_sum {α : Type} (rows : List α) (field : α → ℚ) :
    sumBy rows field = (rows.map field).sum := by
  simp [sumBy, numberIsFinite, foldl_add_eq_sum]


/-! ## Lists: the element a handler finds and updates -/

theorem find_split {α : Type} (p : α → Bool) : ∀ (l : List α) (x : α),
    l.find? p = some x →
    ∃ l1 l2, l = l1 ++ x :: l2 ∧ (∀ a ∈ l1, p a = false) ∧ p x = true ∧
      ∀ f : α → α, updateFound p f l = l1 ++ f x :: l2 := by
  intro l
  induction l with
  | nil => intro x h; simp at h
  | cons a as ih =>
    intro x h
    by_cases ha : p a = true
    · rw [List.find?_cons_of_pos _ ha] at h
      cases h
      exact ⟨[], as, rfl, by simp, ha, fun f => by simp [updateFound, ha]⟩
    · rw [List.find?_cons_of_neg _ ha] at h
      obtain ⟨l1, l2, h1, h2, h3, h4⟩ := ih x h
      refine ⟨a :: l1, l2, by simp [h1], ?_, h3, fun f => ?_⟩
      · intro b hb
        rcases List.mem_cons.mp hb with rfl | hb
        · simpa using ha
        · exact h2 b hb
      · simp [updateFound, ha, h4]

theorem find_of_split {α : Type} (p : α → Bool) (l1 l2 : List α) (x : α)
    (h1 : ∀ a ∈ l1, p a = false) (hx : p x = true) :
    (l1 ++ x :: l2).find? p = some x ∧
      ∀ f : α → α, updateFound p f (l1 ++ x :: l2) = l1 ++ f x :: l2 := by
  induction l1 with
  | nil => exact ⟨by simp [hx], fun f => by simp [updateFound, hx]⟩
  | cons a as ih =>
    have ha : p a = false := h1 a (by simp)
    obtain ⟨i1, i2⟩ := ih (fun b hb => h1 b (by simp [hb]))
    exact ⟨by simp [ha, i1], fun f => by simp [updateFound, ha, i2]⟩


theorem findIndex_append_fresh {α : Type} (p : α → Bool) (x : α) (hx : p x = true) :
    ∀ l : List α, (∀ a ∈ l, p a = false) → findIndex p (l ++ [x]) = some l.length := by
  intro l
  induction l with
  | nil => intro _; simp [findIndex, hx]
  | cons a as ih =>
    intro h
    have ha : p a = false := h a (by simp)
    simp [findIndex, ha, ih (fun b hb => h b (by simp [hb]))]

theorem recalcSheet_totals_congr (rt : Runtime) (s t : Sheet)
    (hp : s.products = t.products)
    (hq : s.sales.map (fun x => toIntegerOrZero x.qtySold) =
      t.sales.map (fun x => toIntegerOrZero x.qtySold))
    (hr : s.sales.map (fun x => x.revenue) = t.sales.map (fun x => x.revenue))
    (hc : s.sales.map (fun x => x.productionCost) = t.sales.map (fun x => x.productionCost))
    (hg : s.sales.map (fun x => x.grossProfit) = t.sales.map (fun x => x.grossProfit)) :
    (recalcSheet rt s).totals = (recalcSheet rt t).totals := by
  have e1 : ∀ u : Sheet, ((u.sales.map (deriveSale rt)).map (fun r => r.qtySold)) =
      u.sales.map (fun x => toIntegerOrZero x.qtySold) := fun u => by
    simp [deriveSale, Function.comp_def]
  have e2 : ∀ u : Sheet, ((u.sales.map (deriveSale rt)).map (fun r => r.revenue)) =
      u.sales.map (fun x => x.revenue) := fun u => by
    simp [deriveSale, Function.comp_def, toNumberOrZero_eq]
  have e3 : ∀ u : Sheet, ((u.sales.map (deriveSale rt)).map (fun r => r.productionCost)) =
      u.sales.map (fun x => x.productionCost) := fun u => by
    simp [deriveSale, Function.comp_def, toNumberOrZero_eq]
  have e4 : ∀ u : Sheet, ((u.sales.map (deriveSale rt)).map (fun r => r.grossProfit)) =
      u.sales.map (fun x => x.grossProfit) := fun u => by
    simp [deriveSale, Function.comp_def, toNumberOrZero_eq]
  simp only [recalcSheet_totals, afterProducts_totals, e1, e2, e3, e4, hp, hq, hr, hc, hg]

/-- C4: an `onAddSale` whose quantity `q` (in particular an integer `q >= 1`) exceeds the
derived `stockAvailable` of the product matching the item name is rejected with an error
and leaves the sheet as it was: products (so every `stockOut`), sales and recomputed
totals are unchanged. -/
theorem add_sale_over_stock_rejected (rt : Runtime) (sheet : Sheet)
    (newId dateValue itemValue : String) (q : ℚ) (d : DerivedProduct)
    (hfind : (recalcActiveSheet rt (some sheet)).products.find?
      (fun product => decide (normalizeName rt product.name = normalizeName rt itemValue)) =
        some d)
    (hover : d.stockAvailable < q) :
    (onAddSale rt sheet newId dateValue itemValue (some q)).saved = false ∧
    (∃ msg, (onAddSale rt sheet newId dateValue itemValue (some q)).status =
      some (msg, "error")) ∧
    (onAddSale rt sheet newId dateValue itemValue (some q)).sheet = sheet ∧
    (onAddSale rt sheet newId dateValue itemValue (some q)).sheet.products.map
      (fun p => p.stockOut) = sheet.products.map (fun p => p.stockOut) ∧
    (onAddSale rt sheet newId dateValue itemValue (some q)).sheet.sales = sheet.sales ∧
    (recalcActiveSheet rt
      (some (onAddSale rt sheet newId dateValue itemValue (some q)).sheet)).totals =
      (recalcActiveSheet rt (some sheet)).totals := by
  have key : (onAddSale rt sheet newId dateValue itemValue (some q)).saved = false ∧
      (∃ msg, (onAddSale rt sheet newId dateValue itemValue (some q)).status =
        some (msg, "error")) ∧
      (onAddSale rt sheet newId dateValue itemValue (some q)).sheet = sheet := by
    unfold onAddSale
    simp only []
    generalize (if dateValue = "" then rt.today else dateValue) = d
    split
    · exact ⟨rfl, ⟨_, rfl⟩, rfl⟩
    split
    · exact ⟨rfl, ⟨_, rfl⟩, rfl⟩
    split
    · exact ⟨rfl, ⟨_, rfl⟩, rfl⟩
    rw [normalizeName_jsTrim, hfind]
    simp only []
    rw [if_pos hover]
    exact ⟨rfl, ⟨_, rfl⟩, rfl⟩
  obtain ⟨k1, k2, k3⟩ := key
  refine ⟨k1, k2, k3, ?_, ?_, ?_⟩ <;> rw [k3]

/-- The scenario of C4: a sale of 999 Bread against an opening stock of 20. -/
theorem add_sale_over_stock_rejected_witness :
    (onAddSale asciiRuntime breadSheet "sale-1" "2024-05-01" "Bread" (some 999)).saved = false ∧
    (onAddSale asciiRuntime breadSheet "sale-1" "2024-05-01" "Bread" (some 999)).sheet =
      breadSheet :=
  have h := add_sale_over_stock_rejected asciiRuntime breadSheet "sale-1" "2024-05-01" "Bread"
    999 (deriveProduct ⟨"Bread", 100, 150, 20, 0⟩) (by decide!) (by decide!)
  ⟨h.1, h.2.2.1⟩


/-! ## Lists: the end of a list -/

theorem eraseIdx_append_length {α : Type} (x : α) : ∀ l : List α,
    (l ++ [x]).eraseIdx l.length = l := by
  intro l
  induction l with
  | nil => rfl
  | cons a as ih => simp [List.eraseIdx, ih]

theorem get?_append_length {α : Type} (x : α) (l : List α) :
    (l ++ [x]).get? l.length = some x := by
  simp


/-! ## Lists: the element at an index -/

theorem split_at_index {α : Type} : ∀ (l : List α) (i : Nat) (p : α), l.get? i = some p →
    ∃ l1 l2, l = l1 ++ p :: l2 ∧ l1.length = i ∧ (∀ a, l.set i a = l1 ++ a :: l2) ∧
      l.eraseIdx i = l1 ++ l2 := by
  intro l
  induction l with
  | nil => intro i p h; simp at h
  | cons x xs ih =>
    intro i p h
    cases i with
    | zero =>
      simp at h
      subst h
      exact ⟨[], xs, rfl, rfl, fun a => rfl, rfl⟩
    | succ j =>
      have h' : xs.get? j = some p := by simpa using h
      obtain ⟨l1, l2, e1, e2, e3, e4⟩ := ih j p h'
      refine ⟨x :: l1, l2, by simp [e1], by simp [e2], fun a => ?_, ?_⟩
      · simp [List.set, e3]
      · simp [List.eraseIdx, e4]

theorem someIdx_eq_any_of_lt {α : Type} (q : α → Bool) (n : Nat) : ∀ (l : List α) (k : Nat),
    k + l.length ≤ n →
    someIdx (fun item i => decide (i ≠ n) && q item) k l = l.any q := by
  intro l
  induction l with
  | nil => intro k _; rfl
  | cons x xs ih =>
    intro k hk
    simp only [List.length_cons] at hk
    have hne : k ≠ n := by omega
    rw [someIdx, ih (k + 1) (by omega)]
    simp [hne]

theorem someIdx_eq_any_of_gt {α : Type} (q : α → Bool) (n : Nat) : ∀ (l : List α) (k : Nat),
    n < k →
    someIdx (fun item i => decide (i ≠ n) && q item) k l = l.any q := by
  intro l
  induction l with
  | nil => intro k _; rfl
  | cons x xs ih =>
    intro k hk
    have hne : k ≠ n := by omega
    rw [someIdx, ih (k + 1) (by omega)]
    simp [hne]

theorem someIdx_append {α : Type} (f : α → Nat → Bool) : ∀ (l1 l2 : List α) (k : Nat),
    someIdx f k (l1 ++ l2) = (someIdx f k l1 || someIdx f (k + l1.length) l2) := by
  intro l1
  induction l1 with
  | nil => intro l2 k; simp [someIdx]
  | cons x xs ih =>
    intro l2 k
    simp [someIdx, ih, Bool.or_assoc, Nat.add_assoc, Nat.add_comm 1]

/-- The duplicate test of a rename looks at every product but the renamed one. -/
theorem someIdx_other (q : Product → Bool) (l1 l2 : List Product) (p : Product) :
    someIdx (fun item i => decide (i ≠ l1.length) && q item) 0 (l1 ++ p :: l2) =
      (l1.any q || l2.any q) := by
  rw [someIdx_append, someIdx_eq_any_of_lt q l1.length l1 0 (by omega)]
  simp only [someIdx, Nat.zero_add, ne_eq, not_true_eq_false, decide_False, Bool.false_and,
    Bool.false_or]
  rw [someIdx_eq_any_of_gt q l1.length l2 (l1.length + 1) (by omega)]

/-! ## Counts that are integers -/

theorem toIntegerOrZero_of_integer {x : ℚ} (h : numberIsInteger x = true) :
    toIntegerOrZero x = x := by
  obtain ⟨n, rfl⟩ := (numberIsInteger_iff x).mp h
  rw [toIntegerOrZero_eq]
  unfold mathTrunc
  split <;> simp


/-! ## Names of products -/

theorem normalizeName_ne_empty_iff (rt : Runtime) (hlow : rt.LowerKeepsEmptiness)
    (name : String) : normalizeName rt name ≠ "" ↔ jsTrim name ≠ "" := by
  unfold normalizeName
  exact not_congr (hlow (jsTrim name))


theorem mem_productKeys (rt : Runtime) (l : List Product) (k : String) :
    k ∈ productKeys rt l ↔ ∃ p ∈ l, normalizeName rt p.name = k := by
  simp [productKeys]


/-! ## The sample runtime -/

theorem asciiRuntime_lowerKeepsEmptiness : asciiRuntime.LowerKeepsEmptiness := by
  intro s
  simp [asciiRuntime, String.ext_iff]


/-! ## The checker on a valid sheet -/

theorem isMismatch_self (key : String) (x : ℚ) : isMismatch key x x = false := by
  unfold isMismatch tolerance
  split <;> simp

/-- The independent recomputation by `sumBy` never differs from the totals. -/
theorem rowTotals_no_mismatch (rt : Runtime) (sheet : Sheet) :
    (rowTotalsEntries (recalcSheet rt sheet)).filter
      (fun e => isMismatch e.1 e.2.1 e.2.2) = [] := by
  simp only [rowTotalsEntries, sumBy_eq_sum, recalcSheet_totals, afterProducts_totals,
    roundTotals, recalcSheet_sales, recalcSheet_products]
  simp [List.filter_cons, isMismatch_self]

theorem passed_of_valid (rt : Runtime) (sheet : Sheet) (hv : ValidSheet rt sheet) :
    (runSystemCheck rt (some sheet)).passed = true := by
  have hvalid : (recalcSheet rt sheet).validation.isValid = true :=
    (isValid_iff rt sheet).mpr hv
  have hneg : (recalcSheet rt sheet).products.any
      (fun product => decide (product.stockAvailable < 0)) = false := by
    rw [recalcSheet_products, Bool.eq_false_iff]
    intro h
    rw [List.any_eq_true] at h
    obtain ⟨d, hd, hlt⟩ := h
    obtain ⟨p, hp, rfl⟩ := List.mem_map.mp hd
    obtain ⟨_, _, _, _, _, p6, _⟩ := hv.products_ok p hp
    have : (deriveProduct p).stockAvailable < 0 := by simpa using hlt
    simp only [deriveProduct] at this
    linarith
  have hmsgs : checkMessages rt (recalcSheet rt sheet) = [] := by
    unfold checkMessages
    rw [rowTotals_no_mismatch, hneg, hvalid]
    simp
  unfold runSystemCheck
  simp only [recalcActiveSheet, hmsgs]
  decide


/-! ## Orphaned sales -/

theorem orphanErrorsFrom_append (rt : Runtime) (m : JsMap Nat) (l1 l2 : List DerivedSale) :
    ∀ i : Nat, orphanErrorsFrom rt m i (l1 ++ l2) =
      orphanErrorsFrom rt m i l1 ++ orphanErrorsFrom rt m (i + l1.length) l2 := by
  induction l1 with
  | nil => intro i; simp [orphanErrorsFrom]
  | cons x xs ih =>
    intro i
    simp [orphanErrorsFrom, ih, Nat.add_assoc, Nat.add_comm 1]

theorem finalIndex_has_iff (rt : Runtime) (products : List Product) (k : String) :
    (nameIndexFrom rt JsMap.empty 0 products).has k = true ↔
      k ≠ "" ∧ k ∈ productKeys rt products := by
  rw [nameIndexFrom_has, has_empty]
  simp [mem_productKeys]

/-- C10: in a sheet that is valid but for one sale, whose fields are in range and whose
non-empty item name matches no product, `validation.errors` holds exactly one message,
the one naming that sale by its 1-based index and item name, and the totals include the
sale's `qtySold`, `revenue`, `productionCost` and `grossProfit`. -/
theorem orphaned_sale_reported (rt : Runtime) (products : List Product)
    (s1 s2 : List Sale) (x : Sale)
    (hrest : (recalcActiveSheet rt (some ⟨products, s1 ++ s2⟩)).validation.isValid = true)
    (hx : SaleOk x)
    (horphan : ∀ p ∈ products, normalizeName rt p.name ≠ normalizeName rt x.itemName) :
    (recalcActiveSheet rt (some ⟨products, s1 ++ x :: s2⟩)).validation.errors =
      ["Sale #" ++ toString (s1.length + 1) ++ ": \"" ++ jsTrim x.itemName ++
        "\" does not match any product."] ∧
    (recalcActiveSheet rt (some ⟨products, s1 ++ x :: s2⟩)).validation.isValid = false ∧
    (recalcActiveSheet rt (some ⟨products, s1 ++ x :: s2⟩)).totals.totalItemsSold =
      ((s1 ++ s2).map (fun s => toIntegerOrZero s.qtySold)).sum +
        toIntegerOrZero x.qtySold ∧
    (recalcActiveSheet rt (some ⟨products, s1 ++ x :: s2⟩)).totals.totalRevenue =
      roundCurrency (((s1 ++ s2).map (fun s => s.revenue)).sum + x.revenue) ∧
    (recalcActiveSheet rt (some ⟨products, s1 ++ x :: s2⟩)).totals.totalProductionCost =
      roundCurrency (((s1 ++ s2).map (fun s => s.productionCost)).sum + x.productionCost) ∧
    (recalcActiveSheet rt (some ⟨products, s1 ++ x :: s2⟩)).totals.grossProfitTotal =
      roundCurrency (((s1 ++ s2).map (fun s => s.grossProfit)).sum + x.grossProfit) := by
  have hv : ValidSheet rt ⟨products, s1 ++ s2⟩ := (isValid_iff rt _).mp hrest
  have hxk : normalizeName rt x.itemName ∉ productKeys rt products := by
    rw [mem_productKeys]
    rintro ⟨p, hp, hpk⟩
    exact horphan p hp hpk
  have herr : (recalcSheet rt ⟨products, s1 ++ x :: s2⟩).validation.errors =
      [orphanMsg s1.length (jsTrim x.itemName)] := by
    rw [recalcSheet_errors]
    have hs : saleErrorsFrom rt 0 (s1 ++ x :: s2) = [] := by
      rw [saleErrorsFrom_eq_nil]
      intro sale hs
      simp only [List.mem_append, List.mem_cons] at hs
      rcases hs with h | rfl | h
      · exact hv.sales_ok sale (by simp [h])
      · exact hx
      · exact hv.sales_ok sale (by simp [h])
    have hp : productErrorsFrom rt (afterSales rt ⟨products, s1 ++ x :: s2⟩).soldQtyByName
        JsMap.empty 0 products = [] := by
      rw [productErrorsFrom_eq_nil]
      refine ⟨?_, hv.keys_nodup⟩
      intro p hp
      obtain ⟨a, c, d, e, f, g, h⟩ := hv.products_ok p hp
      refine ⟨a, has_empty _, c, d, e, f, g, ?_⟩
      rw [afterSales_getOrZero, if_neg a]
      show soldFor rt (s1 ++ x :: s2) _ ≤ _
      rw [soldFor_append, soldFor_cons, if_neg (fun h' => horphan p hp h'.symm), zero_add,
        ← soldFor_append]
      exact h
    have hmatch : ∀ l : List Sale, (∀ sale ∈ l, sale ∈ s1 ++ s2) → ∀ i : Nat,
        orphanErrorsFrom rt (nameIndexFrom rt JsMap.empty 0 products) i
          (l.map (deriveSale rt)) = [] := by
      intro l hl i
      rw [orphanErrorsFrom_eq_nil]
      intro row hrow
      obtain ⟨sale, hsale, rfl⟩ := List.mem_map.mp hrow
      rw [finalIndex_has_iff]
      have hm := hv.matched sale (hl sale hsale)
      simp only [deriveSale, normalizeName_jsTrim]
      refine ⟨?_, hm⟩
      obtain ⟨p, hp', hpk⟩ := (mem_productKeys rt products _).mp hm
      rw [← hpk]
      exact (hv.products_ok p hp').1
    have hox : (nameIndexFrom rt JsMap.empty 0 products).has
        (normalizeName rt (deriveSale rt x).itemName) = false := by
      rw [Bool.eq_false_iff, Ne, finalIndex_has_iff]
      simp only [deriveSale, normalizeName_jsTrim]
      exact fun h => hxk h.2
    show _ ++ _ ++ orphanErrorsFrom rt _ 0 ((s1 ++ x :: s2).map (deriveSale rt)) = _
    rw [hs, hp, List.map_append, List.map_cons, orphanErrorsFrom_append,
      hmatch s1 (fun s h => by simp [h]), orphanErrorsFrom, hox,
      hmatch s2 (fun s h => by simp [h])]
    simp [deriveSale]
  have htot := recalcSheet_totals rt ⟨products, s1 ++ x :: s2⟩
  rw [afterProducts_totals] at htot
  simp only [recalcActiveSheet]
  refine ⟨herr, ?_, ?_, ?_, ?_, ?_⟩
  · rw [errors_isValid, herr]; rfl
  · rw [htot]
    simp only [roundTotals]
    obtain ⟨n, hn⟩ := sum_qtySold_isInt rt (s1 ++ x :: s2)
    rw [hn, mathRound_intCast, ← hn]
    simp [deriveSale, Function.comp_def]
    ring
  · rw [htot]
    simp only [roundTotals]
    congr 1
    simp [deriveSale, Function.comp_def, toNumberOrZero_eq]
    ring
  · rw [htot]
    simp only [roundTotals]
    congr 1
    simp [deriveSale, Function.comp_def, toNumberOrZero_eq]
    ring
  · rw [htot]
    simp only [roundTotals]
    congr 1
    simp [deriveSale, Function.comp_def, toNumberOrZero_eq]
    ring

/-- The scenario of C10: a sale of 2 Croissant in the sheet whose only product is
Bread. -/
theorem orphaned_sale_reported_witness :
    (recalcActiveSheet asciiRuntime (some ⟨breadSheet.products,
      [⟨"sale-1", "2024-05-01", "Croissant", 2, 300, 200, 100⟩]⟩)).validation.errors =
      ["Sale #1: \"Croissant\" does not match any product."] ∧
    (recalcActiveSheet asciiRuntime (some ⟨breadSheet.products,
      [⟨"sale-1", "2024-05-01", "Croissant", 2, 300, 200, 100⟩]⟩)).totals.totalRevenue =
      300 :=
  have h := orphaned_sale_reported asciiRuntime breadSheet.products [] []
    ⟨"sale-1", "2024-05-01", "Croissant", 2, 300, 200, 100⟩ (by decide!)
    ⟨by decide!, by decide!, by decide!, by decide!⟩ (by decide!)
  ⟨h.1.trans (by decide!), h.2.2.2.1.trans (by decide!)⟩


/-! ## Messages: telling them apart -/

theorem string_append_cancel (a b c : String) : a ++ b = a ++ c ↔ b = c := by
  simp [String.ext_iff]

theorem data_productOpen :
    ("Product \"" : String).data = ['P', 'r', 'o', 'd', 'u', 'c', 't', ' ', '"'] := rfl

theorem data_productHash :
    ("Product #" : String).data = ['P', 'r', 'o', 'd', 'u', 'c', 't', ' ', '#'] := rfl

theorem data_duplicateOpen :
    ("Duplicate product name found: \"" : String).data =
      'D' :: ("uplicate product name found: \"" : String).data := rfl

theorem productMsg_inj (name : String) (j : Nat) (t1 t2 : String) :
    productMsg name j t1 = productMsg name j t2 ↔ t1 = t2 := by
  unfold productMsg
  exact string_append_cancel _ _ _

theorem productMsg_ne_nameRequired (name : String) (j i : Nat) (t : String) :
    productMsg name j t ≠ productNameRequiredMsg i := by
  intro h
  have := congrArg String.data h
  simp [productMsg, productNameRequiredMsg, String.data_append, data_productOpen,
    data_productHash] at this

theorem productMsg_ne_duplicate (name : String) (j : Nat) (t other : String) :
    productMsg name j t ≠ duplicateNameMsg other := by
  intro h
  have := congrArg String.data h
  simp [productMsg, duplicateNameMsg, String.data_append, data_productOpen,
    data_duplicateOpen] at this

theorem duplicate_ne_nameRequired (other : String) (i : Nat) :
    duplicateNameMsg other ≠ productNameRequiredMsg i := by
  intro h
  have := congrArg String.data h
  simp [productNameRequiredMsg, duplicateNameMsg, String.data_append, data_productHash,
    data_duplicateOpen] at this

/-! ## The messages of one product -/


theorem pushedForProduct_eq (rt : Runtime) (sheet : Sheet) (j : Nat) (p : Product)
    (hget : sheet.products.get? j = some p) :
    pushedForProduct rt sheet j =
      productErrorsAt rt (afterSales rt sheet).soldQtyByName
        (nameIndexFrom rt JsMap.empty 0 (sheet.products.take j)) j p := by
  have h2 : (afterSales rt sheet).nameIndex = JsMap.empty := by
    simp [afterSales, saleLoop_nameIndex, Calc.init]
  unfold pushedForProduct
  rw [hget]
  simp only [stateBeforeProduct, productStep, productLoop_errors, productLoop_nameIndex,
    productLoop_soldQtyByName, h2, productErrorsAt]
  rw [List.append_assoc, List.drop_left]

theorem lowerThanSales_mem_fieldErrors (j : Nat) (p : Product) (sold : ℚ) :
    productMsg (deriveProduct p).name j lowerThanSalesText ∈
      productFieldErrors j (deriveProduct p) sold ↔ toIntegerOrZero p.stockOut < sold := by
  have d1 : lowerThanSalesText ≠ unitCostText := by decide
  have d2 : lowerThanSalesText ≠ unitPriceText := by decide
  have d3 : lowerThanSalesText ≠ openingStockText := by decide
  have d4 : lowerThanSalesText ≠ stockOutText := by decide
  have d5 : lowerThanSalesText ≠ negativeStockText := by decide
  unfold productFieldErrors
  simp only [List.mem_append]
  constructor
  · intro h
    rcases h with ((((h | h) | h) | h) | h) | h
    · split at h
      · exact absurd ((productMsg_inj _ _ _ _).mp (List.mem_singleton.mp h)) d1
      · simp at h
    · split at h
      · exact absurd ((productMsg_inj _ _ _ _).mp (List.mem_singleton.mp h)) d2
      · simp at h
    · split at h
      · exact absurd ((productMsg_inj _ _ _ _).mp (List.mem_singleton.mp h)) d3
      · simp at h
    · split at h
      · exact absurd ((productMsg_inj _ _ _ _).mp (List.mem_singleton.mp h)) d4
      · simp at h
    · split at h
      · exact absurd ((productMsg_inj _ _ _ _).mp (List.mem_singleton.mp h)) d5
      · simp at h
    · split at h
      · rename_i hlt
        simpa [deriveProduct] using hlt
      · simp at h
  · intro h
    right
    have : (deriveProduct p).stockOut < sold := by simpa [deriveProduct] using h
    rw [if_pos this]
    simp

/-- C8, as stated, fails: for an unnamed product (stock out 0) in a sheet with an
unnamed sale of 5, the quantity summed over the sales with its (empty) normalized name
is 5, yet no 'stock out is lower than logged sales' message is pushed: the loop over the
sales records quantities under non-empty names only. -/
theorem unnamed_product_not_flagged :
    ¬ (productMsg (jsTrim "") 0 lowerThanSalesText ∈
        pushedForProduct asciiRuntime unnamedSheet 0 ↔
      toIntegerOrZero 0 < soldFor asciiRuntime unnamedSheet.sales
        (normalizeName asciiRuntime "")) := by
  decide!

/-- C8, amended: during its iteration on a product, `recalcActiveSheet` pushes the
'stock out is lower than logged sales' message exactly when the product's derived stock
out is below the cumulative quantity sold under its name, that quantity being the sum of
the derived `qtySold` over the sales whose trimmed, lower-cased item name equals the
product's trimmed, lower-cased name when that name is non-empty, and 0 when it is
empty. -/
theorem stock_out_violation_iff (rt : Runtime) (sheet : Sheet) (j : Nat) (p : Product)
    (hget : sheet.products.get? j = some p) :
    productMsg (jsTrim p.name) j lowerThanSalesText ∈ pushedForProduct rt sheet j ↔
      toIntegerOrZero p.stockOut <
        (if normalizeName rt p.name = "" then 0
         else soldFor rt sheet.sales (normalizeName rt p.name)) := by
  rw [pushedForProduct_eq rt sheet j p hget]
  unfold productErrorsAt
  have hname : (deriveProduct p).name = jsTrim p.name := rfl
  rw [List.mem_append, ← hname, lowerThanSales_mem_fieldErrors, afterSales_getOrZero, hname,
    normalizeName_jsTrim]
  constructor
  · rintro (h | h)
    · exfalso
      unfold productNameErrors at h
      split at h
      · exact productMsg_ne_nameRequired _ _ _ _ (List.mem_singleton.mp h)
      · split at h
        · exact productMsg_ne_duplicate _ _ _ _ (List.mem_singleton.mp h)
        · simp at h
    · exact h
  · exact Or.inr

/-- An input of C8 amended: Bread with stock out 0 and a logged sale of 5 "bread ". -/
theorem stock_out_violation_iff_witness :
    "Product \"Bread\": stock out is lower than logged sales." ∈
      pushedForProduct asciiRuntime oversoldSheet 0 :=
  (by decide! : "Product \"Bread\": stock out is lower than logged sales." =
      productMsg (jsTrim "Bread") 0 lowerThanSalesText) ▸
    (stock_out_violation_iff asciiRuntime oversoldSheet 0 ⟨"Bread", 100, 150, 20, 0⟩
      (by decide!)).mpr (by decide!)


/-! ## Duplicate names -/

theorem mem_take_iff_get? {α : Type} (a : α) : ∀ (l : List α) (j : Nat),
    a ∈ l.take j ↔ ∃ i, i < j ∧ l.get? i = some a := by
  intro l
  induction l with
  | nil => intro j; simp
  | cons x xs ih =>
    intro j
    cases j with
    | zero => simp
    | succ n =>
      rw [List.take_succ_cons, List.mem_cons, ih]
      constructor
      · rintro (rfl | ⟨i, hi, hg⟩)
        · exact ⟨0, by omega, rfl⟩
        · exact ⟨i + 1, by omega, by simpa using hg⟩
      · rintro ⟨i, hi, hg⟩
        cases i with
        | zero => left; simpa using hg.symm
        | succ m => right; exact ⟨m, by omega, by simpa using hg⟩

theorem mem_fieldErrors_shape (j : Nat) (row : DerivedProduct) (sold : ℚ) (x : String)
    (h : x ∈ productFieldErrors j row sold) : ∃ t, x = productMsg row.name j t := by
  unfold productFieldErrors at h
  simp only [List.mem_append] at h
  rcases h with ((((h | h) | h) | h) | h) | h <;>
  · split at h
    · exact ⟨_, List.mem_singleton.mp h⟩
    · simp at h

theorem duplicate_mem_pushed (rt : Runtime) (sheet : Sheet) (j : Nat) (p : Product)
    (hget : sheet.products.get? j = some p) :
    duplicateNameMsg (jsTrim p.name) ∈ pushedForProduct rt sheet j ↔
      normalizeName rt p.name ≠ "" ∧
        normalizeName rt p.name ∈ productKeys rt (sheet.products.take j) := by
  rw [pushedForProduct_eq rt sheet j p hget]
  unfold productErrorsAt
  have hname : (deriveProduct p).name = jsTrim p.name := rfl
  rw [List.mem_append, hname]
  unfold productNameErrors
  rw [normalizeName_jsTrim]
  constructor
  · rintro (h | h)
    · by_cases h1 : normalizeName rt p.name = ""
      · rw [if_pos h1] at h
        exact absurd (List.mem_singleton.mp h) (duplicate_ne_nameRequired _ _)
      · rw [if_neg h1] at h
        by_cases h2 : (nameIndexFrom rt JsMap.empty 0 (sheet.products.take j)).has
            (normalizeName rt p.name) = true
        · exact ⟨h1, ((finalIndex_has_iff rt _ _).mp h2).2⟩
        · rw [if_neg h2] at h
          simp at h
    · obtain ⟨t, ht⟩ := mem_fieldErrors_shape _ _ _ _ h
      exact absurd ht.symm (productMsg_ne_duplicate _ _ _ _)
  · rintro ⟨h1, h2⟩
    left
    rw [if_neg h1, if_pos ((finalIndex_has_iff rt _ _).mpr ⟨h1, h2⟩)]
    simp

theorem duplicateFlagged_eq (rt : Runtime) (sheet : Sheet) (j : Nat) :
    duplicateFlagged rt sheet j = repeatedAt (productKeys rt sheet.products) j := by
  unfold duplicateFlagged repeatedAt
  cases hget : sheet.products.get? j with
  | none =>
    have : (productKeys rt sheet.products).get? j = none := by
      simp only [productKeys, List.get?_eq_getElem?, List.getElem?_map] at hget ⊢
      simp [hget]
    rw [this]
  | some p =>
    have : (productKeys rt sheet.products).get? j = some (normalizeName rt p.name) := by
      simp only [productKeys, List.get?_eq_getElem?, List.getElem?_map] at hget ⊢
      simp [hget]
    rw [this]
    simp only []
    have htake : productKeys rt (sheet.products.take j) =
        (productKeys rt sheet.products).take j := by
      simp [productKeys, List.map_take]
    rw [← htake, ← Bool.decide_and]
    exact decide_eq_decide.mpr (duplicate_mem_pushed rt sheet j p hget)

theorem repeatedAt_append_of_lt (keys : List String) (k : String) (j : Nat)
    (hj : j < keys.length) : repeatedAt (keys ++ [k]) j = repeatedAt keys j := by
  unfold repeatedAt
  have h1 : (keys ++ [k]).get? j = keys.get? j := by
    simp [List.getElem?_append_left hj]
  have h2 : (keys ++ [k]).take j = keys.take j :=
    List.take_append_of_le_length (le_of_lt hj)
  rw [h1, h2]

theorem repeatedAt_append_length (keys : List String) (k : String) :
    repeatedAt (keys ++ [k]) keys.length = (decide (k ≠ "") && decide (k ∈ keys)) := by
  unfold repeatedAt
  simp

/-- Repeats and distinct non-empty keys add up to the non-empty keys. -/
theorem repeats_add_distinct (keys : List String) :
    ((List.range keys.length).filter (repeatedAt keys)).length +
      ((keys.filter (fun k => decide (k ≠ ""))).toFinset).card =
      (keys.filter (fun k => decide (k ≠ ""))).length := by
  induction keys using List.reverseRecOn with
  | nil => simp
  | append_singleton ks k ih =>
    have hrange : (List.range (ks ++ [k]).length).filter (repeatedAt (ks ++ [k])) =
        (List.range ks.length).filter (repeatedAt ks) ++
          (if repeatedAt (ks ++ [k]) ks.length = true then [ks.length] else []) := by
      rw [List.length_append, List.length_singleton, List.range_succ, List.filter_append]
      congr 1
      · apply List.filter_congr
        intro j hj
        exact repeatedAt_append_of_lt ks k j (List.mem_range.mp hj)
      · simp [List.filter_cons]
    rw [hrange, repeatedAt_append_length, List.filter_append, List.toFinset_append,
      List.length_append, List.length_append]
    by_cases hk : k = ""
    · subst hk
      simpa using ih
    · have hfk : List.filter (fun k => decide (k ≠ "")) [k] = [k] := by
        simp [List.filter_cons, hk]
      rw [hfk]
      by_cases hmem : k ∈ ks
      · have hin : k ∈ (ks.filter (fun k => decide (k ≠ ""))).toFinset := by
          simp [hmem, hk]
        have hun : (ks.filter (fun k => decide (k ≠ ""))).toFinset ∪ [k].toFinset =
            (ks.filter (fun k => decide (k ≠ ""))).toFinset := by
          rw [Finset.union_eq_left]
          intro a ha
          have : a = k := by simpa using ha
          rw [this]; exact hin
        rw [hun]
        simp only [hk, hmem, ne_eq, not_false_eq_true, decide_True, Bool.and_self, if_true,
          List.length_singleton] at ih ⊢
        omega
      · have hnin : k ∉ (ks.filter (fun k => decide (k ≠ ""))).toFinset := by
          simp [hmem]
        have hun : (ks.filter (fun k => decide (k ≠ ""))).toFinset ∪ [k].toFinset =
            insert k (ks.filter (fun k => decide (k ≠ ""))).toFinset := by
          ext a
          simp [or_comm]
        rw [hun, Finset.card_insert_of_not_mem hnin]
        simp only [hmem, decide_False, Bool.and_false, Bool.false_eq_true, if_false,
          List.length_nil, List.length_singleton, ne_eq] at ih ⊢
        omega

/-- C9: during its iteration on the product at index `j`, `recalcActiveSheet` pushes the
'Duplicate product name found' message exactly when the product's trimmed, lower-cased
name is non-empty and is the trimmed, lower-cased name of a product at an earlier index
(so a first occurrence is never flagged and every later one is); the number of iterations
that push it is the number of products with a non-empty normalized name minus the number
of distinct non-empty normalized names. -/
theorem duplicate_detection (rt : Runtime) (sheet : Sheet) :
    (∀ (j : Nat) (p : Product), sheet.products.get? j = some p →
      (duplicateNameMsg (jsTrim p.name) ∈ pushedForProduct rt sheet j ↔
        normalizeName rt p.name ≠ "" ∧
          ∃ (i : Nat) (earlier : Product), i < j ∧ sheet.products.get? i = some earlier ∧
            normalizeName rt earlier.name = normalizeName rt p.name)) ∧
    duplicateCount rt sheet =
      ((productKeys rt sheet.products).filter (fun k => decide (k ≠ ""))).length -
        (((productKeys rt sheet.products).filter (fun k => decide (k ≠ ""))).toFinset).card := by
  constructor
  · intro j p hget
    rw [duplicate_mem_pushed rt sheet j p hget, mem_productKeys]
    constructor
    · rintro ⟨h1, q, hq, hqk⟩
      obtain ⟨i, hi, hg⟩ := (mem_take_iff_get? q _ _).mp hq
      exact ⟨h1, i, q, hi, hg, hqk⟩
    · rintro ⟨h1, i, q, hi, hg, hqk⟩
      exact ⟨h1, q, (mem_take_iff_get? q _ _).mpr ⟨i, hi, hg⟩, hqk⟩
  · have hcount : duplicateCount rt sheet =
        ((List.range (productKeys rt sheet.products).length).filter
          (repeatedAt (productKeys rt sheet.products))).length := by
      unfold duplicateCount
      have hlen : (productKeys rt sheet.products).length = sheet.products.length := by
        simp [productKeys]
      rw [hlen]
      congr 1
      apply List.filter_congr
      intro j _
      exact duplicateFlagged_eq rt sheet j
    have := repeats_add_distinct (productKeys rt sheet.products)
    omega

/-- An input of C9: of " bread", "", "Bread " and "BREAD", the third and fourth products
are flagged, the first and the unnamed one are not, and the count is 3 - 1 = 2. -/
theorem duplicate_detection_witness :
    "Duplicate product name found: \"Bread\"." ∈ pushedForProduct asciiRuntime
      duplicatesSheet 2 ∧
    duplicateCount asciiRuntime duplicatesSheet = 2 :=
  ⟨(by decide! : "Duplicate product name found: \"Bread\"." =
      duplicateNameMsg (jsTrim "Bread ")) ▸
    ((duplicate_detection asciiRuntime duplicatesSheet).1 2 ⟨"Bread ", 1, 2, 3, 0⟩
      (by decide!)).mpr ⟨by decide!, 0, ⟨" bread", 1, 2, 3, 0⟩, by decide!, by decide!,
        by decide!⟩,
   (duplicate_detection asciiRuntime duplicatesSheet).2.trans (by decide!)⟩


/-! ## The messages of one sale -/

theorem pushedForSale_eq (rt : Runtime) (sheet : Sheet) (i : Nat) (sale : Sale)
    (hget : sheet.sales.get? i = some sale) :
    pushedForSale rt sheet i =
      saleFieldErrors i (deriveSale rt sale).itemName (deriveSale rt sale).qtySold
        (deriveSale rt sale).revenue (deriveSale rt sale).productionCost
        (deriveSale rt sale).grossProfit := by
  unfold pushedForSale
  rw [hget]
  simp only [saleStep]
  rw [List.drop_left]

theorem saleQtyMsg_ne_nameRequired (i : Nat) : saleQtyMsg i ≠ saleNameRequiredMsg i := by
  unfold saleQtyMsg saleNameRequiredMsg
  rw [Ne, string_append_cancel]
  decide

theorem saleQtyMsg_ne_money (i : Nat) : saleQtyMsg i ≠ saleMoneyMsg i := by
  unfold saleQtyMsg saleMoneyMsg
  rw [Ne, string_append_cancel]
  decide

theorem saleQtyMsg_mem_pushed (rt : Runtime) (sheet : Sheet) (i : Nat) (sale : Sale)
    (hget : sheet.sales.get? i = some sale) :
    saleQtyMsg i ∈ pushedForSale rt sheet i ↔ toIntegerOrZero sale.qtySold < 1 := by
  rw [pushedForSale_eq rt sheet i sale hget]
  unfold saleFieldErrors
  simp only [List.mem_append, deriveSale, numberIsInteger_toIntegerOrZero]
  constructor
  · rintro ((h | h) | h)
    · split at h
      · exact absurd (List.mem_singleton.mp h) (saleQtyMsg_ne_nameRequired i)
      · simp at h
    · split at h
      · rename_i hc
        simpa using hc
      · simp at h
    · split at h
      · exact absurd (List.mem_singleton.mp h) (saleQtyMsg_ne_money i)
      · simp at h
  · intro h
    left; right
    simp [h]

theorem toIntegerOrZero_lt_one_iff (x : ℚ) : toIntegerOrZero x < 1 ↔ x < 1 := by
  rw [toIntegerOrZero_eq]
  unfold mathTrunc
  split
  · rename_i h0
    have h1 : ((⌊x⌋ : ℤ) : ℚ) < 1 ↔ ⌊x⌋ < 1 := by exact_mod_cast Iff.rfl
    rw [h1, Int.floor_lt]
    simp
  · rename_i h0
    have hx : x < 0 := not_le.mp h0
    have hc : ⌈x⌉ ≤ 0 := Int.ceil_le.mpr (by exact_mod_cast hx.le)
    have h1 : ((⌈x⌉ : ℤ) : ℚ) ≤ 0 := by exact_mod_cast hc
    constructor
    · intro _; linarith
    · intro _; linarith

/-- C11, as stated, fails: a sale whose stored quantity is 3/2, which is not an integer,
gets no quantity message, because the loop checks the quantity after truncating it
to 1. -/
theorem fractional_quantity_not_flagged :
    ¬ (saleQtyMsg 0 ∈ pushedForSale asciiRuntime fractionalSaleSheet 0 ↔
      ¬ (numberIsInteger (3 / 2) = true ∧ (1 : ℚ) ≤ 3 / 2)) := by
  decide!

/-- C11, amended: during its iteration on a sale, `recalcActiveSheet` pushes the quantity
message `Sale #<index + 1>: qty sold must be an integer >= 1.` exactly when the stored
quantity truncated toward zero is below 1, that is when the stored quantity is below 1;
for a stored integer this is exactly when it is not an integer >= 1. -/
theorem quantity_violation_iff (rt : Runtime) (sheet : Sheet) (i : Nat) (sale : Sale)
    (hget : sheet.sales.get? i = some sale) :
    ("Sale #" ++ toString (i + 1) ++ ": qty sold must be an integer >= 1." ∈
        pushedForSale rt sheet i ↔ toIntegerOrZero sale.qtySold < 1) ∧
    (toIntegerOrZero sale.qtySold < 1 ↔ sale.qtySold < 1) ∧
    (numberIsInteger sale.qtySold = true →
      ("Sale #" ++ toString (i + 1) ++ ": qty sold must be an integer >= 1." ∈
        pushedForSale rt sheet i ↔
          ¬ (numberIsInteger sale.qtySold = true ∧ 1 ≤ sale.qtySold))) := by
  have hmsg : "Sale #" ++ toString (i + 1) ++ ": qty sold must be an integer >= 1." =
      saleQtyMsg i := rfl
  rw [hmsg]
  refine ⟨saleQtyMsg_mem_pushed rt sheet i sale hget, toIntegerOrZero_lt_one_iff _, ?_⟩
  intro hint
  rw [saleQtyMsg_mem_pushed rt sheet i sale hget, toIntegerOrZero_lt_one_iff]
  simp [hint]

/-- An input of C11 amended: a sale with stored quantity 0 gets the quantity message. -/
theorem quantity_violation_iff_witness :
    "Sale #1: qty sold must be an integer >= 1." ∈
      pushedForSale asciiRuntime zeroSaleSheet 0 :=
  ((quantity_violation_iff asciiRuntime zeroSaleSheet 0
      ⟨"sale-1", "2024-05-01", "Bread", 0, 0, 0, 0⟩ (by decide!)).1).mpr (by decide!)

/-! ## The order of the messages -/

theorem saleErrorsFrom_append (rt : Runtime) (l1 l2 : List Sale) : ∀ i : Nat,
    saleErrorsFrom rt i (l1 ++ l2) =
      saleErrorsFrom rt i l1 ++ saleErrorsFrom rt (i + l1.length) l2 := by
  induction l1 with
  | nil => intro i; simp [saleErrorsFrom]
  | cons x xs ih =>
    intro i
    simp [saleErrorsFrom, ih, Nat.add_assoc, Nat.add_comm 1]


theorem productErrorsFrom_append (rt : Runtime) (sold : JsMap ℚ) (l1 l2 : List Product) :
    ∀ (m : JsMap Nat) (i : Nat),
    productErrorsFrom rt sold m i (l1 ++ l2) =
      productErrorsFrom rt sold m i l1 ++
        productErrorsFrom rt sold (nameIndexFrom rt m i l1) (i + l1.length) l2 := by
  induction l1 with
  | nil => intro m i; simp [productErrorsFrom, nameIndexFrom]
  | cons x xs ih =>
    intro m i
    simp [productErrorsFrom, nameIndexFrom, ih, Nat.add_assoc, Nat.add_comm 1]

theorem take_succ_of_get? {α : Type} (l : List α) (k : Nat) (x : α)
    (h : l.get? k = some x) : l.take (k + 1) = l.take k ++ [x] := by
  rw [List.take_succ]
  simp only [List.get?_eq_getElem?] at h
  rw [h]
  rfl

theorem length_take_of_get? {α : Type} (l : List α) (k : Nat) (x : α)
    (h : l.get? k = some x) : (l.take k).length = k := by
  have hk : k < l.length := by
    rw [List.get?_eq_getElem?] at h
    exact (List.getElem?_eq_some_iff.mp h).1
  simp [List.length_take, Nat.min_eq_left (le_of_lt hk)]

theorem get?_of_lt {α : Type} (l : List α) (k : Nat) (h : k < l.length) :
    ∃ x, l.get? k = some x := by
  exact ⟨l[k], by simp [List.getElem?_eq_getElem h]⟩

theorem saleErrors_by_iteration (rt : Runtime) (sheet : Sheet) : ∀ k : Nat,
    k ≤ sheet.sales.length →
    saleErrorsFrom rt 0 (sheet.sales.take k) =
      (List.range k).flatMap (pushedForSale rt sheet) := by
  intro k
  induction k with
  | zero => intro _; simp [saleErrorsFrom]
  | succ n ih =>
    intro hk
    obtain ⟨x, hx⟩ := get?_of_lt sheet.sales n (by omega)
    rw [take_succ_of_get? _ _ _ hx, saleErrorsFrom_append, ih (by omega), List.range_succ,
      List.flatMap_append, length_take_of_get? _ _ _ hx]
    congr 1
    simp only [List.flatMap_cons, List.flatMap_nil, List.append_nil, Nat.zero_add]
    rw [pushedForSale_eq rt sheet n x hx]
    simp [saleErrorsFrom]

theorem productErrors_by_iteration (rt : Runtime) (sheet : Sheet) : ∀ k : Nat,
    k ≤ sheet.products.length →
    productErrorsFrom rt (afterSales rt sheet).soldQtyByName JsMap.empty 0
        (sheet.products.take k) =
      (List.range k).flatMap (pushedForProduct rt sheet) := by
  intro k
  induction k with
  | zero => intro _; simp [productErrorsFrom]
  | succ n ih =>
    intro hk
    obtain ⟨x, hx⟩ := get?_of_lt sheet.products n (by omega)
    rw [take_succ_of_get? _ _ _ hx, productErrorsFrom_append, ih (by omega), List.range_succ,
      List.flatMap_append, length_take_of_get? _ _ _ hx]
    congr 1
    simp only [List.flatMap_cons, List.flatMap_nil, List.append_nil, Nat.zero_add]
    rw [pushedForProduct_eq rt sheet n x hx]
    simp [productErrorsFrom]

theorem afterProducts_sales (rt : Runtime) (sheet : Sheet) :
    (afterProducts rt sheet).sales = sheet.sales.map (deriveSale rt) := by
  simp [afterProducts, afterSales, productLoop_sales, saleLoop_sales, Calc.init]

theorem afterProducts_nameIndex (rt : Runtime) (sheet : Sheet) :
    (afterProducts rt sheet).nameIndex = nameIndexFrom rt JsMap.empty 0 sheet.products := by
  simp [afterProducts, afterSales, productLoop_nameIndex, saleLoop_nameIndex, Calc.init]

theorem pushedForOrphan_eq (rt : Runtime) (sheet : Sheet) (i : Nat) (row : DerivedSale)
    (hget : (sheet.sales.map (deriveSale rt)).get? i = some row) :
    pushedForOrphan rt sheet i =
      if !(nameIndexFrom rt JsMap.empty 0 sheet.products).has
          (normalizeName rt row.itemName)
      then [orphanMsg i row.itemName] else [] := by
  unfold pushedForOrphan
  rw [afterProducts_sales, hget]
  simp only [orphanStep, afterProducts_nameIndex]
  split
  · rw [List.drop_left]
  · simp

theorem orphanErrors_by_iteration (rt : Runtime) (sheet : Sheet) : ∀ k : Nat,
    k ≤ sheet.sales.length →
    orphanErrorsFrom rt (nameIndexFrom rt JsMap.empty 0 sheet.products) 0
        ((sheet.sales.map (deriveSale rt)).take k) =
      (List.range k).flatMap (pushedForOrphan rt sheet) := by
  intro k
  induction k with
  | zero => intro _; simp [orphanErrorsFrom]
  | succ n ih =>
    intro hk
    obtain ⟨x, hx⟩ := get?_of_lt (sheet.sales.map (deriveSale rt)) n (by simp; omega)
    rw [take_succ_of_get? _ _ _ hx, orphanErrorsFrom_append, ih (by omega), List.range_succ,
      List.flatMap_append, length_take_of_get? _ _ _ hx]
    congr 1
    simp only [List.flatMap_cons, List.flatMap_nil, List.append_nil, Nat.zero_add]
    rw [pushedForOrphan_eq rt sheet n x hx]
    simp [orphanErrorsFrom]

/-- C12: `validation.errors` is the concatenation, in this order, of the messages of the
first loop (sale field checks) iteration by iteration in sale order, the messages of the
second loop (product checks) in product order, the messages of the third loop ('does not
match any product') in sale order, and the messages about totals that are not finite; so
no product message precedes a sale field message and no 'does not match' message precedes
a product message. -/
theorem errors_in_discovery_order (rt : Runtime) (sheet : Sheet) :
    (recalcActiveSheet rt (some sheet)).validation.errors =
      (List.range sheet.sales.length).flatMap (pushedForSale rt sheet) ++
      (List.range sheet.products.length).flatMap (pushedForProduct rt sheet) ++
      (List.range sheet.sales.length).flatMap (pushedForOrphan rt sheet) ++
      totalsErrors (recalcActiveSheet rt (some sheet)).totals ∧
    (∀ i : Nat, (pushedForSale rt sheet i).Sublist
      [saleNameRequiredMsg i, saleQtyMsg i, saleMoneyMsg i]) ∧
    (∀ i : Nat, pushedForOrphan rt sheet i = [] ∨
      ∃ name : String, pushedForOrphan rt sheet i = [orphanMsg i name]) := by
  refine ⟨?_, ?_, ?_⟩
  · simp only [recalcActiveSheet]
    rw [recalcSheet_errors, totalsErrors_eq, List.append_nil]
    have h1 := saleErrors_by_iteration rt sheet sheet.sales.length (le_refl _)
    have h2 := productErrors_by_iteration rt sheet sheet.products.length (le_refl _)
    have h3 := orphanErrors_by_iteration rt sheet sheet.sales.length (le_refl _)
    have hlen : ((sheet.sales.map (deriveSale rt)).take sheet.sales.length) =
        sheet.sales.map (deriveSale rt) := by
      apply List.take_of_length_le
      simp
    rw [List.take_length] at h1 h2
    rw [hlen] at h3
    rw [h1, h2, h3]
  · intro i
    cases hget : sheet.sales.get? i with
    | none =>
      unfold pushedForSale
      rw [hget]
      exact List.nil_sublist _
    | some sale =>
      rw [pushedForSale_eq rt sheet i sale hget]
      unfold saleFieldErrors
      split <;> split <;> split <;> simp
  · intro i
    cases hget : (sheet.sales.map (deriveSale rt)).get? i with
    | none =>
      left
      unfold pushedForOrphan
      rw [afterProducts_sales, hget]
    | some row =>
      rw [pushedForOrphan_eq rt sheet i row hget]
      split
      · exact Or.inr ⟨_, rfl⟩
      · exact Or.inl rfl

/-! ## The report of the checker -/

/-- C13: `runSystemCheck` returns a non-empty message list; `passed` is true exactly when
the list is the single sentinel "- All totals and invariants are valid."; and when
validation is not valid, the validator's violations, each with "- " in front and in the
validator's order, are the end of the message list. -/
theorem check_report (rt : Runtime) (active : Option Sheet) :
    (runSystemCheck rt active).messages ≠ [] ∧
    ((runSystemCheck rt active).passed = true ↔
      (runSystemCheck rt active).messages.length = 1 ∧
        (runSystemCheck rt active).messages = ["- All totals and invariants are valid."]) ∧
    ((recalcActiveSheet rt active).validation.isValid = false →
      ((recalcActiveSheet rt active).validation.errors.map (fun error => "- " ++ error)) <:+
        (runSystemCheck rt active).messages) := by
  unfold runSystemCheck
  simp only []
  generalize hcm : checkMessages rt (recalcActiveSheet rt active) = cm
  refine ⟨?_, ?_, ?_⟩
  · split
    · simp
    · rename_i h
      intro hnil
      rw [hnil] at h
      simp at h
  · have hs : allClearMsg = "- All totals and invariants are valid." := rfl
    rw [← hs]
    generalize (if cm.length = 0 then cm ++ [allClearMsg] else cm) = ms
    cases ms with
    | nil => simp
    | cons a rest =>
      cases rest with
      | nil => simp
      | cons b rest' => simp
  · intro hinv
    have hsuf : ((recalcActiveSheet rt active).validation.errors.map
        (fun error => "- " ++ error)) <:+ cm := by
      rw [← hcm]
      unfold checkMessages
      rw [hinv]
      exact List.suffix_append _ _
    split
    · rename_i h
      have hc : cm = [] := List.length_eq_zero.mp h
      rw [hc] at hsuf
      rw [List.eq_nil_of_suffix_nil hsuf]
      exact List.nil_suffix
    · exact hsuf

/-! ## The checker passes exactly on valid sheets -/

/-- The first character of a concatenation is that of its non-empty left part. -/
theorem head_append_of_ne_nil (a b : String) (c : Char) (h : a.data.head? = some c) :
    (a ++ b).data.head? = some c := by
  rw [String.data_append]
  cases hd : a.data with
  | nil => rw [hd] at h; simp at h
  | cons x xs => rw [hd] at h; simpa using h

theorem saleLabel_head (i : Nat) : (saleLabel i).data.head? = some 'S' :=
  head_append_of_ne_nil _ _ _ rfl

theorem mem_saleErrorsFrom_head (rt : Runtime) (l : List Sale) : ∀ (i : Nat) (e : String),
    e ∈ saleErrorsFrom rt i l → e.data.head? = some 'S' := by
  induction l with
  | nil => intro i e h; simp [saleErrorsFrom] at h
  | cons x xs ih =>
    intro i e h
    rw [saleErrorsFrom, List.mem_append] at h
    rcases h with h | h
    · unfold saleFieldErrors at h
      simp only [List.mem_append] at h
      rcases h with (h | h) | h <;>
      · split at h
        · rw [List.mem_singleton.mp h]
          exact head_append_of_ne_nil _ _ _ (saleLabel_head i)
        · simp at h
    · exact ih _ e h

theorem mem_productErrorsFrom_head (rt : Runtime) (sold : JsMap ℚ) (l : List Product) :
    ∀ (m : JsMap Nat) (i : Nat) (e : String),
    e ∈ productErrorsFrom rt sold m i l →
      e.data.head? = some 'P' ∨ e.data.head? = some 'D' := by
  induction l with
  | nil => intro m i e h; simp [productErrorsFrom] at h
  | cons x xs ih =>
    intro m i e h
    rw [productErrorsFrom, List.mem_append] at h
    rcases h with h | h
    · unfold productErrorsAt at h
      rw [List.mem_append] at h
      rcases h with h | h
      · unfold productNameErrors at h
        split at h
        · rw [List.mem_singleton.mp h]
          exact Or.inl (head_append_of_ne_nil _ _ _ (head_append_of_ne_nil _ _ _ rfl))
        · split at h
          · rw [List.mem_singleton.mp h]
            exact Or.inr (head_append_of_ne_nil _ _ _ (head_append_of_ne_nil _ _ _ rfl))
          · simp at h
      · obtain ⟨t, ht⟩ := mem_fieldErrors_shape _ _ _ _ h
        rw [ht]
        exact Or.inl (head_append_of_ne_nil _ _ _ (head_append_of_ne_nil _ _ _
          (head_append_of_ne_nil _ _ _ rfl)))
    · exact ih _ _ e h

theorem mem_orphanErrorsFrom_head (rt : Runtime) (m : JsMap Nat) (l : List DerivedSale) :
    ∀ (i : Nat) (e : String), e ∈ orphanErrorsFrom rt m i l → e.data.head? = some 'S' := by
  induction l with
  | nil => intro i e h; simp [orphanErrorsFrom] at h
  | cons x xs ih =>
    intro i e h
    rw [orphanErrorsFrom, List.mem_append] at h
    rcases h with h | h
    · split at h
      · rw [List.mem_singleton.mp h]
        exact head_append_of_ne_nil _ _ _ (head_append_of_ne_nil _ _ _
          (head_append_of_ne_nil _ _ _ (saleLabel_head i)))
      · simp at h
    · exact ih _ e h

/-- No violation reads like the sentinel of the checker without its "- ". -/
theorem error_prefixed_ne_allClear (rt : Runtime) (sheet : Sheet) (e : String)
    (he : e ∈ (recalcSheet rt sheet).validation.errors) : "- " ++ e ≠ allClearMsg := by
  have hA : allClearMsg = "- " ++ "All totals and invariants are valid." := by decide
  rw [hA, Ne, string_append_cancel]
  intro heq
  rw [recalcSheet_errors] at he
  simp only [List.mem_append] at he
  have hhead : e.data.head? = some 'A' := by rw [heq]; rfl
  rcases he with (he | he) | he
  · have := mem_saleErrorsFrom_head rt _ _ _ he
    rw [hhead] at this
    exact absurd this (by decide)
  · rcases mem_productErrorsFrom_head rt _ _ _ _ _ he with h | h
    · rw [hhead] at h
      exact absurd h (by decide)
    · rw [hhead] at h
      exact absurd h (by decide)
  · have := mem_orphanErrorsFrom_head rt _ _ _ _ he
    rw [hhead] at this
    exact absurd this (by decide)

theorem negativeStock_of_any (rt : Runtime) (sheet : Sheet)
    (h : (recalcSheet rt sheet).products.any
      (fun product => decide (product.stockAvailable < 0)) = true) :
    (recalcSheet rt sheet).validation.isValid = false := by
  rw [Bool.eq_false_iff]
  intro hvalid
  have hv : ValidSheet rt sheet := (isValid_iff rt sheet).mp hvalid
  rw [recalcSheet_products, List.any_eq_true] at h
  obtain ⟨d, hd, hlt⟩ := h
  obtain ⟨p, hp, rfl⟩ := List.mem_map.mp hd
  obtain ⟨_, _, _, _, _, p6, _⟩ := hv.products_ok p hp
  have : (deriveProduct p).stockAvailable < 0 := by simpa using hlt
  simp only [deriveProduct] at this
  linarith

/-- C20: in exact arithmetic `runSystemCheck` reports `passed = true` exactly when
`recalcActiveSheet` reports `validation.isValid = true`: the recomputation by `sumBy`
over the derived rows never yields a mismatch message, and a negative derived
`stockAvailable` always comes with a validator violation. -/
theorem checker_passes_iff_valid (rt : Runtime) (sheet : Sheet) :
    ((runSystemCheck rt (some sheet)).passed = true ↔
      (recalcActiveSheet rt (some sheet)).validation.isValid = true) ∧
    ((rowTotalsEntries (recalcActiveSheet rt (some sheet))).filter
      (fun e => isMismatch e.1 e.2.1 e.2.2) = []) ∧
    ((recalcActiveSheet rt (some sheet)).products.any
        (fun product => decide (product.stockAvailable < 0)) = true →
      (recalcActiveSheet rt (some sheet)).validation.isValid = false) := by
  refine ⟨⟨?_, fun h => passed_of_valid rt sheet ((isValid_iff rt sheet).mp h)⟩,
    rowTotals_no_mismatch rt sheet, negativeStock_of_any rt sheet⟩
  intro hpass
  by_contra hinv
  have hinv' : (recalcSheet rt sheet).validation.isValid = false := by
    simpa [recalcActiveSheet] using hinv
  have herr : (recalcSheet rt sheet).validation.errors ≠ [] := by
    intro hnil
    rw [errors_isValid, hnil] at hinv'
    simp at hinv'
  obtain ⟨e, rest, he⟩ := List.exists_cons_of_ne_nil herr
  have hmem : e ∈ (recalcSheet rt sheet).validation.errors := by rw [he]; simp
  have hne := error_prefixed_ne_allClear rt sheet e hmem
  have hcm : checkMessages rt (recalcSheet rt sheet) =
      (if (recalcSheet rt sheet).products.any
          (fun product => decide (product.stockAvailable < 0))
        then ["- Negative stock available detected."] else []) ++
        (("- " ++ e) :: rest.map (fun error => "- " ++ error)) := by
    unfold checkMessages
    rw [rowTotals_no_mismatch, hinv', he]
    simp
  unfold runSystemCheck at hpass
  simp only [recalcActiveSheet, hcm] at hpass
  split at hpass
  · rename_i hneg
    simp at hpass
  · simp only [List.nil_append, List.length_cons, Nat.add_eq_zero, one_ne_zero, and_false,
      if_false, List.head?_cons, Bool.and_eq_true, decide_eq_true_eq, Option.some.injEq]
      at hpass
    exact hne hpass.2

/-! ## Renaming and deleting a product -/

theorem mem_of_get?_ne_middle {α : Type} (l1 l2 : List α) (p q : α) (j : Nat)
    (hj : j ≠ l1.length) (hget : (l1 ++ p :: l2).get? j = some q) : q ∈ l1 ∨ q ∈ l2 := by
  rw [List.get?_eq_getElem?] at hget
  rcases Nat.lt_or_gt_of_ne hj with h | h
  · left
    rw [List.getElem?_append_left h] at hget
    exact List.getElem?_mem hget
  · right
    rw [List.getElem?_append_right (le_of_lt h)] at hget
    obtain ⟨k, hk⟩ : ∃ k, j - l1.length = k + 1 := ⟨j - l1.length - 1, by omega⟩
    rw [hk, List.getElem?_cons_succ] at hget
    exact List.getElem?_mem hget

/-- C14: a rename of the product at index `i` to a name whose trimmed, lower-cased form
is that of a product at another index is rejected: nothing is saved, the sheet (products
and sales) is exactly as before, and when index `i` holds a product an error is shown. -/
theorem rename_collision_rejected (rt : Runtime) (sheet : Sheet) (i j : Nat)
    (value : String) (numericResult : Option ℚ) (other : Product)
    (hj : j ≠ i) (hother : sheet.products.get? j = some other)
    (hcollide : normalizeName rt other.name = normalizeName rt value) :
    (onInventoryChange rt sheet i "name" value numericResult).saved = false ∧
    (onInventoryChange rt sheet i "name" value numericResult).sheet = sheet ∧
    (onInventoryChange rt sheet i "name" value numericResult).sheet.products =
      sheet.products ∧
    (onInventoryChange rt sheet i "name" value numericResult).sheet.sales = sheet.sales ∧
    (∀ p : Product, sheet.products.get? i = some p →
      ∃ msg, (onInventoryChange rt sheet i "name" value numericResult).status =
        some (msg, "error")) := by
  have key : (onInventoryChange rt sheet i "name" value numericResult).saved = false ∧
      (onInventoryChange rt sheet i "name" value numericResult).sheet = sheet ∧
      (∀ p : Product, sheet.products.get? i = some p →
        ∃ msg, (onInventoryChange rt sheet i "name" value numericResult).status =
          some (msg, "error")) := by
    unfold onInventoryChange
    rw [if_neg (by decide)]
    cases hget : sheet.products.get? i with
    | none => exact ⟨rfl, rfl, fun p hp => by simp at hp⟩
    | some p =>
      simp only [if_true]
      obtain ⟨l1, l2, e1, e2, _, _⟩ := split_at_index _ _ _ hget
      subst e2
      unfold renameProduct
      simp only []
      by_cases hname : jsTrim value = ""
      · rw [if_pos hname]
        exact ⟨rfl, rfl, fun _ _ => ⟨_, rfl⟩⟩
      rw [if_neg hname]
      have hdup : someIdx
          (fun item k => decide (k ≠ l1.length) &&
            decide (normalizeName rt item.name = normalizeName rt (jsTrim value)))
          0 sheet.products = true := by
        rw [e1, someIdx_other, Bool.or_eq_true, List.any_eq_true, List.any_eq_true]
        rw [e1] at hother
        rcases mem_of_get?_ne_middle l1 l2 p other j hj hother with h | h
        · exact Or.inl ⟨other, h, by simpa [normalizeName_jsTrim] using hcollide⟩
        · exact Or.inr ⟨other, h, by simpa [normalizeName_jsTrim] using hcollide⟩
      rw [if_pos hdup]
      exact ⟨rfl, rfl, fun _ _ => ⟨_, rfl⟩⟩
  obtain ⟨k1, k2, k3⟩ := key
  exact ⟨k1, k2, by rw [k2], by rw [k2], k3⟩

/-- An input of C14: renaming Bread (index 0) to " SCONE " while Scone is at index 1. -/
theorem rename_collision_rejected_witness :
    (onInventoryChange asciiRuntime
      ⟨[⟨"Bread", 100, 150, 20, 0⟩, ⟨"Scone", 50, 80, 10, 0⟩], []⟩ 0 "name" " SCONE "
      none).saved = false ∧
    (onInventoryChange asciiRuntime
      ⟨[⟨"Bread", 100, 150, 20, 0⟩, ⟨"Scone", 50, 80, 10, 0⟩], []⟩ 0 "name" " SCONE "
      none).sheet = ⟨[⟨"Bread", 100, 150, 20, 0⟩, ⟨"Scone", 50, 80, 10, 0⟩], []⟩ :=
  have h := rename_collision_rejected asciiRuntime
    ⟨[⟨"Bread", 100, 150, 20, 0⟩, ⟨"Scone", 50, 80, 10, 0⟩], []⟩ 0 1 " SCONE " none
    ⟨"Scone", 50, 80, 10, 0⟩ (by decide) (by decide!) (by decide!)
  ⟨h.1, h.2.1⟩

theorem renameProduct_saved (rt : Runtime) (sheet : Sheet) (value : String)
    (p : Product) (l1 l2 : List Product) (e1 : sheet.products = l1 ++ p :: l2)
    (hacc : (renameProduct rt sheet l1.length p value).saved = true) :
    jsTrim value ≠ "" ∧
      (∀ a ∈ l1, normalizeName rt a.name ≠ normalizeName rt (jsTrim value)) ∧
      (∀ a ∈ l2, normalizeName rt a.name ≠ normalizeName rt (jsTrim value)) ∧
      (renameProduct rt sheet l1.length p value).sheet =
        { products := l1 ++ { p with name := jsTrim value } :: l2
          sales :=
            if normalizeName rt p.name ≠ normalizeName rt (jsTrim value) then
              sheet.sales.map (fun sale =>
                if normalizeName rt sale.itemName = normalizeName rt p.name
                then { sale with itemName := jsTrim value } else sale)
            else sheet.sales } := by
  unfold renameProduct at hacc ⊢
  simp only [] at hacc ⊢
  by_cases hname : jsTrim value = ""
  · rw [if_pos hname] at hacc; simp [rejected] at hacc
  rw [if_neg hname] at hacc ⊢
  rw [e1, someIdx_other] at hacc ⊢
  by_cases hdup : (l1.any (fun item =>
        decide (normalizeName rt item.name = normalizeName rt (jsTrim value))) ||
      l2.any (fun item =>
        decide (normalizeName rt item.name = normalizeName rt (jsTrim value)))) = true
  · rw [if_pos hdup] at hacc; simp [rejected] at hacc
  rw [if_neg hdup]
  simp only [Bool.or_eq_true, List.any_eq_true, decide_eq_true_eq, not_or, not_exists,
    not_and] at hdup
  refine ⟨hname, fun a ha => hdup.1 a ha, fun a ha => hdup.2 a ha, ?_⟩
  have hset : (l1 ++ p :: l2).set l1.length { p with name := jsTrim value } =
      l1 ++ { p with name := jsTrim value } :: l2 := by
    simp
  simp only [hset]

theorem rename_accepted (rt : Runtime) (sheet : Sheet) (index : Nat) (value : String)
    (numericResult : Option ℚ)
    (hacc : (onInventoryChange rt sheet index "name" value numericResult).saved = true) :
    ∃ (p : Product) (l1 l2 : List Product),
      sheet.products.get? index = some p ∧ sheet.products = l1 ++ p :: l2 ∧
      l1.length = index ∧ jsTrim value ≠ "" ∧
      (∀ a ∈ l1, normalizeName rt a.name ≠ normalizeName rt (jsTrim value)) ∧
      (∀ a ∈ l2, normalizeName rt a.name ≠ normalizeName rt (jsTrim value)) ∧
      (onInventoryChange rt sheet index "name" value numericResult).sheet =
        { products := l1 ++ { p with name := jsTrim value } :: l2
          sales :=
            if normalizeName rt p.name ≠ normalizeName rt (jsTrim value) then
              sheet.sales.map (fun sale =>
                if normalizeName rt sale.itemName = normalizeName rt p.name
                then { sale with itemName := jsTrim value } else sale)
            else sheet.sales } := by
  unfold onInventoryChange at hacc ⊢
  rw [if_neg (by decide)] at hacc ⊢
  cases hget : sheet.products.get? index with
  | none => rw [hget] at hacc; simp [ignored] at hacc
  | some p =>
    rw [hget] at hacc
    simp only [if_true] at hacc ⊢
    obtain ⟨l1, l2, e1, e2, _, _⟩ := split_at_index _ _ _ hget
    subst e2
    obtain ⟨h1, h2, h3, h4⟩ := renameProduct_saved rt sheet value p l1 l2 e1 hacc
    exact ⟨p, l1, l2, rfl, e1, rfl, h1, h2, h3, h4⟩

theorem forall₂_map_of {α : Type} (R : α → α → Prop) (f : α → α) (h : ∀ x, R x (f x)) :
    ∀ l : List α, List.Forall₂ R l (l.map f) := by
  intro l
  induction l with
  | nil => exact List.Forall₂.nil
  | cons x xs ih => exact List.Forall₂.cons (h x) ih

theorem forall₂_self_of {α : Type} (R : α → α → Prop) (h : ∀ x, R x x) :
    ∀ l : List α, List.Forall₂ R l l := by
  intro l
  induction l with
  | nil => exact List.Forall₂.nil
  | cons x xs ih => exact List.Forall₂.cons (h x) ih

theorem recalcSheet_totals_congr_rows (rt : Runtime) (s t : Sheet)
    (ha : s.products.map (fun p => (deriveProduct p).stockAvailable) =
      t.products.map (fun p => (deriveProduct p).stockAvailable))
    (hv : s.products.map (fun p => (deriveProduct p).stockValueCost) =
      t.products.map (fun p => (deriveProduct p).stockValueCost))
    (hq : s.sales.map (fun x => toIntegerOrZero x.qtySold) =
      t.sales.map (fun x => toIntegerOrZero x.qtySold))
    (hr : s.sales.map (fun x => x.revenue) = t.sales.map (fun x => x.revenue))
    (hc : s.sales.map (fun x => x.productionCost) = t.sales.map (fun x => x.productionCost))
    (hg : s.sales.map (fun x => x.grossProfit) = t.sales.map (fun x => x.grossProfit)) :
    (recalcSheet rt s).totals = (recalcSheet rt t).totals := by
  have e0 : ∀ u : Sheet, ((u.products.map deriveProduct).map (fun r => r.stockAvailable)) =
      u.products.map (fun p => (deriveProduct p).stockAvailable) := fun u => by
    simp [Function.comp_def]
  have e00 : ∀ u : Sheet, ((u.products.map deriveProduct).map (fun r => r.stockValueCost)) =
      u.products.map (fun p => (deriveProduct p).stockValueCost) := fun u => by
    simp [Function.comp_def]
  have e1 : ∀ u : Sheet, ((u.sales.map (deriveSale rt)).map (fun r => r.qtySold)) =
      u.sales.map (fun x => toIntegerOrZero x.qtySold) := fun u => by
    simp [deriveSale, Function.comp_def]
  have e2 : ∀ u : Sheet, ((u.sales.map (deriveSale rt)).map (fun r => r.revenue)) =
      u.sales.map (fun x => x.revenue) := fun u => by
    simp [deriveSale, Function.comp_def, toNumberOrZero_eq]
  have e3 : ∀ u : Sheet, ((u.sales.map (deriveSale rt)).map (fun r => r.productionCost)) =
      u.sales.map (fun x => x.productionCost) := fun u => by
    simp [deriveSale, Function.comp_def, toNumberOrZero_eq]
  have e4 : ∀ u : Sheet, ((u.sales.map (deriveSale rt)).map (fun r => r.grossProfit)) =
      u.sales.map (fun x => x.grossProfit) := fun u => by
    simp [deriveSale, Function.comp_def, toNumberOrZero_eq]
  simp only [recalcSheet_totals, afterProducts_totals, e0, e00, e1, e2, e3, e4, ha, hv, hq,
    hr, hc, hg]

/-- C15: after an accepted rename of the product at an index, every sale whose item name
matched the old name (trimmed, lower-cased) matches the new one, every other sale is as
it was, no sale changed its id, date, quantity, revenue, cost or profit, the renamed
product only changed its name and the other products are as they were, and the totals of
`recalcActiveSheet` are the same as before. -/
theorem rename_cascade (rt : Runtime) (sheet : Sheet) (index : Nat) (value : String)
    (numericResult : Option ℚ)
    (hacc : (onInventoryChange rt sheet index "name" value numericResult).saved = true) :
    ∃ p : Product, sheet.products.get? index = some p ∧
      (onInventoryChange rt sheet index "name" value numericResult).sheet.products =
        sheet.products.set index { p with name := jsTrim value } ∧
      List.Forall₂
        (fun before after : Sale =>
          after.id = before.id ∧ after.dateISO = before.dateISO ∧
          after.qtySold = before.qtySold ∧ after.revenue = before.revenue ∧
          after.productionCost = before.productionCost ∧
          after.grossProfit = before.grossProfit ∧
          (normalizeName rt before.itemName = normalizeName rt p.name →
            normalizeName rt after.itemName = normalizeName rt value) ∧
          (normalizeName rt before.itemName ≠ normalizeName rt p.name → after = before))
        sheet.sales
        (onInventoryChange rt sheet index "name" value numericResult).sheet.sales ∧
      (recalcActiveSheet rt
        (some (onInventoryChange rt sheet index "name" value numericResult).sheet)).totals =
        (recalcActiveSheet rt (some sheet)).totals := by
  obtain ⟨p, l1, l2, hget, e1, e2, _, _, _, hsheet⟩ :=
    rename_accepted rt sheet index value numericResult hacc
  refine ⟨p, hget, ?_, ?_, ?_⟩
  · rw [hsheet, e1, ← e2]
    simp
  · rw [hsheet]
    simp only []
    by_cases hk : normalizeName rt p.name = normalizeName rt (jsTrim value)
    · rw [if_neg (not_not.mpr hk)]
      apply forall₂_self_of
      intro x
      refine ⟨rfl, rfl, rfl, rfl, rfl, rfl, ?_, fun _ => rfl⟩
      intro hx
      rw [hx, hk, normalizeName_jsTrim]
    · rw [if_pos hk]
      apply forall₂_map_of
      intro x
      by_cases hx : normalizeName rt x.itemName = normalizeName rt p.name
      · rw [if_pos hx]
        exact ⟨rfl, rfl, rfl, rfl, rfl, rfl, fun _ => normalizeName_jsTrim rt value,
          fun h => absurd hx h⟩
      · rw [if_neg hx]
        exact ⟨rfl, rfl, rfl, rfl, rfl, rfl, fun h => absurd h hx, fun _ => rfl⟩
  · rw [hsheet]
    simp only [recalcActiveSheet]
    apply recalcSheet_totals_congr_rows
    · rw [e1]; simp [deriveProduct]
    · rw [e1]; simp [deriveProduct]
    all_goals
      simp only []
      split
      · rw [List.map_map]
        apply List.map_congr_left
        intro x _
        simp only [Function.comp]
        split <;> rfl
      · rfl

/-- An input of C15: Bread, with one sale logged as "bread", is renamed to "Loaf". -/
theorem rename_cascade_witness :
    (onInventoryChange asciiRuntime oversoldSheet 0 "name" " Loaf " none).sheet =
      { products := [⟨"Loaf", 100, 150, 20, 0⟩]
        sales := [⟨"sale-1", "2024-05-01", "Loaf", 5, 750, 500, 250⟩] } ∧
    (recalcActiveSheet asciiRuntime
      (some (onInventoryChange asciiRuntime oversoldSheet 0 "name" " Loaf " none).sheet)).totals =
      (recalcActiveSheet asciiRuntime (some oversoldSheet)).totals :=
  ⟨by decide!,
   match rename_cascade asciiRuntime oversoldSheet 0 " Loaf " none (by decide!) with
   | ⟨_, _, _, _, htotals⟩ => htotals⟩

/-- C16: for a product at a valid index, `onInventoryActionClick` rejects the deletion
(nothing saved, an error shown, products and sales as before) exactly when some sale's
item name matches the product's name (trimmed, lower-cased); otherwise the products
become the list without the entry at that index and the sales are as before. -/
theorem delete_product_iff (rt : Runtime) (sheet : Sheet) (index : Nat) (p : Product)
    (hget : sheet.products.get? index = some p) :
    ((onInventoryActionClick rt sheet index).saved = false ↔
      ∃ sale ∈ sheet.sales, normalizeName rt sale.itemName = normalizeName rt p.name) ∧
    ((onInventoryActionClick rt sheet index).saved = false →
      (onInventoryActionClick rt sheet index).sheet = sheet ∧
      (onInventoryActionClick rt sheet index).status =
        some ("Delete related sales first before deleting this product.", "error")) ∧
    ((onInventoryActionClick rt sheet index).saved = true →
      (onInventoryActionClick rt sheet index).sheet.products =
        sheet.products.eraseIdx index ∧
      (onInventoryActionClick rt sheet index).sheet.sales = sheet.sales) := by
  unfold onInventoryActionClick
  rw [hget]
  simp only []
  by_cases hs : sheet.sales.any (fun sale =>
      decide (normalizeName rt sale.itemName = normalizeName rt p.name)) = true
  · rw [if_pos hs]
    refine ⟨⟨fun _ => ?_, fun _ => rfl⟩, fun _ => ⟨rfl, rfl⟩, fun h => ?_⟩
    · rw [List.any_eq_true] at hs
      obtain ⟨sale, h1, h2⟩ := hs
      exact ⟨sale, h1, by simpa using h2⟩
    · simp [rejected] at h
  · rw [if_neg hs]
    refine ⟨⟨fun h => ?_, fun h => ?_⟩, fun h => ?_, fun _ => ⟨rfl, rfl⟩⟩
    · simp at h
    · exfalso
      apply hs
      rw [List.any_eq_true]
      obtain ⟨sale, h1, h2⟩ := h
      exact ⟨sale, h1, by simpa using h2⟩
    · simp at h

/-- An input of C16: Bread cannot be deleted while a sale logged as "bread " refers to
it. -/
theorem delete_product_iff_witness :
    (onInventoryActionClick asciiRuntime oversoldSheet 0).saved = false ∧
    (onInventoryActionClick asciiRuntime oversoldSheet 0).sheet = oversoldSheet :=
  have h := delete_product_iff asciiRuntime oversoldSheet 0 ⟨"Bread", 100, 150, 20, 0⟩
    (by decide!)
  have hs : (onInventoryActionClick asciiRuntime oversoldSheet 0).saved = false :=
    h.1.mpr ⟨⟨"sale-1", "2024-05-01", "bread ", 5, 750, 500, 250⟩, by decide!, by decide!⟩
  ⟨hs, (h.2.1 hs).1⟩

/-! ## Truncation of counts -/

theorem mathTrunc_nonneg {x : ℚ} (h : 0 ≤ x) : 0 ≤ mathTrunc x := by
  unfold mathTrunc
  rw [if_pos h]
  exact_mod_cast Int.floor_nonneg.mpr h

theorem mathTrunc_nonpos {x : ℚ} (h : x ≤ 0) : mathTrunc x ≤ 0 := by
  unfold mathTrunc
  split
  · rename_i h0
    have hx : x = 0 := le_antisymm h h0
    subst hx
    simp
  · have hc : ⌈x⌉ ≤ 0 := Int.ceil_le.mpr (by exact_mod_cast h)
    exact_mod_cast hc

theorem mathTrunc_between (x : ℚ) :
    (0 ≤ x → mathTrunc x ≤ x ∧ x < mathTrunc x + 1) ∧
    (x < 0 → x ≤ mathTrunc x ∧ mathTrunc x < x + 1) := by
  unfold mathTrunc
  constructor
  · intro h
    rw [if_pos h]
    exact ⟨Int.floor_le x, Int.lt_floor_add_one x⟩
  · intro h
    rw [if_neg (not_le.mpr h)]
    exact ⟨Int.le_ceil x, Int.ceil_lt_add_one x⟩

theorem abs_mathTrunc_le (x : ℚ) : |mathTrunc x| ≤ |x| := by
  rcases le_or_lt 0 x with h | h
  · rw [abs_of_nonneg (mathTrunc_nonneg h), abs_of_nonneg h]
    exact ((mathTrunc_between x).1 h).1
  · rw [abs_of_nonpos (mathTrunc_nonpos h.le), abs_of_neg h]
    have := ((mathTrunc_between x).2 h).1
    linarith

theorem abs_sub_mathTrunc_lt (x : ℚ) : |x - mathTrunc x| < 1 := by
  rw [abs_lt]
  rcases le_or_lt 0 x with h | h
  · obtain ⟨h1, h2⟩ := (mathTrunc_between x).1 h
    constructor <;> linarith
  · obtain ⟨h1, h2⟩ := (mathTrunc_between x).2 h
    constructor <;> linarith

theorem mathTrunc_unique (x : ℚ) (m : ℤ) (h1 : 0 ≤ x → (0 : ℚ) ≤ m)
    (h2 : x ≤ 0 → (m : ℚ) ≤ 0) (h3 : |(m : ℚ)| ≤ |x|) (h4 : |x - m| < 1) :
    (m : ℚ) = mathTrunc x := by
  rw [abs_lt] at h4
  unfold mathTrunc
  rcases le_or_lt 0 x with h | h
  · rw [if_pos h]
    rw [abs_of_nonneg (h1 h), abs_of_nonneg h] at h3
    have : ⌊x⌋ = m := by
      rw [Int.floor_eq_iff]
      constructor <;> linarith
    rw [this]
  · rw [if_neg (not_le.mpr h)]
    rw [abs_of_nonpos (h2 h.le), abs_of_neg h] at h3
    have : ⌈x⌉ = m := by
      rw [Int.ceil_eq_iff]
      constructor <;> linarith
    rw [this]

theorem mathTrunc_intCast (n : ℤ) : mathTrunc (n : ℚ) = n := by
  have := toIntegerOrZero_of_integer (numberIsInteger_intCast n)
  rwa [toIntegerOrZero_eq] at this

/-- C18: for every input `toIntegerOrZero` returns an integer: 0 when `Number(value)` is
`NaN` or infinite, and for a finite `x` the truncation of `x` toward zero, the only
integer `n` with the sign of `x`, `|n| <= |x|` and `|x - n| < 1` (2 for 2.7 and -2 for
-2.7, where the nearest integers are 3 and -3); so it is idempotent and the identity on
integers. -/
theorem toIntegerOrZero_truncates :
    (∀ (rt : Runtime) (value : JsValue),
      numberIsInteger (toIntegerOrZeroValue rt value) = true) ∧
    (∀ (rt : Runtime) (value : JsValue), (jsNumber rt value).isFinite = false →
      toIntegerOrZeroValue rt value = 0) ∧
    (∀ (rt : Runtime) (value : JsValue) (x : ℚ), jsNumber rt value = .finite x →
      (0 ≤ x → 0 ≤ toIntegerOrZeroValue rt value) ∧
      (x ≤ 0 → toIntegerOrZeroValue rt value ≤ 0) ∧
      |toIntegerOrZeroValue rt value| ≤ |x| ∧
      |x - toIntegerOrZeroValue rt value| < 1 ∧
      ∀ m : ℤ, (0 ≤ x → (0 : ℚ) ≤ m) → (x ≤ 0 → (m : ℚ) ≤ 0) → |(m : ℚ)| ≤ |x| →
        |x - m| < 1 → (m : ℚ) = toIntegerOrZeroValue rt value) ∧
    (toIntegerOrZero (27 / 10) = 2 ∧ mathRound (27 / 10) = 3 ∧
      toIntegerOrZero (-27 / 10) = -2 ∧ mathRound (-27 / 10) = -3) ∧
    (∀ (rt : Runtime) (value : JsValue),
      toIntegerOrZeroValue rt (.number (.finite (toIntegerOrZeroValue rt value))) =
        toIntegerOrZeroValue rt value) ∧
    (∀ (rt : Runtime) (n : ℤ), toIntegerOrZeroValue rt (.number (.finite n)) = n) := by
  have hfin : ∀ (rt : Runtime) (value : JsValue) (x : ℚ), jsNumber rt value = .finite x →
      toIntegerOrZeroValue rt value = mathTrunc x := by
    intro rt value x hx
    unfold toIntegerOrZeroValue
    rw [hx]
    exact toIntegerOrZero_eq x
  have hint : ∀ (rt : Runtime) (value : JsValue),
      numberIsInteger (toIntegerOrZeroValue rt value) = true := by
    intro rt value
    unfold toIntegerOrZeroValue
    split
    · exact numberIsInteger_toIntegerOrZero _
    · exact numberIsInteger_intCast 0
  have hid : ∀ (rt : Runtime) (q : ℚ), numberIsInteger q = true →
      toIntegerOrZeroValue rt (.number (.finite q)) = q := by
    intro rt q hq
    rw [hfin rt (.number (.finite q)) q rfl, ← toIntegerOrZero_eq]
    exact toIntegerOrZero_of_integer hq
  refine ⟨hint, ?_, ?_, by decide!, fun rt value => hid rt _ (hint rt value),
    fun rt n => hid rt _ (numberIsInteger_intCast n)⟩
  · intro rt value h
    unfold toIntegerOrZeroValue
    cases hn : jsNumber rt value with
    | finite q => rw [hn] at h; simp [JsNumber.isFinite] at h
    | nan => rfl
    | posInfinity => rfl
    | negInfinity => rfl
  · intro rt value x hx
    rw [hfin rt value x hx]
    exact ⟨mathTrunc_nonneg, mathTrunc_nonpos, abs_mathTrunc_le x, abs_sub_mathTrunc_lt x,
      fun m h1 h2 h3 h4 => mathTrunc_unique x m h1 h2 h3 h4⟩

/-- Inputs of C18: `Number(undefined)` is `NaN` and gives 0; 7/2 gives 3. -/
theorem toIntegerOrZero_truncates_witness :
    toIntegerOrZeroValue asciiRuntime .undefined = 0 ∧
    toIntegerOrZeroValue asciiRuntime (.number (.finite (7 / 2))) = 3 :=
  ⟨toIntegerOrZero_truncates.2.1 asciiRuntime .undefined rfl,
   ((toIntegerOrZero_truncates.2.2.1 asciiRuntime (.number (.finite (7 / 2))) (7 / 2)
      rfl).2.2.2.2 3 (by decide!) (by decide!) (by decide!) (by decide!)).symm⟩

/-! ## The normalizer -/

theorem guard_eq_isObject (value : JsValue) :
    (!value.isTruthy || decide (value.typeOf ≠ "object")) = !value.isObject := by
  cases value with
  | undefined => rfl
  | null => rfl
  | bool b => cases b <;> rfl
  | number n =>
    have : decide (JsValue.typeOf (.number n) ≠ "object") = true := by
      simp [JsValue.typeOf]
    rw [this]; simp [JsValue.isObject]
  | string s =>
    have : decide (JsValue.typeOf (.string s) ≠ "object") = true := by
      simp [JsValue.typeOf]
    rw [this]; simp [JsValue.isObject]
  | array items => rfl
  | object fields => rfl


theorem trimmedStringOrEmpty_trimmed (value : JsValue) :
    jsTrim (trimmedStringOrEmpty value) = trimmedStringOrEmpty value := by
  unfold trimmedStringOrEmpty
  split
  · exact jsTrim_idem _
  · decide


/-! ## `recalcActiveSheet` only derives -/

theorem forEachIdx_congr {σ α : Type} (f g : σ → Nat → α → σ) (l : List α)
    (h : ∀ x ∈ l, ∀ (st : σ) (i : Nat), f st i x = g st i x) :
    ∀ (i : Nat) (st : σ), forEachIdx f i st l = forEachIdx g i st l := by
  induction l with
  | nil => intro i st; rfl
  | cons x xs ih =>
    intro i st
    rw [forEachIdx, forEachIdx, h x (by simp), ih (fun y hy => h y (by simp [hy]))]

/-- With valid stored dates the clock plays no part in `recalcActiveSheet`. -/
theorem recalcSheet_clock (rt : Runtime) (later : String) (sheet : Sheet)
    (hdates : ∀ sale ∈ sheet.sales, isISODate rt sale.dateISO = true) :
    recalcSheet { rt with today := later } sheet = recalcSheet rt sheet := by
  have hsale : ∀ sale ∈ sheet.sales,
      deriveSale { rt with today := later } sale = deriveSale rt sale := by
    intro sale hs
    have h1 : isISODate { rt with today := later } sale.dateISO = true := hdates sale hs
    simp only [deriveSale, h1, hdates sale hs, if_true]
  have hstep : ∀ sale ∈ sheet.sales, ∀ (st : Calc) (i : Nat),
      saleStep { rt with today := later } st i sale = saleStep rt st i sale := by
    intro sale hs st i
    unfold saleStep
    rw [hsale sale hs]
    rfl
  have h1 : afterSales { rt with today := later } sheet = afterSales rt sheet := by
    unfold afterSales
    exact forEachIdx_congr _ _ _ hstep 0 _
  have h2 : afterProducts { rt with today := later } sheet = afterProducts rt sheet := by
    unfold afterProducts
    rw [h1]
    rfl
  unfold recalcSheet
  rw [h2]
  rfl

theorem ensureActiveSheet_of_active (rt : Runtime) (newId : String) (app : AppState)
    (hactive : app.sheets.any (fun sheet => decide (sheet.id = app.activeSheetId)) = true) :
    ensureActiveSheet rt newId app = app := by
  unfold ensureActiveSheet
  have hne : ¬ app.sheets.length = 0 := by
    intro h
    rw [List.length_eq_zero.mp h] at hactive
    simp at hactive
  rw [if_neg hne, hactive]
  rfl

/-- C19: in an application state with an active sheet, `recalcActiveSheet` leaves the
state as it was, so the active sheet's products and sales and every field of their
records are unchanged; it derives from the active sheet, and a second call returns equal
products, sales, totals and validation, also when the clock has moved on, given that the
stored sale dates are valid ISO dates. -/
theorem recalc_only_derives (rt : Runtime) (newId : String) (app : AppState)
    (hactive : app.sheets.any (fun sheet => decide (sheet.id = app.activeSheetId)) = true) :
    (recalcActiveSheetIn rt newId app).1 = app ∧
    (∃ active : StoredSheet,
      app.sheets.find? (fun sheet => decide (sheet.id = app.activeSheetId)) = some active ∧
      (recalcActiveSheetIn rt newId app).2 = recalcSheet rt active.toSheet ∧
      (recalcActiveSheetIn rt newId app).2.sheet = some active.toSheet ∧
      ∀ (later secondId : String),
        (∀ sale ∈ active.sales, isISODate rt sale.dateISO = true) →
        (recalcActiveSheetIn { rt with today := later } secondId
          (recalcActiveSheetIn rt newId app).1).2 = (recalcActiveSheetIn rt newId app).2) ∧
    (∀ secondId : String,
      recalcActiveSheetIn rt secondId (recalcActiveSheetIn rt newId app).1 =
        recalcActiveSheetIn rt newId app) := by
  have hstate : ∀ (r : Runtime) (id : String),
      recalcActiveSheetIn r id app =
        (app, recalcActiveSheet r
          ((app.sheets.find? (fun sheet => decide (sheet.id = app.activeSheetId))).map
            StoredSheet.toSheet)) := by
    intro r id
    unfold recalcActiveSheetIn getActiveSheet
    simp only [ensureActiveSheet_of_active r id app hactive]
  obtain ⟨active, hmem, hid⟩ := List.any_eq_true.mp hactive
  have hfind : ∃ found, app.sheets.find?
      (fun sheet => decide (sheet.id = app.activeSheetId)) = some found := by
    cases hf : app.sheets.find? (fun sheet => decide (sheet.id = app.activeSheetId)) with
    | some found => exact ⟨found, rfl⟩
    | none =>
      rw [List.find?_eq_none] at hf
      exact absurd hid (hf active hmem)
  obtain ⟨found, hfound⟩ := hfind
  refine ⟨by rw [hstate], ⟨found, hfound, ?_, ?_, ?_⟩, ?_⟩
  · rw [hstate, hfound]; rfl
  · rw [hstate, hfound]; rfl
  · intro later secondId hdates
    rw [hstate rt newId]
    simp only []
    rw [hstate _ secondId, hfound]
    simp only [Option.map_some', recalcActiveSheet]
    exact recalcSheet_clock rt later found.toSheet hdates
  · intro secondId
    rw [hstate rt newId]
    simp only []
    rw [hstate rt secondId]

/-- An input of C19: the application whose active sheet is the second of two. -/
theorem recalc_only_derives_witness :
    (recalcActiveSheetIn asciiRuntime "id-1" breadApp).1.sheets.map
        (fun sheet => (sheet.products, sheet.sales)) =
      breadApp.sheets.map (fun sheet => (sheet.products, sheet.sales)) ∧
    (recalcActiveSheetIn asciiRuntime "id-1" breadApp).2.totals.totalItemsSold = 5 :=
  have h := recalc_only_derives asciiRuntime "id-1" breadApp (by decide)
  ⟨by rw [h.1], by decide!⟩

/-! ## Trimming the empty string -/


theorem jsTrim_empty : jsTrim "" = "" := by decide

/-! ## Binary64 rounding -/

theorem pow2_eq (e : ℤ) : pow2 e = (2 : ℚ) ^ e := by
  unfold pow2
  split
  · rename_i h
    obtain ⟨n, rfl⟩ := Int.eq_ofNat_of_zero_le h
    simp
  · rename_i h
    obtain ⟨n, hn⟩ := Int.exists_eq_neg_ofNat (le_of_lt (not_le.mp h))
    subst hn
    simp

theorem pow2_pos (e : ℤ) : 0 < pow2 e := by
  rw [pow2_eq]; positivity

theorem pow2_add (a b : ℤ) : pow2 (a + b) = pow2 a * pow2 b := by
  simp only [pow2_eq]; exact zpow_add₀ (by norm_num) a b

theorem pow2_le_pow2 {a b : ℤ} (h : a ≤ b) : pow2 a ≤ pow2 b := by
  simp only [pow2_eq]; exact zpow_le_zpow_right₀ (by norm_num) h

theorem pow2_lt_pow2 {a b : ℤ} (h : a < b) : pow2 a < pow2 b := by
  simp only [pow2_eq]; exact zpow_lt_zpow_right₀ (by norm_num) h

theorem pow2_lt_pow2_iff {a b : ℤ} : pow2 a < pow2 b ↔ a < b := by
  constructor
  · intro h
    by_contra hn
    exact absurd (pow2_le_pow2 (not_lt.mp hn)) (not_le.mpr h)
  · exact pow2_lt_pow2

theorem pow2_natCast (n : ℕ) : pow2 (n : ℤ) = ((2 ^ n : ℕ) : ℚ) := by
  rw [pow2_eq]; simp

theorem log2Floor_eq : ∀ fuel n : Nat, n ≤ fuel → log2Floor fuel n = Nat.log2 n := by
  intro fuel
  induction fuel with
  | zero =>
    intro n h
    have h0 : n = 0 := by omega
    subst h0
    unfold Nat.log2
    simp [log2Floor]
  | succ f ih =>
    intro n h
    rw [log2Floor]
    unfold Nat.log2
    by_cases h2 : 2 ≤ n
    · rw [if_pos h2, if_pos h2, ih (n / 2) (by omega)]
    · rw [if_neg h2, if_neg h2]

theorem binade_spec (a : ℚ) (ha : 0 < a) :
    pow2 (binade a) ≤ a ∧ a < pow2 (binade a + 1) := by
  have hnum : 0 < a.num := Rat.num_pos.mpr ha
  have hN : a.num.natAbs ≠ 0 := by omega
  have hD : a.den ≠ 0 := a.den_nz
  have hNq : (0 : ℚ) < (a.num.natAbs : ℚ) := by exact_mod_cast Nat.pos_of_ne_zero hN
  have hDq : (0 : ℚ) < (a.den : ℚ) := by exact_mod_cast Nat.pos_of_ne_zero hD
  have hval : a = (a.num.natAbs : ℚ) / (a.den : ℚ) := by
    have h1 : ((a.num.natAbs : ℤ) : ℚ) = (a.num : ℚ) := by
      rw [Int.natAbs_of_nonneg hnum.le]
    have h2 : (a.num.natAbs : ℚ) = (a.num : ℚ) := by
      rw [← h1, Int.cast_natCast]
    rw [h2]
    exact (Rat.num_div_den a).symm
  have p1 : ((2 ^ a.num.natAbs.log2 : ℕ) : ℚ) ≤ (a.num.natAbs : ℚ) := by
    exact_mod_cast Nat.log2_self_le hN
  have p2 : (a.num.natAbs : ℚ) < ((2 ^ (a.num.natAbs.log2 + 1) : ℕ) : ℚ) := by
    exact_mod_cast Nat.lt_log2_self
  have q1 : ((2 ^ a.den.log2 : ℕ) : ℚ) ≤ (a.den : ℚ) := by
    exact_mod_cast Nat.log2_self_le hD
  have q2 : (a.den : ℚ) < ((2 ^ (a.den.log2 + 1) : ℕ) : ℚ) := by
    exact_mod_cast Nat.lt_log2_self
  rw [← pow2_natCast] at p1 p2 q1 q2
  have hk : ∀ k : ℤ, k = (a.num.natAbs.log2 : ℤ) - (a.den.log2 : ℤ) →
      pow2 (k - 1) ≤ a ∧ a < pow2 (k + 1) := by
    intro k hk
    have e1 : pow2 (k - 1) * pow2 ((a.den.log2 + 1 : ℕ) : ℤ) =
        pow2 ((a.num.natAbs.log2 : ℕ) : ℤ) := by
      rw [← pow2_add]; congr 1; push_cast; omega
    have e2 : pow2 (k + 1) * pow2 ((a.den.log2 : ℕ) : ℤ) =
        pow2 ((a.num.natAbs.log2 + 1 : ℕ) : ℤ) := by
      rw [← pow2_add]; congr 1; push_cast; omega
    constructor
    · rw [hval, le_div_iff₀ hDq]
      calc pow2 (k - 1) * (a.den : ℚ)
          ≤ pow2 (k - 1) * pow2 ((a.den.log2 + 1 : ℕ) : ℤ) :=
            mul_le_mul_of_nonneg_left q2.le (pow2_pos _).le
        _ = pow2 ((a.num.natAbs.log2 : ℕ) : ℤ) := e1
        _ ≤ _ := p1
    · rw [hval, div_lt_iff₀ hDq]
      calc (a.num.natAbs : ℚ) < pow2 ((a.num.natAbs.log2 + 1 : ℕ) : ℤ) := p2
        _ = pow2 (k + 1) * pow2 ((a.den.log2 : ℕ) : ℤ) := e2.symm
        _ ≤ pow2 (k + 1) * (a.den : ℚ) :=
            mul_le_mul_of_nonneg_left q1 (pow2_pos _).le
  unfold binade
  rw [log2Floor_eq _ _ le_rfl, log2Floor_eq _ _ le_rfl]
  simp only []
  obtain ⟨l, u⟩ := hk _ rfl
  split
  · rename_i hlt
    refine ⟨l, ?_⟩
    rw [sub_add_cancel]; exact hlt
  · rename_i hlt
    exact ⟨not_lt.mp hlt, u⟩

theorem binade_le_of_lt (a : ℚ) (ha : 0 < a) (k : ℤ) (h : a < pow2 (k + 1)) :
    binade a ≤ k := by
  have h1 := (binade_spec a ha).1
  have : pow2 (binade a) < pow2 (k + 1) := lt_of_le_of_lt h1 h
  have := pow2_lt_pow2_iff.mp this
  omega

theorem le_binade_of_le (a : ℚ) (ha : 0 < a) (k : ℤ) (h : pow2 k ≤ a) :
    k ≤ binade a := by
  have h1 := (binade_spec a ha).2
  have : pow2 k < pow2 (binade a + 1) := lt_of_le_of_lt h h1
  have := pow2_lt_pow2_iff.mp this
  omega

theorem roundHalfEven_intCast (z : ℤ) : roundHalfEven (z : ℚ) = z := by
  unfold roundHalfEven
  simp

theorem roundHalfEven_sub_le (y : ℚ) : |(roundHalfEven y : ℚ) - y| ≤ 1 / 2 := by
  have h1 : ((⌊y⌋ : ℤ) : ℚ) ≤ y := Int.floor_le y
  have h2 : y < ((⌊y⌋ : ℤ) : ℚ) + 1 := Int.lt_floor_add_one y
  unfold roundHalfEven
  rw [abs_le]
  split
  · constructor <;> linarith
  · split
    · push_cast; constructor <;> linarith
    · have he : y - ((⌊y⌋ : ℤ) : ℚ) = 1 / 2 := by
        rename_i h3 h4
        linarith [not_lt.mp h3, not_lt.mp h4]
      split
      · constructor <;> linarith
      · push_cast; constructor <;> linarith

theorem roundHalfEven_nonneg (y : ℚ) (hy : 0 ≤ y) : 0 ≤ roundHalfEven y := by
  have h0 : 0 ≤ ⌊y⌋ := Int.floor_nonneg.mpr hy
  unfold roundHalfEven
  split
  · exact h0
  · split
    · omega
    · split
      · exact h0
      · omega

theorem roundMagnitude_nonneg (a : ℚ) (ha : 0 < a) : 0 ≤ roundMagnitude a := by
  unfold roundMagnitude
  have : 0 ≤ a / pow2 (lastPlace a) := div_nonneg ha.le (pow2_pos _).le
  have := roundHalfEven_nonneg _ this
  exact mul_nonneg (by exact_mod_cast this) (pow2_pos _).le

theorem roundMagnitude_sub_le (a : ℚ) :
    |roundMagnitude a - a| ≤ pow2 (lastPlace a) / 2 := by
  unfold roundMagnitude
  have hp := pow2_pos (lastPlace a)
  have h := roundHalfEven_sub_le (a / pow2 (lastPlace a))
  have e : (roundHalfEven (a / pow2 (lastPlace a)) : ℚ) * pow2 (lastPlace a) - a =
      ((roundHalfEven (a / pow2 (lastPlace a)) : ℚ) - a / pow2 (lastPlace a)) *
        pow2 (lastPlace a) := by
    field_simp
  rw [e, abs_mul, abs_of_pos hp]
  calc _ ≤ 1 / 2 * pow2 (lastPlace a) := mul_le_mul_of_nonneg_right h hp.le
    _ = _ := by ring

theorem roundMagnitude_of_multiple (a : ℚ) (z : ℤ) (h : a = (z : ℚ) * pow2 (lastPlace a)) :
    roundMagnitude a = a := by
  have hp := pow2_pos (lastPlace a)
  have hz : a / pow2 (lastPlace a) = (z : ℚ) := by
    rw [div_eq_iff hp.ne']; exact h
  unfold roundMagnitude
  rw [hz, roundHalfEven_intCast]
  exact h.symm

theorem pow2_nonneg_eq_intCast (e : ℤ) (he : 0 ≤ e) : ∃ z : ℤ, pow2 e = (z : ℚ) := by
  obtain ⟨n, rfl⟩ := Int.eq_ofNat_of_zero_le he
  exact ⟨((2 ^ n : ℕ) : ℤ), by rw [pow2_natCast]; simp⟩

/-- A positive multiple of `2 ^ k` with at most 53 significant bits is a multiple of its
own last place. -/
theorem multiple_of_lastPlace (a : ℚ) (ha : 0 < a) (m k : ℤ) (hk : -1074 ≤ k)
    (hm : (m : ℚ) ≤ pow2 53) (h : a = (m : ℚ) * pow2 k) :
    ∃ z : ℤ, a = (z : ℚ) * pow2 (lastPlace a) := by
  by_cases he : lastPlace a ≤ k
  · obtain ⟨z, hz⟩ := pow2_nonneg_eq_intCast (k - lastPlace a) (by omega)
    refine ⟨m * z, ?_⟩
    have : pow2 k = pow2 (k - lastPlace a) * pow2 (lastPlace a) := by
      rw [← pow2_add]; congr 1; omega
    calc a = (m : ℚ) * pow2 k := h
      _ = (m : ℚ) * (pow2 (k - lastPlace a) * pow2 (lastPlace a)) := by rw [← this]
      _ = ((m * z : ℤ) : ℚ) * pow2 (lastPlace a) := by rw [hz]; push_cast; ring
  · have he' : k < lastPlace a := not_le.mp he
    have hb : lastPlace a = binade a - 52 := by
      unfold lastPlace at he' ⊢
      rcases max_cases (binade a - 52) (-1074) with ⟨h1, _⟩ | ⟨h1, _⟩
      · exact h1
      · rw [h1] at he'; omega
    have hlow : pow2 (k + 53) ≤ a := by
      have := (binade_spec a ha).1
      exact le_trans (pow2_le_pow2 (by omega)) this
    have hup : a ≤ pow2 (k + 53) := by
      rw [h, add_comm, pow2_add]
      exact mul_le_mul_of_nonneg_right hm (pow2_pos _).le
    have ha' : a = pow2 (k + 53) := le_antisymm hup hlow
    have hbin : binade a = k + 53 := by
      apply le_antisymm
      · apply binade_le_of_lt a ha
        rw [ha']; exact pow2_lt_pow2 (by omega)
      · exact le_binade_of_le a ha _ hlow
    obtain ⟨z, hz⟩ := pow2_nonneg_eq_intCast 52 (by norm_num)
    refine ⟨z, ?_⟩
    calc a = pow2 (k + 53) := ha'
      _ = pow2 (52 + lastPlace a) := by congr 1; omega
      _ = (z : ℚ) * pow2 (lastPlace a) := by rw [pow2_add, hz]

theorem toDouble_of_multiple (a : ℚ) (m k : ℤ) (hk : -1074 ≤ k) (hk' : k ≤ 970)
    (hm : |(m : ℚ)| ≤ pow2 53) (h : a = (m : ℚ) * pow2 k) : toDouble a = .finite a := by
  have hbound : ∀ b : ℚ, ∀ n : ℤ, 0 < b → (n : ℚ) ≤ pow2 53 → b = (n : ℚ) * pow2 k →
      roundMagnitude b = b ∧ b < pow2 1024 := by
    intro b n hb hn hbn
    obtain ⟨z, hz⟩ := multiple_of_lastPlace b hb n k hk hn hbn
    refine ⟨roundMagnitude_of_multiple b z hz, ?_⟩
    calc b = (n : ℚ) * pow2 k := hbn
      _ ≤ pow2 53 * pow2 k := mul_le_mul_of_nonneg_right hn (pow2_pos _).le
      _ = pow2 (53 + k) := (pow2_add _ _).symm
      _ < pow2 1024 := pow2_lt_pow2 (by omega)
  unfold toDouble
  by_cases h0 : a = 0
  · rw [if_pos h0, h0]
  rw [if_neg h0]
  by_cases hpos : 0 < a
  · rw [if_pos hpos]
    obtain ⟨e1, e2⟩ := hbound a m hpos (le_trans (le_abs_self _) hm) h
    rw [e1, if_pos e2]
  · rw [if_neg hpos]
    have hneg : 0 < -a := by
      rcases lt_trichotomy a 0 with h1 | h1 | h1
      · linarith
      · exact absurd h1 h0
      · exact absurd h1 hpos
    obtain ⟨e1, e2⟩ := hbound (-a) (-m) hneg
      (by push_cast; exact le_trans (neg_le_abs _) hm) (by rw [h]; push_cast; ring)
    rw [e1, if_pos e2, neg_neg]

theorem toDouble_intCast (n : ℤ) (h : |(n : ℚ)| ≤ pow2 53) :
    toDouble (n : ℚ) = .finite (n : ℚ) := by
  apply toDouble_of_multiple (n : ℚ) n 0 (by norm_num) (by norm_num) h
  have : pow2 0 = 1 := by decide!
  rw [this, mul_one]

/-- Rounding an integer to a double gives an integer, or overflows. -/
theorem toDouble_intCast_isInt (n : ℤ) (r : ℚ) (h : toDouble (n : ℚ) = .finite r) :
    ∃ z : ℤ, r = (z : ℚ) := by
  have hmag : ∀ b : ℤ, 0 < (b : ℚ) → ∃ z : ℤ, roundMagnitude (b : ℚ) = (z : ℚ) := by
    intro b hb
    by_cases he : lastPlace (b : ℚ) ≤ 0
    · obtain ⟨z, hz⟩ := pow2_nonneg_eq_intCast (0 - lastPlace (b : ℚ)) (by omega)
      refine ⟨b, roundMagnitude_of_multiple _ (b * z) ?_⟩
      have h1 : pow2 (0 - lastPlace (b : ℚ)) * pow2 (lastPlace (b : ℚ)) = 1 := by
        rw [← pow2_add, sub_add_cancel]; decide!
      push_cast
      rw [← hz, mul_assoc, h1, mul_one]
    · obtain ⟨z, hz⟩ := pow2_nonneg_eq_intCast (lastPlace (b : ℚ)) (by omega)
      refine ⟨roundHalfEven ((b : ℚ) / pow2 (lastPlace (b : ℚ))) * z, ?_⟩
      unfold roundMagnitude
      rw [hz]; push_cast; rfl
  unfold toDouble at h
  by_cases h0 : (n : ℚ) = 0
  · rw [if_pos h0] at h
    exact ⟨0, by simpa using (JsNumber.finite.inj h).symm⟩
  rw [if_neg h0] at h
  by_cases hpos : 0 < (n : ℚ)
  · rw [if_pos hpos] at h
    obtain ⟨z, hz⟩ := hmag n hpos
    split at h
    · exact ⟨z, by rw [← JsNumber.finite.inj h, hz]⟩
    · cases h
  · rw [if_neg hpos] at h
    have hneg : 0 < ((-n : ℤ) : ℚ) := by
      push_cast
      rcases lt_trichotomy (n : ℚ) 0 with h1 | h1 | h1
      · linarith
      · exact absurd h1 h0
      · exact absurd h1 hpos
    obtain ⟨z, hz⟩ := hmag (-n) hneg
    push_cast at hz
    split at h
    · exact ⟨-z, by rw [← JsNumber.finite.inj h, hz]; push_cast; rfl⟩
    · cases h

theorem toDouble_nonneg (q r : ℚ) (hq : 0 ≤ q) (h : toDouble q = .finite r) : 0 ≤ r := by
  unfold toDouble at h
  by_cases h0 : q = 0
  · rw [if_pos h0] at h
    rw [← JsNumber.finite.inj h]
  rw [if_neg h0] at h
  have hpos : 0 < q := lt_of_le_of_ne hq (Ne.symm h0)
  rw [if_pos hpos] at h
  split at h
  · rw [← JsNumber.finite.inj h]; exact roundMagnitude_nonneg q hpos
  · cases h

theorem toDouble_ne_nan (q : ℚ) : toDouble q ≠ .nan := by
  unfold toDouble
  split
  · simp
  · split <;> split <;> simp

theorem toDouble_nonneg_ne_negInfinity (q : ℚ) (hq : 0 ≤ q) : toDouble q ≠ .negInfinity := by
  unfold toDouble
  split
  · simp
  · split
    · split <;> simp
    · rename_i h0 h1
      exact absurd (lt_of_le_of_ne hq (Ne.symm h0)) h1

theorem findIndex_split_first {α : Type} (p : α → Bool) : ∀ (l : List α) (i : Nat),
    findIndex p l = some i →
    ∃ x l1 l2, l = l1 ++ x :: l2 ∧ l.get? i = some x ∧ l.eraseIdx i = l1 ++ l2 ∧
      p x = true ∧ ∀ a ∈ l1, p a = false := by
  intro l
  induction l with
  | nil => intro i h; simp [findIndex] at h
  | cons a as ih =>
    intro i h
    by_cases ha : p a = true
    · simp only [findIndex, ha, if_true, Option.some.injEq] at h
      subst h
      exact ⟨a, [], as, rfl, rfl, rfl, ha, by simp⟩
    · simp only [findIndex, ha, Bool.false_eq_true, if_false, Option.map_eq_some'] at h
      obtain ⟨j, hj, rfl⟩ := h
      obtain ⟨x, l1, l2, e1, e2, e3, e4, e5⟩ := ih j hj
      refine ⟨x, a :: l1, l2, by simp [e1], by simpa using e2, by simp [e3], e4, ?_⟩
      intro b hb
      rcases List.mem_cons.mp hb with rfl | hb
      · simpa using ha
      · exact e5 b hb

/-- The duplicate test of a rename looks at every element but the renamed one. -/
theorem someIdx_skip {α : Type} (q : α → Bool) (l1 l2 : List α) (p : α) :
    someIdx (fun item i => decide (i ≠ l1.length) && q item) 0 (l1 ++ p :: l2) =
      (l1.any q || l2.any q) := by
  rw [someIdx_append, someIdx_eq_any_of_lt q l1.length l1 0 (by omega)]
  simp only [someIdx, Nat.zero_add, ne_eq, not_true_eq_false, decide_False, Bool.false_and,
    Bool.false_or]
  rw [someIdx_eq_any_of_gt q l1.length l2 (l1.length + 1) (by omega)]

namespace Binary64

/-! ## Binary64: the loops of `recalcActiveSheet`, field by field -/

theorem b64_saleLoop_sales (rt : Runtime) (l : List Sale) : ∀ (i : Nat) (st : Calc),
    (forEachIdx (saleStep rt) i st l).sales = st.sales ++ l.map (deriveSale rt) := by
  induction l with
  | nil => intro i st; simp [forEachIdx]
  | cons x xs ih => intro i st; simp [forEachIdx, ih, saleStep]

theorem b64_saleLoop_products (rt : Runtime) (l : List Sale) : ∀ (i : Nat) (st : Calc),
    (forEachIdx (saleStep rt) i st l).products = st.products := by
  induction l with
  | nil => intro i st; simp [forEachIdx]
  | cons x xs ih => intro i st; simp [forEachIdx, ih, saleStep]

theorem b64_saleLoop_nameIndex (rt : Runtime) (l : List Sale) : ∀ (i : Nat) (st : Calc),
    (forEachIdx (saleStep rt) i st l).nameIndex = st.nameIndex := by
  induction l with
  | nil => intro i st; simp [forEachIdx]
  | cons x xs ih => intro i st; simp [forEachIdx, ih, saleStep]

theorem b64_saleLoop_totals (rt : Runtime) (l : List Sale) : ∀ (i : Nat) (st : Calc),
    (forEachIdx (saleStep rt) i st l).totals =
      { totalItemsAvailable := st.totals.totalItemsAvailable
        totalItemsSold :=
          sumFrom st.totals.totalItemsSold ((l.map (deriveSale rt)).map (fun r => r.qtySold))
        totalRevenue :=
          sumFrom st.totals.totalRevenue ((l.map (deriveSale rt)).map (fun r => r.revenue))
        totalProductionCost := sumFrom st.totals.totalProductionCost
          ((l.map (deriveSale rt)).map (fun r => r.productionCost))
        grossProfitTotal := sumFrom st.totals.grossProfitTotal
          ((l.map (deriveSale rt)).map (fun r => r.grossProfit))
        totalStockValueCost := st.totals.totalStockValueCost } := by
  induction l with
  | nil => intro i st; simp [forEachIdx, sumFrom]
  | cons x xs ih =>
    intro i st
    simp only [forEachIdx, ih, saleStep, List.map_cons, sumFrom, List.foldl_cons]

theorem b64_productLoop_sales (rt : Runtime) (l : List Product) : ∀ (i : Nat) (st : Calc),
    (forEachIdx (productStep rt) i st l).sales = st.sales := by
  induction l with
  | nil => intro i st; simp [forEachIdx]
  | cons x xs ih => intro i st; simp [forEachIdx, ih, productStep]

theorem b64_productLoop_soldQtyByName (rt : Runtime) (l : List Product) :
    ∀ (i : Nat) (st : Calc),
    (forEachIdx (productStep rt) i st l).soldQtyByName = st.soldQtyByName := by
  induction l with
  | nil => intro i st; simp [forEachIdx]
  | cons x xs ih => intro i st; simp [forEachIdx, ih, productStep]

theorem b64_productLoop_products (rt : Runtime) (l : List Product) :
    ∀ (i : Nat) (st : Calc),
    (forEachIdx (productStep rt) i st l).products = st.products ++ l.map deriveProduct := by
  induction l with
  | nil => intro i st; simp [forEachIdx]
  | cons x xs ih => intro i st; simp [forEachIdx, ih, productStep]

theorem b64_productLoop_totals (rt : Runtime) (l : List Product) : ∀ (i : Nat) (st : Calc),
    (forEachIdx (productStep rt) i st l).totals =
      { totalItemsAvailable := sumFrom st.totals.totalItemsAvailable
          ((l.map deriveProduct).map (fun r => r.stockAvailable))
        totalItemsSold := st.totals.totalItemsSold
        totalRevenue := st.totals.totalRevenue
        totalProductionCost := st.totals.totalProductionCost
        grossProfitTotal := st.totals.grossProfitTotal
        totalStockValueCost := sumFrom st.totals.totalStockValueCost
          ((l.map deriveProduct).map (fun r => r.stockValueCost)) } := by
  induction l with
  | nil => intro i st; simp [forEachIdx, sumFrom]
  | cons x xs ih =>
    intro i st
    simp only [forEachIdx, ih, productStep, List.map_cons, sumFrom, List.foldl_cons]

theorem b64_recalcSheet_sales (rt : Runtime) (sheet : Sheet) :
    (recalcSheet rt sheet).sales = sheet.sales.map (deriveSale rt) := by
  simp [recalcSheet, afterProducts, afterSales, b64_productLoop_sales, b64_saleLoop_sales,
    Calc.init]

theorem b64_recalcSheet_products (rt : Runtime) (sheet : Sheet) :
    (recalcSheet rt sheet).products = sheet.products.map deriveProduct := by
  simp [recalcSheet, afterProducts, afterSales, b64_productLoop_products,
    b64_saleLoop_products, Calc.init]

/-- The totals before rounding: the left-to-right double sums of the derived rows. -/
theorem b64_afterProducts_totals (rt : Runtime) (sheet : Sheet) :
    (afterProducts rt sheet).totals =
      { totalItemsAvailable := sumFrom (.finite 0)
          ((sheet.products.map deriveProduct).map (fun r => r.stockAvailable))
        totalItemsSold := sumFrom (.finite 0)
          ((sheet.sales.map (deriveSale rt)).map (fun r => r.qtySold))
        totalRevenue := sumFrom (.finite 0)
          ((sheet.sales.map (deriveSale rt)).map (fun r => r.revenue))
        totalProductionCost := sumFrom (.finite 0)
          ((sheet.sales.map (deriveSale rt)).map (fun r => r.productionCost))
        grossProfitTotal := sumFrom (.finite 0)
          ((sheet.sales.map (deriveSale rt)).map (fun r => r.grossProfit))
        totalStockValueCost := sumFrom (.finite 0)
          ((sheet.products.map deriveProduct).map (fun r => r.stockValueCost)) } := by
  simp [afterProducts, afterSales, b64_productLoop_totals, b64_saleLoop_totals, Calc.init,
    emptyTotals]

theorem b64_recalcSheet_totals (rt : Runtime) (sheet : Sheet) :
    (recalcSheet rt sheet).totals = roundTotals (afterProducts rt sheet).totals := by
  simp [recalcSheet]

/-! ## Binary64: what each handler does to the sheet -/

theorem b64_onAddProduct_cases (rt : Runtime) (sheet : Sheet) (nameValue : String)
    (c pr o : JsNumber) :
    (onAddProduct rt sheet nameValue c pr o).sheet = sheet ∨
    (jsTrim nameValue ≠ "" ∧
      (∀ x ∈ sheet.products,
        normalizeName rt x.name ≠ normalizeName rt (jsTrim nameValue)) ∧
      isNonNegativeNumber c = true ∧ isNonNegativeNumber pr = true ∧
      o.isInteger = true ∧ o.lt (.finite 0) = false ∧
      (onAddProduct rt sheet nameValue c pr o).sheet =
        { products := sheet.products ++
            [⟨jsTrim nameValue, roundCurrency c, roundCurrency pr, o, .finite 0⟩]
          sales := sheet.sales }) := by
  unfold onAddProduct
  simp only []
  by_cases hname : jsTrim nameValue = ""
  · rw [if_pos hname]; exact Or.inl rfl
  rw [if_neg hname]
  by_cases hdup : sheet.products.any (fun product =>
      decide (normalizeName rt product.name = normalizeName rt (jsTrim nameValue))) = true
  · rw [if_pos hdup]; exact Or.inl rfl
  rw [if_neg hdup]
  by_cases hcp : (!isNonNegativeNumber c || !isNonNegativeNumber pr) = true
  · rw [if_pos hcp]; exact Or.inl rfl
  rw [if_neg hcp]
  by_cases ho : (!o.isInteger || o.lt (.finite 0)) = true
  · rw [if_pos ho]; exact Or.inl rfl
  rw [if_neg ho]
  right
  simp only [Bool.or_eq_true, Bool.not_eq_true', not_or, Bool.not_eq_false] at hcp ho
  refine ⟨hname, ?_, hcp.1, hcp.2, ho.1, by simpa using ho.2, rfl⟩
  intro x hx heq
  apply hdup
  rw [List.any_eq_true]
  exact ⟨x, hx, by simpa using heq⟩

theorem b64_onInventoryActionClick_cases (rt : Runtime) (sheet : Sheet) (index : Nat) :
    (onInventoryActionClick rt sheet index).sheet = sheet ∨
    ∃ (p : Product) (l1 l2 : List Product),
      sheet.products = l1 ++ p :: l2 ∧ l1.length = index ∧
      (∀ sale ∈ sheet.sales, normalizeName rt sale.itemName ≠ normalizeName rt p.name) ∧
      (onInventoryActionClick rt sheet index).sheet =
        { products := l1 ++ l2, sales := sheet.sales } := by
  unfold onInventoryActionClick
  cases hget : sheet.products.get? index with
  | none => exact Or.inl rfl
  | some p =>
    simp only []
    by_cases hs : sheet.sales.any (fun sale =>
        decide (normalizeName rt sale.itemName = normalizeName rt p.name)) = true
    · rw [if_pos hs]; exact Or.inl rfl
    rw [if_neg hs]
    right
    obtain ⟨l1, l2, e1, e2, _, e4⟩ := split_at_index _ _ _ hget
    refine ⟨p, l1, l2, e1, e2, ?_, by simp only [e4]⟩
    intro sale hsale heq
    apply hs
    rw [List.any_eq_true]
    exact ⟨sale, hsale, by simpa using heq⟩

theorem b64_onSalesActionClick_cases (rt : Runtime) (sheet : Sheet) (saleId : String) :
    (onSalesActionClick rt sheet saleId).sheet = sheet ∨
    ∃ (x : Sale) (s1 s2 : List Sale) (P : Product) (l1 l2 : List Product),
      sheet.sales = s1 ++ x :: s2 ∧ sheet.products = l1 ++ P :: l2 ∧ x.id = saleId ∧
      (∀ a ∈ s1, a.id ≠ saleId) ∧
      normalizeName rt P.name = normalizeName rt x.itemName ∧
      (∀ a ∈ l1, normalizeName rt a.name ≠ normalizeName rt x.itemName) ∧
      (P.stockOut.sub x.qtySold).lt (.finite 0) = false ∧
      (onSalesActionClick rt sheet saleId).sheet =
        { products := l1 ++ { P with stockOut := P.stockOut.sub x.qtySold } :: l2
          sales := s1 ++ s2 } := by
  unfold onSalesActionClick
  by_cases hid : saleId = ""
  · rw [if_pos hid]; exact Or.inl rfl
  rw [if_neg hid]
  cases hfi : findIndex (fun sale : Sale => decide (sale.id = saleId)) sheet.sales with
  | none => exact Or.inl rfl
  | some i =>
    obtain ⟨x, s1, s2, e1, e2, e3, e4, e5⟩ := findIndex_split_first _ _ _ hfi
    simp only [e2]
    cases hfp : sheet.products.find? (fun item =>
        decide (normalizeName rt item.name = normalizeName rt x.itemName)) with
    | none => exact Or.inl rfl
    | some P =>
      simp only []
      by_cases hneg : (P.stockOut.sub x.qtySold).lt (.finite 0) = true
      · rw [if_pos hneg]; exact Or.inl rfl
      rw [if_neg hneg]
      right
      obtain ⟨l1, l2, f1, f2, f3, f4⟩ := find_split _ _ _ hfp
      refine ⟨x, s1, s2, P, l1, l2, e1, f1, by simpa using e4, ?_, by simpa using f3, ?_,
        by simpa using hneg, ?_⟩
      · intro a ha
        simpa using e5 a ha
      · intro a ha
        simpa using f2 a ha
      · simp only [f4, e3]

end Binary64

namespace Binary64

theorem b64_renameProduct_cases (rt : Runtime) (sheet : Sheet) (value : String)
    (p : Product) (l1 l2 : List Product) (e1 : sheet.products = l1 ++ p :: l2) :
    (renameProduct rt sheet l1.length p value).sheet = sheet ∨
    (jsTrim value ≠ "" ∧
      (∀ a ∈ l1, normalizeName rt a.name ≠ normalizeName rt (jsTrim value)) ∧
      (∀ a ∈ l2, normalizeName rt a.name ≠ normalizeName rt (jsTrim value)) ∧
      (renameProduct rt sheet l1.length p value).sheet =
        { products := l1 ++ { p with name := jsTrim value } :: l2
          sales :=
            if normalizeName rt p.name ≠ normalizeName rt (jsTrim value) then
              sheet.sales.map (fun sale =>
                if normalizeName rt sale.itemName = normalizeName rt p.name
                then { sale with itemName := jsTrim value } else sale)
            else sheet.sales }) := by
  unfold renameProduct
  simp only []
  by_cases hname : jsTrim value = ""
  · rw [if_pos hname]; exact Or.inl rfl
  rw [if_neg hname]
  rw [e1, someIdx_skip]
  by_cases hdup : (l1.any (fun item =>
        decide (normalizeName rt item.name = normalizeName rt (jsTrim value))) ||
      l2.any (fun item =>
        decide (normalizeName rt item.name = normalizeName rt (jsTrim value)))) = true
  · rw [if_pos hdup]; exact Or.inl rfl
  rw [if_neg hdup]
  right
  simp only [Bool.or_eq_true, List.any_eq_true, decide_eq_true_eq, not_or, not_exists,
    not_and] at hdup
  refine ⟨hname, fun a ha => hdup.1 a ha, fun a ha => hdup.2 a ha, ?_⟩
  have hset : (l1 ++ p :: l2).set l1.length { p with name := jsTrim value } =
      l1 ++ { p with name := jsTrim value } :: l2 := by
    simp
  simp only [hset]

theorem b64_onInventoryChange_cases (rt : Runtime) (sheet : Sheet) (index : Nat)
    (field value : String) (n : JsNumber) :
    (onInventoryChange rt sheet index field value n).sheet = sheet ∨
    ∃ (p : Product) (l1 l2 : List Product),
      sheet.products = l1 ++ p :: l2 ∧ l1.length = index ∧
      ((field = "name" ∧ jsTrim value ≠ "" ∧
        (∀ a ∈ l1, normalizeName rt a.name ≠ normalizeName rt (jsTrim value)) ∧
        (∀ a ∈ l2, normalizeName rt a.name ≠ normalizeName rt (jsTrim value)) ∧
        (onInventoryChange rt sheet index field value n).sheet =
          { products := l1 ++ { p with name := jsTrim value } :: l2
            sales :=
              if normalizeName rt p.name ≠ normalizeName rt (jsTrim value) then
                sheet.sales.map (fun sale =>
                  if normalizeName rt sale.itemName = normalizeName rt p.name
                  then { sale with itemName := jsTrim value } else sale)
              else sheet.sales }) ∨
       (n.isFinite = true ∧ n.lt (.finite 0) = false ∧
        ((field = "openingStock" ∧ n.isInteger = true ∧ n.lt p.stockOut = false ∧
          (onInventoryChange rt sheet index field value n).sheet =
            { products := l1 ++ { p with openingStock := n } :: l2, sales := sheet.sales }) ∨
         (field = "unitCost" ∧
          (onInventoryChange rt sheet index field value n).sheet =
            { products := l1 ++ { p with unitCost := roundCurrency n } :: l2
              sales := sheet.sales }) ∨
         (field = "unitPrice" ∧
          (onInventoryChange rt sheet index field value n).sheet =
            { products := l1 ++ { p with unitPrice := roundCurrency n } :: l2
              sales := sheet.sales })))) := by
  unfold onInventoryChange
  by_cases hf : field = ""
  · rw [if_pos hf]; exact Or.inl rfl
  rw [if_neg hf]
  cases hget : sheet.products.get? index with
  | none => exact Or.inl rfl
  | some p =>
    simp only []
    obtain ⟨l1, l2, e1, e2, e3, _⟩ := split_at_index _ _ _ hget
    by_cases hn : field = "name"
    · rw [if_pos hn]
      subst e2
      rcases b64_renameProduct_cases rt sheet value p l1 l2 e1 with h | ⟨h1, h2, h3, h4⟩
      · exact Or.inl h
      · exact Or.inr ⟨p, l1, l2, e1, rfl, Or.inl ⟨hn, h1, h2, h3, h4⟩⟩
    rw [if_neg hn]
    by_cases hneg : (!n.isFinite || n.lt (.finite 0)) = true
    · rw [if_pos hneg]; exact Or.inl rfl
    rw [if_neg hneg]
    have hfin : n.isFinite = true ∧ n.lt (.finite 0) = false := by
      simpa using hneg
    by_cases ho : field = "openingStock"
    · rw [if_pos ho]
      by_cases hi : (!n.isInteger) = true
      · rw [if_pos hi]; exact Or.inl rfl
      rw [if_neg hi]
      by_cases hlt : n.lt p.stockOut = true
      · rw [if_pos hlt]; exact Or.inl rfl
      rw [if_neg hlt]
      right
      refine ⟨p, l1, l2, e1, e2, Or.inr ⟨hfin.1, hfin.2, Or.inl ⟨ho, by simpa using hi,
        by simpa using hlt, ?_⟩⟩⟩
      simp only [e3]
    rw [if_neg ho]
    by_cases hc : field = "unitCost"
    · rw [if_pos hc]
      right
      refine ⟨p, l1, l2, e1, e2, Or.inr ⟨hfin.1, hfin.2, Or.inr (Or.inl ⟨hc, ?_⟩)⟩⟩
      simp only [e3]
    rw [if_neg hc]
    by_cases hp : field = "unitPrice"
    · rw [if_pos hp]
      right
      refine ⟨p, l1, l2, e1, e2, Or.inr ⟨hfin.1, hfin.2, Or.inr (Or.inr ⟨hp, ?_⟩)⟩⟩
      simp only [e3]
    rw [if_neg hp]
    exact Or.inl rfl

/-- What an accepted `onAddSale` found and wrote. -/
theorem b64_onAddSale_saved (rt : Runtime) (sheet : Sheet)
    (newId dateValue itemValue : String) (q : JsNumber)
    (h : (onAddSale rt sheet newId dateValue itemValue q).saved = true) :
    ∃ P : Product,
      q.isInteger = true ∧ q.lt (.finite 1) = false ∧ jsTrim itemValue ≠ "" ∧
      isISODate rt (if dateValue = "" then rt.today else dateValue) = true ∧
      sheet.products.find?
        (fun p => decide (normalizeName rt p.name = normalizeName rt (jsTrim itemValue))) =
          some P ∧
      q.gt (deriveProduct P).stockAvailable = false ∧
      (onAddSale rt sheet newId dateValue itemValue q).sheet =
        { products :=
            updateFound
              (fun p => decide (normalizeName rt p.name = normalizeName rt (jsTrim itemValue)))
              (fun p => { p with stockOut := p.stockOut.add q }) sheet.products
          sales := sheet.sales ++
            [{ id := newId
               dateISO := if dateValue = "" then rt.today else dateValue
               itemName := P.name
               qtySold := q
               revenue := roundCurrency (q.mul P.unitPrice)
               productionCost := roundCurrency (q.mul P.unitCost)
               grossProfit := roundCurrency
                 ((roundCurrency (q.mul P.unitPrice)).sub
                   (roundCurrency (q.mul P.unitCost))) }] } := by
  unfold onAddSale at h ⊢
  simp only [] at h ⊢
  generalize (if dateValue = "" then rt.today else dateValue) = d at h ⊢
  by_cases hdate : (!isISODate rt d) = true
  · rw [if_pos hdate] at h; simp [rejected] at h
  rw [if_neg hdate] at h ⊢
  by_cases hitem : jsTrim itemValue = ""
  · rw [if_pos hitem] at h; simp [rejected] at h
  rw [if_neg hitem] at h ⊢
  by_cases hq : (!q.isInteger || q.lt (.finite 1)) = true
  · rw [if_pos hq] at h; simp [rejected] at h
  rw [if_neg hq] at h ⊢
  simp only [recalcActiveSheet, b64_recalcSheet_products, List.find?_map] at h ⊢
  cases hf : sheet.products.find?
      ((fun product : DerivedProduct =>
        decide (normalizeName rt product.name = normalizeName rt (jsTrim itemValue))) ∘
        deriveProduct) with
  | none => rw [hf] at h; simp [rejected] at h
  | some P =>
    have hp : ((fun product : DerivedProduct =>
        decide (normalizeName rt product.name = normalizeName rt (jsTrim itemValue))) ∘
        deriveProduct) = (fun p : Product =>
        decide (normalizeName rt p.name = normalizeName rt (jsTrim itemValue))) := by
      funext p
      simp [deriveProduct, normalizeName_jsTrim]
    rw [hf] at h
    rw [hp] at hf
    simp only [Option.map_some'] at h ⊢
    by_cases havail : q.gt (deriveProduct P).stockAvailable = true
    · rw [if_pos havail] at h; simp [rejected] at h
    rw [if_neg havail] at h ⊢
    rw [hf] at h ⊢
    simp only [Bool.or_eq_true, Bool.not_eq_true', not_or, Bool.not_eq_false] at hq
    exact ⟨P, hq.1, by simpa using hq.2, hitem, by simpa using hdate, rfl,
      by simpa using havail, rfl⟩

theorem b64_onAddSale_not_saved (rt : Runtime) (sheet : Sheet)
    (newId dateValue itemValue : String) (q : JsNumber)
    (h : (onAddSale rt sheet newId dateValue itemValue q).saved = false) :
    (onAddSale rt sheet newId dateValue itemValue q).sheet = sheet := by
  unfold onAddSale at h ⊢
  simp only [] at h ⊢
  generalize (if dateValue = "" then rt.today else dateValue) = d at h ⊢
  by_cases hdate : (!isISODate rt d) = true
  · rw [if_pos hdate]; rfl
  rw [if_neg hdate] at h ⊢
  by_cases hitem : jsTrim itemValue = ""
  · rw [if_pos hitem]; rfl
  rw [if_neg hitem] at h ⊢
  by_cases hq : (!q.isInteger || q.lt (.finite 1)) = true
  · rw [if_pos hq]; rfl
  rw [if_neg hq] at h ⊢
  cases hf : (recalcActiveSheet rt (some sheet)).products.find?
      (fun product =>
        decide (normalizeName rt product.name = normalizeName rt (jsTrim itemValue))) with
  | none => rfl
  | some cp =>
    rw [hf] at h
    simp only [] at h ⊢
    by_cases havail : q.gt cp.stockAvailable = true
    · rw [if_pos havail]; rfl
    rw [if_neg havail] at h ⊢
    cases hf2 : sheet.products.find?
        (fun p => decide (normalizeName rt p.name = normalizeName rt (jsTrim itemValue))) with
    | none => rfl
    | some P =>
      rw [hf2] at h
      simp at h

end Binary64

/-! ## Binary64: integers up to 2⁵³ are exact -/

theorem pow2_53 : pow2 53 = 9007199254740992 := by decide!

theorem toDouble_safeInt (n : ℤ) (h1 : -9007199254740992 ≤ n) (h2 : n ≤ 9007199254740992) :
    toDouble (n : ℚ) = .finite (n : ℚ) := by
  apply toDouble_intCast
  rw [pow2_53, abs_le]
  constructor
  · exact_mod_cast h1
  · exact_mod_cast h2

theorem add_safeInt (a b : ℤ) (h1 : -9007199254740992 ≤ a + b)
    (h2 : a + b ≤ 9007199254740992) :
    (JsNumber.finite (a : ℚ)).add (.finite (b : ℚ)) = .finite ((a + b : ℤ) : ℚ) := by
  show toDouble ((a : ℚ) + (b : ℚ)) = _
  rw [← Int.cast_add]
  exact toDouble_safeInt _ h1 h2

theorem sub_safeInt (a b : ℤ) (h1 : -9007199254740992 ≤ a - b)
    (h2 : a - b ≤ 9007199254740992) :
    (JsNumber.finite (a : ℚ)).sub (.finite (b : ℚ)) = .finite ((a - b : ℤ) : ℚ) := by
  show toDouble ((a : ℚ) + -(b : ℚ)) = _
  rw [← sub_eq_add_neg, ← Int.cast_sub]
  exact toDouble_safeInt _ h1 h2

theorem isInteger_iff (x : JsNumber) : x.isInteger = true ↔ ∃ n : ℤ, x = .finite (n : ℚ) := by
  cases x with
  | finite a =>
    simp only [JsNumber.isInteger, numberIsInteger_iff, JsNumber.finite.injEq]
  | nan => simp [JsNumber.isInteger]
  | posInfinity => simp [JsNumber.isInteger]
  | negInfinity => simp [JsNumber.isInteger]

theorem lt_finite (a b : ℚ) : (JsNumber.finite a).lt (.finite b) = decide (a < b) := rfl

theorem value_finite (a : ℚ) : (JsNumber.finite a).value = a := rfl

namespace Binary64

theorem b64_toIntegerOrZero_intCast (n : ℤ) :
    toIntegerOrZero (.finite (n : ℚ)) = .finite (n : ℚ) := by
  simp [toIntegerOrZero, JsNumber.isFinite, JsNumber.trunc, mathTrunc_intCast]

/-- With integer stock within the safe range the derived stock available is exact. -/
theorem b64_stockAvailable_exact (p : Product) (s o : ℤ) (hs : p.stockOut = .finite s)
    (ho : p.openingStock = .finite o) (h0 : 0 ≤ s) (h1 : s ≤ o)
    (h2 : o ≤ safeIntegerBound) :
    (deriveProduct p).stockAvailable = .finite ((o - s : ℤ) : ℚ) := by
  unfold safeIntegerBound at h2
  simp only [deriveProduct, hs, ho, b64_toIntegerOrZero_intCast]
  exact sub_safeInt o s (by omega) (by omega)

/-! ## Binary64: quantities sold under a name -/

theorem b64_soldFor_nil (rt : Runtime) (k : String) : soldFor rt [] k = 0 := by
  simp [soldFor]

theorem b64_soldFor_cons (rt : Runtime) (x : Sale) (xs : List Sale) (k : String) :
    soldFor rt (x :: xs) k =
      (if normalizeName rt x.itemName = k then x.qtySold.value else 0) +
        soldFor rt xs k := by
  unfold soldFor
  by_cases h : normalizeName rt x.itemName = k <;> simp [List.filter_cons, h]

theorem b64_soldFor_append (rt : Runtime) (xs ys : List Sale) (k : String) :
    soldFor rt (xs ++ ys) k = soldFor rt xs k + soldFor rt ys k := by
  simp [soldFor, List.filter_append]

theorem b64_soldFor_eq_zero (rt : Runtime) (sales : List Sale) (k : String)
    (h : ∀ sale ∈ sales, normalizeName rt sale.itemName ≠ k) : soldFor rt sales k = 0 := by
  induction sales with
  | nil => exact b64_soldFor_nil rt k
  | cons x xs ih =>
    rw [b64_soldFor_cons, if_neg (h x (by simp)), ih (fun s hs => h s (by simp [hs]))]
    simp

theorem b64_soldFor_nonneg (rt : Runtime) (sales : List Sale) (k : String)
    (h : ∀ sale ∈ sales, 0 ≤ sale.qtySold.value) : 0 ≤ soldFor rt sales k := by
  induction sales with
  | nil => rw [b64_soldFor_nil]
  | cons x xs ih =>
    rw [b64_soldFor_cons]
    have h1 := ih (fun s hs => h s (by simp [hs]))
    have h2 := h x (by simp)
    split <;> linarith

theorem b64_soldFor_rename (rt : Runtime) (kold : String) (next : String)
    (hne : kold ≠ normalizeName rt next) (sales : List Sale) (k : String) :
    soldFor rt (sales.map (fun sale =>
        if normalizeName rt sale.itemName = kold then { sale with itemName := next }
        else sale)) k =
      if k = normalizeName rt next then soldFor rt sales kold + soldFor rt sales k
      else if k = kold then 0 else soldFor rt sales k := by
  induction sales with
  | nil => simp [b64_soldFor_nil]
  | cons x xs ih =>
    rw [List.map_cons, b64_soldFor_cons, ih, b64_soldFor_cons, b64_soldFor_cons]
    by_cases hx : normalizeName rt x.itemName = kold
    · simp only [hx, if_true]
      by_cases hk : k = normalizeName rt next
      · subst hk
        simp [hne]
        ring
      · have hk' : ¬ normalizeName rt next = k := fun h => hk h.symm
        by_cases hk2 : k = kold
        · subst hk2; simp [hk, hk']
        · have hk2' : ¬ kold = k := fun h => hk2 h.symm
          simp [hk, hk', hk2, hk2']
    · simp only [hx, if_false]
      by_cases hk : k = normalizeName rt next
      · subst hk
        simp [hx]
        ring
      · by_cases hk2 : k = kold
        · subst hk2; simp [hk, hx]
        · simp [hk, hk2]

theorem b64_productKeys_append (rt : Runtime) (l1 l2 : List Product) :
    productKeys rt (l1 ++ l2) = productKeys rt l1 ++ productKeys rt l2 := by
  simp [productKeys]

theorem b64_productKeys_cons (rt : Runtime) (p : Product) (l : List Product) :
    productKeys rt (p :: l) = normalizeName rt p.name :: productKeys rt l := by
  simp [productKeys]

theorem b64_mem_productKeys (rt : Runtime) (l : List Product) (k : String) :
    k ∈ productKeys rt l ↔ ∃ p ∈ l, normalizeName rt p.name = k := by
  simp [productKeys]

theorem b64_nodup_keys_split (rt : Runtime) (l1 l2 : List Product) (p : Product)
    (h : (productKeys rt (l1 ++ p :: l2)).Nodup) :
    (∀ a ∈ l1, normalizeName rt a.name ≠ normalizeName rt p.name) ∧
    (∀ a ∈ l2, normalizeName rt a.name ≠ normalizeName rt p.name) := by
  rw [b64_productKeys_append, b64_productKeys_cons] at h
  have h2 := (List.nodup_cons.mp (List.nodup_middle.mp h)).1
  simp only [List.mem_append, not_or, b64_mem_productKeys, not_exists, not_and] at h2
  exact ⟨fun a ha => h2.1 a ha, fun a ha => h2.2 a ha⟩

theorem b64_soldFor_zero_of_new_key (rt : Runtime) (sheet : Sheet)
    (hm : ∀ sale ∈ sheet.sales,
      normalizeName rt sale.itemName ∈ productKeys rt sheet.products)
    (k : String) (hk : k ∉ productKeys rt sheet.products) :
    soldFor rt sheet.sales k = 0 := by
  apply b64_soldFor_eq_zero
  intro sale hs heq
  exact hk (heq ▸ hm sale hs)

end Binary64

namespace Binary64

/-! ## Binary64: what every sheet reached within the safe range satisfies -/

theorem b64_consistent_empty (rt : Runtime) : Consistent rt emptySheet := by
  refine ⟨?_, ?_, ?_, ?_, ?_, ?_⟩ <;> simp [emptySheet, productKeys]

theorem b64_consistent_addProduct (rt : Runtime) (sheet : Sheet) (hc : Consistent rt sheet)
    (nameValue : String) (c pr o : JsNumber)
    (hsafe : o.value ≤ safeIntegerBound) :
    Consistent rt (onAddProduct rt sheet nameValue c pr o).sheet := by
  rcases b64_onAddProduct_cases rt sheet nameValue c pr o with
    h | ⟨h1, h2, _, _, hoi, ho0, h7⟩
  · rw [h]; exact hc
  rw [h7]
  obtain ⟨n, rfl⟩ := (isInteger_iff o).mp hoi
  have hn0 : 0 ≤ n := by
    have : ¬ ((n : ℚ) < 0) := by simpa [lt_finite] using ho0
    exact_mod_cast not_lt.mp this
  have hn1 : n ≤ safeIntegerBound := by
    rw [value_finite] at hsafe; exact_mod_cast hsafe
  have hk : normalizeName rt (jsTrim nameValue) ∉ productKeys rt sheet.products := by
    rw [b64_mem_productKeys]
    rintro ⟨p, hp', hpk⟩
    exact h2 p hp' hpk
  refine ⟨?_, ?_, ?_, hc.counts, ?_, ?_⟩
  · intro p hp
    rcases List.mem_append.mp hp with hp | hp
    · exact hc.names p hp
    · rw [List.mem_singleton.mp hp]
      show jsTrim (jsTrim nameValue) ≠ ""
      rw [jsTrim_idem]; exact h1
  · rw [b64_productKeys_append, b64_productKeys_cons]
    simp only [productKeys, List.map_nil]
    rw [List.nodup_append]
    refine ⟨hc.keys_nodup, by simp, ?_⟩
    intro a ha hb
    have : a = normalizeName rt (jsTrim nameValue) := by simpa using hb
    exact hk (this ▸ ha)
  · intro sale hs
    rw [b64_productKeys_append]
    exact List.mem_append_left _ (hc.matched sale hs)
  · intro p hp
    rcases List.mem_append.mp hp with hp | hp
    · exact hc.stock p hp
    · rw [List.mem_singleton.mp hp]
      exact ⟨0, n, by simp, rfl, le_refl _, hn0, hn1⟩
  · intro p hp
    rcases List.mem_append.mp hp with hp | hp
    · exact hc.balance p hp
    · rw [List.mem_singleton.mp hp]
      exact (b64_soldFor_zero_of_new_key rt sheet hc.matched _ hk).symm

theorem b64_consistent_replace (rt : Runtime) (sales : List Sale) (l1 l2 : List Product)
    (p p' : Product) (hc : Consistent rt ⟨l1 ++ p :: l2, sales⟩)
    (hk : normalizeName rt p'.name = normalizeName rt p.name) (hn : jsTrim p'.name ≠ "")
    (hs : p'.stockOut = p.stockOut)
    (ho : ∃ s o : ℤ, p'.stockOut = .finite s ∧ p'.openingStock = .finite o ∧ 0 ≤ s ∧
      s ≤ o ∧ o ≤ safeIntegerBound) :
    Consistent rt ⟨l1 ++ p' :: l2, sales⟩ := by
  have hkeys : productKeys rt (l1 ++ p' :: l2) = productKeys rt (l1 ++ p :: l2) := by
    simp [productKeys, hk]
  refine ⟨?_, ?_, ?_, hc.counts, ?_, ?_⟩
  · intro a ha
    simp only [List.mem_append, List.mem_cons] at ha
    rcases ha with ha | rfl | ha
    · exact hc.names a (by simp [ha])
    · exact hn
    · exact hc.names a (by simp [ha])
  · show (productKeys rt (l1 ++ p' :: l2)).Nodup
    rw [hkeys]; exact hc.keys_nodup
  · intro sale hsale
    show _ ∈ productKeys rt (l1 ++ p' :: l2)
    rw [hkeys]; exact hc.matched sale hsale
  · intro a ha
    simp only [List.mem_append, List.mem_cons] at ha
    rcases ha with ha | rfl | ha
    · exact hc.stock a (by simp [ha])
    · exact ho
    · exact hc.stock a (by simp [ha])
  · intro a ha
    simp only [List.mem_append, List.mem_cons] at ha
    rcases ha with ha | rfl | ha
    · exact hc.balance a (by simp [ha])
    · rw [hs, hk]; exact hc.balance p (by simp)
    · exact hc.balance a (by simp [ha])

theorem b64_consistent_rename (rt : Runtime) (sales : List Sale) (l1 l2 : List Product)
    (p : Product) (hc : Consistent rt ⟨l1 ++ p :: l2, sales⟩)
    (value : String) (hnext : jsTrim value ≠ "")
    (h1 : ∀ a ∈ l1, normalizeName rt a.name ≠ normalizeName rt (jsTrim value))
    (h2 : ∀ a ∈ l2, normalizeName rt a.name ≠ normalizeName rt (jsTrim value))
    (hne : normalizeName rt p.name ≠ normalizeName rt (jsTrim value)) :
    Consistent rt
      { products := l1 ++ { p with name := jsTrim value } :: l2
        sales := sales.map (fun sale =>
          if normalizeName rt sale.itemName = normalizeName rt p.name
          then { sale with itemName := jsTrim value } else sale) } := by
  obtain ⟨n1, n2⟩ := b64_nodup_keys_split rt l1 l2 p hc.keys_nodup
  have hzero : soldFor rt sales (normalizeName rt (jsTrim value)) = 0 := by
    apply b64_soldFor_zero_of_new_key rt ⟨l1 ++ p :: l2, sales⟩ hc.matched
    simp only [b64_productKeys_append, b64_productKeys_cons, List.mem_append, List.mem_cons,
      b64_mem_productKeys, not_or, not_exists, not_and]
    exact ⟨fun a ha => h1 a ha, fun h => hne h.symm, fun a ha => h2 a ha⟩
  have hother : ∀ a : Product,
      a.stockOut.value = soldFor rt sales (normalizeName rt a.name) →
      normalizeName rt a.name ≠ normalizeName rt (jsTrim value) →
      normalizeName rt a.name ≠ normalizeName rt p.name →
      a.stockOut.value = soldFor rt (sales.map (fun sale =>
          if normalizeName rt sale.itemName = normalizeName rt p.name
          then { sale with itemName := jsTrim value } else sale))
        (normalizeName rt a.name) := by
    intro a ha hx hy
    rw [b64_soldFor_rename rt _ _ hne, if_neg hx, if_neg hy]
    exact ha
  refine ⟨?_, ?_, ?_, ?_, ?_, ?_⟩
  · intro a ha
    simp only [List.mem_append, List.mem_cons] at ha
    rcases ha with ha | rfl | ha
    · exact hc.names a (by simp [ha])
    · show jsTrim (jsTrim value) ≠ ""
      rw [jsTrim_idem]; exact hnext
    · exact hc.names a (by simp [ha])
  · have := hc.keys_nodup
    simp only [b64_productKeys_append, b64_productKeys_cons] at this ⊢
    rw [List.nodup_middle, List.nodup_cons] at this ⊢
    refine ⟨?_, this.2⟩
    simp only [List.mem_append, not_or, b64_mem_productKeys, not_exists, not_and]
    exact ⟨fun a ha => h1 a ha, fun a ha => h2 a ha⟩
  · intro sale hs
    obtain ⟨x, hx, rfl⟩ := List.mem_map.mp hs
    have hm := hc.matched x hx
    simp only [b64_productKeys_append, b64_productKeys_cons, List.mem_append,
      List.mem_cons] at hm ⊢
    by_cases hxk : normalizeName rt x.itemName = normalizeName rt p.name
    · rw [if_pos hxk]
      exact Or.inr (Or.inl rfl)
    · rw [if_neg hxk]
      rcases hm with h | h | h
      · exact Or.inl h
      · exact absurd h hxk
      · exact Or.inr (Or.inr h)
  · intro sale hs
    obtain ⟨x, hx, rfl⟩ := List.mem_map.mp hs
    split
    · exact hc.counts x hx
    · exact hc.counts x hx
  · intro a ha
    simp only [List.mem_append, List.mem_cons] at ha
    rcases ha with ha | rfl | ha
    · exact hc.stock a (by simp [ha])
    · exact hc.stock p (by simp)
    · exact hc.stock a (by simp [ha])
  · intro a ha
    simp only [List.mem_append, List.mem_cons] at ha
    rcases ha with ha | rfl | ha
    · exact hother a (hc.balance a (by simp [ha])) (h1 a ha) (n1 a ha)
    · show p.stockOut.value = soldFor rt _ (normalizeName rt (jsTrim value))
      rw [b64_soldFor_rename rt _ _ hne, if_pos rfl, hzero, add_zero]
      exact hc.balance p (by simp)
    · exact hother a (hc.balance a (by simp [ha])) (h2 a ha) (n2 a ha)

theorem b64_consistent_editProduct (rt : Runtime) (sheet : Sheet) (hc : Consistent rt sheet)
    (index : Nat) (field value : String) (n : JsNumber)
    (hsafe : field = "openingStock" → n.value ≤ safeIntegerBound) :
    Consistent rt (onInventoryChange rt sheet index field value n).sheet := by
  rcases b64_onInventoryChange_cases rt sheet index field value n with
    h | ⟨p, l1, l2, e1, _, hcase⟩
  · rw [h]; exact hc
  have hc' : Consistent rt ⟨l1 ++ p :: l2, sheet.sales⟩ := by
    rw [← e1]; exact hc
  have hpn : jsTrim p.name ≠ "" := hc.names p (by rw [e1]; simp)
  have hps := hc.stock p (by rw [e1]; simp)
  have hnext : jsTrim value ≠ "" → jsTrim (jsTrim value) ≠ "" := by
    rw [jsTrim_idem]; exact id
  rcases hcase with ⟨_, h1, h2, h3, h4⟩ |
    ⟨_, hn0, ⟨hf, hi, hlt, h4⟩ | ⟨_, h4⟩ | ⟨_, h4⟩⟩
  · rw [h4]
    by_cases hk : normalizeName rt p.name = normalizeName rt (jsTrim value)
    · rw [if_neg (not_not.mpr hk)]
      exact b64_consistent_replace rt sheet.sales l1 l2 p _ hc' hk.symm (hnext h1) rfl hps
    · rw [if_pos hk]
      exact b64_consistent_rename rt sheet.sales l1 l2 p hc' value h1 h2 h3 hk
  · rw [h4]
    obtain ⟨s, o, es, _, hs0, _, _⟩ := hps
    obtain ⟨z, rfl⟩ := (isInteger_iff n).mp hi
    have hz : s ≤ z := by
      have : ¬ ((z : ℚ) < (s : ℚ)) := by simpa [es, lt_finite] using hlt
      exact_mod_cast not_lt.mp this
    have hz1 : z ≤ safeIntegerBound := by
      have := hsafe hf
      rw [value_finite] at this; exact_mod_cast this
    refine b64_consistent_replace rt sheet.sales l1 l2 p _ hc' rfl hpn rfl ?_
    exact ⟨s, z, es, rfl, hs0, hz, hz1⟩
  · rw [h4]
    exact b64_consistent_replace rt sheet.sales l1 l2 p _ hc' rfl hpn rfl hps
  · rw [h4]
    exact b64_consistent_replace rt sheet.sales l1 l2 p _ hc' rfl hpn rfl hps

theorem b64_consistent_deleteProduct (rt : Runtime) (sheet : Sheet)
    (hc : Consistent rt sheet) (index : Nat) :
    Consistent rt (onInventoryActionClick rt sheet index).sheet := by
  rcases b64_onInventoryActionClick_cases rt sheet index with
    h | ⟨p, l1, l2, e1, _, hno, h3⟩
  · rw [h]; exact hc
  rw [h3]
  have hkn := hc.keys_nodup
  have hm := hc.matched
  rw [e1] at hkn hm
  refine ⟨?_, ?_, ?_, hc.counts, ?_, ?_⟩
  · intro a ha
    rcases List.mem_append.mp ha with ha | ha
    · exact hc.names a (by rw [e1]; simp [ha])
    · exact hc.names a (by rw [e1]; simp [ha])
  · simp only [b64_productKeys_append, b64_productKeys_cons] at hkn ⊢
    exact (List.nodup_cons.mp (List.nodup_middle.mp hkn)).2
  · intro sale hs
    have := hm sale hs
    simp only [b64_productKeys_append, b64_productKeys_cons, List.mem_append,
      List.mem_cons] at this ⊢
    rcases this with h | h | h
    · exact Or.inl h
    · exact absurd h (hno sale hs)
    · exact Or.inr h
  · intro a ha
    rcases List.mem_append.mp ha with ha | ha
    · exact hc.stock a (by rw [e1]; simp [ha])
    · exact hc.stock a (by rw [e1]; simp [ha])
  · intro a ha
    rcases List.mem_append.mp ha with ha | ha
    · exact hc.balance a (by rw [e1]; simp [ha])
    · exact hc.balance a (by rw [e1]; simp [ha])

end Binary64

namespace Binary64

theorem b64_consistent_addSale (rt : Runtime) (sheet : Sheet) (hc : Consistent rt sheet)
    (newId dateValue itemValue : String) (q : JsNumber) :
    Consistent rt (onAddSale rt sheet newId dateValue itemValue q).sheet := by
  cases hs : (onAddSale rt sheet newId dateValue itemValue q).saved with
  | false => rw [b64_onAddSale_not_saved rt sheet newId dateValue itemValue q hs]; exact hc
  | true =>
    obtain ⟨P, hqi, hq1, _, _, hfind, havail, hsheet⟩ :=
      b64_onAddSale_saved rt sheet newId dateValue itemValue q hs
    obtain ⟨l1, l2, e1, _, _, hupd⟩ := find_split _ sheet.products P hfind
    rw [hsheet, hupd]
    obtain ⟨z, rfl⟩ := (isInteger_iff q).mp hqi
    have hz1 : 1 ≤ z := by
      have : ¬ ((z : ℚ) < 1) := by simpa [lt_finite] using hq1
      exact_mod_cast not_lt.mp this
    have hkn := hc.keys_nodup
    have hm := hc.matched
    have hb := hc.balance
    have hn := hc.names
    have hst := hc.stock
    rw [e1] at hkn hm hb hn hst
    obtain ⟨s, o, es, eo, hs0, hso, hob⟩ := hst P (by simp)
    have hfit : s + z ≤ o := by
      rw [b64_stockAvailable_exact P s o es eo hs0 hso hob] at havail
      have : ¬ (((o - s : ℤ) : ℚ) < (z : ℚ)) := by
        simpa [JsNumber.gt, lt_finite] using havail
      have := not_lt.mp this
      have h2 : z ≤ o - s := by exact_mod_cast this
      omega
    have hadd : P.stockOut.add (.finite (z : ℚ)) = .finite ((s + z : ℤ) : ℚ) := by
      rw [es]
      unfold safeIntegerBound at hob
      exact add_safeInt s z (by omega) (by omega)
    obtain ⟨n1, n2⟩ := b64_nodup_keys_split rt l1 l2 P hkn
    have hkeys : productKeys rt (l1 ++ { P with stockOut := P.stockOut.add (.finite z) } :: l2) =
        productKeys rt (l1 ++ P :: l2) := by
      simp [productKeys]
    have hother : ∀ a : Product,
        a.stockOut.value = soldFor rt sheet.sales (normalizeName rt a.name) →
        normalizeName rt a.name ≠ normalizeName rt P.name →
        a.stockOut.value = soldFor rt (sheet.sales ++
          [{ id := newId
             dateISO := if dateValue = "" then rt.today else dateValue
             itemName := P.name
             qtySold := .finite (z : ℚ)
             revenue := roundCurrency ((JsNumber.finite (z : ℚ)).mul P.unitPrice)
             productionCost := roundCurrency ((JsNumber.finite (z : ℚ)).mul P.unitCost)
             grossProfit := roundCurrency
               ((roundCurrency ((JsNumber.finite (z : ℚ)).mul P.unitPrice)).sub
                 (roundCurrency ((JsNumber.finite (z : ℚ)).mul P.unitCost))) }])
          (normalizeName rt a.name) := by
      intro a ha hne
      rw [b64_soldFor_append, b64_soldFor_cons, b64_soldFor_nil,
        if_neg (fun h => hne h.symm)]
      simpa using ha
    refine ⟨?_, ?_, ?_, ?_, ?_, ?_⟩
    · intro a ha
      simp only [List.mem_append, List.mem_cons] at ha
      rcases ha with ha | rfl | ha
      · exact hn a (by simp [ha])
      · exact hn P (by simp)
      · exact hn a (by simp [ha])
    · show (productKeys rt
        (l1 ++ { P with stockOut := P.stockOut.add (.finite z) } :: l2)).Nodup
      rw [hkeys]; exact hkn
    · intro sale hsale
      show _ ∈ productKeys rt (l1 ++ { P with stockOut := P.stockOut.add (.finite z) } :: l2)
      rw [hkeys]
      rcases List.mem_append.mp hsale with h | h
      · exact hm sale h
      · rw [List.mem_singleton.mp h]
        simp [productKeys]
    · intro sale hsale
      rcases List.mem_append.mp hsale with h | h
      · exact hc.counts sale h
      · rw [List.mem_singleton.mp h]
        exact ⟨z, rfl, hz1⟩
    · intro a ha
      simp only [List.mem_append, List.mem_cons] at ha
      rcases ha with ha | rfl | ha
      · exact hst a (by simp [ha])
      · exact ⟨s + z, o, hadd, eo, by omega, hfit, hob⟩
      · exact hst a (by simp [ha])
    · intro a ha
      simp only [List.mem_append, List.mem_cons] at ha
      rcases ha with ha | rfl | ha
      · exact hother a (hb a (by simp [ha])) (n1 a ha)
      · show (P.stockOut.add (.finite (z : ℚ))).value = soldFor rt _ (normalizeName rt P.name)
        have hP := hb P (by simp)
        rw [es, value_finite] at hP
        rw [hadd, value_finite, b64_soldFor_append, b64_soldFor_cons, b64_soldFor_nil,
          if_pos rfl, value_finite, add_zero, ← hP]
        push_cast; rfl
      · exact hother a (hb a (by simp [ha])) (n2 a ha)

theorem b64_consistent_deleteSale (rt : Runtime) (sheet : Sheet) (hc : Consistent rt sheet)
    (saleId : String) : Consistent rt (onSalesActionClick rt sheet saleId).sheet := by
  rcases b64_onSalesActionClick_cases rt sheet saleId with
    h | ⟨x, s1, s2, P, l1, l2, e1, e2, _, _, hPx, _, _, hsheet⟩
  · rw [h]; exact hc
  rw [hsheet]
  have hkn := hc.keys_nodup
  have hm := hc.matched
  have hb := hc.balance
  have hn := hc.names
  have hst := hc.stock
  have hcs := hc.counts
  rw [e2] at hkn hb hn hst
  rw [e1] at hb hcs
  rw [e1, e2] at hm
  obtain ⟨z, ez, hz1⟩ := hcs x (by simp)
  obtain ⟨s, o, es, eo, hs0, hso, hob⟩ := hst P (by simp)
  have hnonneg : ∀ l : List Sale, (∀ a ∈ l, a ∈ s1 ++ x :: s2) → ∀ k,
      0 ≤ soldFor rt l k := by
    intro l hl k
    apply b64_soldFor_nonneg
    intro a ha
    obtain ⟨n, en, hn1⟩ := hcs a (hl a ha)
    rw [en, value_finite]
    exact_mod_cast (by omega : (0 : ℤ) ≤ n)
  have hP := hb P (by simp)
  rw [es, value_finite, b64_soldFor_append, b64_soldFor_cons, if_pos hPx.symm, ez,
    value_finite] at hP
  have hzs : z ≤ s := by
    have a1 := hnonneg s1 (fun a ha => by simp [ha]) (normalizeName rt P.name)
    have a2 := hnonneg s2 (fun a ha => by simp [ha]) (normalizeName rt P.name)
    have : (z : ℚ) ≤ (s : ℚ) := by linarith
    exact_mod_cast this
  have hsub : P.stockOut.sub x.qtySold = .finite ((s - z : ℤ) : ℚ) := by
    rw [es, ez]
    unfold safeIntegerBound at hob
    exact sub_safeInt s z (by omega) (by omega)
  obtain ⟨n1, n2⟩ := b64_nodup_keys_split rt l1 l2 P hkn
  have hkeys : productKeys rt (l1 ++ { P with stockOut := P.stockOut.sub x.qtySold } :: l2) =
      productKeys rt (l1 ++ P :: l2) := by
    simp [productKeys]
  have hother : ∀ a : Product,
      a.stockOut.value = soldFor rt (s1 ++ x :: s2) (normalizeName rt a.name) →
      normalizeName rt a.name ≠ normalizeName rt P.name →
      a.stockOut.value = soldFor rt (s1 ++ s2) (normalizeName rt a.name) := by
    intro a ha hne
    rw [b64_soldFor_append, b64_soldFor_cons,
      if_neg (fun h => hne (Eq.trans (Eq.symm h) hPx.symm)), zero_add,
      ← b64_soldFor_append] at ha
    exact ha
  refine ⟨?_, ?_, ?_, ?_, ?_, ?_⟩
  · intro a ha
    simp only [List.mem_append, List.mem_cons] at ha
    rcases ha with ha | rfl | ha
    · exact hn a (by simp [ha])
    · exact hn P (by simp)
    · exact hn a (by simp [ha])
  · show (productKeys rt
      (l1 ++ { P with stockOut := P.stockOut.sub x.qtySold } :: l2)).Nodup
    rw [hkeys]; exact hkn
  · intro sale hsale
    show _ ∈ productKeys rt (l1 ++ { P with stockOut := P.stockOut.sub x.qtySold } :: l2)
    rw [hkeys]
    apply hm sale
    rcases List.mem_append.mp hsale with h | h
    · simp [h]
    · simp [h]
  · intro sale hsale
    apply hcs sale
    rcases List.mem_append.mp hsale with h | h
    · simp [h]
    · simp [h]
  · intro a ha
    simp only [List.mem_append, List.mem_cons] at ha
    rcases ha with ha | rfl | ha
    · exact hst a (by simp [ha])
    · exact ⟨s - z, o, hsub, eo, by omega, by omega, hob⟩
    · exact hst a (by simp [ha])
  · intro a ha
    simp only [List.mem_append, List.mem_cons] at ha
    rcases ha with ha | rfl | ha
    · exact hother a (hb a (by simp [ha])) (n1 a ha)
    · show (P.stockOut.sub x.qtySold).value = soldFor rt (s1 ++ s2) (normalizeName rt P.name)
      rw [hsub, value_finite, b64_soldFor_append]
      push_cast
      linarith
    · exact hother a (hb a (by simp [ha])) (n2 a ha)

theorem b64_consistent_applyOperation (rt : Runtime) (sheet : Sheet)
    (hc : Consistent rt sheet) (operation : Operation)
    (hsafe : operation.openingWithinSafe = true) :
    Consistent rt (applyOperation rt sheet operation) := by
  cases operation with
  | addProduct nameValue c pr o =>
    exact b64_consistent_addProduct rt sheet hc nameValue c pr o
      (by simpa [Operation.openingWithinSafe] using hsafe)
  | editProduct index field value n =>
    exact b64_consistent_editProduct rt sheet hc index field value n
      (by
        simp only [Operation.openingWithinSafe, decide_eq_true_eq] at hsafe
        exact hsafe)
  | deleteProduct index => exact b64_consistent_deleteProduct rt sheet hc index
  | addSale newId dateValue itemValue q =>
    exact b64_consistent_addSale rt sheet hc newId dateValue itemValue q
  | deleteSale saleId => exact b64_consistent_deleteSale rt sheet hc saleId

theorem b64_consistent_foldl (rt : Runtime) (operations : List Operation)
    (hsafe : operations.all Operation.openingWithinSafe = true) :
    ∀ sheet : Sheet, Consistent rt sheet →
      Consistent rt (operations.foldl (applyOperation rt) sheet) := by
  induction operations with
  | nil => intro sheet hc; exact hc
  | cons operation rest ih =>
    intro sheet hc
    simp only [List.all_cons, Bool.and_eq_true] at hsafe
    exact ih hsafe.2 _ (b64_consistent_applyOperation rt sheet hc operation hsafe.1)

theorem b64_consistent_runOperations (rt : Runtime) (operations : List Operation)
    (hsafe : operations.all Operation.openingWithinSafe = true) :
    Consistent rt (runOperations rt operations) :=
  b64_consistent_foldl rt operations hsafe emptySheet (b64_consistent_empty rt)

theorem b64_pairwise_of_nodup_keys (rt : Runtime) (products : List Product)
    (h : (productKeys rt products).Nodup) :
    products.Pairwise (fun a b => normalizeName rt a.name ≠ normalizeName rt b.name) := by
  unfold productKeys List.Nodup at h
  exact List.pairwise_map.mp h

theorem b64_one_product_for_key (rt : Runtime) (products : List Product) (k : String)
    (h : (productKeys rt products).Nodup) (hk : k ∈ productKeys rt products) :
    (products.filter (fun p => normalizeName rt p.name = k)).length = 1 := by
  obtain ⟨P, hP, rfl⟩ := (b64_mem_productKeys rt products k).mp hk
  obtain ⟨l1, l2, rfl⟩ := List.append_of_mem hP
  obtain ⟨n1, n2⟩ := b64_nodup_keys_split rt l1 l2 P h
  have f1 : l1.filter (fun p => normalizeName rt p.name = normalizeName rt P.name) = [] := by
    rw [List.filter_eq_nil_iff]
    intro a ha
    simpa using n1 a ha
  have f2 : l2.filter (fun p => normalizeName rt p.name = normalizeName rt P.name) = [] := by
    rw [List.filter_eq_nil_iff]
    intro a ha
    simpa using n2 a ha
  rw [List.filter_append, List.filter_cons, f1, f2]
  simp

end Binary64

namespace Binary64

/-- C21, as stated, fails beyond 2^53: from the empty sheet, adding Bread with opening
stock 2^54, selling 2^53, selling 1 and deleting that last sale are all accepted and
leave `stockOut` at 2^53 - 1 while the remaining sale has quantity 2^53. -/
theorem stock_out_drifts_beyond_safe_range :
    (runOperations asciiRuntime beyondSafeInteger).products.map (fun p => p.stockOut) =
      [.finite 9007199254740991] ∧
    (runOperations asciiRuntime beyondSafeInteger).sales.map (fun sale => sale.qtySold) =
      [.finite 9007199254740992] ∧
    stockOutBalanced asciiRuntime (runOperations asciiRuntime beyondSafeInteger) = false := by
  decide!

/-- C21 (amended): in the sheet reached from the empty sheet by any finite sequence of
add product, edit product field, delete product, add sale and delete sale operations,
accepted or rejected, in which no opening stock entered exceeds 2^53, every sale quantity
is a finite number, every product's `stockOut` is exactly the sum of `qtySold` over the
sales whose item name has the product's normalized name, every product name is non-empty
(also after trimming), no two products have the same normalized name, and every sale has
the normalized name of exactly one product. -/
theorem reachable_state_invariant_in_safe_range (rt : Runtime)
    (operations : List Operation)
    (hsafe : operations.all Operation.openingWithinSafe = true) :
    (∀ sale ∈ (runOperations rt operations).sales, sale.qtySold.isFinite = true) ∧
    (∀ p ∈ (runOperations rt operations).products,
      p.stockOut = .finite
        (((runOperations rt operations).sales.filter
          (fun sale => normalizeName rt sale.itemName = normalizeName rt p.name)).map
            (fun sale => sale.qtySold.value)).sum) ∧
    (∀ p ∈ (runOperations rt operations).products, p.name ≠ "" ∧ jsTrim p.name ≠ "") ∧
    (runOperations rt operations).products.Pairwise
      (fun a b => normalizeName rt a.name ≠ normalizeName rt b.name) ∧
    (∀ sale ∈ (runOperations rt operations).sales,
      ((runOperations rt operations).products.filter
        (fun p => normalizeName rt p.name = normalizeName rt sale.itemName)).length = 1) := by
  have hc := b64_consistent_runOperations rt operations hsafe
  refine ⟨?_, ?_, ?_, ?_, ?_⟩
  · intro sale hs
    obtain ⟨n, hn, _⟩ := hc.counts sale hs
    rw [hn]; rfl
  · intro p hp
    obtain ⟨s, o, es, _⟩ := hc.stock p hp
    have hb := hc.balance p hp
    rw [es, value_finite] at hb
    rw [es, hb]; rfl
  · intro p hp
    refine ⟨?_, hc.names p hp⟩
    intro h
    apply hc.names p hp
    rw [h]; exact jsTrim_empty
  · exact b64_pairwise_of_nodup_keys rt _ hc.keys_nodup
  · intro sale hs
    exact b64_one_product_for_key rt _ _ hc.keys_nodup (hc.matched sale hs)

/-- The invariant of C21 on a sequence with accepted and rejected operations of every
kind. -/
theorem reachable_state_invariant_in_safe_range_witness :
    safeOperations.all Operation.openingWithinSafe = true ∧
    (runOperations asciiRuntime safeOperations).products.map (fun p => p.stockOut) =
      [.finite 7] ∧
    (runOperations asciiRuntime safeOperations).sales.map (fun sale => sale.qtySold) =
      [.finite 5, .finite 2] ∧
    (∀ p ∈ (runOperations asciiRuntime safeOperations).products,
      p.stockOut = .finite
        (((runOperations asciiRuntime safeOperations).sales.filter
          (fun sale => normalizeName asciiRuntime sale.itemName =
            normalizeName asciiRuntime p.name)).map
            (fun sale => sale.qtySold.value)).sum) :=
  ⟨by decide!, by decide!, by decide!,
    (reachable_state_invariant_in_safe_range asciiRuntime safeOperations (by decide!)).2.1⟩

/-! ## Binary64: the round trip of a sale -/

theorem b64_onAddSale_saved_id (rt : Runtime) (sheet : Sheet)
    (a b dateValue itemValue : String) (q : JsNumber) :
    (onAddSale rt sheet a dateValue itemValue q).saved =
      (onAddSale rt sheet b dateValue itemValue q).saved := by
  unfold onAddSale
  simp only []
  generalize (if dateValue = "" then rt.today else dateValue) = d
  split
  · rfl
  split
  · rfl
  split
  · rfl
  split
  · rfl
  split
  · rfl
  split
  · rfl
  · rfl

theorem b64_recalcSheet_totals_congr (rt : Runtime) (s t : Sheet)
    (hp : s.products = t.products)
    (hq : s.sales.map (fun x => x.qtySold) = t.sales.map (fun x => x.qtySold))
    (hr : s.sales.map (fun x => x.revenue) = t.sales.map (fun x => x.revenue))
    (hc : s.sales.map (fun x => x.productionCost) = t.sales.map (fun x => x.productionCost))
    (hg : s.sales.map (fun x => x.grossProfit) = t.sales.map (fun x => x.grossProfit)) :
    (recalcSheet rt s).totals = (recalcSheet rt t).totals := by
  have e1 : ∀ u : Sheet, ((u.sales.map (deriveSale rt)).map (fun r => r.qtySold)) =
      (u.sales.map (fun x => x.qtySold)).map toIntegerOrZero := fun u => by
    simp [deriveSale, Function.comp_def]
  have e2 : ∀ u : Sheet, ((u.sales.map (deriveSale rt)).map (fun r => r.revenue)) =
      (u.sales.map (fun x => x.revenue)).map toNumberOrZero := fun u => by
    simp [deriveSale, Function.comp_def]
  have e3 : ∀ u : Sheet, ((u.sales.map (deriveSale rt)).map (fun r => r.productionCost)) =
      (u.sales.map (fun x => x.productionCost)).map toNumberOrZero := fun u => by
    simp [deriveSale, Function.comp_def]
  have e4 : ∀ u : Sheet, ((u.sales.map (deriveSale rt)).map (fun r => r.grossProfit)) =
      (u.sales.map (fun x => x.grossProfit)).map toNumberOrZero := fun u => by
    simp [deriveSale, Function.comp_def]
  simp only [b64_recalcSheet_totals, b64_afterProducts_totals, e1, e2, e3, e4, hp, hq, hr,
    hc, hg]

/-- C5, as stated, fails beyond 2^53: on the sheet with `stockOut` 2^53 (opening stock
2^54) the add of 1 is accepted, the deletion of the new sale is accepted, and `stockOut` is
then 2^53 - 1, not its value before the add. -/
theorem round_trip_fails_beyond_safe_range :
    (∀ p ∈ saturatedSheet.products, p.stockOut.isInteger = true ∧
      p.stockOut.ge (.finite 0) = true) ∧
    (onAddSale asciiRuntime saturatedSheet "sale-2" "2024-05-02" "Bread" (.finite 1)).saved
      = true ∧
    (onSalesActionClick asciiRuntime
      (onAddSale asciiRuntime saturatedSheet "sale-2" "2024-05-02" "Bread" (.finite 1)).sheet
      "sale-2").saved = true ∧
    saturatedSheet.products.map (fun p => p.stockOut) = [.finite 9007199254740992] ∧
    (onSalesActionClick asciiRuntime
      (onAddSale asciiRuntime saturatedSheet "sale-2" "2024-05-02" "Bread" (.finite 1)).sheet
      "sale-2").sheet.products.map (fun p => p.stockOut) = [.finite 9007199254740991] := by
  decide!

/-- C5 (amended): on a sheet whose products have non-negative integer `stockOut`, an
accepted `onAddSale` (its identifier being a new, non-empty one) whose quantity added to
the `stockOut` of the product it names does not exceed 2^53, followed by deleting that
sale, is accepted and restores the products (so the product's `stockOut`) and the sales
list; adding an identical sale again gives the totals that followed the first add. -/
theorem add_then_delete_sale_round_trip_in_safe_range (rt : Runtime) (sheet : Sheet)
    (newId dateValue itemValue : String) (q : JsNumber)
    (hstock : ∀ p ∈ sheet.products, p.stockOut.isInteger = true ∧
      p.stockOut.ge (.finite 0) = true)
    (hsafe : ∀ p ∈ sheet.products,
      normalizeName rt p.name = normalizeName rt itemValue →
        p.stockOut.value + q.value ≤ safeIntegerBound)
    (hid : newId ≠ "") (hfresh : ∀ sale ∈ sheet.sales, sale.id ≠ newId)
    (hacc : (onAddSale rt sheet newId dateValue itemValue q).saved = true) :
    (onSalesActionClick rt
      (onAddSale rt sheet newId dateValue itemValue q).sheet newId).saved = true ∧
    (onSalesActionClick rt
      (onAddSale rt sheet newId dateValue itemValue q).sheet newId).sheet.products
        = sheet.products ∧
    (onSalesActionClick rt
      (onAddSale rt sheet newId dateValue itemValue q).sheet newId).sheet.sales
        = sheet.sales ∧
    ∀ again : String,
      (recalcActiveSheet rt (some (onAddSale rt
        (onSalesActionClick rt
          (onAddSale rt sheet newId dateValue itemValue q).sheet newId).sheet
        again dateValue itemValue q).sheet)).totals =
      (recalcActiveSheet rt
        (some (onAddSale rt sheet newId dateValue itemValue q).sheet)).totals := by
  obtain ⟨P, hqi, hq1, _, _, hfind, _, hsheet⟩ :=
    b64_onAddSale_saved rt sheet newId dateValue itemValue q hacc
  obtain ⟨l1, l2, e1, e2, e3, e4⟩ := find_split _ _ _ hfind
  obtain ⟨z, rfl⟩ := (isInteger_iff q).mp hqi
  have hz1 : 1 ≤ z := by
    have : ¬ ((z : ℚ) < 1) := by simpa [lt_finite] using hq1
    exact_mod_cast not_lt.mp this
  obtain ⟨hsi, hsge⟩ := hstock P (by rw [e1]; simp)
  obtain ⟨s, es⟩ := (isInteger_iff P.stockOut).mp hsi
  have hs0 : 0 ≤ s := by
    rw [es] at hsge
    have : (0 : ℚ) ≤ (s : ℚ) := by simpa [JsNumber.ge] using hsge
    exact_mod_cast this
  have hPkey : normalizeName rt P.name = normalizeName rt (jsTrim itemValue) := by
    simpa using e3
  have hsz : s + z ≤ 9007199254740992 := by
    have := hsafe P (by rw [e1]; simp) (by rw [hPkey, normalizeName_jsTrim])
    rw [es, value_finite, value_finite] at this
    unfold safeIntegerBound at this
    exact_mod_cast this
  have hadd : P.stockOut.add (.finite (z : ℚ)) = .finite ((s + z : ℤ) : ℚ) := by
    rw [es]; exact add_safeInt s z (by omega) (by omega)
  have hsub : (JsNumber.finite ((s + z : ℤ) : ℚ)).sub (.finite (z : ℚ)) = P.stockOut := by
    rw [sub_safeInt (s + z) z (by omega) (by omega), es]
    congr 2; omega
  have hdel : onSalesActionClick rt
      (onAddSale rt sheet newId dateValue itemValue (.finite (z : ℚ))).sheet newId =
      { sheet := sheet, saved := true,
        status := some ("Sale deleted and stock rolled back.", "success") } := by
    rw [hsheet, e4]
    unfold onSalesActionClick
    rw [if_neg hid]
    simp only []
    rw [findIndex_append_fresh _ _ (by simp) sheet.sales
      (fun a ha => by simpa using hfresh a ha)]
    simp only [get?_append_length]
    have hpred : (fun item : Product =>
        decide (normalizeName rt item.name = normalizeName rt P.name)) =
        (fun p : Product =>
        decide (normalizeName rt p.name = normalizeName rt (jsTrim itemValue))) := by
      funext p
      rw [hPkey]
    rw [hpred]
    obtain ⟨f1, f2⟩ := find_of_split
      (fun p : Product =>
        decide (normalizeName rt p.name = normalizeName rt (jsTrim itemValue)))
      l1 l2 { P with stockOut := P.stockOut.add (.finite (z : ℚ)) } e2 (by simpa using e3)
    rw [f1, f2]
    simp only [hadd, hsub]
    have hnn : ¬ (P.stockOut.lt (.finite 0) = true) := by
      rw [es, lt_finite]
      simp only [decide_eq_true_eq, not_lt]
      exact_mod_cast hs0
    rw [if_neg hnn, eraseIdx_append_length]
    have hback : (⟨P.name, P.unitCost, P.unitPrice, P.openingStock, P.stockOut⟩ : Product)
        = P := rfl
    rw [hback, ← e1]
  refine ⟨by rw [hdel], by rw [hdel], by rw [hdel], ?_⟩
  intro again
  rw [hdel]
  have hacc2 : (onAddSale rt sheet again dateValue itemValue (.finite (z : ℚ))).saved
      = true := by
    rw [b64_onAddSale_saved_id rt sheet again newId]; exact hacc
  obtain ⟨P', _, _, _, _, hfind', _, hsheet'⟩ :=
    b64_onAddSale_saved rt sheet again dateValue itemValue _ hacc2
  have hPP : P' = P := by
    rw [hfind] at hfind'; exact (Option.some.inj hfind').symm
  subst hPP
  rw [hsheet, hsheet']
  simp only [recalcActiveSheet]
  apply b64_recalcSheet_totals_congr <;> simp

/-- The round trip of C5 on the Bread sheet: add 5, delete, and the sheet is back. -/
theorem add_then_delete_sale_round_trip_in_safe_range_witness :
    (onAddSale asciiRuntime breadSheet64 "sale-1" "2024-05-01" "Bread" (.finite 5)).saved
      = true ∧
    (onSalesActionClick asciiRuntime
      (onAddSale asciiRuntime breadSheet64 "sale-1" "2024-05-01" "Bread" (.finite 5)).sheet
      "sale-1").sheet.products = breadSheet64.products ∧
    (onSalesActionClick asciiRuntime
      (onAddSale asciiRuntime breadSheet64 "sale-1" "2024-05-01" "Bread" (.finite 5)).sheet
      "sale-1").sheet.sales = breadSheet64.sales :=
  have h := add_then_delete_sale_round_trip_in_safe_range asciiRuntime breadSheet64 "sale-1"
    "2024-05-01" "Bread" (.finite 5) (by decide!) (by decide!) (by decide) (by decide!)
    (by decide!)
  ⟨by decide!, h.2.1, h.2.2.1⟩

end Binary64

/-! ## Binary64: the rounding error -/

theorem lastPlace_le (a : ℚ) (ha : 0 < a) (k : ℤ) (hk : -1022 ≤ k) (h : a < pow2 (k + 1)) :
    lastPlace a ≤ k - 52 := by
  have hb := binade_le_of_lt a ha k h
  unfold lastPlace
  exact max_le (by omega) (by omega)

theorem roundMagnitude_error (a : ℚ) (ha : 0 < a) (k : ℤ) (hk : -1022 ≤ k)
    (h : a < pow2 (k + 1)) : |roundMagnitude a - a| ≤ pow2 (k - 53) := by
  have h1 := roundMagnitude_sub_le a
  have h2 : pow2 (lastPlace a) ≤ pow2 (k - 52) := pow2_le_pow2 (lastPlace_le a ha k hk h)
  have h3 : pow2 (k - 52) = pow2 (k - 53) * 2 := by
    have : k - 52 = (k - 53) + 1 := by omega
    rw [this, pow2_add]
    congr 1
  linarith

/-- A rational of magnitude below `2 ^ (k + 1)`, `k` in the normal range, rounds to a
finite double at most `2 ^ (k - 53)` away. -/
theorem toDouble_error (q : ℚ) (k : ℤ) (hk : -1022 ≤ k) (hk' : k ≤ 1022)
    (h : |q| < pow2 (k + 1)) :
    ∃ r : ℚ, toDouble q = .finite r ∧ |r - q| ≤ pow2 (k - 53) := by
  have hsmall : pow2 (k + 1) + pow2 (k - 53) < pow2 1024 := by
    have h1 : pow2 (k - 53) < pow2 (k + 1) := pow2_lt_pow2 (by omega)
    have h2 : pow2 (k + 1) ≤ pow2 1023 := pow2_le_pow2 (by omega)
    have h3 : pow2 1024 = pow2 1023 * 2 := by
      have : (1024 : ℤ) = 1023 + 1 := by norm_num
      rw [this, pow2_add]
      congr 1
    linarith
  have hmag : ∀ a : ℚ, 0 < a → a < pow2 (k + 1) →
      roundMagnitude a < pow2 1024 ∧ |roundMagnitude a - a| ≤ pow2 (k - 53) := by
    intro a ha hlt
    have he := roundMagnitude_error a ha k hk hlt
    refine ⟨?_, he⟩
    have := (abs_le.mp he).2
    linarith
  unfold toDouble
  by_cases h0 : q = 0
  · rw [if_pos h0, h0]
    exact ⟨0, rfl, by simpa using (pow2_pos _).le⟩
  rw [if_neg h0]
  by_cases hpos : 0 < q
  · rw [if_pos hpos]
    obtain ⟨e1, e2⟩ := hmag q hpos (by rwa [abs_of_pos hpos] at h)
    rw [if_pos e1]
    exact ⟨_, rfl, e2⟩
  · rw [if_neg hpos]
    have hneg : q < 0 := lt_of_le_of_ne (not_lt.mp hpos) h0
    obtain ⟨e1, e2⟩ := hmag (-q) (by linarith) (by rwa [abs_of_neg hneg] at h)
    rw [if_pos e1]
    refine ⟨_, rfl, ?_⟩
    rw [← abs_neg]
    have : -(-roundMagnitude (-q) - q) = roundMagnitude (-q) - -q := by ring
    rw [this]; exact e2

namespace Binary64

theorem pow2_44 : pow2 44 = 17592186044416 := by decide!

theorem pow2_50 : pow2 50 = 1125899906842624 := by decide!

theorem pow2_neg10 : pow2 (-10) = 1 / 1024 := by decide!

theorem pow2_neg4 : pow2 (-4) = 1 / 16 := by decide!

/-- For a finite `x` of magnitude at most 2^43, `roundCurrency` is finite: it is the double
nearest to `n / 100` for the integer `n` nearest to the double product, a tie going up,
and it is within 0.01 of `x`. -/
theorem b64_roundCurrency_near (x : ℚ) (hx : |x| ≤ 8796093022208) :
    ∃ (y : ℚ) (n : ℤ) (r : ℚ),
      ((JsNumber.finite x).add EPSILON).mul (.finite 100) = .finite y ∧
      y - 1 / 2 < (n : ℚ) ∧ (n : ℚ) ≤ y + 1 / 2 ∧
      roundCurrency (.finite x) = toDouble ((n : ℚ) / 100) ∧
      roundCurrency (.finite x) = .finite r ∧ |r - x| ≤ 1 / 100 := by
  have hx' := abs_le.mp hx
  -- the sum x + ε
  have ha : |x + 1 / 4503599627370496| < pow2 (43 + 1) := by
    rw [show (43 : ℤ) + 1 = 44 by norm_num, pow2_44, abs_lt]
    constructor <;> linarith
  obtain ⟨a, ea, da⟩ := toDouble_error (x + 1 / 4503599627370496) 43 (by norm_num)
    (by norm_num) ha
  rw [show (43 : ℤ) - 53 = -10 by norm_num, pow2_neg10] at da
  have da' := abs_le.mp da
  -- the product by 100
  have hb : |a * 100| < pow2 (49 + 1) := by
    rw [show (49 : ℤ) + 1 = 50 by norm_num, pow2_50, abs_lt]
    constructor <;> linarith
  obtain ⟨y, ey, dy⟩ := toDouble_error (a * 100) 49 (by norm_num) (by norm_num) hb
  rw [show (49 : ℤ) - 53 = -4 by norm_num, pow2_neg4] at dy
  have dy' := abs_le.mp dy
  -- the nearest integer
  have hn1 : y - 1 / 2 < ((⌊y + 1 / 2⌋ : ℤ) : ℚ) := by
    have := Int.lt_floor_add_one (y + 1 / 2)
    linarith
  have hn2 : ((⌊y + 1 / 2⌋ : ℤ) : ℚ) ≤ y + 1 / 2 := Int.floor_le (y + 1 / 2)
  -- the quotient by 100
  have hc : |((⌊y + 1 / 2⌋ : ℤ) : ℚ) / 100| < pow2 (43 + 1) := by
    rw [show (43 : ℤ) + 1 = 44 by norm_num, pow2_44, abs_lt]
    constructor <;> linarith
  obtain ⟨r, er, dr⟩ := toDouble_error (((⌊y + 1 / 2⌋ : ℤ) : ℚ) / 100) 43 (by norm_num)
    (by norm_num) hc
  rw [show (43 : ℤ) - 53 = -10 by norm_num, pow2_neg10] at dr
  have dr' := abs_le.mp dr
  have hmul : ((JsNumber.finite x).add EPSILON).mul (.finite 100) = .finite y := by
    show (toDouble (x + 1 / 4503599627370496)).mul (.finite 100) = _
    rw [ea]
    exact ey
  have hrc : roundCurrency (.finite x) = toDouble (((⌊y + 1 / 2⌋ : ℤ) : ℚ) / 100) := by
    unfold roundCurrency
    rw [hmul]
    rfl
  refine ⟨y, ⌊y + 1 / 2⌋, r, hmul, hn1, hn2, hrc, by rw [hrc, er], ?_⟩
  rw [abs_le]
  constructor <;> linarith

end Binary64

/-! ## Binary64: sums of integers -/

theorem round_of_integerOrNotFinite (x : JsNumber) (h : x.IntegerOrNotFinite) :
    x.round = x := by
  cases x with
  | finite q =>
    obtain ⟨z, rfl⟩ := h q rfl
    simp [JsNumber.round, mathRound_intCast]
  | nan => rfl
  | posInfinity => rfl
  | negInfinity => rfl

theorem toDouble_integerOrNotFinite (z : ℤ) : (toDouble (z : ℚ)).IntegerOrNotFinite := by
  intro q hq
  exact toDouble_intCast_isInt z q hq

theorem add_integerOrNotFinite (x y : JsNumber) (hx : x.IntegerOrNotFinite)
    (hy : y.IntegerOrNotFinite) : (x.add y).IntegerOrNotFinite := by
  cases x with
  | finite a =>
    cases y with
    | finite b =>
      obtain ⟨m, rfl⟩ := hx a rfl
      obtain ⟨n, rfl⟩ := hy b rfl
      show (toDouble ((m : ℚ) + (n : ℚ))).IntegerOrNotFinite
      rw [← Int.cast_add]
      exact toDouble_integerOrNotFinite _
    | nan => intro q hq; cases hq
    | posInfinity => intro q hq; cases hq
    | negInfinity => intro q hq; cases hq
  | nan => intro q hq; cases y <;> cases hq
  | posInfinity => intro q hq; cases y <;> cases hq
  | negInfinity => intro q hq; cases y <;> cases hq

theorem sub_integerOrNotFinite (x y : JsNumber) (hx : x.IntegerOrNotFinite)
    (hy : y.IntegerOrNotFinite) : (x.sub y).IntegerOrNotFinite := by
  apply add_integerOrNotFinite x y.neg hx
  intro q hq
  cases y with
  | finite b =>
    obtain ⟨n, rfl⟩ := hy b rfl
    have : q = -(n : ℚ) := (JsNumber.finite.inj hq).symm
    exact ⟨-n, by rw [this]; simp⟩
  | nan => cases hq
  | posInfinity => cases hq
  | negInfinity => cases hq

theorem sumFrom_integerOrNotFinite (l : List JsNumber) :
    ∀ start : JsNumber, start.IntegerOrNotFinite → (∀ x ∈ l, x.IntegerOrNotFinite) →
      (sumFrom start l).IntegerOrNotFinite := by
  induction l with
  | nil => intro start hs _; exact hs
  | cons x xs ih =>
    intro start hs hl
    exact ih _ (add_integerOrNotFinite start x hs (hl x (by simp)))
      (fun y hy => hl y (by simp [hy]))

/-- A left-to-right double sum of integers is exact while the magnitudes add up to at
most 2^53. -/
theorem sumFrom_exact (l : List JsNumber) :
    ∀ a : ℤ, (∀ x ∈ l, x.isInteger = true) →
      |(a : ℚ)| + (l.map (fun x => |x.value|)).sum ≤ 9007199254740992 →
      sumFrom (.finite (a : ℚ)) l = .finite ((a : ℚ) + (l.map (fun x => x.value)).sum) := by
  induction l with
  | nil => intro a _ _; simp [sumFrom]
  | cons x xs ih =>
    intro a hl hb
    obtain ⟨z, rfl⟩ := (isInteger_iff x).mp (hl x (by simp))
    simp only [List.map_cons, List.sum_cons, value_finite] at hb ⊢
    have hnn : 0 ≤ (xs.map (fun x => |x.value|)).sum := by
      apply List.sum_nonneg
      intro y hy
      obtain ⟨w, _, rfl⟩ := List.mem_map.mp hy
      exact abs_nonneg _
    have habs : |((a + z : ℤ) : ℚ)| ≤ |(a : ℚ)| + |(z : ℚ)| := by
      push_cast; exact abs_add _ _
    have hle : |((a + z : ℤ) : ℚ)| ≤ 9007199254740992 := by linarith
    have hle' := abs_le.mp hle
    have hstep : (JsNumber.finite (a : ℚ)).add (.finite (z : ℚ)) =
        .finite ((a + z : ℤ) : ℚ) :=
      add_safeInt a z (by exact_mod_cast hle'.1) (by exact_mod_cast hle'.2)
    show sumFrom ((JsNumber.finite (a : ℚ)).add (.finite (z : ℚ))) xs = _
    rw [hstep, ih (a + z) (fun y hy => hl y (by simp [hy])) (by linarith)]
    push_cast
    rw [add_assoc]

namespace Binary64

theorem b64_toIntegerOrZero_isInteger (x : JsNumber) :
    (toIntegerOrZero x).isInteger = true := by
  cases x with
  | finite a =>
    obtain ⟨n, hn⟩ := mathTrunc_eq_intCast a
    simp [toIntegerOrZero, JsNumber.isFinite, JsNumber.trunc, JsNumber.isInteger, hn,
      numberIsInteger_intCast]
  | nan => simp [toIntegerOrZero, JsNumber.isFinite, JsNumber.isInteger, numberIsInteger]
  | posInfinity =>
    simp [toIntegerOrZero, JsNumber.isFinite, JsNumber.isInteger, numberIsInteger]
  | negInfinity =>
    simp [toIntegerOrZero, JsNumber.isFinite, JsNumber.isInteger, numberIsInteger]

theorem b64_integerOrNotFinite_of_isInteger (x : JsNumber) (h : x.isInteger = true) :
    x.IntegerOrNotFinite := by
  obtain ⟨z, rfl⟩ := (isInteger_iff x).mp h
  intro q hq
  exact ⟨z, (JsNumber.finite.inj hq).symm⟩

theorem b64_stockAvailable_integerOrNotFinite (p : Product) :
    (deriveProduct p).stockAvailable.IntegerOrNotFinite := by
  simp only [deriveProduct]
  exact sub_integerOrNotFinite _ _
    (b64_integerOrNotFinite_of_isInteger _ (b64_toIntegerOrZero_isInteger _))
    (b64_integerOrNotFinite_of_isInteger _ (b64_toIntegerOrZero_isInteger _))

theorem b64_zero_integerOrNotFinite : (JsNumber.finite 0).IntegerOrNotFinite := by
  intro q hq
  exact ⟨0, by rw [← JsNumber.finite.inj hq]; simp⟩

/-- The two counts are not changed by `Math.round`: they are the left-to-right double
sums of the derived rows. -/
theorem b64_recalc_counts (rt : Runtime) (sheet : Sheet) :
    (recalcSheet rt sheet).totals.totalItemsSold =
      sumFrom (.finite 0) ((recalcSheet rt sheet).sales.map (fun r => r.qtySold)) ∧
    (recalcSheet rt sheet).totals.totalItemsAvailable =
      sumFrom (.finite 0)
        ((recalcSheet rt sheet).products.map (fun r => r.stockAvailable)) := by
  simp only [b64_recalcSheet_totals, b64_afterProducts_totals, roundTotals,
    b64_recalcSheet_sales, b64_recalcSheet_products]
  constructor
  · apply round_of_integerOrNotFinite
    apply sumFrom_integerOrNotFinite _ _ b64_zero_integerOrNotFinite
    intro x hx
    simp only [List.mem_map] at hx
    obtain ⟨r, ⟨s, _, rfl⟩, rfl⟩ := hx
    exact b64_integerOrNotFinite_of_isInteger _ (b64_toIntegerOrZero_isInteger _)
  · apply round_of_integerOrNotFinite
    apply sumFrom_integerOrNotFinite _ _ b64_zero_integerOrNotFinite
    intro x hx
    simp only [List.mem_map] at hx
    obtain ⟨r, ⟨p, _, rfl⟩, rfl⟩ := hx
    exact b64_stockAvailable_integerOrNotFinite p

/-- The four monetary totals are `roundCurrency` of the left-to-right double sums. -/
theorem b64_recalc_money (rt : Runtime) (sheet : Sheet) :
    (recalcSheet rt sheet).totals.totalRevenue =
      roundCurrency (sumFrom (.finite 0)
        ((recalcSheet rt sheet).sales.map (fun r => r.revenue))) ∧
    (recalcSheet rt sheet).totals.totalProductionCost =
      roundCurrency (sumFrom (.finite 0)
        ((recalcSheet rt sheet).sales.map (fun r => r.productionCost))) ∧
    (recalcSheet rt sheet).totals.grossProfitTotal =
      roundCurrency (sumFrom (.finite 0)
        ((recalcSheet rt sheet).sales.map (fun r => r.grossProfit))) ∧
    (recalcSheet rt sheet).totals.totalStockValueCost =
      roundCurrency (sumFrom (.finite 0)
        ((recalcSheet rt sheet).products.map (fun r => r.stockValueCost))) := by
  simp only [b64_recalcSheet_totals, b64_afterProducts_totals, roundTotals,
    b64_recalcSheet_sales, b64_recalcSheet_products]
  refine ⟨?_, ?_, ?_, ?_⟩ <;> first | rfl | trivial

end Binary64

namespace Binary64

/-! ## Binary64: rounding to cents -/

/-- The shape of `roundCurrency` on a finite number: either the double product
`(x + ε) * 100` is a finite `y` and the result is the double nearest to `n / 100` for the
integer `n` nearest to `y`, a tie going up, or the product overflowed and the result is
that infinity. -/
theorem b64_roundCurrency_shape (x : ℚ) :
    (∃ (y : ℚ) (n : ℤ),
      ((JsNumber.finite x).add EPSILON).mul (.finite 100) = .finite y ∧
      y - 1 / 2 < (n : ℚ) ∧ (n : ℚ) ≤ y + 1 / 2 ∧
      roundCurrency (.finite x) = toDouble ((n : ℚ) / 100)) ∨
    roundCurrency (.finite x) = .posInfinity ∨ roundCurrency (.finite x) = .negInfinity := by
  unfold roundCurrency
  cases hm : ((JsNumber.finite x).add EPSILON).mul (.finite 100) with
  | finite y =>
    left
    refine ⟨y, ⌊y + 1 / 2⌋, rfl, ?_, Int.floor_le _, rfl⟩
    have := Int.lt_floor_add_one (y + 1 / 2)
    linarith
  | posInfinity => right; left; rfl
  | negInfinity => right; right; rfl
  | nan =>
    exfalso
    have ha : (JsNumber.finite x).add EPSILON = toDouble (x + 1 / 4503599627370496) := rfl
    rw [ha] at hm
    cases hd : toDouble (x + 1 / 4503599627370496) with
    | finite a =>
      rw [hd] at hm
      exact toDouble_ne_nan _ hm
    | nan => exact toDouble_ne_nan _ hd
    | posInfinity =>
      rw [hd] at hm
      simp [JsNumber.mul, infinityTimes] at hm
    | negInfinity =>
      rw [hd] at hm
      simp [JsNumber.mul, infinityTimes] at hm

/-- C7, as stated, fails in two ways.  At `x = -1/8 - 2⁻⁵²` the biased value is the tie
`-0.125` and `roundCurrency` returns the double `-0.12` where rounding half away from zero
gives `-0.13`.  At the double nearest to 598.135 the biased value is below the tie
598.135, whose rounding is 598.13, and `roundCurrency` returns the double 598.14. -/
theorem roundCurrency_not_half_away_in_doubles :
    roundCurrency (.finite (-1 / 8 - 1 / 4503599627370496)) = toDouble (-12 / 100) ∧
    roundHalfAwayFromZero (-1 / 8 - 1 / 4503599627370496 + 1 / 4503599627370496)
      = -13 / 100 ∧
    toDouble (-12 / 100) ≠ toDouble (-13 / 100) ∧
    toDouble (598135 / 1000) = .finite (2630625549919191 / 4398046511104) ∧
    roundCurrency (.finite (2630625549919191 / 4398046511104)) = toDouble (59814 / 100) ∧
    roundHalfAwayFromZero (2630625549919191 / 4398046511104 + 1 / 4503599627370496)
      = 59813 / 100 ∧
    toDouble (59814 / 100) ≠ toDouble (59813 / 100) := by
  decide!

/-- C7 (amended): `roundCurrency(x)` is `Math.round((x + Number.EPSILON) * 100) / 100` in
double arithmetic.  For every finite `x` it is the double nearest to `n / 100`, where `n`
is the integer nearest to the double product `(x + ε) * 100`, a tie going to the larger
integer, unless that product overflowed, and then it is that infinity; for `|x| ≤ 2^43`
it is finite and within 0.01 of `x`; `NaN` and the infinities are returned as they are;
and each monetary total of `recalcActiveSheet` is `roundCurrency` of the left-to-right
double sum of its field over the derived rows. -/
theorem roundCurrency_in_doubles :
    (∀ x : ℚ,
      (∃ (y : ℚ) (n : ℤ),
        ((JsNumber.finite x).add EPSILON).mul (.finite 100) = .finite y ∧
        y - 1 / 2 < (n : ℚ) ∧ (n : ℚ) ≤ y + 1 / 2 ∧
        roundCurrency (.finite x) = toDouble ((n : ℚ) / 100)) ∨
      roundCurrency (.finite x) = .posInfinity ∨
      roundCurrency (.finite x) = .negInfinity) ∧
    (∀ x : ℚ, |x| ≤ 8796093022208 →
      ∃ r : ℚ, roundCurrency (.finite x) = .finite r ∧ |r - x| ≤ 1 / 100) ∧
    (roundCurrency .nan = .nan ∧ roundCurrency .posInfinity = .posInfinity ∧
      roundCurrency .negInfinity = .negInfinity) ∧
    (∀ (rt : Runtime) (sheet : Sheet),
      let c := recalcActiveSheet rt (some sheet)
      c.totals.totalRevenue =
        roundCurrency (sumFrom (.finite 0) (c.sales.map (fun r => r.revenue))) ∧
      c.totals.totalProductionCost =
        roundCurrency (sumFrom (.finite 0) (c.sales.map (fun r => r.productionCost))) ∧
      c.totals.grossProfitTotal =
        roundCurrency (sumFrom (.finite 0) (c.sales.map (fun r => r.grossProfit))) ∧
      c.totals.totalStockValueCost =
        roundCurrency (sumFrom (.finite 0)
          (c.products.map (fun r => r.stockValueCost)))) := by
  refine ⟨b64_roundCurrency_shape, ?_, ⟨rfl, rfl, rfl⟩, ?_⟩
  · intro x hx
    obtain ⟨_, _, r, _, _, _, _, h5, h6⟩ := b64_roundCurrency_near x hx
    exact ⟨r, h5, h6⟩
  · intro rt sheet
    exact b64_recalc_money rt sheet

/-- An input of C7 amended within the bound: 750 is returned as it is. -/
theorem roundCurrency_in_doubles_witness :
    |(750 : ℚ)| ≤ 8796093022208 ∧ roundCurrency (.finite 750) = .finite 750 ∧
    ∃ r : ℚ, roundCurrency (.finite 750) = .finite r ∧ |r - 750| ≤ 1 / 100 :=
  ⟨by decide!, by decide!, roundCurrency_in_doubles.2.1 750 (by decide!)⟩

/-! ## Binary64: totals against rows -/

/-- C1, as stated, fails on a valid sheet with one sale of 95706229311955.97: the total
revenue is the double 95706229311955.95, which is 1/64 away from the only row. -/
theorem total_revenue_off_by_more_than_a_cent :
    (recalcActiveSheet asciiRuntime (some largeRevenueSheet)).validation.isValid = true ∧
    (recalcActiveSheet asciiRuntime (some largeRevenueSheet)).sales.map
      (fun r => r.revenue) = [.finite (3062599337982591 / 32)] ∧
    (recalcActiveSheet asciiRuntime (some largeRevenueSheet)).totals.totalRevenue =
      .finite (6125198675965181 / 64) ∧
    toDouble (9570622931195597 / 100) = .finite (3062599337982591 / 32) ∧
    toDouble (9570622931195595 / 100) = .finite (6125198675965181 / 64) ∧
    |(6125198675965181 / 64 : ℚ) - 3062599337982591 / 32| = 1 / 64 ∧
    ¬ (|(6125198675965181 / 64 : ℚ) - 3062599337982591 / 32| ≤ 1 / 100) := by
  decide!

/-- C1 (amended): for every sheet the totals of `recalcActiveSheet` agree with the sums
of its own derived rows as the code computes them, in doubles from left to right:
`totalItemsSold` and `totalItemsAvailable` are exactly those sums of `qtySold` and
`stockAvailable`, and they are the exact sums while the magnitudes of the summands add up
to at most 2^53; each monetary total is `roundCurrency` of the sum of its field and is
within 0.01 of that sum when the sum is at most 2^43 in magnitude; on the one-product
Bread sheet without sales the totals are 20 items available, stock value 2000 and 0 for
every sale total. -/
theorem recalc_totals_match_double_sums :
    (∀ (rt : Runtime) (sheet : Sheet),
      let c := recalcActiveSheet rt (some sheet)
      c.totals.totalItemsSold = sumFrom (.finite 0) (c.sales.map (fun r => r.qtySold)) ∧
      c.totals.totalItemsAvailable =
        sumFrom (.finite 0) (c.products.map (fun r => r.stockAvailable)) ∧
      ((c.sales.map (fun r => |r.qtySold.value|)).sum ≤ 9007199254740992 →
        c.totals.totalItemsSold = .finite (c.sales.map (fun r => r.qtySold.value)).sum) ∧
      ((∀ r ∈ c.products, r.stockAvailable.isFinite = true) →
        (c.products.map (fun r => |r.stockAvailable.value|)).sum ≤ 9007199254740992 →
        c.totals.totalItemsAvailable =
          .finite (c.products.map (fun r => r.stockAvailable.value)).sum) ∧
      (∀ s : ℚ, sumFrom (.finite 0) (c.sales.map (fun r => r.revenue)) = .finite s →
        |s| ≤ 8796093022208 →
        ∃ t : ℚ, c.totals.totalRevenue = .finite t ∧ |t - s| ≤ 1 / 100) ∧
      (∀ s : ℚ, sumFrom (.finite 0) (c.sales.map (fun r => r.productionCost)) = .finite s →
        |s| ≤ 8796093022208 →
        ∃ t : ℚ, c.totals.totalProductionCost = .finite t ∧ |t - s| ≤ 1 / 100) ∧
      (∀ s : ℚ, sumFrom (.finite 0) (c.sales.map (fun r => r.grossProfit)) = .finite s →
        |s| ≤ 8796093022208 →
        ∃ t : ℚ, c.totals.grossProfitTotal = .finite t ∧ |t - s| ≤ 1 / 100) ∧
      (∀ s : ℚ,
        sumFrom (.finite 0) (c.products.map (fun r => r.stockValueCost)) = .finite s →
        |s| ≤ 8796093022208 →
        ∃ t : ℚ, c.totals.totalStockValueCost = .finite t ∧ |t - s| ≤ 1 / 100)) ∧
    (∀ rt : Runtime, (recalcActiveSheet rt (some breadSheet64)).totals =
      { totalItemsAvailable := .finite 20, totalStockValueCost := .finite 2000,
        totalRevenue := .finite 0, totalProductionCost := .finite 0,
        grossProfitTotal := .finite 0, totalItemsSold := .finite 0 }) := by
  constructor
  · intro rt sheet
    simp only [recalcActiveSheet]
    obtain ⟨c1, c2⟩ := b64_recalc_counts rt sheet
    obtain ⟨m1, m2, m3, m4⟩ := b64_recalc_money rt sheet
    have hmoney : ∀ (total sum : JsNumber), total = roundCurrency sum →
        ∀ s : ℚ, sum = .finite s → |s| ≤ 8796093022208 →
          ∃ t : ℚ, total = .finite t ∧ |t - s| ≤ 1 / 100 := by
      intro total sum ht s hs hb
      obtain ⟨_, _, r, _, _, _, _, h5, h6⟩ := b64_roundCurrency_near s hb
      exact ⟨r, by rw [ht, hs, h5], h6⟩
    refine ⟨c1, c2, ?_, ?_, hmoney _ _ m1, hmoney _ _ m2, hmoney _ _ m3, hmoney _ _ m4⟩
    · intro hb
      rw [c1]
      have h := sumFrom_exact ((recalcSheet rt sheet).sales.map (fun r => r.qtySold)) 0
        (by
          intro x hx
          rw [b64_recalcSheet_sales] at hx
          simp only [List.mem_map] at hx
          obtain ⟨r, ⟨s, _, rfl⟩, rfl⟩ := hx
          exact b64_toIntegerOrZero_isInteger _)
        (by
          simp only [List.map_map, Function.comp_def, Int.cast_zero, abs_zero, zero_add]
          exact hb)
      simp only [Int.cast_zero, zero_add, List.map_map, Function.comp_def] at h
      exact h
    · intro hfin hb
      rw [c2]
      have h := sumFrom_exact
        ((recalcSheet rt sheet).products.map (fun r => r.stockAvailable)) 0
        (by
          intro x hx
          simp only [List.mem_map] at hx
          obtain ⟨r, hr, rfl⟩ := hx
          have hf := hfin r hr
          have hi : r.stockAvailable.IntegerOrNotFinite := by
            rw [b64_recalcSheet_products] at hr
            obtain ⟨p, _, rfl⟩ := List.mem_map.mp hr
            exact b64_stockAvailable_integerOrNotFinite p
          cases hv : r.stockAvailable with
          | finite q =>
            obtain ⟨z, rfl⟩ := hi q hv
            exact (isInteger_iff _).mpr ⟨z, rfl⟩
          | nan => rw [hv] at hf; cases hf
          | posInfinity => rw [hv] at hf; cases hf
          | negInfinity => rw [hv] at hf; cases hf)
        (by
          simp only [List.map_map, Function.comp_def, Int.cast_zero, abs_zero, zero_add]
          exact hb)
      simp only [Int.cast_zero, zero_add, List.map_map, Function.comp_def] at h
      exact h
  · intro rt
    simp only [recalcActiveSheet, b64_recalcSheet_totals, b64_afterProducts_totals,
      breadSheet64, List.map_cons, List.map_nil, sumFrom, List.foldl_cons, List.foldl_nil]
    decide!

/-- The bounds of C1 amended on the Bread sheet after a sale of 5: every sum is small,
so the counts are the exact sums and the revenue total is within 0.01 of its sum. -/
theorem recalc_totals_match_double_sums_witness :
    ((recalcActiveSheet asciiRuntime (some (onAddSale asciiRuntime breadSheet64 "sale-1"
      "2024-05-01" "Bread" (.finite 5)).sheet)).sales.map
        (fun r => |r.qtySold.value|)).sum ≤ 9007199254740992 ∧
    (recalcActiveSheet asciiRuntime (some (onAddSale asciiRuntime breadSheet64 "sale-1"
      "2024-05-01" "Bread" (.finite 5)).sheet)).totals.totalItemsSold = .finite 5 ∧
    (recalcActiveSheet asciiRuntime (some (onAddSale asciiRuntime breadSheet64 "sale-1"
      "2024-05-01" "Bread" (.finite 5)).sheet)).totals.totalItemsSold =
      .finite ((recalcActiveSheet asciiRuntime (some (onAddSale asciiRuntime breadSheet64
        "sale-1" "2024-05-01" "Bread" (.finite 5)).sheet)).sales.map
          (fun r => r.qtySold.value)).sum :=
  ⟨by decide!, by decide!,
    (recalc_totals_match_double_sums.1 asciiRuntime (onAddSale asciiRuntime breadSheet64
      "sale-1" "2024-05-01" "Bread" (.finite 5)).sheet).2.2.1 (by decide!)⟩

end Binary64

namespace Binary64

/-! ## The normalizer over doubles -/

theorem b64_toNumberOrZero_isFinite (x : JsNumber) : (toNumberOrZero x).isFinite = true := by
  cases x <;> simp [toNumberOrZero, JsNumber.isFinite]

theorem b64_numberOf_of_not_isObject (rt : Runtime) (value : JsValue)
    (h : value.isObject = false) : (numberOf rt value).isOk = true := by
  cases value with
  | undefined => rfl
  | null => rfl
  | bool b => rfl
  | number n => rfl
  | string s => rfl
  | array items => simp [JsValue.isObject] at h
  | object fields => simp [JsValue.isObject] at h

theorem b64_normalizeProduct_cases (rt : Runtime) (value : JsValue)
    (hobj : value.isObject = true) :
    (conversionThrows rt value productNumberKeys = true ∧
      ∃ e, normalizeProduct rt value = .error e) ∨
    (conversionThrows rt value productNumberKeys = false ∧
      ∃ c pr o s : JsNumber,
        normalizeProduct rt value = .ok (some
          { name := trimmedStringOrEmpty (value.get "name")
            unitCost := toNumberOrZero c
            unitPrice := toNumberOrZero pr
            openingStock := toIntegerOrZero o
            stockOut := toIntegerOrZero s })) := by
  unfold normalizeProduct
  rw [guard_eq_isObject, hobj]
  simp only [Bool.not_true, Bool.false_eq_true, if_false, conversionThrows, productNumberKeys,
    List.any_cons, List.any_nil, Bool.or_false, toNumberOrZeroOf, toIntegerOrZeroOf]
  cases h1 : numberOf rt (value.get "unitCost") with
  | error e => left; exact ⟨by simp [Except.isOk, Except.toBool], e, rfl⟩
  | ok c =>
    cases h2 : numberOf rt (value.get "unitPrice") with
    | error e => left; exact ⟨by simp [Except.isOk, Except.toBool], e, rfl⟩
    | ok pr =>
      cases h3 : numberOf rt (value.get "openingStock") with
      | error e => left; exact ⟨by simp [Except.isOk, Except.toBool], e, rfl⟩
      | ok o =>
        cases h4 : numberOf rt (value.get "stockOut") with
        | error e => left; exact ⟨by simp [Except.isOk, Except.toBool], e, rfl⟩
        | ok s =>
          right
          exact ⟨by simp [Except.isOk, Except.toBool], c, pr, o, s, rfl⟩

theorem b64_normalizeSale_cases (rt : Runtime) (newId : String) (value : JsValue)
    (hobj : value.isObject = true) :
    (conversionThrows rt value saleNumberKeys = true ∧
      ∃ e, normalizeSale rt newId value = .error e) ∨
    (conversionThrows rt value saleNumberKeys = false ∧
      ∃ (id dateISO : String) (q r c g : JsNumber),
        normalizeSale rt newId value = .ok (some
          { id := id
            dateISO := dateISO
            itemName := trimmedStringOrEmpty (value.get "itemName")
            qtySold := toIntegerOrZero q
            revenue := toNumberOrZero r
            productionCost := toNumberOrZero c
            grossProfit := toNumberOrZero g })) := by
  unfold normalizeSale
  rw [guard_eq_isObject, hobj]
  simp only [Bool.not_true, Bool.false_eq_true, if_false, conversionThrows, saleNumberKeys,
    List.any_cons, List.any_nil, Bool.or_false, toNumberOrZeroOf, toIntegerOrZeroOf]
  cases h1 : numberOf rt (value.get "qtySold") with
  | error e => left; exact ⟨by simp [Except.isOk, Except.toBool], e, rfl⟩
  | ok q =>
    cases h2 : numberOf rt (value.get "revenue") with
    | error e => left; exact ⟨by simp [Except.isOk, Except.toBool], e, rfl⟩
    | ok r =>
      cases h3 : numberOf rt (value.get "productionCost") with
      | error e => left; exact ⟨by simp [Except.isOk, Except.toBool], e, rfl⟩
      | ok c =>
        cases h4 : numberOf rt (value.get "grossProfit") with
        | error e => left; exact ⟨by simp [Except.isOk, Except.toBool], e, rfl⟩
        | ok g =>
          right
          exact ⟨by simp [Except.isOk, Except.toBool], _, _, q, r, c, g, rfl⟩

theorem b64_conversionThrows_of_primitives (rt : Runtime) (value : JsValue)
    (keys : List String) (h : ∀ key ∈ keys, (value.get key).isObject = false) :
    conversionThrows rt value keys = false := by
  unfold conversionThrows
  rw [List.any_eq_false]
  intro key hk
  simp [b64_numberOf_of_not_isObject rt _ (h key hk)]

/-- C17, as stated, fails: for `null` and for a number the normalizer returns `null`, not
a record, and for an object whose `unitCost` is an object with an own `toString` property
(as `JSON.parse` gives for `{"unitCost": {"toString": 5}}`), or whose `qtySold` is an
array holding such an object, `Number(...)` throws a `TypeError`. -/
theorem normalizer_returns_null_or_throws :
    normalizeProduct asciiRuntime .null = .ok none ∧
    normalizeSale asciiRuntime "id-1" (.number (.finite 5)) = .ok none ∧
    normalizeProduct asciiRuntime
      (.object [("unitCost", .object [("toString", .number (.finite 5))])])
        = .error "TypeError" ∧
    normalizeSale asciiRuntime "id-1"
      (.object [("qtySold", .array [.object [("toString", .null)]])])
        = .error "TypeError" := by
  decide!

/-- C17 (amended): for every input value `normalizeProduct` and `normalizeSale` return
`null` when the input is not an array or an object (`null`, `undefined`, a number, a
string, a boolean); for an array or an object they throw exactly when `Number(...)` throws on
one of their four numeric properties, which no property that is not itself an array or
an object does, and otherwise they return a record whose name is a trimmed string, whose
monetary fields are finite numbers and whose count fields are integers; the empty object
gives the record of defaults. -/
theorem normalizer_well_typed (rt : Runtime) (newId : String) (value : JsValue) :
    (value.isObject = false →
      normalizeProduct rt value = .ok none ∧ normalizeSale rt newId value = .ok none) ∧
    (value.isObject = true →
      ((∃ e, normalizeProduct rt value = .error e) ↔
        conversionThrows rt value productNumberKeys = true) ∧
      ((∃ e, normalizeSale rt newId value = .error e) ↔
        conversionThrows rt value saleNumberKeys = true) ∧
      (conversionThrows rt value productNumberKeys = false →
        ∃ p : Product, normalizeProduct rt value = .ok (some p) ∧ jsTrim p.name = p.name ∧
          p.unitCost.isFinite = true ∧ p.unitPrice.isFinite = true ∧
          p.openingStock.isInteger = true ∧ p.stockOut.isInteger = true) ∧
      (conversionThrows rt value saleNumberKeys = false →
        ∃ sale : Sale, normalizeSale rt newId value = .ok (some sale) ∧
          jsTrim sale.itemName = sale.itemName ∧ sale.revenue.isFinite = true ∧
          sale.productionCost.isFinite = true ∧ sale.grossProfit.isFinite = true ∧
          sale.qtySold.isInteger = true)) ∧
    ((∀ key ∈ productNumberKeys, (value.get key).isObject = false) →
      conversionThrows rt value productNumberKeys = false) ∧
    ((∀ key ∈ saleNumberKeys, (value.get key).isObject = false) →
      conversionThrows rt value saleNumberKeys = false) ∧
    normalizeProduct rt (.object []) =
      .ok (some ⟨"", .finite 0, .finite 0, .finite 0, .finite 0⟩) ∧
    normalizeSale rt newId (.object []) =
      .ok (some ⟨newId, rt.today, "", .finite 0, .finite 0, .finite 0, .finite 0⟩) := by
  refine ⟨?_, ?_, b64_conversionThrows_of_primitives rt value _,
    b64_conversionThrows_of_primitives rt value _, ?_, ?_⟩
  · intro h
    constructor
    · unfold normalizeProduct
      rw [guard_eq_isObject, h]; rfl
    · unfold normalizeSale
      rw [guard_eq_isObject, h]; rfl
  · intro h
    refine ⟨?_, ?_, ?_, ?_⟩
    · rcases b64_normalizeProduct_cases rt value h with ⟨h1, e, he⟩ | ⟨h1, c, pr, o, s, he⟩
      · exact ⟨fun _ => h1, fun _ => ⟨e, he⟩⟩
      · constructor
        · rintro ⟨e, he'⟩
          rw [he] at he'; cases he'
        · intro h2
          rw [h1] at h2; cases h2
    · rcases b64_normalizeSale_cases rt newId value h with
        ⟨h1, e, he⟩ | ⟨h1, i, d, q, r, c, g, he⟩
      · exact ⟨fun _ => h1, fun _ => ⟨e, he⟩⟩
      · constructor
        · rintro ⟨e, he'⟩
          rw [he] at he'; cases he'
        · intro h2
          rw [h1] at h2; cases h2
    · intro hno
      rcases b64_normalizeProduct_cases rt value h with ⟨h1, _⟩ | ⟨_, c, pr, o, s, he⟩
      · rw [hno] at h1; cases h1
      · exact ⟨_, he, trimmedStringOrEmpty_trimmed _, b64_toNumberOrZero_isFinite _,
          b64_toNumberOrZero_isFinite _, b64_toIntegerOrZero_isInteger _,
          b64_toIntegerOrZero_isInteger _⟩
    · intro hno
      rcases b64_normalizeSale_cases rt newId value h with
        ⟨h1, _⟩ | ⟨_, i, d, q, r, c, g, he⟩
      · rw [hno] at h1; cases h1
      · exact ⟨_, he, trimmedStringOrEmpty_trimmed _, b64_toNumberOrZero_isFinite _,
          b64_toNumberOrZero_isFinite _, b64_toNumberOrZero_isFinite _,
          b64_toIntegerOrZero_isInteger _⟩
  · unfold normalizeProduct
    rw [guard_eq_isObject]
    rfl
  · unfold normalizeSale
    rw [guard_eq_isObject]
    rfl

/-- An input of C17 amended: an object whose `openingStock` is 7/2, whose `unitCost` is
the array `[12]` and whose `name` is a number becomes a product with opening stock 3, unit
cost 12 and an empty name. -/
theorem normalizer_well_typed_witness :
    conversionThrows asciiRuntime
      (.object [("name", .number (.finite 4)), ("openingStock", .number (.finite (7 / 2))),
        ("unitCost", .array [.number (.finite 12)]), ("colour", .string "brown")])
      productNumberKeys = false ∧
    normalizeProduct asciiRuntime
      (.object [("name", .number (.finite 4)), ("openingStock", .number (.finite (7 / 2))),
        ("unitCost", .array [.number (.finite 12)]), ("colour", .string "brown")]) =
      .ok (some ⟨"", .finite 12, .finite 0, .finite 3, .finite 0⟩) :=
  match ((normalizer_well_typed asciiRuntime "id-1"
      (.object [("name", .number (.finite 4)), ("openingStock", .number (.finite (7 / 2))),
        ("unitCost", .array [.number (.finite 12)]), ("colour", .string "brown")])).2.1
          rfl).2.2.1 (by decide!) with
  | ⟨p, hp, _⟩ => ⟨by decide!, hp.trans (hp.symm.trans (by decide!))⟩

end Binary64

theorem orZero_orZero (x : JsNumber) : x.orZero.orZero = x.orZero := by
  cases x <;> rfl

namespace Binary64

/-! ## Binary64: the loops of `recalcActiveSheet`, messages and maps -/

theorem b64_getOrZero_orZero (m : JsMap JsNumber) (k : String) :
    (getOrZero m k).orZero = getOrZero m k := by
  unfold getOrZero
  cases m k with
  | none => rfl
  | some v => exact orZero_orZero v

theorem b64_getOrZero_empty (k : String) : getOrZero JsMap.empty k = .finite 0 := by
  simp [getOrZero, JsMap.empty]

theorem b64_getOrZero_set (m : JsMap JsNumber) (key : String) (v : JsNumber) (k : String) :
    getOrZero (m.set key v) k = if k = key then v.orZero else getOrZero m k := by
  simp only [getOrZero, JsMap.set]
  by_cases h : k = key
  · simp [h]
  · simp [h]

theorem b64_saleLoop_errors (rt : Runtime) (l : List Sale) : ∀ (i : Nat) (st : Calc),
    (forEachIdx (saleStep rt) i st l).errors = st.errors ++ saleErrorsFrom rt i l := by
  induction l with
  | nil => intro i st; simp [forEachIdx, saleErrorsFrom]
  | cons x xs ih => intro i st; simp [forEachIdx, ih, saleStep, saleErrorsFrom]

theorem b64_soldFrom_nil (rt : Runtime) (start : JsNumber) (k : String) :
    soldFrom rt start [] k = start := by
  simp [soldFrom]

theorem b64_soldFrom_cons (rt : Runtime) (start : JsNumber) (x : Sale) (xs : List Sale)
    (k : String) :
    soldFrom rt start (x :: xs) k =
      soldFrom rt
        (if normalizeName rt x.itemName = k then start.orZero.add (toIntegerOrZero x.qtySold)
         else start) xs k := by
  unfold soldFrom
  by_cases h : normalizeName rt x.itemName = k <;> simp [List.filter_cons, h]

theorem b64_soldFrom_append (rt : Runtime) (start : JsNumber) (xs ys : List Sale)
    (k : String) :
    soldFrom rt start (xs ++ ys) k = soldFrom rt (soldFrom rt start xs k) ys k := by
  simp [soldFrom, List.filter_append]

theorem b64_soldFrom_orZero (rt : Runtime) (l : List Sale) (k : String) :
    ∀ start : JsNumber,
      (soldFrom rt start.orZero l k).orZero = (soldFrom rt start l k).orZero := by
  induction l with
  | nil => intro start; simp [b64_soldFrom_nil, orZero_orZero]
  | cons x xs ih =>
    intro start
    rw [b64_soldFrom_cons, b64_soldFrom_cons]
    by_cases h : normalizeName rt x.itemName = k
    · rw [if_pos h, if_pos h, orZero_orZero]
    · rw [if_neg h, if_neg h]; exact ih start

theorem b64_saleLoop_getOrZero (rt : Runtime) (l : List Sale) :
    ∀ (i : Nat) (st : Calc) (k : String), k ≠ "" →
    getOrZero (forEachIdx (saleStep rt) i st l).soldQtyByName k =
      (soldFrom rt (getOrZero st.soldQtyByName k) l k).orZero := by
  induction l with
  | nil => intro i st k _; simp [forEachIdx, b64_soldFrom_nil, b64_getOrZero_orZero]
  | cons x xs ih =>
    intro i st k hk
    rw [forEachIdx, ih _ _ k hk, b64_soldFrom_cons]
    simp only [saleStep, deriveSale, normalizeName_jsTrim]
    by_cases hx : normalizeName rt x.itemName = k
    · subst hx
      simp only [ne_eq, hk, not_false_eq_true, if_true, b64_getOrZero_set,
        b64_getOrZero_orZero]
      exact b64_soldFrom_orZero rt xs _ _
    · have hx2 : ¬ k = normalizeName rt x.itemName := fun h => hx h.symm
      by_cases he : normalizeName rt x.itemName = ""
      · have hk2 : ¬ "" = k := fun h => hk h.symm
        simp [he, hx, hk2]
      · simp [he, hx, hx2, b64_getOrZero_set]

theorem b64_saleLoop_getOrZero_empty (rt : Runtime) (l : List Sale) :
    ∀ (i : Nat) (st : Calc),
    getOrZero (forEachIdx (saleStep rt) i st l).soldQtyByName "" =
      getOrZero st.soldQtyByName "" := by
  induction l with
  | nil => intro i st; simp [forEachIdx]
  | cons x xs ih =>
    intro i st
    rw [forEachIdx, ih]
    simp only [saleStep]
    by_cases he : normalizeName rt (deriveSale rt x).itemName = ""
    · simp [he]
    · have he2 : ¬ "" = normalizeName rt (deriveSale rt x).itemName := fun h => he h.symm
      simp [he, he2, b64_getOrZero_set]

/-- The sold quantity the second loop reads for a normalized name. -/
theorem b64_afterSales_getOrZero (rt : Runtime) (sheet : Sheet) (k : String) :
    getOrZero (afterSales rt sheet).soldQtyByName k =
      if k = "" then .finite 0 else soldDouble rt sheet.sales k := by
  unfold afterSales
  by_cases hk : k = ""
  · subst hk
    simp [b64_saleLoop_getOrZero_empty, Calc.init, b64_getOrZero_empty]
  · simp [b64_saleLoop_getOrZero rt _ _ _ _ hk, Calc.init, b64_getOrZero_empty, hk,
      soldDouble]

theorem b64_productLoop_nameIndex (rt : Runtime) (l : List Product) :
    ∀ (i : Nat) (st : Calc),
    (forEachIdx (productStep rt) i st l).nameIndex = nameIndexFrom rt st.nameIndex i l := by
  induction l with
  | nil => intro i st; simp [forEachIdx, nameIndexFrom]
  | cons x xs ih => intro i st; simp [forEachIdx, ih, productStep, nameIndexFrom]

theorem b64_productLoop_errors (rt : Runtime) (l : List Product) :
    ∀ (i : Nat) (st : Calc),
    (forEachIdx (productStep rt) i st l).errors =
      st.errors ++ productErrorsFrom rt st.soldQtyByName st.nameIndex i l := by
  induction l with
  | nil => intro i st; simp [forEachIdx, productErrorsFrom]
  | cons x xs ih =>
    intro i st
    simp [forEachIdx, ih, productStep, productErrorsFrom, productErrorsAt]

theorem b64_orphanLoop_errors (rt : Runtime) (m : JsMap Nat) (l : List DerivedSale) :
    ∀ (i : Nat) (errors : List String),
    forEachIdx (orphanStep rt m) i errors l = errors ++ orphanErrorsFrom rt m i l := by
  induction l with
  | nil => intro i errors; simp [forEachIdx, orphanErrorsFrom]
  | cons x xs ih =>
    intro i errors
    rw [forEachIdx, ih]
    rw [orphanErrorsFrom]
    unfold orphanStep
    split <;> simp

theorem b64_nameIndexFrom_has (rt : Runtime) (l : List Product) :
    ∀ (m : JsMap Nat) (i : Nat) (k : String),
    (nameIndexFrom rt m i l).has k =
      (m.has k || (decide (k ≠ "") &&
        l.any (fun p => decide (normalizeName rt p.name = k)))) := by
  induction l with
  | nil => intro m i k; simp [nameIndexFrom]
  | cons x xs ih =>
    intro m i k
    rw [nameIndexFrom, ih, indexName_has]
    simp only [deriveProduct, normalizeName_jsTrim, List.any_cons]
    cases m.has k <;> cases decide (k ≠ "") <;> simp

theorem b64_errors_isValid (rt : Runtime) (sheet : Sheet) :
    (recalcSheet rt sheet).validation.isValid =
      decide ((recalcSheet rt sheet).validation.errors = []) := by
  simp [recalcSheet, List.length_eq_zero]

/-- The violations of `recalcActiveSheet`, loop by loop, and then the totals. -/
theorem b64_recalcSheet_errors (rt : Runtime) (sheet : Sheet) :
    (recalcSheet rt sheet).validation.errors =
      saleErrorsFrom rt 0 sheet.sales ++
      productErrorsFrom rt (afterSales rt sheet).soldQtyByName JsMap.empty 0 sheet.products ++
      orphanErrorsFrom rt (nameIndexFrom rt JsMap.empty 0 sheet.products) 0
        (sheet.sales.map (deriveSale rt)) ++
      totalsErrors (recalcSheet rt sheet).totals := by
  have h1 : (afterSales rt sheet).errors = saleErrorsFrom rt 0 sheet.sales := by
    simp [afterSales, b64_saleLoop_errors, Calc.init]
  have h2 : (afterSales rt sheet).nameIndex = JsMap.empty := by
    simp [afterSales, b64_saleLoop_nameIndex, Calc.init]
  have h3 : (afterSales rt sheet).sales = sheet.sales.map (deriveSale rt) := by
    simp [afterSales, b64_saleLoop_sales, Calc.init]
  simp only [recalcSheet, b64_orphanLoop_errors, afterProducts,
    b64_productLoop_errors, b64_productLoop_nameIndex, b64_productLoop_sales, h1, h2, h3]

end Binary64

namespace Binary64

/-! ## Binary64: when the loops push no message -/

theorem b64_saleFieldErrors_eq_nil (rt : Runtime) (i : Nat) (sale : Sale) :
    saleFieldErrors i (deriveSale rt sale).itemName (deriveSale rt sale).qtySold
      (deriveSale rt sale).revenue (deriveSale rt sale).productionCost
      (deriveSale rt sale).grossProfit = [] ↔ SaleOk sale := by
  simp only [saleFieldErrors, deriveSale, SaleOk, b64_toIntegerOrZero_isInteger,
    b64_toNumberOrZero_isFinite, List.append_eq_nil]
  simp
  tauto

theorem b64_saleErrorsFrom_eq_nil (rt : Runtime) (l : List Sale) : ∀ i : Nat,
    saleErrorsFrom rt i l = [] ↔ ∀ sale ∈ l, SaleOk sale := by
  induction l with
  | nil => intro i; simp [saleErrorsFrom]
  | cons x xs ih =>
    intro i
    simp only [saleErrorsFrom, List.append_eq_nil, b64_saleFieldErrors_eq_nil, ih,
      List.mem_cons, forall_eq_or_imp]

theorem b64_productFieldErrors_eq_nil (i : Nat) (p : Product) (sold : JsNumber) :
    productFieldErrors i (deriveProduct p) sold = [] ↔
      (toNumberOrZero p.unitCost).lt (.finite 0) = false ∧
      (toNumberOrZero p.unitPrice).lt (.finite 0) = false ∧
      (toIntegerOrZero p.openingStock).lt (.finite 0) = false ∧
      (toIntegerOrZero p.stockOut).lt (.finite 0) = false ∧
      (deriveProduct p).stockAvailable.lt (.finite 0) = false ∧
      (toIntegerOrZero p.stockOut).lt sold = false := by
  simp only [productFieldErrors, deriveProduct, b64_toIntegerOrZero_isInteger,
    b64_toNumberOrZero_isFinite, List.append_eq_nil]
  simp
  tauto

theorem b64_productErrorsAt_eq_nil (rt : Runtime) (sold : JsMap JsNumber) (m : JsMap Nat)
    (i : Nat) (p : Product) :
    productErrorsAt rt sold m i p = [] ↔
      normalizeName rt p.name ≠ "" ∧ m.has (normalizeName rt p.name) = false ∧
      (toNumberOrZero p.unitCost).lt (.finite 0) = false ∧
      (toNumberOrZero p.unitPrice).lt (.finite 0) = false ∧
      (toIntegerOrZero p.openingStock).lt (.finite 0) = false ∧
      (toIntegerOrZero p.stockOut).lt (.finite 0) = false ∧
      (deriveProduct p).stockAvailable.lt (.finite 0) = false ∧
      (toIntegerOrZero p.stockOut).lt (getOrZero sold (normalizeName rt p.name)) = false := by
  unfold productErrorsAt
  rw [List.append_eq_nil, b64_productFieldErrors_eq_nil]
  have hn : normalizeName rt (deriveProduct p).name = normalizeName rt p.name := by
    simp [deriveProduct, normalizeName_jsTrim]
  unfold productNameErrors
  rw [hn]
  by_cases h1 : normalizeName rt p.name = ""
  · simp [h1]
  · by_cases h2 : m.has (normalizeName rt p.name) = true
    · simp [h1, h2]
    · simp [h1, h2]

theorem b64_productErrorsFrom_eq_nil (rt : Runtime) (sold : JsMap JsNumber)
    (l : List Product) :
    ∀ (m : JsMap Nat) (i : Nat),
    productErrorsFrom rt sold m i l = [] ↔
      (∀ p ∈ l, normalizeName rt p.name ≠ "" ∧ m.has (normalizeName rt p.name) = false ∧
        (toNumberOrZero p.unitCost).lt (.finite 0) = false ∧
        (toNumberOrZero p.unitPrice).lt (.finite 0) = false ∧
        (toIntegerOrZero p.openingStock).lt (.finite 0) = false ∧
        (toIntegerOrZero p.stockOut).lt (.finite 0) = false ∧
        (deriveProduct p).stockAvailable.lt (.finite 0) = false ∧
        (toIntegerOrZero p.stockOut).lt (getOrZero sold (normalizeName rt p.name))
          = false) ∧
      (productKeys rt l).Nodup := by
  induction l with
  | nil => intro m i; simp [productErrorsFrom, productKeys]
  | cons x xs ih =>
    intro m i
    rw [productErrorsFrom, List.append_eq_nil, b64_productErrorsAt_eq_nil, ih]
    have hn : normalizeName rt (deriveProduct x).name = normalizeName rt x.name := by
      simp [deriveProduct, normalizeName_jsTrim]
    simp only [hn, List.mem_cons, forall_eq_or_imp, productKeys, List.map_cons,
      List.nodup_cons, indexName_has, List.mem_map, not_exists, not_and]
    constructor
    · rintro ⟨⟨h1, h2, h3⟩, h4, h5⟩
      refine ⟨⟨⟨h1, h2, h3⟩, ?_⟩, ?_, h5⟩
      · intro p hp
        obtain ⟨a, b, c⟩ := h4 p hp
        refine ⟨a, ?_, c⟩
        simp only [Bool.or_eq_false_iff] at b
        exact b.1
      · intro p hp hpx
        obtain ⟨a, b, c⟩ := h4 p hp
        simp only [Bool.or_eq_false_iff, Bool.and_eq_false_imp, decide_eq_true_eq,
          decide_eq_false_iff_not] at b
        exact b.2 a hpx.symm
    · rintro ⟨⟨⟨h1, h2, h3⟩, h4⟩, h5, h6⟩
      refine ⟨⟨h1, h2, h3⟩, ?_, h6⟩
      intro p hp
      obtain ⟨a, b, c⟩ := h4 p hp
      refine ⟨a, ?_, c⟩
      simp only [Bool.or_eq_false_iff, Bool.and_eq_false_imp, decide_eq_true_eq,
        decide_eq_false_iff_not]
      exact ⟨b, fun _ hxp => h5 p hp hxp.symm⟩

theorem b64_orphanErrorsFrom_eq_nil (rt : Runtime) (m : JsMap Nat) (l : List DerivedSale) :
    ∀ i : Nat, orphanErrorsFrom rt m i l = [] ↔
      ∀ row ∈ l, m.has (normalizeName rt row.itemName) = true := by
  induction l with
  | nil => intro i; simp [orphanErrorsFrom]
  | cons x xs ih =>
    intro i
    rw [orphanErrorsFrom, List.append_eq_nil, ih]
    simp

/-- The three loops push no message exactly when the rows are valid. -/
theorem b64_rows_valid_iff (rt : Runtime) (sheet : Sheet) :
    saleErrorsFrom rt 0 sheet.sales ++
      productErrorsFrom rt (afterSales rt sheet).soldQtyByName JsMap.empty 0 sheet.products ++
      orphanErrorsFrom rt (nameIndexFrom rt JsMap.empty 0 sheet.products) 0
        (sheet.sales.map (deriveSale rt)) = [] ↔ ValidRows rt sheet := by
  simp only [List.append_eq_nil, b64_saleErrorsFrom_eq_nil, b64_productErrorsFrom_eq_nil,
    b64_orphanErrorsFrom_eq_nil, b64_nameIndexFrom_has, has_empty, Bool.false_or]
  constructor
  · rintro ⟨⟨hs, hp, hn⟩, ho⟩
    refine ⟨hs, ?_, hn, ?_⟩
    · intro p hp'
      obtain ⟨a, _, c, d, e, f, g, h⟩ := hp p hp'
      rw [b64_afterSales_getOrZero, if_neg a] at h
      exact ⟨a, c, d, e, f, g, h⟩
    · intro sale hsale
      have := ho (deriveSale rt sale) (List.mem_map_of_mem _ hsale)
      simp only [deriveSale, normalizeName_jsTrim, Bool.and_eq_true, decide_eq_true_eq,
        List.any_eq_true] at this
      obtain ⟨_, p, hp', hpk⟩ := this
      exact List.mem_map.mpr ⟨p, hp', hpk⟩
  · rintro ⟨hs, hp, hn, hm⟩
    refine ⟨⟨hs, ?_, hn⟩, ?_⟩
    · intro p hp'
      obtain ⟨a, c, d, e, f, g, h⟩ := hp p hp'
      refine ⟨a, trivial, c, d, e, f, g, ?_⟩
      rw [b64_afterSales_getOrZero, if_neg a]
      exact h
    · intro row hrow
      obtain ⟨sale, hsale, rfl⟩ := List.mem_map.mp hrow
      obtain ⟨p, hp', hpk⟩ := List.mem_map.mp (hm sale hsale)
      simp only [deriveSale, normalizeName_jsTrim, Bool.and_eq_true, decide_eq_true_eq,
        List.any_eq_true]
      refine ⟨?_, p, hp', hpk⟩
      rw [← hpk]
      exact (hp p hp').1

/-- `recalcActiveSheet` reports a valid sheet exactly when the rows are valid and the
totals are finite. -/
theorem b64_isValid_iff (rt : Runtime) (sheet : Sheet) :
    (recalcActiveSheet rt (some sheet)).validation.isValid = true ↔
      ValidRows rt sheet ∧ totalsErrors (recalcSheet rt sheet).totals = [] := by
  simp only [recalcActiveSheet, b64_errors_isValid, decide_eq_true_eq]
  rw [b64_recalcSheet_errors, List.append_eq_nil, b64_rows_valid_iff]

/-- With valid rows the only messages are those of the totals. -/
theorem b64_errors_of_validRows (rt : Runtime) (sheet : Sheet) (h : ValidRows rt sheet) :
    (recalcSheet rt sheet).validation.errors = totalsErrors (recalcSheet rt sheet).totals := by
  rw [b64_recalcSheet_errors, (b64_rows_valid_iff rt sheet).mpr h, List.nil_append]

end Binary64

/-! ## Binary64: signs -/

theorem roundMagnitude_pos (a : ℚ) (ha : 1 ≤ a) : 0 < roundMagnitude a := by
  have h0 : 0 < a := by linarith
  have hb : 0 ≤ binade a := le_binade_of_le a h0 0 (by
    have : pow2 0 = 1 := by decide!
    rw [this]; exact ha)
  have hl : lastPlace a = binade a - 52 := by
    unfold lastPlace
    exact max_eq_left (by omega)
  have h1 := roundMagnitude_sub_le a
  rw [hl] at h1
  have h2 := (binade_spec a h0).1
  have h3 : pow2 (binade a) = pow2 (binade a - 52) * pow2 52 := by
    rw [← pow2_add]; congr 1; omega
  have h4 : pow2 52 = 4503599627370496 := by decide!
  have h5 := pow2_pos (binade a - 52)
  have h6 := (abs_le.mp h1).1
  rw [h3, h4] at h2
  nlinarith

theorem toDouble_neg_int (n : ℤ) (hn : n < 0) :
    (toDouble (n : ℚ)).lt (.finite 0) = true := by
  have hq : (n : ℚ) < 0 := by exact_mod_cast hn
  have h1 : (1 : ℚ) ≤ -(n : ℚ) := by
    have : (1 : ℤ) ≤ -n := by omega
    exact_mod_cast this
  unfold toDouble
  rw [if_neg (ne_of_lt hq), if_neg (not_lt.mpr hq.le)]
  split
  · rw [lt_finite]
    have := roundMagnitude_pos _ h1
    simp only [decide_eq_true_eq]
    linarith
  · rfl

theorem notNegative_iff (x : JsNumber) :
    (Binary64.toNumberOrZero x).lt (.finite 0) = false ↔ x.NotNegative := by
  cases x with
  | finite q =>
    simp only [Binary64.toNumberOrZero, JsNumber.isFinite, if_true, lt_finite,
      decide_eq_false_iff_not, not_lt, JsNumber.NotNegative, JsNumber.finite.injEq]
    constructor
    · intro h a ha; rw [← ha]; exact h
    · intro h; exact h q rfl
  | nan =>
    simp only [Binary64.toNumberOrZero, JsNumber.isFinite, Bool.false_eq_true, if_false,
      lt_finite, JsNumber.NotNegative]
    simp
  | posInfinity =>
    simp only [Binary64.toNumberOrZero, JsNumber.isFinite, Bool.false_eq_true, if_false,
      lt_finite, JsNumber.NotNegative]
    simp
  | negInfinity =>
    simp only [Binary64.toNumberOrZero, JsNumber.isFinite, Bool.false_eq_true, if_false,
      lt_finite, JsNumber.NotNegative]
    simp

theorem toDouble_notNegative (q : ℚ) (hq : 0 ≤ q) : (toDouble q).NotNegative := by
  intro r hr
  exact toDouble_nonneg q r hq hr

theorem toDouble_nonneg_cases (q : ℚ) (hq : 0 ≤ q) :
    (∃ r : ℚ, toDouble q = .finite r ∧ 0 ≤ r) ∨ toDouble q = .posInfinity := by
  cases h : toDouble q with
  | finite r => exact Or.inl ⟨r, rfl, toDouble_nonneg q r hq h⟩
  | nan => exact absurd h (toDouble_ne_nan q)
  | posInfinity => exact Or.inr rfl
  | negInfinity => exact absurd h (toDouble_nonneg_ne_negInfinity q hq)

namespace Binary64

theorem b64_roundCurrency_of_nonneg (c : ℚ) (hc : 0 ≤ c) :
    (∃ r : ℚ, roundCurrency (.finite c) = .finite r ∧ 0 ≤ r) ∨
      roundCurrency (.finite c) = .posInfinity := by
  unfold roundCurrency
  have ha : (JsNumber.finite c).add EPSILON = toDouble (c + 1 / 4503599627370496) := rfl
  rw [ha]
  rcases toDouble_nonneg_cases (c + 1 / 4503599627370496) (by positivity) with
    ⟨a, ea, ha0⟩ | einf
  · rw [ea]
    have hm : (JsNumber.finite a).mul (.finite 100) = toDouble (a * 100) := rfl
    rw [hm]
    rcases toDouble_nonneg_cases (a * 100) (by positivity) with ⟨y, ey, hy0⟩ | einf
    · rw [ey]
      have hn : (0 : ℚ) ≤ mathRound y := by
        unfold mathRound
        have : (0 : ℤ) ≤ ⌊y + 1 / 2⌋ := Int.floor_nonneg.mpr (by linarith)
        exact_mod_cast this
      have hd : (JsNumber.finite y).round.div100 = toDouble (mathRound y / 100) := rfl
      rw [hd]
      rcases toDouble_nonneg_cases (mathRound y / 100) (by positivity) with h | h
      · exact Or.inl h
      · exact Or.inr h
    · rw [einf]; exact Or.inr rfl
  · rw [einf]
    right
    simp [JsNumber.mul, infinityTimes, JsNumber.round, JsNumber.div100]

theorem b64_roundCurrency_notNegative (x : JsNumber) (hx : x.NotNegative) :
    (roundCurrency x).NotNegative := by
  cases x with
  | finite c =>
    rcases b64_roundCurrency_of_nonneg c (hx c rfl) with ⟨r, er, hr⟩ | einf
    · rw [er]; intro q hq; rw [← JsNumber.finite.inj hq]; exact hr
    · rw [einf]; intro q hq; cases hq
  | nan => intro q hq; cases hq
  | posInfinity => intro q hq; cases hq
  | negInfinity => intro q hq; cases hq

theorem b64_mul_notNegative (z : ℚ) (hz : 0 ≤ z) (x : JsNumber) (hx : x.NotNegative) :
    ((JsNumber.finite z).mul x).NotNegative := by
  cases x with
  | finite c =>
    show (toDouble (z * c)).NotNegative
    exact toDouble_notNegative _ (mul_nonneg hz (hx c rfl))
  | nan => intro q hq; cases hq
  | posInfinity =>
    intro q hq
    simp only [JsNumber.mul, infinityTimes] at hq
    split at hq
    · cases hq
    · split at hq <;> cases hq
  | negInfinity =>
    intro q hq
    simp only [JsNumber.mul, infinityTimes] at hq
    split at hq
    · cases hq
    · split at hq <;> cases hq

theorem b64_notNegative_of_isNonNegativeNumber (x : JsNumber)
    (h : isNonNegativeNumber x = true) : x.NotNegative := by
  cases x with
  | finite c =>
    intro q hq
    rw [← JsNumber.finite.inj hq]
    simpa [isNonNegativeNumber, JsNumber.isFinite, JsNumber.ge] using h
  | nan => intro q hq; cases hq
  | posInfinity => intro q hq; cases hq
  | negInfinity => intro q hq; cases hq

theorem b64_notNegative_of_finite_not_lt (x : JsNumber) (h : x.lt (.finite 0) = false) :
    x.NotNegative := by
  intro q hq
  rw [hq, lt_finite] at h
  simpa using h

end Binary64

namespace Binary64

/-! ## Binary64: valid rows with exact counts -/

theorem b64_soldFrom_exact (rt : Runtime) (k : String) (l : List Sale) :
    ∀ a : ℤ, 0 ≤ a →
      (∀ sale ∈ l, ∃ z : ℤ, sale.qtySold = .finite z ∧ 0 ≤ z) →
      (a : ℚ) + soldFor rt l k ≤ safeIntegerBound →
      soldFrom rt (.finite (a : ℚ)) l k = .finite ((a : ℚ) + soldFor rt l k) := by
  induction l with
  | nil => intro a _ _ _; simp [b64_soldFrom_nil, b64_soldFor_nil]
  | cons x xs ih =>
    intro a ha hl hb
    have hxs : ∀ sale ∈ xs, ∃ z : ℤ, sale.qtySold = .finite z ∧ 0 ≤ z :=
      fun s hs => hl s (by simp [hs])
    have hnn : 0 ≤ soldFor rt xs k := by
      apply b64_soldFor_nonneg
      intro s hs
      obtain ⟨z, ez, hz⟩ := hxs s hs
      rw [ez, value_finite]; exact_mod_cast hz
    rw [b64_soldFrom_cons]
    rw [b64_soldFor_cons] at hb ⊢
    by_cases hx : normalizeName rt x.itemName = k
    · rw [if_pos hx] at hb
      rw [if_pos hx, if_pos hx]
      obtain ⟨z, ez, hz⟩ := hl x (by simp)
      rw [ez, value_finite] at hb
      rw [ez, b64_toIntegerOrZero_intCast, value_finite]
      unfold safeIntegerBound at hb
      push_cast at hb
      have hle : a + z ≤ 9007199254740992 := by
        have : ((a + z : ℤ) : ℚ) ≤ 9007199254740992 := by push_cast; linarith
        exact_mod_cast this
      have hstep : (JsNumber.finite (a : ℚ)).orZero.add (.finite (z : ℚ)) =
          .finite ((a + z : ℤ) : ℚ) := add_safeInt a z (by omega) hle
      rw [hstep, ih (a + z) (by omega) hxs (by
        unfold safeIntegerBound; push_cast; linarith)]
      push_cast
      rw [add_assoc]
    · rw [if_neg hx] at hb
      rw [if_neg hx, if_neg hx]
      rw [ih a ha hxs (by linarith), zero_add]

theorem b64_soldDouble_exact (rt : Runtime) (k : String) (sales : List Sale)
    (hl : ∀ sale ∈ sales, ∃ z : ℤ, sale.qtySold = .finite z ∧ 0 ≤ z)
    (hb : soldFor rt sales k ≤ safeIntegerBound) :
    soldDouble rt sales k = .finite (soldFor rt sales k) := by
  unfold soldDouble
  have h := b64_soldFrom_exact rt k sales 0 (le_refl _) hl (by simpa using hb)
  simp only [Int.cast_zero, zero_add] at h
  rw [h]
  rfl

theorem b64_validRows_of_sound (rt : Runtime) (sheet : Sheet) (h : Sound rt sheet) :
    ValidRows rt sheet ∧ SafeCounts rt sheet := by
  have hqty : ∀ sale ∈ sheet.sales, ∃ z : ℤ, sale.qtySold = .finite z ∧ 0 ≤ z := by
    intro sale hs
    obtain ⟨_, ⟨z, ez, hz⟩, _⟩ := h.sale_ok sale hs
    exact ⟨z, ez, by omega⟩
  constructor
  · refine ⟨?_, ?_, h.keys_nodup, h.matched⟩
    · intro sale hs
      obtain ⟨h1, ⟨z, ez, hz⟩, h3, h4⟩ := h.sale_ok sale hs
      refine ⟨h1, ?_, (notNegative_iff _).mpr h3, (notNegative_iff _).mpr h4⟩
      rw [ez, b64_toIntegerOrZero_intCast, lt_finite]
      simp only [decide_eq_false_iff_not, not_lt]
      exact_mod_cast hz
    · intro p hp
      obtain ⟨h1, h2, h3, s, o, es, eo, hs0, hso, hob, hsold⟩ := h.product_ok p hp
      refine ⟨h1, (notNegative_iff _).mpr h2, (notNegative_iff _).mpr h3, ?_, ?_, ?_, ?_⟩
      · rw [eo, b64_toIntegerOrZero_intCast, lt_finite]
        simp only [decide_eq_false_iff_not, not_lt]
        exact_mod_cast (by omega : (0 : ℤ) ≤ o)
      · rw [es, b64_toIntegerOrZero_intCast, lt_finite]
        simp only [decide_eq_false_iff_not, not_lt]
        exact_mod_cast hs0
      · rw [b64_stockAvailable_exact p s o es eo hs0 hso hob, lt_finite]
        simp only [decide_eq_false_iff_not, not_lt]
        exact_mod_cast (by omega : (0 : ℤ) ≤ o - s)
      · have hb : soldFor rt sheet.sales (normalizeName rt p.name) ≤ safeIntegerBound := by
          have : ((s : ℤ) : ℚ) ≤ ((safeIntegerBound : ℤ) : ℚ) := by
            exact_mod_cast (by omega : s ≤ safeIntegerBound)
          linarith
        rw [b64_soldDouble_exact rt _ _ hqty hb, es, b64_toIntegerOrZero_intCast, lt_finite]
        simp only [decide_eq_false_iff_not, not_lt]
        exact hsold
  · refine ⟨?_, ?_, ?_, ?_, ?_⟩
    · intro p hp
      obtain ⟨_, _, _, s, o, es, _⟩ := h.product_ok p hp
      rw [es]; exact (isInteger_iff _).mpr ⟨s, rfl⟩
    · intro p hp
      obtain ⟨_, _, _, s, o, _, eo, _⟩ := h.product_ok p hp
      rw [eo]; exact (isInteger_iff _).mpr ⟨o, rfl⟩
    · intro p hp
      obtain ⟨_, _, _, s, o, _, eo, _, _, hob, _⟩ := h.product_ok p hp
      rw [eo, value_finite]; exact_mod_cast hob
    · intro sale hs
      obtain ⟨_, ⟨z, ez, _⟩, _⟩ := h.sale_ok sale hs
      rw [ez]; exact (isInteger_iff _).mpr ⟨z, rfl⟩
    · intro p hp
      obtain ⟨_, _, _, s, o, _, _, _, hso, hob, hsold⟩ := h.product_ok p hp
      have : ((s : ℤ) : ℚ) ≤ ((safeIntegerBound : ℤ) : ℚ) := by
        exact_mod_cast (by omega : s ≤ safeIntegerBound)
      linarith

theorem b64_sound_of_validRows (rt : Runtime) (sheet : Sheet) (hv : ValidRows rt sheet)
    (hs : SafeCounts rt sheet) : Sound rt sheet := by
  have hsale : ∀ sale ∈ sheet.sales,
      jsTrim sale.itemName ≠ "" ∧ (∃ z : ℤ, sale.qtySold = .finite z ∧ 1 ≤ z) ∧
        sale.revenue.NotNegative ∧ sale.productionCost.NotNegative := by
    intro sale hsl
    obtain ⟨h1, h2, h3, h4⟩ := hv.sales_ok sale hsl
    obtain ⟨z, ez⟩ := (isInteger_iff _).mp (hs.qty_int sale hsl)
    refine ⟨h1, ⟨z, ez, ?_⟩, (notNegative_iff _).mp h3, (notNegative_iff _).mp h4⟩
    rw [ez, b64_toIntegerOrZero_intCast, lt_finite] at h2
    have : (1 : ℚ) ≤ (z : ℚ) := by simpa using h2
    exact_mod_cast this
  have hqty : ∀ sale ∈ sheet.sales, ∃ z : ℤ, sale.qtySold = .finite z ∧ 0 ≤ z := by
    intro sale hsl
    obtain ⟨_, ⟨z, ez, hz⟩, _⟩ := hsale sale hsl
    exact ⟨z, ez, by omega⟩
  refine ⟨hv.keys_nodup, hv.matched, hsale, ?_⟩
  intro p hp
  obtain ⟨h1, h2, h3, h4, h5, h6, h7⟩ := hv.products_ok p hp
  obtain ⟨s, es⟩ := (isInteger_iff _).mp (hs.stockOut_int p hp)
  obtain ⟨o, eo⟩ := (isInteger_iff _).mp (hs.opening_int p hp)
  have hs0 : 0 ≤ s := by
    rw [es, b64_toIntegerOrZero_intCast, lt_finite] at h5
    have : (0 : ℚ) ≤ (s : ℚ) := by simpa using h5
    exact_mod_cast this
  have hob : o ≤ safeIntegerBound := by
    have := hs.opening_safe p hp
    rw [eo, value_finite] at this
    exact_mod_cast this
  have hso : s ≤ o := by
    by_contra hlt
    have hneg : o - s < 0 := by omega
    have : (deriveProduct p).stockAvailable = toDouble ((o - s : ℤ) : ℚ) := by
      simp only [deriveProduct, es, eo, b64_toIntegerOrZero_intCast]
      show toDouble ((o : ℚ) + -(s : ℚ)) = _
      congr 1; push_cast; ring
    rw [this, toDouble_neg_int _ hneg] at h6
    cases h6
  refine ⟨h1, (notNegative_iff _).mp h2, (notNegative_iff _).mp h3, s, o, es, eo, hs0, hso,
    hob, ?_⟩
  rw [b64_soldDouble_exact rt _ _ hqty (hs.sold_safe p hp), es, b64_toIntegerOrZero_intCast,
    lt_finite] at h7
  simpa using h7

end Binary64

namespace Binary64

/-! ## Binary64: the handlers keep sound sheets sound -/

theorem b64_sound_addProduct (rt : Runtime) (hlow : rt.LowerKeepsEmptiness) (sheet : Sheet)
    (hc : Sound rt sheet) (nameValue : String) (c pr o : JsNumber)
    (hsafe : o.value ≤ safeIntegerBound) :
    Sound rt (onAddProduct rt sheet nameValue c pr o).sheet := by
  rcases b64_onAddProduct_cases rt sheet nameValue c pr o with
    h | ⟨h1, h2, hcn, hpn, hoi, ho0, h7⟩
  · rw [h]; exact hc
  rw [h7]
  obtain ⟨n, rfl⟩ := (isInteger_iff o).mp hoi
  have hn0 : 0 ≤ n := by
    have : ¬ ((n : ℚ) < 0) := by simpa [lt_finite] using ho0
    exact_mod_cast not_lt.mp this
  have hn1 : n ≤ safeIntegerBound := by
    rw [value_finite] at hsafe; exact_mod_cast hsafe
  have hk : normalizeName rt (jsTrim nameValue) ∉ productKeys rt sheet.products := by
    rw [b64_mem_productKeys]
    rintro ⟨p, hp', hpk⟩
    exact h2 p hp' hpk
  have hkey : normalizeName rt (jsTrim nameValue) ≠ "" := by
    rw [normalizeName_jsTrim]
    exact (normalizeName_ne_empty_iff rt hlow nameValue).mpr h1
  refine ⟨?_, ?_, hc.sale_ok, ?_⟩
  · rw [b64_productKeys_append, b64_productKeys_cons]
    simp only [productKeys, List.map_nil]
    rw [List.nodup_append]
    refine ⟨hc.keys_nodup, by simp, ?_⟩
    intro a ha hb
    have : a = normalizeName rt (jsTrim nameValue) := by simpa using hb
    exact hk (this ▸ ha)
  · intro sale hs
    rw [b64_productKeys_append]
    exact List.mem_append_left _ (hc.matched sale hs)
  · intro p hp
    rcases List.mem_append.mp hp with hp | hp
    · exact hc.product_ok p hp
    · rw [List.mem_singleton.mp hp]
      refine ⟨hkey,
        b64_roundCurrency_notNegative _ (b64_notNegative_of_isNonNegativeNumber _ hcn),
        b64_roundCurrency_notNegative _ (b64_notNegative_of_isNonNegativeNumber _ hpn),
        0, n, by simp, rfl, le_refl _, hn0, hn1, ?_⟩
      rw [b64_soldFor_zero_of_new_key rt sheet hc.matched _ hk]
      simp

theorem b64_sound_replace (rt : Runtime) (sales : List Sale) (l1 l2 : List Product)
    (p p' : Product) (hc : Sound rt ⟨l1 ++ p :: l2, sales⟩)
    (hk : normalizeName rt p'.name = normalizeName rt p.name)
    (hok : normalizeName rt p'.name ≠ "" ∧ p'.unitCost.NotNegative ∧
      p'.unitPrice.NotNegative ∧
      ∃ s o : ℤ, p'.stockOut = .finite s ∧ p'.openingStock = .finite o ∧ 0 ≤ s ∧ s ≤ o ∧
        o ≤ safeIntegerBound ∧ soldFor rt sales (normalizeName rt p'.name) ≤ s) :
    Sound rt ⟨l1 ++ p' :: l2, sales⟩ := by
  have hkeys : productKeys rt (l1 ++ p' :: l2) = productKeys rt (l1 ++ p :: l2) := by
    simp [productKeys, hk]
  refine ⟨?_, ?_, hc.sale_ok, ?_⟩
  · show (productKeys rt (l1 ++ p' :: l2)).Nodup
    rw [hkeys]; exact hc.keys_nodup
  · intro sale hsale
    show _ ∈ productKeys rt (l1 ++ p' :: l2)
    rw [hkeys]; exact hc.matched sale hsale
  · intro a ha
    simp only [List.mem_append, List.mem_cons] at ha
    rcases ha with ha | rfl | ha
    · exact hc.product_ok a (by simp [ha])
    · exact hok
    · exact hc.product_ok a (by simp [ha])

theorem b64_sound_rename (rt : Runtime) (hlow : rt.LowerKeepsEmptiness) (sales : List Sale)
    (l1 l2 : List Product) (p : Product) (hc : Sound rt ⟨l1 ++ p :: l2, sales⟩)
    (value : String) (hnext : jsTrim value ≠ "")
    (h1 : ∀ a ∈ l1, normalizeName rt a.name ≠ normalizeName rt (jsTrim value))
    (h2 : ∀ a ∈ l2, normalizeName rt a.name ≠ normalizeName rt (jsTrim value))
    (hne : normalizeName rt p.name ≠ normalizeName rt (jsTrim value)) :
    Sound rt
      { products := l1 ++ { p with name := jsTrim value } :: l2
        sales := sales.map (fun sale =>
          if normalizeName rt sale.itemName = normalizeName rt p.name
          then { sale with itemName := jsTrim value } else sale) } := by
  obtain ⟨n1, n2⟩ := b64_nodup_keys_split rt l1 l2 p hc.keys_nodup
  have hzero : soldFor rt sales (normalizeName rt (jsTrim value)) = 0 := by
    apply b64_soldFor_zero_of_new_key rt ⟨l1 ++ p :: l2, sales⟩ hc.matched
    simp only [b64_productKeys_append, b64_productKeys_cons, List.mem_append, List.mem_cons,
      b64_mem_productKeys, not_or, not_exists, not_and]
    exact ⟨fun a ha => h1 a ha, fun h => hne h.symm, fun a ha => h2 a ha⟩
  have hother : ∀ a : Product,
      normalizeName rt a.name ≠ normalizeName rt (jsTrim value) →
      normalizeName rt a.name ≠ normalizeName rt p.name →
      soldFor rt (sales.map (fun sale =>
          if normalizeName rt sale.itemName = normalizeName rt p.name
          then { sale with itemName := jsTrim value } else sale))
        (normalizeName rt a.name) = soldFor rt sales (normalizeName rt a.name) := by
    intro a hx hy
    rw [b64_soldFor_rename rt _ _ hne, if_neg hx, if_neg hy]
  refine ⟨?_, ?_, ?_, ?_⟩
  · have := hc.keys_nodup
    simp only [b64_productKeys_append, b64_productKeys_cons] at this ⊢
    rw [List.nodup_middle, List.nodup_cons] at this ⊢
    refine ⟨?_, this.2⟩
    simp only [List.mem_append, not_or, b64_mem_productKeys, not_exists, not_and]
    exact ⟨fun a ha => h1 a ha, fun a ha => h2 a ha⟩
  · intro sale hs
    obtain ⟨x, hx, rfl⟩ := List.mem_map.mp hs
    have hm := hc.matched x hx
    simp only [b64_productKeys_append, b64_productKeys_cons, List.mem_append,
      List.mem_cons] at hm ⊢
    by_cases hxk : normalizeName rt x.itemName = normalizeName rt p.name
    · rw [if_pos hxk]
      exact Or.inr (Or.inl rfl)
    · rw [if_neg hxk]
      rcases hm with h | h | h
      · exact Or.inl h
      · exact absurd h hxk
      · exact Or.inr (Or.inr h)
  · intro sale hs
    obtain ⟨x, hx, rfl⟩ := List.mem_map.mp hs
    obtain ⟨a1, a2, a3, a4⟩ := hc.sale_ok x hx
    split
    · refine ⟨?_, a2, a3, a4⟩
      show jsTrim (jsTrim value) ≠ ""
      rw [jsTrim_idem]; exact hnext
    · exact ⟨a1, a2, a3, a4⟩
  · intro a ha
    simp only [List.mem_append, List.mem_cons] at ha
    rcases ha with ha | rfl | ha
    · obtain ⟨b1, b2, b3, s, o, b4⟩ := hc.product_ok a (by simp [ha])
      refine ⟨b1, b2, b3, s, o, ?_⟩
      rw [hother a (h1 a ha) (n1 a ha)]
      exact b4
    · obtain ⟨b1, b2, b3, s, o, es, eo, c1, c2, c3, c4⟩ := hc.product_ok p (by simp)
      refine ⟨?_, b2, b3, s, o, es, eo, c1, c2, c3, ?_⟩
      · show normalizeName rt (jsTrim value) ≠ ""
        rw [normalizeName_jsTrim]
        exact (normalizeName_ne_empty_iff rt hlow value).mpr hnext
      · show soldFor rt _ (normalizeName rt (jsTrim value)) ≤ _
        rw [b64_soldFor_rename rt _ _ hne, if_pos rfl, hzero, add_zero]
        exact c4
    · obtain ⟨b1, b2, b3, s, o, b4⟩ := hc.product_ok a (by simp [ha])
      refine ⟨b1, b2, b3, s, o, ?_⟩
      rw [hother a (h2 a ha) (n2 a ha)]
      exact b4

theorem b64_sound_editProduct (rt : Runtime) (hlow : rt.LowerKeepsEmptiness) (sheet : Sheet)
    (hc : Sound rt sheet) (index : Nat) (field value : String) (n : JsNumber)
    (hsafe : field = "openingStock" → n.value ≤ safeIntegerBound) :
    Sound rt (onInventoryChange rt sheet index field value n).sheet := by
  rcases b64_onInventoryChange_cases rt sheet index field value n with
    h | ⟨p, l1, l2, e1, _, hcase⟩
  · rw [h]; exact hc
  have hc' : Sound rt ⟨l1 ++ p :: l2, sheet.sales⟩ := by
    rw [← e1]; exact hc
  obtain ⟨b1, b2, b3, s, o, es, eo, c1, c2, c3, c4⟩ := hc.product_ok p (by rw [e1]; simp)
  rcases hcase with ⟨_, h1, h2, h3, h4⟩ |
    ⟨hfin, hn0, ⟨hf, hi, hlt, h4⟩ | ⟨_, h4⟩ | ⟨_, h4⟩⟩
  · rw [h4]
    by_cases hk : normalizeName rt p.name = normalizeName rt (jsTrim value)
    · rw [if_neg (not_not.mpr hk)]
      refine b64_sound_replace rt sheet.sales l1 l2 p _ hc' hk.symm ?_
      refine ⟨?_, b2, b3, s, o, es, eo, c1, c2, c3, ?_⟩
      · show normalizeName rt (jsTrim value) ≠ ""
        rw [← hk]; exact b1
      · show soldFor rt _ (normalizeName rt (jsTrim value)) ≤ _
        rw [← hk]; exact c4
    · rw [if_pos hk]
      exact b64_sound_rename rt hlow sheet.sales l1 l2 p hc' value h1 h2 h3 hk
  · rw [h4]
    obtain ⟨z, rfl⟩ := (isInteger_iff n).mp hi
    have hz : s ≤ z := by
      have : ¬ ((z : ℚ) < (s : ℚ)) := by simpa [es, lt_finite] using hlt
      exact_mod_cast not_lt.mp this
    have hz1 : z ≤ safeIntegerBound := by
      have := hsafe hf
      rw [value_finite] at this; exact_mod_cast this
    exact b64_sound_replace rt sheet.sales l1 l2 p _ hc' rfl
      ⟨b1, b2, b3, s, z, es, rfl, c1, hz, hz1, c4⟩
  · rw [h4]
    refine b64_sound_replace rt sheet.sales l1 l2 p _ hc' rfl
      ⟨b1, b64_roundCurrency_notNegative _ ?_, b3, s, o, es, eo, c1, c2, c3, c4⟩
    exact b64_notNegative_of_finite_not_lt n hn0
  · rw [h4]
    refine b64_sound_replace rt sheet.sales l1 l2 p _ hc' rfl
      ⟨b1, b2, b64_roundCurrency_notNegative _ ?_, s, o, es, eo, c1, c2, c3, c4⟩
    exact b64_notNegative_of_finite_not_lt n hn0

theorem b64_sound_deleteProduct (rt : Runtime) (sheet : Sheet)
    (hc : Sound rt sheet) (index : Nat) :
    Sound rt (onInventoryActionClick rt sheet index).sheet := by
  rcases b64_onInventoryActionClick_cases rt sheet index with
    h | ⟨p, l1, l2, e1, _, hno, h3⟩
  · rw [h]; exact hc
  rw [h3]
  have hkn := hc.keys_nodup
  have hm := hc.matched
  rw [e1] at hkn hm
  refine ⟨?_, ?_, hc.sale_ok, ?_⟩
  · simp only [b64_productKeys_append, b64_productKeys_cons] at hkn ⊢
    exact (List.nodup_cons.mp (List.nodup_middle.mp hkn)).2
  · intro sale hs
    have := hm sale hs
    simp only [b64_productKeys_append, b64_productKeys_cons, List.mem_append,
      List.mem_cons] at this ⊢
    rcases this with h | h | h
    · exact Or.inl h
    · exact absurd h (hno sale hs)
    · exact Or.inr h
  · intro a ha
    rcases List.mem_append.mp ha with ha | ha
    · exact hc.product_ok a (by rw [e1]; simp [ha])
    · exact hc.product_ok a (by rw [e1]; simp [ha])

end Binary64

namespace Binary64

theorem b64_sound_addSale (rt : Runtime) (hlow : rt.LowerKeepsEmptiness) (sheet : Sheet)
    (hc : Sound rt sheet) (newId dateValue itemValue : String) (q : JsNumber) :
    Sound rt (onAddSale rt sheet newId dateValue itemValue q).sheet := by
  cases hs : (onAddSale rt sheet newId dateValue itemValue q).saved with
  | false => rw [b64_onAddSale_not_saved rt sheet newId dateValue itemValue q hs]; exact hc
  | true =>
    obtain ⟨P, hqi, hq1, _, _, hfind, havail, hsheet⟩ :=
      b64_onAddSale_saved rt sheet newId dateValue itemValue q hs
    obtain ⟨l1, l2, e1, _, _, hupd⟩ := find_split _ sheet.products P hfind
    rw [hsheet, hupd]
    obtain ⟨z, rfl⟩ := (isInteger_iff q).mp hqi
    have hz1 : 1 ≤ z := by
      have : ¬ ((z : ℚ) < 1) := by simpa [lt_finite] using hq1
      exact_mod_cast not_lt.mp this
    have hz0 : (0 : ℚ) ≤ (z : ℚ) := by exact_mod_cast (by omega : (0 : ℤ) ≤ z)
    have hkn := hc.keys_nodup
    have hm := hc.matched
    have hpo := hc.product_ok
    rw [e1] at hkn hm hpo
    obtain ⟨b1, b2, b3, s, o, es, eo, hs0, hso, hob, hsold⟩ := hpo P (by simp)
    have hfit : s + z ≤ o := by
      rw [b64_stockAvailable_exact P s o es eo hs0 hso hob] at havail
      have : ¬ (((o - s : ℤ) : ℚ) < (z : ℚ)) := by
        simpa [JsNumber.gt, lt_finite] using havail
      have := not_lt.mp this
      have h2 : z ≤ o - s := by exact_mod_cast this
      omega
    have hadd : P.stockOut.add (.finite (z : ℚ)) = .finite ((s + z : ℤ) : ℚ) := by
      rw [es]
      unfold safeIntegerBound at hob
      exact add_safeInt s z (by omega) (by omega)
    obtain ⟨n1, n2⟩ := b64_nodup_keys_split rt l1 l2 P hkn
    have hkeys : productKeys rt (l1 ++ { P with stockOut := P.stockOut.add (.finite z) } :: l2) =
        productKeys rt (l1 ++ P :: l2) := by
      simp [productKeys]
    have hother : ∀ (a : Product) (t : ℤ),
        soldFor rt sheet.sales (normalizeName rt a.name) ≤ t →
        normalizeName rt a.name ≠ normalizeName rt P.name →
        soldFor rt (sheet.sales ++
          [{ id := newId
             dateISO := if dateValue = "" then rt.today else dateValue
             itemName := P.name
             qtySold := .finite (z : ℚ)
             revenue := roundCurrency ((JsNumber.finite (z : ℚ)).mul P.unitPrice)
             productionCost := roundCurrency ((JsNumber.finite (z : ℚ)).mul P.unitCost)
             grossProfit := roundCurrency
               ((roundCurrency ((JsNumber.finite (z : ℚ)).mul P.unitPrice)).sub
                 (roundCurrency ((JsNumber.finite (z : ℚ)).mul P.unitCost))) }])
          (normalizeName rt a.name) ≤ t := by
      intro a t ha hne
      rw [b64_soldFor_append, b64_soldFor_cons, b64_soldFor_nil,
        if_neg (fun h => hne h.symm)]
      simpa using ha
    refine ⟨?_, ?_, ?_, ?_⟩
    · show (productKeys rt
        (l1 ++ { P with stockOut := P.stockOut.add (.finite z) } :: l2)).Nodup
      rw [hkeys]; exact hkn
    · intro sale hsale
      show _ ∈ productKeys rt (l1 ++ { P with stockOut := P.stockOut.add (.finite z) } :: l2)
      rw [hkeys]
      rcases List.mem_append.mp hsale with h | h
      · exact hm sale h
      · rw [List.mem_singleton.mp h]
        simp [productKeys]
    · intro sale hsale
      rcases List.mem_append.mp hsale with h | h
      · exact hc.sale_ok sale h
      · rw [List.mem_singleton.mp h]
        refine ⟨?_, ⟨z, rfl, hz1⟩, ?_, ?_⟩
        · exact (normalizeName_ne_empty_iff rt hlow P.name).mp b1
        · exact b64_roundCurrency_notNegative _ (b64_mul_notNegative _ hz0 _ b3)
        · exact b64_roundCurrency_notNegative _ (b64_mul_notNegative _ hz0 _ b2)
    · intro a ha
      simp only [List.mem_append, List.mem_cons] at ha
      rcases ha with ha | rfl | ha
      · obtain ⟨c1, c2, c3, s', o', d1, d2, d3, d4, d5, d6⟩ := hpo a (by simp [ha])
        exact ⟨c1, c2, c3, s', o', d1, d2, d3, d4, d5, hother a s' d6 (n1 a ha)⟩
      · refine ⟨b1, b2, b3, s + z, o, hadd, eo, by omega, hfit, hob, ?_⟩
        show soldFor rt _ (normalizeName rt P.name) ≤ _
        rw [b64_soldFor_append, b64_soldFor_cons, b64_soldFor_nil, if_pos rfl, value_finite]
        push_cast
        linarith
      · obtain ⟨c1, c2, c3, s', o', d1, d2, d3, d4, d5, d6⟩ := hpo a (by simp [ha])
        exact ⟨c1, c2, c3, s', o', d1, d2, d3, d4, d5, hother a s' d6 (n2 a ha)⟩

theorem b64_sound_deleteSale (rt : Runtime) (sheet : Sheet) (hc : Sound rt sheet)
    (saleId : String) : Sound rt (onSalesActionClick rt sheet saleId).sheet := by
  rcases b64_onSalesActionClick_cases rt sheet saleId with
    h | ⟨x, s1, s2, P, l1, l2, e1, e2, _, _, hPx, _, _, hsheet⟩
  · rw [h]; exact hc
  rw [hsheet]
  have hkn := hc.keys_nodup
  have hm := hc.matched
  have hpo := hc.product_ok
  have hso := hc.sale_ok
  rw [e2] at hkn
  rw [e1] at hso
  rw [e1, e2] at hm hpo
  obtain ⟨_, ⟨z, ez, hz1⟩, _, _⟩ := hso x (by simp)
  obtain ⟨b1, b2, b3, s, o, es, eo, hs0, hso', hob, hsold⟩ := hpo P (by simp)
  have hnonneg : ∀ l : List Sale, (∀ a ∈ l, a ∈ s1 ++ x :: s2) → ∀ k,
      0 ≤ soldFor rt l k := by
    intro l hl k
    apply b64_soldFor_nonneg
    intro a ha
    obtain ⟨_, ⟨n, en, hn1⟩, _, _⟩ := hso a (hl a ha)
    rw [en, value_finite]
    exact_mod_cast (by omega : (0 : ℤ) ≤ n)
  rw [b64_soldFor_append, b64_soldFor_cons, if_pos hPx.symm, ez, value_finite] at hsold
  have a1 := hnonneg s1 (fun a ha => by simp [ha]) (normalizeName rt P.name)
  have a2 := hnonneg s2 (fun a ha => by simp [ha]) (normalizeName rt P.name)
  have hzs : z ≤ s := by
    have : (z : ℚ) ≤ (s : ℚ) := by linarith
    exact_mod_cast this
  have hsub : P.stockOut.sub x.qtySold = .finite ((s - z : ℤ) : ℚ) := by
    rw [es, ez]
    unfold safeIntegerBound at hob
    exact sub_safeInt s z (by omega) (by omega)
  obtain ⟨n1, n2⟩ := b64_nodup_keys_split rt l1 l2 P hkn
  have hkeys : productKeys rt (l1 ++ { P with stockOut := P.stockOut.sub x.qtySold } :: l2) =
      productKeys rt (l1 ++ P :: l2) := by
    simp [productKeys]
  have hother : ∀ (a : Product) (t : ℤ),
      soldFor rt (s1 ++ x :: s2) (normalizeName rt a.name) ≤ t →
      normalizeName rt a.name ≠ normalizeName rt P.name →
      soldFor rt (s1 ++ s2) (normalizeName rt a.name) ≤ t := by
    intro a t ha hne
    rw [b64_soldFor_append, b64_soldFor_cons,
      if_neg (fun h => hne (Eq.trans (Eq.symm h) hPx.symm)), zero_add,
      ← b64_soldFor_append] at ha
    exact ha
  refine ⟨?_, ?_, ?_, ?_⟩
  · show (productKeys rt
      (l1 ++ { P with stockOut := P.stockOut.sub x.qtySold } :: l2)).Nodup
    rw [hkeys]; exact hkn
  · intro sale hsale
    show _ ∈ productKeys rt (l1 ++ { P with stockOut := P.stockOut.sub x.qtySold } :: l2)
    rw [hkeys]
    apply hm sale
    rcases List.mem_append.mp hsale with h | h
    · simp [h]
    · simp [h]
  · intro sale hsale
    apply hso sale
    rcases List.mem_append.mp hsale with h | h
    · simp [h]
    · simp [h]
  · intro a ha
    simp only [List.mem_append, List.mem_cons] at ha
    rcases ha with ha | rfl | ha
    · obtain ⟨c1, c2, c3, s', o', d1, d2, d3, d4, d5, d6⟩ := hpo a (by simp [ha])
      exact ⟨c1, c2, c3, s', o', d1, d2, d3, d4, d5, hother a s' d6 (n1 a ha)⟩
    · refine ⟨b1, b2, b3, s - z, o, hsub, eo, by omega, by omega, hob, ?_⟩
      show soldFor rt (s1 ++ s2) (normalizeName rt P.name) ≤ _
      rw [b64_soldFor_append]
      push_cast
      linarith
    · obtain ⟨c1, c2, c3, s', o', d1, d2, d3, d4, d5, d6⟩ := hpo a (by simp [ha])
      exact ⟨c1, c2, c3, s', o', d1, d2, d3, d4, d5, hother a s' d6 (n2 a ha)⟩

theorem b64_sound_applyOperation (rt : Runtime) (hlow : rt.LowerKeepsEmptiness)
    (sheet : Sheet) (hc : Sound rt sheet) (operation : Operation)
    (hsafe : operation.openingWithinSafe = true) :
    Sound rt (applyOperation rt sheet operation) := by
  cases operation with
  | addProduct nameValue c pr o =>
    exact b64_sound_addProduct rt hlow sheet hc nameValue c pr o
      (by simpa [Operation.openingWithinSafe] using hsafe)
  | editProduct index field value n =>
    exact b64_sound_editProduct rt hlow sheet hc index field value n
      (by
        simp only [Operation.openingWithinSafe, decide_eq_true_eq] at hsafe
        exact hsafe)
  | deleteProduct index => exact b64_sound_deleteProduct rt sheet hc index
  | addSale newId dateValue itemValue q =>
    exact b64_sound_addSale rt hlow sheet hc newId dateValue itemValue q
  | deleteSale saleId => exact b64_sound_deleteSale rt sheet hc saleId

end Binary64

/-! ## Binary64: a finite sum has finite terms -/

theorem add_isFinite (x y : JsNumber) (h : (x.add y).isFinite = true) :
    x.isFinite = true ∧ y.isFinite = true := by
  cases x <;> cases y <;> simp_all [JsNumber.add, JsNumber.isFinite]

theorem sumFrom_isFinite (l : List JsNumber) :
    ∀ start : JsNumber, (sumFrom start l).isFinite = true →
      start.isFinite = true ∧ ∀ x ∈ l, x.isFinite = true := by
  induction l with
  | nil => intro start h; exact ⟨h, by simp⟩
  | cons a rest ih =>
    intro start h
    have h1 : (sumFrom (start.add a) rest).isFinite = true := h
    obtain ⟨h2, h3⟩ := ih _ h1
    obtain ⟨h4, h5⟩ := add_isFinite _ _ h2
    refine ⟨h4, ?_⟩
    intro x hx
    rcases List.mem_cons.mp hx with rfl | hx
    · exact h5
    · exact h3 x hx

theorem round_isFinite (x : JsNumber) (h : x.round.isFinite = true) : x.isFinite = true := by
  cases x <;> simp_all [JsNumber.round, JsNumber.isFinite]

namespace Binary64

theorem b64_sumBy_foldl {α : Type} (key : α → JsNumber) (items : List α)
    (h : ∀ a ∈ items, (key a).isFinite = true) :
    ∀ start : JsNumber,
      items.foldl (fun sum item => if !(key item).isFinite then sum else sum.add (key item))
        start = sumFrom start (items.map key) := by
  induction items with
  | nil => intro start; rfl
  | cons a rest ih =>
    intro start
    have ha := h a (by simp)
    simp only [List.foldl_cons, List.map_cons, sumFrom, ha, Bool.not_true, Bool.false_eq_true,
      if_false]
    exact ih (fun b hb => h b (by simp [hb])) _

/-- When every row has a finite value, `sumBy` is the plain left-to-right sum. -/
theorem b64_sumBy_eq_sumFrom {α : Type} (key : α → JsNumber) (items : List α)
    (h : ∀ a ∈ items, (key a).isFinite = true) :
    sumBy items key = sumFrom (.finite 0) (items.map key) :=
  b64_sumBy_foldl key items h _

theorem b64_roundCurrency_isFinite (x : JsNumber) (h : (roundCurrency x).isFinite = true) :
    x.isFinite = true := by
  cases x with
  | finite a => rfl
  | nan => exact absurd h (by decide)
  | posInfinity =>
    have : roundCurrency .posInfinity = .posInfinity := by decide!
    rw [this] at h; exact h
  | negInfinity =>
    have : roundCurrency .negInfinity = .negInfinity := by decide!
    rw [this] at h; exact h

theorem b64_isMismatch_self (key : String) (x : JsNumber) (h : x.isFinite = true) :
    isMismatch key x x = false := by
  cases x with
  | finite a =>
    unfold isMismatch
    split
    · have h0 : (JsNumber.finite a).sub (.finite a) = .finite 0 := by
        show toDouble (a + -a) = .finite 0
        rw [add_neg_cancel]
        rfl
      rw [h0]
      decide!
    · simp [JsNumber.strictNe]
  | nan => exact absurd h (by decide)
  | posInfinity => exact absurd h (by decide)
  | negInfinity => exact absurd h (by decide)

theorem b64_totalsErrors_eq_nil (t : Totals) :
    totalsErrors t = [] ↔
      t.totalItemsAvailable.isFinite = true ∧ t.totalItemsSold.isFinite = true ∧
      t.totalRevenue.isFinite = true ∧ t.totalProductionCost.isFinite = true ∧
      t.grossProfitTotal.isFinite = true ∧ t.totalStockValueCost.isFinite = true := by
  unfold totalsErrors totalsEntries
  rw [List.map_eq_nil_iff, List.filter_eq_nil_iff]
  simp

/-- A currency entry of the checker agrees with its total when the total is finite. -/
theorem b64_currency_entry {α : Type} (key : String) (rows : List α) (f : α → JsNumber)
    (h : (roundCurrency (sumFrom (.finite 0) (rows.map f))).isFinite = true) :
    isMismatch key (roundCurrency (sumBy rows f))
      (roundCurrency (sumFrom (.finite 0) (rows.map f))) = false := by
  have h1 := b64_roundCurrency_isFinite _ h
  have h2 := (sumFrom_isFinite _ _ h1).2
  rw [b64_sumBy_eq_sumFrom f rows (fun a ha => h2 _ (List.mem_map_of_mem f ha))]
  exact b64_isMismatch_self key _ h

/-- A count entry of the checker agrees with its total when the total is finite. -/
theorem b64_count_entry {α : Type} (key : String) (rows : List α) (f : α → JsNumber)
    (h : ((sumFrom (.finite 0) (rows.map f)).round).isFinite = true) :
    isMismatch key ((sumBy rows f).round) ((sumFrom (.finite 0) (rows.map f)).round) =
      false := by
  have h1 := round_isFinite _ h
  have h2 := (sumFrom_isFinite _ _ h1).2
  rw [b64_sumBy_eq_sumFrom f rows (fun a ha => h2 _ (List.mem_map_of_mem f ha))]
  exact b64_isMismatch_self key _ h

/-- The independent recomputation by `sumBy` agrees with the totals when they are finite. -/
theorem b64_rowTotals_no_mismatch (rt : Runtime) (sheet : Sheet)
    (hfin : totalsErrors (recalcSheet rt sheet).totals = []) :
    (rowTotalsEntries (recalcSheet rt sheet)).filter
      (fun e => isMismatch e.1 e.2.1 e.2.2) = [] := by
  rw [b64_totalsErrors_eq_nil, b64_recalcSheet_totals, b64_afterProducts_totals] at hfin
  simp only [roundTotals, List.map_map] at hfin
  obtain ⟨f1, f2, f3, f4, f5, f6⟩ := hfin
  simp only [rowTotalsEntries, b64_recalcSheet_totals, b64_afterProducts_totals,
    roundTotals, b64_recalcSheet_sales, b64_recalcSheet_products, List.map_map]
  have g1 := b64_count_entry "totalItemsAvailable" (sheet.products.map deriveProduct)
    (fun r => r.stockAvailable) (by simpa [List.map_map] using f1)
  have g2 := b64_count_entry "totalItemsSold" (sheet.sales.map (deriveSale rt))
    (fun r => r.qtySold) (by simpa [List.map_map] using f2)
  have g3 := b64_currency_entry "totalRevenue" (sheet.sales.map (deriveSale rt))
    (fun r => r.revenue) (by simpa [List.map_map] using f3)
  have g4 := b64_currency_entry "totalProductionCost" (sheet.sales.map (deriveSale rt))
    (fun r => r.productionCost) (by simpa [List.map_map] using f4)
  have g5 := b64_currency_entry "grossProfitTotal" (sheet.sales.map (deriveSale rt))
    (fun r => r.grossProfit) (by simpa [List.map_map] using f5)
  have g6 := b64_currency_entry "totalStockValueCost" (sheet.products.map deriveProduct)
    (fun r => r.stockValueCost) (by simpa [List.map_map] using f6)
  simp only [List.map_map] at g1 g2 g3 g4 g5 g6
  simp [List.filter_cons, g1, g2, g3, g4, g5, g6]

/-- On a sheet that `recalcActiveSheet` reports valid the checker passes. -/
theorem b64_passed_of_valid (rt : Runtime) (sheet : Sheet)
    (hvalid : (recalcActiveSheet rt (some sheet)).validation.isValid = true) :
    (runSystemCheck rt (some sheet)).passed = true := by
  obtain ⟨hv, hfin⟩ := (b64_isValid_iff rt sheet).mp hvalid
  have hvalid2 : (recalcSheet rt sheet).validation.isValid = true := hvalid
  have hneg : (recalcSheet rt sheet).products.any
      (fun product => product.stockAvailable.lt (.finite 0)) = false := by
    rw [b64_recalcSheet_products, Bool.eq_false_iff]
    intro h
    rw [List.any_eq_true] at h
    obtain ⟨d, hd, hlt⟩ := h
    obtain ⟨p, hp, rfl⟩ := List.mem_map.mp hd
    obtain ⟨_, _, _, _, _, p6, _⟩ := hv.products_ok p hp
    rw [p6] at hlt
    exact absurd hlt (by decide)
  have hmsgs : checkMessages rt (recalcSheet rt sheet) = [] := by
    unfold checkMessages
    rw [b64_rowTotals_no_mismatch rt sheet hfin, hneg, hvalid2]
    rfl
  unfold runSystemCheck
  simp only [recalcActiveSheet, hmsgs]
  decide

end Binary64

theorem lt_of_lt_zero (x : JsNumber) (z : ℚ) (hz : 0 ≤ z) (h : x.lt (.finite 0) = true) :
    x.lt (.finite z) = true := by
  cases x with
  | finite a =>
    rw [lt_finite, decide_eq_true_eq] at h ⊢
    linarith
  | nan => exact absurd h (by decide)
  | posInfinity => exact absurd h (by decide)
  | negInfinity => rfl

namespace Binary64

/-! ## Binary64: validity after an operation -/

/-- C3 fails in doubles. Adding Gold at a unit cost of 1e306 with an opening stock of
1000 to the empty (valid) sheet is accepted, and the sheet is then invalid: the stock
value 1000 * 1e306 overflows. And the sheet with Bread at opening stock 2^54, 2^53 sold
and sales of 2^53 and 1 is reported valid (2^53 + 1 is 2^53), the deletion of the sale of
1 is accepted, and the sheet is then invalid: stock out is 2^53 - 1 under a sale of
2^53. -/
theorem validity_lost_in_doubles :
    (recalcActiveSheet asciiRuntime (some emptySheet)).validation.isValid = true ∧
    (onAddProduct asciiRuntime emptySheet "Gold" (toDouble (10 ^ 306)) (.finite 0)
      (.finite 1000)).saved = true ∧
    (recalcActiveSheet asciiRuntime (some (onAddProduct asciiRuntime emptySheet "Gold"
      (toDouble (10 ^ 306)) (.finite 0) (.finite 1000)).sheet)).validation.errors =
      ["Total \"totalStockValueCost\" is invalid (NaN or infinite)."] ∧
    (recalcActiveSheet asciiRuntime (some saturatedSheet)).validation.isValid = true ∧
    (onAddSale asciiRuntime saturatedSheet "sale-2" "2024-05-02" "Bread" (.finite 1)).saved =
      true ∧
    (recalcActiveSheet asciiRuntime (some (onAddSale asciiRuntime saturatedSheet "sale-2"
      "2024-05-02" "Bread" (.finite 1)).sheet)).validation.isValid = true ∧
    (onSalesActionClick asciiRuntime (onAddSale asciiRuntime saturatedSheet "sale-2"
      "2024-05-02" "Bread" (.finite 1)).sheet "sale-2").saved = true ∧
    (recalcActiveSheet asciiRuntime (some (onSalesActionClick asciiRuntime
      (onAddSale asciiRuntime saturatedSheet "sale-2" "2024-05-02" "Bread"
        (.finite 1)).sheet "sale-2").sheet)).validation.errors =
      ["Product \"Bread\": stock out is lower than logged sales."] := by
  refine ⟨?_, ?_, ?_, ?_, ?_, ?_, ?_, ?_⟩ <;> decide!

/-- C3, amended: on a sheet that `recalcActiveSheet` reports valid, whose stored counts
are integers with no opening stock and no quantity sold under a name above 2^53, every
product has stock available >= 0 and stock out >= the quantity sold under its name; and
after add product, edit product field, delete product, add sale or delete sale, for every
input with an entered opening stock of at most 2^53 and whether the handler accepted it
or not, the stored counts are again such integers, the only messages of the validator
are those for non-finite totals, and the sheet is reported valid exactly when its six
totals are finite. -/
theorem validity_preserved_in_safe_range (rt : Runtime) (hlow : rt.LowerKeepsEmptiness)
    (sheet : Sheet) (hsafe : SafeCounts rt sheet)
    (hvalid : (recalcActiveSheet rt (some sheet)).validation.isValid = true)
    (operation : Operation) (hop : operation.openingWithinSafe = true) :
    (∀ p ∈ sheet.products, (deriveProduct p).stockAvailable.ge (.finite 0) = true ∧
      soldFor rt sheet.sales (normalizeName rt p.name) ≤ (deriveProduct p).stockOut.value) ∧
    SafeCounts rt (applyOperation rt sheet operation) ∧
    (recalcActiveSheet rt (some (applyOperation rt sheet operation))).validation.errors =
      totalsErrors (recalcActiveSheet rt (some (applyOperation rt sheet operation))).totals ∧
    ((recalcActiveSheet rt (some (applyOperation rt sheet operation))).validation.isValid =
        true ↔
      ∀ e ∈ totalsEntries
          (recalcActiveSheet rt (some (applyOperation rt sheet operation))).totals,
        e.2.isFinite = true) := by
  have hs : Sound rt sheet :=
    b64_sound_of_validRows rt sheet ((b64_isValid_iff rt sheet).mp hvalid).1 hsafe
  have hs' := b64_sound_applyOperation rt hlow sheet hs operation hop
  obtain ⟨hv', hsafe'⟩ := b64_validRows_of_sound rt _ hs'
  refine ⟨?_, hsafe', b64_errors_of_validRows rt _ hv', ?_⟩
  · intro p hp
    obtain ⟨_, _, _, s, o, es, eo, h0, h1, h2, h3⟩ := hs.product_ok p hp
    constructor
    · rw [b64_stockAvailable_exact p s o es eo h0 h1 h2]
      have : (0 : ℚ) ≤ ((o - s : ℤ) : ℚ) := by exact_mod_cast (by omega : (0 : ℤ) ≤ o - s)
      simpa [JsNumber.ge] using this
    · simp only [deriveProduct, es, b64_toIntegerOrZero_intCast, value_finite]
      exact h3
  · rw [b64_isValid_iff]
    constructor
    · intro h e he
      have := h.2
      unfold totalsErrors at this
      rw [List.map_eq_nil_iff, List.filter_eq_nil_iff] at this
      simpa using this e he
    · intro h
      refine ⟨hv', ?_⟩
      unfold totalsErrors
      rw [List.map_eq_nil_iff, List.filter_eq_nil_iff]
      intro e he
      simpa using h e he

/-- C3 on the Bread sheet (cost 100, price 150, opening stock 20): it is valid, and it
is valid again after a sale of 5 Bread is added. -/
theorem validity_preserved_in_safe_range_witness :
    (recalcActiveSheet asciiRuntime (some breadSheet64)).validation.isValid = true ∧
    (recalcActiveSheet asciiRuntime (some (onAddSale asciiRuntime breadSheet64 "sale-1"
      "2024-05-01" "Bread" (.finite 5)).sheet)).validation.isValid = true :=
  ⟨by decide!,
   (validity_preserved_in_safe_range asciiRuntime asciiRuntime_lowerKeepsEmptiness
      breadSheet64 ⟨by decide!, by decide!, by decide!, by decide!, by decide!⟩
      (by decide!) (.addSale "sale-1" "2024-05-01" "Bread" (.finite 5))
      (by decide!)).2.2.2.mpr (by decide!)⟩

/-! ## Binary64: the effect of an accepted sale -/

/-- C6 fails in doubles. On the sheet with Bread at opening stock 2^54 and 2^53 sold,
which the handlers reach, a sale of 1 is accepted and leaves stock out at 2^53 and the
derived stock available at 2^53: both changed by 0. And on the valid sheet with one unit
of Gold sold at 1e306, on which the checker passes, a second sale of one unit is
accepted and the checker fails: the revenue total overflows in its rounding. -/
theorem add_sale_effect_lost_in_doubles :
    runOperations asciiRuntime (beyondSafeInteger.take 2) = saturatedSheet ∧
    (onAddSale asciiRuntime saturatedSheet "sale-2" "2024-05-02" "Bread" (.finite 1)).saved =
      true ∧
    saturatedSheet.products.map (fun p => p.stockOut) = [.finite 9007199254740992] ∧
    (onAddSale asciiRuntime saturatedSheet "sale-2" "2024-05-02" "Bread"
      (.finite 1)).sheet.products.map (fun p => p.stockOut) = [.finite 9007199254740992] ∧
    (recalcActiveSheet asciiRuntime (some saturatedSheet)).products.map
      (fun r => r.stockAvailable) = [.finite 9007199254740992] ∧
    (recalcActiveSheet asciiRuntime (some (onAddSale asciiRuntime saturatedSheet "sale-2"
      "2024-05-02" "Bread" (.finite 1)).sheet)).products.map (fun r => r.stockAvailable) =
      [.finite 9007199254740992] ∧
    (recalcActiveSheet asciiRuntime
      (some (runOperations asciiRuntime goldOperations))).validation.isValid = true ∧
    (runSystemCheck asciiRuntime
      (some (runOperations asciiRuntime goldOperations))).passed = true ∧
    (onAddSale asciiRuntime (runOperations asciiRuntime goldOperations) "sale-2"
      "2024-05-02" "Gold" (.finite 1)).saved = true ∧
    (runSystemCheck asciiRuntime (some (onAddSale asciiRuntime
      (runOperations asciiRuntime goldOperations) "sale-2" "2024-05-02" "Gold"
      (.finite 1)).sheet)).messages =
      ["- Total \"totalRevenue\" is invalid (NaN or infinite).",
       "- Total \"grossProfitTotal\" is invalid (NaN or infinite)."] := by
  refine ⟨?_, ?_, ?_, ?_, ?_, ?_, ?_, ?_, ?_, ?_⟩ <;> decide!

/-- C6, amended: an accepted `onAddSale` of quantity `q` against the product `P` (the
first one whose normalized name is the item name's) has an integer `q >= 1`, replaces
`P.stockOut` by the double sum `P.stockOut + q`, leaves every other product as it was,
and appends one sale with `qtySold = q`, `revenue = roundCurrency(q * P.unitPrice)`,
`productionCost = roundCurrency(q * P.unitCost)` and `grossProfit = roundCurrency(revenue
- productionCost)`, in double arithmetic. When `P.stockOut` is an integer >= 0 and
`P.openingStock` an integer of at most 2^53, stock out rises by exactly `q` and the
derived stock available falls by exactly `q`. If the sheet was valid before, with integer
stored counts within 2^53, and no total of the new sheet is non-finite, `runSystemCheck`
passes afterwards. -/
theorem add_sale_effect_in_safe_range (rt : Runtime) (hlow : rt.LowerKeepsEmptiness)
    (sheet : Sheet) (newId dateValue itemValue : String) (q : JsNumber)
    (hacc : (onAddSale rt sheet newId dateValue itemValue q).saved = true) :
    ∃ (z : ℤ) (P : Product) (l1 l2 : List Product),
      q = .finite z ∧ 1 ≤ z ∧ sheet.products = l1 ++ P :: l2 ∧
      (∀ a ∈ l1, normalizeName rt a.name ≠ normalizeName rt itemValue) ∧
      normalizeName rt P.name = normalizeName rt itemValue ∧
      (onAddSale rt sheet newId dateValue itemValue q).sheet.products =
        l1 ++ { P with stockOut := P.stockOut.add q } :: l2 ∧
      (onAddSale rt sheet newId dateValue itemValue q).sheet.sales =
        sheet.sales ++
          [{ id := newId
             dateISO := if dateValue = "" then rt.today else dateValue
             itemName := P.name
             qtySold := q
             revenue := roundCurrency (q.mul P.unitPrice)
             productionCost := roundCurrency (q.mul P.unitCost)
             grossProfit := roundCurrency
               ((roundCurrency (q.mul P.unitPrice)).sub
                 (roundCurrency (q.mul P.unitCost))) }] ∧
      (∀ s o : ℤ, P.stockOut = .finite s → P.openingStock = .finite o → 0 ≤ s →
        o ≤ safeIntegerBound →
        P.stockOut.add q = .finite ((s + z : ℤ) : ℚ) ∧
        (deriveProduct P).stockAvailable = .finite ((o - s : ℤ) : ℚ) ∧
        (deriveProduct { P with stockOut := P.stockOut.add q }).stockAvailable =
          .finite ((o - s - z : ℤ) : ℚ)) ∧
      ((recalcActiveSheet rt (some sheet)).validation.isValid = true →
        SafeCounts rt sheet →
        totalsErrors (recalcActiveSheet rt
          (some (onAddSale rt sheet newId dateValue itemValue q).sheet)).totals = [] →
        (runSystemCheck rt
          (some (onAddSale rt sheet newId dateValue itemValue q).sheet)).passed =
          true) := by
  obtain ⟨P, hqi, hq1, _, _, hfind, havail, hsheet⟩ :=
    b64_onAddSale_saved rt sheet newId dateValue itemValue q hacc
  obtain ⟨l1, l2, e1, e2, e3, e4⟩ := find_split _ _ _ hfind
  obtain ⟨z, rfl⟩ := (isInteger_iff q).mp hqi
  have hz1 : 1 ≤ z := by
    have : ¬ ((z : ℚ) < 1) := by simpa [lt_finite] using hq1
    exact_mod_cast not_lt.mp this
  have hz0 : (0 : ℚ) ≤ (z : ℚ) := by exact_mod_cast (by omega : (0 : ℤ) ≤ z)
  refine ⟨z, P, l1, l2, rfl, hz1, e1, ?_, ?_, ?_, ?_, ?_, ?_⟩
  · intro a ha
    simpa [normalizeName_jsTrim] using e2 a ha
  · simpa [normalizeName_jsTrim] using e3
  · rw [hsheet, e4]
  · rw [hsheet]
  · intro s o es eo hs0 hob
    have hso : s ≤ o := by
      by_contra hlt
      have hneg : o - s < 0 := by omega
      have h1 : (deriveProduct P).stockAvailable = toDouble (((o - s : ℤ) : ℚ)) := by
        simp only [deriveProduct, es, eo, b64_toIntegerOrZero_intCast]
        show toDouble ((o : ℚ) + -(s : ℚ)) = _
        rw [← sub_eq_add_neg, ← Int.cast_sub]
      have h2 := lt_of_lt_zero _ (z : ℚ) hz0 (toDouble_neg_int (o - s) hneg)
      rw [← h1] at h2
      rw [JsNumber.gt, h2] at havail
      exact absurd havail (by decide)
    have hav := b64_stockAvailable_exact P s o es eo hs0 hso hob
    have hfit : s + z ≤ o := by
      rw [hav] at havail
      have : ¬ (((o - s : ℤ) : ℚ) < (z : ℚ)) := by
        simpa [JsNumber.gt, lt_finite] using havail
      have := not_lt.mp this
      have h2 : z ≤ o - s := by exact_mod_cast this
      omega
    have hadd : P.stockOut.add (.finite (z : ℚ)) = .finite ((s + z : ℤ) : ℚ) := by
      rw [es]
      unfold safeIntegerBound at hob
      exact add_safeInt s z (by omega) (by omega)
    refine ⟨hadd, hav, ?_⟩
    have := b64_stockAvailable_exact { P with stockOut := P.stockOut.add (.finite (z : ℚ)) }
      (s + z) o hadd eo (by omega) hfit hob
    rw [this]
    congr 2
    omega
  · intro hvalid hsafe hfin
    apply b64_passed_of_valid
    rw [b64_isValid_iff]
    refine ⟨?_, hfin⟩
    have hs : Sound rt sheet :=
      b64_sound_of_validRows rt sheet ((b64_isValid_iff rt sheet).mp hvalid).1 hsafe
    exact (b64_validRows_of_sound rt _
      (b64_sound_addSale rt hlow sheet hs newId dateValue itemValue _)).1

/-- The scenario of C6: 5 Bread (cost 100, price 150, opening stock 20) are sold; stock
out becomes 5, stock available 15, the sale carries revenue 750, production cost 500 and
gross profit 250, and the checker passes. -/
theorem add_sale_effect_in_safe_range_witness :
    (onAddSale asciiRuntime breadSheet64 "sale-1" "2024-05-01" "Bread" (.finite 5)).saved =
      true ∧
    (onAddSale asciiRuntime breadSheet64 "sale-1" "2024-05-01" "Bread" (.finite 5)).sheet =
      { products := [⟨"Bread", .finite 100, .finite 150, .finite 20, .finite 5⟩]
        sales := [⟨"sale-1", "2024-05-01", "Bread", .finite 5, .finite 750, .finite 500,
          .finite 250⟩] } ∧
    (recalcActiveSheet asciiRuntime (some (onAddSale asciiRuntime breadSheet64 "sale-1"
      "2024-05-01" "Bread" (.finite 5)).sheet)).products.map (fun r => r.stockAvailable) =
      [.finite 15] ∧
    (runSystemCheck asciiRuntime (some (onAddSale asciiRuntime breadSheet64 "sale-1"
      "2024-05-01" "Bread" (.finite 5)).sheet)).passed = true :=
  ⟨by decide!, by decide!, by decide!,
   match add_sale_effect_in_safe_range asciiRuntime asciiRuntime_lowerKeepsEmptiness
      breadSheet64 "sale-1" "2024-05-01" "Bread" (.finite 5) (by decide!) with
   | ⟨_, _, _, _, _, _, _, _, _, _, _, _, hpass⟩ =>
     hpass (by decide!) ⟨by decide!, by decide!, by decide!, by decide!, by decide!⟩
       (by decide!)⟩

end Binary64

end Tokebakes
